import Mathlib

/-!
# SimpleLang: lexer, parser, static passes and interpreter

A shallow embedding of the C++ sources (`Lexer.cpp`, `Parser.cpp`,
`SymbolTable.cpp`, `SemanticAnalyzer.cpp`, `TypeChecker.cpp`, `Environment.cpp`,
`Interpreter.cpp`) followed by theorems about them.

Conventions of the embedding

* `int` is a 32-bit two's-complement integer: values are `Int`, and every
  arithmetic result goes through `wrap32`.
* A `float` is a rational (`ℚ`). The conversion of a literal (`std::stof`) rounds to
  binary32 and throws outside its range, as the library does; the arithmetic of the
  interpreter is exact: its rounding, infinities and NaN are outside the model.
* An exception that leaves a function is an outcome of its own (`thrown`), and so is
  the end of the process in a trap or a null dereference (`fault`).
* A `shared_ptr` that may be null is a value of the pointee type with an extra
  constructor `null`.
* Environments live in a heap (a list) and are referred to by index, so that the
  sharing between closures and call frames is kept.
* Loops and recursion whose termination is not evident take a `fuel` argument;
  running out of fuel is a result of its own (`outOfFuel`), never a value.
* `std::cout` is the `output` string of the interpreter state.
-/

namespace SimpleLang

/-! ## Tokens (`Token.h`) -/

/-- The token kinds of `Token.h`. `PRINT` and `INPUT` are not declared in
`Token.h`, but `Parser.cpp` and `Keywords.cpp` use them; they are listed last. -/
inductive TokenType where
  | LET | IF | ELSE | WHILE | FOR | FUNCTION | RETURN | END | THEN | DO
  | INT_TYPE | FLOAT_TYPE | BOOL_TYPE | STRING_TYPE | VOID_TYPE
  | INT_LITERAL | FLOAT_LITERAL | BOOL_LITERAL | STRING_LITERAL
  | IDENTIFIER
  | PLUS | MINUS | MULTIPLY | DIVIDE | MODULO
  | EQUAL | NOT_EQUAL | LESS | GREATER | LESS_EQUAL | GREATER_EQUAL
  | ASSIGN | AND | OR | NOT
  | LEFT_PAREN | RIGHT_PAREN | LEFT_BRACE | RIGHT_BRACE
  | COMMA | COLON | SEMICOLON
  | END_OF_FILE | ERROR
  | PRINT | INPUT
  deriving DecidableEq, Repr, Inhabited

/-- The payload of a token or literal: `std::variant<int, float, bool, std::string>`. -/
inductive LitValue where
  | int (i : Int)
  | float (q : ℚ)
  | bool (b : Bool)
  | str (s : String)
  deriving DecidableEq, Repr, Inhabited

/-- A token: `struct Token`. -/
structure Token where
  type : TokenType
  lexeme : String
  value : LitValue
  line : Int
  column : Int
  deriving DecidableEq, Repr, Inhabited

/-! ## Diagnostics (`Error.h`) -/

inductive ErrorType where
  | LEXICAL | SYNTAX | SEMANTIC | RUNTIME | WARNING
  deriving DecidableEq, Repr, Inhabited

structure Error where
  type : ErrorType
  message : String
  line : Int
  column : Int
  stage : String
  deriving DecidableEq, Repr, Inhabited

/-! ## Machine integers and text helpers -/

/-- Reduction of an integer to the 32-bit two's-complement range. -/
def wrap32 (i : Int) : Int :=
  (i + 2147483648) % 4294967296 - 2147483648

def INT_MAX : Int := 2147483647

def INT_MIN : Int := -2147483648

/-- The text of `std::to_string(int)`. -/
def intToString (i : Int) : String :=
  match i with
  | Int.ofNat n => Nat.repr n
  | Int.negSucc n => "-" ++ Nat.repr (n + 1)

/-- `std::isdigit` in the C locale. -/
def isDigit (c : Char) : Bool :=
  decide (48 ≤ c.toNat) && decide (c.toNat ≤ 57)

/-- `std::isalpha` in the C locale. -/
def isAlpha (c : Char) : Bool :=
  (decide (65 ≤ c.toNat) && decide (c.toNat ≤ 90)) ||
  (decide (97 ≤ c.toNat) && decide (c.toNat ≤ 122))

/-- `std::isalnum` in the C locale. -/
def isAlnum (c : Char) : Bool :=
  isAlpha c || isDigit c

/-- Decimal value of a run of digits. -/
def digitsValue (cs : List Char) : Nat :=
  cs.foldl (fun acc c => 10 * acc + (c.toNat - 48)) 0

/-- `std::stoi` on a run of digits: `none` stands for `std::out_of_range`. -/
def stoi (text : List Char) : Option Int :=
  let v := digitsValue text
  if v ≤ 2147483647 then some (Int.ofNat v) else none

/-- The quotient `a / b` rounded to the nearest integer, ties to the even one. -/
def roundHalfEven (a b : Nat) : Nat :=
  let q := a / b
  let r := a % b
  if 2 * r < b then q else if b < 2 * r then q + 1 else if q % 2 = 0 then q else q + 1

/-- The number `m / d / 2 ^ p` rounded to the nearest integer, ties to the even one. -/
def scaledRound (m d : Nat) (p : Int) : Nat :=
  match p with
  | Int.ofNat k => roundHalfEven m (d * 2 ^ k)
  | Int.negSucc k => roundHalfEven (m * 2 ^ (k + 1)) d

/-- The loop of `floorLog2`: the number of times `n` can be halved before it is below 2. -/
def log2Loop : Nat → Nat → Nat
  | 0, _ => 0
  | fuel + 1, n => if n < 2 then 0 else log2Loop fuel (n / 2) + 1

/-- The exponent `k` with `2 ^ k ≤ n < 2 ^ (k + 1)`, for positive `n`. -/
def floorLog2 (n : Nat) : Nat :=
  log2Loop n n

/-- The exponent `e` with `2 ^ e ≤ m / d < 2 ^ (e + 1)`, for positive `m` and `d`. -/
def binaryExponent (m d : Nat) : Int :=
  let c : Int := (floorLog2 m : Int) - (floorLog2 d : Int)
  let reached : Bool :=
    match c with
    | Int.ofNat k => decide (d * 2 ^ k ≤ m)
    | Int.negSucc k => decide (d ≤ m * 2 ^ (k + 1))
  if reached then c else c - 1

/-- The rational `n * 2 ^ p`. -/
def scaled (n : Nat) (p : Int) : ℚ :=
  match p with
  | Int.ofNat k => ((n * 2 ^ k : Nat) : ℚ)
  | Int.negSucc k => (n : ℚ) / ((2 ^ (k + 1) : Nat) : ℚ)

/-- The conversion of `m / d` to a `float` (binary32: 24 significant bits, exponents
-126 to 127, subnormal numbers in steps of `2 ^ -149`) by `strtof` of the GNU C library
on x86-64: the value is rounded to the nearest `float`, ties to even. `none` is the
report `ERANGE`: the rounded value is `2 ^ 128` or more, or the value is below
`2 ^ -126`, is no `float`, and stays below `2 ^ -126` when rounded to 24 bits. -/
def toBinary32 (m d : Nat) : Option ℚ :=
  if m = 0 then some 0
  else
    let e := binaryExponent m d
    let p : Int := (if e < -126 then -126 else e) - 23
    let n := scaledRound m d p
    if 128 ≤ e ∨ (e = 127 ∧ n = 2 ^ 24) then none
    else if e < -126 ∧ m * 2 ^ 149 ≠ n * d ∧
        ¬ (e = -127 ∧ scaledRound m d (-150) = 2 ^ 24) then none
    else some (scaled n p)

/-- `std::stof` on `digits '.' digits`: the `float` that `strtof` gives for the decimal
number; `none` stands for the `std::out_of_range` that `std::stof` throws when `strtof`
reports `ERANGE`. -/
def stof (text : List Char) : Option ℚ :=
  let whole := text.takeWhile isDigit
  let frac := (text.dropWhile isDigit).drop 1
  toBinary32 (digitsValue (whole ++ frac)) (10 ^ frac.length)

/-! ## Lexer (`Lexer.cpp`) -/

/-- The state of a `Lexer`: the source (a sequence of `char`), the two cursors and
the position counters. -/
structure Lexer where
  source : List Char
  start : Nat
  current : Nat
  line : Int
  column : Int
  deriving DecidableEq, Repr, Inhabited

/-- What `Lexer::nextToken` does: it returns a token, or `std::stoi` or `std::stof`
throws `std::out_of_range`. -/
inductive LexResult where
  | token (t : Token) (lx : Lexer)
  | thrown (lx : Lexer)
  deriving DecidableEq, Repr, Inhabited

namespace Lexer

/-- The constructor `Lexer::Lexer(source)`. -/
def new (source : String) : Lexer :=
  { source := source.toList, start := 0, current := 0, line := 1, column := 1 }

/-- The table built by `Lexer::initKeywords`. -/
def keywords : List (String × TokenType) :=
  [ ("let", TokenType.LET), ("if", TokenType.IF), ("else", TokenType.ELSE),
    ("while", TokenType.WHILE), ("for", TokenType.FOR),
    ("function", TokenType.FUNCTION), ("return", TokenType.RETURN),
    ("end", TokenType.END), ("then", TokenType.THEN), ("do", TokenType.DO),
    ("int", TokenType.INT_TYPE), ("float", TokenType.FLOAT_TYPE),
    ("bool", TokenType.BOOL_TYPE), ("string", TokenType.STRING_TYPE),
    ("void", TokenType.VOID_TYPE), ("true", TokenType.BOOL_LITERAL),
    ("false", TokenType.BOOL_LITERAL) ]

def isAtEnd (lx : Lexer) : Bool :=
  decide (lx.source.length ≤ lx.current)

def advance (lx : Lexer) : Char × Lexer :=
  if lx.isAtEnd then (Char.ofNat 0, lx)
  else
    let c := lx.source.getD lx.current (Char.ofNat 0)
    if c = '\n' then (c, { lx with current := lx.current + 1, line := lx.line + 1, column := 1 })
    else (c, { lx with current := lx.current + 1, column := lx.column + 1 })

def peek (lx : Lexer) : Char :=
  if lx.isAtEnd then Char.ofNat 0 else lx.source.getD lx.current (Char.ofNat 0)

def peekNext (lx : Lexer) : Char :=
  if lx.source.length ≤ lx.current + 1 then Char.ofNat 0
  else lx.source.getD (lx.current + 1) (Char.ofNat 0)

/-- The method `Lexer::match`. -/
def matchChar (lx : Lexer) (expected : Char) : Bool × Lexer :=
  if lx.isAtEnd || lx.source.getD lx.current (Char.ofNat 0) ≠ expected then (false, lx)
  else (true, { lx with current := lx.current + 1, column := lx.column + 1 })

/-- The loop of `Lexer::skipComment`; every turn consumes a character. -/
def skipCommentLoop : Nat → Lexer → Lexer
  | 0, lx => lx
  | n + 1, lx =>
    if !lx.isAtEnd && lx.peek ≠ '\n' then skipCommentLoop n lx.advance.2 else lx

def skipComment (lx : Lexer) : Lexer :=
  skipCommentLoop (lx.source.length - lx.current) lx

/-- The loop of `Lexer::skipWhitespace`; every turn consumes a character. -/
def skipWhitespaceLoop : Nat → Lexer → Lexer
  | 0, lx => lx
  | n + 1, lx =>
    if lx.isAtEnd then lx
    else
      let c := lx.peek
      if c = ' ' || c = '\t' || c = '\r' then skipWhitespaceLoop n lx.advance.2
      else if c = '\n' then
        skipWhitespaceLoop n ({ lx with line := lx.line + 1, column := 1 } : Lexer).advance.2
      else if c = '#' then skipWhitespaceLoop n lx.skipComment
      else lx

def skipWhitespace (lx : Lexer) : Lexer :=
  skipWhitespaceLoop (lx.source.length - lx.current) lx

/-- The text `source.substr(start, current - start)`. -/
def text (lx : Lexer) : List Char :=
  (lx.source.drop lx.start).take (lx.current - lx.start)

/-- The method `makeToken(type)`: the value is the default `0`. -/
def makeToken (lx : Lexer) (type : TokenType) : Token :=
  { type := type, lexeme := String.mk lx.text, value := LitValue.int 0,
    line := lx.line, column := lx.column - (lx.text.length : Int) }

/-- The method `makeToken(type, value)`. -/
def makeTokenWith (lx : Lexer) (type : TokenType) (value : LitValue) : Token :=
  { type := type, lexeme := String.mk lx.text, value := value,
    line := lx.line, column := lx.column - (lx.text.length : Int) }

def errorToken (lx : Lexer) (message : String) : Token :=
  { type := TokenType.ERROR, lexeme := message, value := LitValue.int 0,
    line := lx.line, column := lx.column }

/-- The loop of `Lexer::stringLiteral`. -/
def stringLoop : Nat → Lexer → Lexer
  | 0, lx => lx
  | n + 1, lx =>
    if lx.peek ≠ '"' && !lx.isAtEnd then
      let lx1 : Lexer := if lx.peek = '\n' then { lx with line := lx.line + 1, column := 1 } else lx
      stringLoop n lx1.advance.2
    else lx

def stringLiteral (lx : Lexer) : Token × Lexer :=
  let lx1 := stringLoop (lx.source.length - lx.current) lx
  if lx1.isAtEnd then (lx1.errorToken "Unterminated string", lx1)
  else
    let lx2 := lx1.advance.2
    let value := (lx2.source.drop (lx2.start + 1)).take (lx2.current - lx2.start - 2)
    (lx2.makeTokenWith TokenType.STRING_LITERAL (LitValue.str (String.mk value)), lx2)

/-- The loops `while (std::isdigit(peek())) advance();`. -/
def digitLoop : Nat → Lexer → Lexer
  | 0, lx => lx
  | n + 1, lx => if isDigit lx.peek then digitLoop n lx.advance.2 else lx

def numberLiteral (lx : Lexer) : LexResult :=
  let lx1 := digitLoop (lx.source.length - lx.current) lx
  if lx1.peek = '.' && isDigit lx1.peekNext then
    let lx2 := lx1.advance.2
    let lx3 := digitLoop (lx2.source.length - lx2.current) lx2
    match stof lx3.text with
    | some v => LexResult.token (lx3.makeTokenWith TokenType.FLOAT_LITERAL (LitValue.float v)) lx3
    | none => LexResult.thrown lx3
  else
    match stoi lx1.text with
    | some v => LexResult.token (lx1.makeTokenWith TokenType.INT_LITERAL (LitValue.int v)) lx1
    | none => LexResult.thrown lx1

/-- The loop of `Lexer::identifier`. -/
def identLoop : Nat → Lexer → Lexer
  | 0, lx => lx
  | n + 1, lx => if isAlnum lx.peek || lx.peek = '_' then identLoop n lx.advance.2 else lx

def identifier (lx : Lexer) : Token × Lexer :=
  let lx1 := identLoop (lx.source.length - lx.current) lx
  let word := String.mk lx1.text
  match keywords.lookup word with
  | some ty =>
    if word = "true" then (lx1.makeTokenWith ty (LitValue.bool true), lx1)
    else if word = "false" then (lx1.makeTokenWith ty (LitValue.bool false), lx1)
    else (lx1.makeToken ty, lx1)
  | none => (lx1.makeToken TokenType.IDENTIFIER, lx1)

/-- The method `Lexer::nextToken`. -/
def nextToken (lx0 : Lexer) : LexResult :=
  let lxs := lx0.skipWhitespace
  let lx1 : Lexer := { lxs with start := lxs.current }
  if lx1.isAtEnd then LexResult.token (lx1.makeToken TokenType.END_OF_FILE) lx1
  else
    let c := lx1.advance.1
    let lx := lx1.advance.2
    if isAlpha c || c = '_' then LexResult.token lx.identifier.1 lx.identifier.2
    else if isDigit c then lx.numberLiteral
    else if c = '(' then LexResult.token (lx.makeToken TokenType.LEFT_PAREN) lx
    else if c = ')' then LexResult.token (lx.makeToken TokenType.RIGHT_PAREN) lx
    else if c = '{' then LexResult.token (lx.makeToken TokenType.LEFT_BRACE) lx
    else if c = '}' then LexResult.token (lx.makeToken TokenType.RIGHT_BRACE) lx
    else if c = ',' then LexResult.token (lx.makeToken TokenType.COMMA) lx
    else if c = ':' then LexResult.token (lx.makeToken TokenType.COLON) lx
    else if c = ';' then LexResult.token (lx.makeToken TokenType.SEMICOLON) lx
    else if c = '+' then LexResult.token (lx.makeToken TokenType.PLUS) lx
    else if c = '-' then LexResult.token (lx.makeToken TokenType.MINUS) lx
    else if c = '*' then LexResult.token (lx.makeToken TokenType.MULTIPLY) lx
    else if c = '/' then LexResult.token (lx.makeToken TokenType.DIVIDE) lx
    else if c = '%' then LexResult.token (lx.makeToken TokenType.MODULO) lx
    else if c = '=' then
      if (lx.matchChar '=').1 then
        LexResult.token ((lx.matchChar '=').2.makeToken TokenType.EQUAL) (lx.matchChar '=').2
      else LexResult.token (lx.makeToken TokenType.ASSIGN) lx
    else if c = '!' then
      if (lx.matchChar '=').1 then
        LexResult.token ((lx.matchChar '=').2.makeToken TokenType.NOT_EQUAL) (lx.matchChar '=').2
      else LexResult.token (lx.makeToken TokenType.NOT) lx
    else if c = '<' then
      if (lx.matchChar '=').1 then
        LexResult.token ((lx.matchChar '=').2.makeToken TokenType.LESS_EQUAL) (lx.matchChar '=').2
      else LexResult.token (lx.makeToken TokenType.LESS) lx
    else if c = '>' then
      if (lx.matchChar '=').1 then
        LexResult.token ((lx.matchChar '=').2.makeToken TokenType.GREATER_EQUAL) (lx.matchChar '=').2
      else LexResult.token (lx.makeToken TokenType.GREATER) lx
    else if c = '&' then
      if (lx.matchChar '&').1 then
        LexResult.token ((lx.matchChar '&').2.makeToken TokenType.AND) (lx.matchChar '&').2
      else LexResult.token
        (lx.errorToken ("Unexpected character: '" ++ String.singleton c ++ "'")) lx
    else if c = '|' then
      if (lx.matchChar '|').1 then
        LexResult.token ((lx.matchChar '|').2.makeToken TokenType.OR) (lx.matchChar '|').2
      else LexResult.token
        (lx.errorToken ("Unexpected character: '" ++ String.singleton c ++ "'")) lx
    else if c = '"' then LexResult.token lx.stringLiteral.1 lx.stringLiteral.2
    else LexResult.token (lx.errorToken ("Unexpected character: '" ++ String.singleton c ++ "'")) lx

end Lexer

/-! ## Syntax tree (`AST.h`) -/

/-- Expressions. `null` is the null `ExprPtr`. -/
inductive Expr where
  | null : Expr
  | Literal (value : LitValue) : Expr
  | Variable (name : Token) : Expr
  | Binary (left : Expr) (op : Token) (right : Expr) : Expr
  | Unary (op : Token) (right : Expr) : Expr
  | Call (callee : Token) (arguments : List Expr) : Expr
  | Assignment (name : Token) (value : Expr) : Expr
  deriving Repr, Inhabited

/-- Statements. `null` is the null `StmtPtr`. -/
inductive Stmt where
  | null : Stmt
  | Print (expressions : List Expr) : Stmt
  | VariableDecl (name : Token) (initializer : Expr) : Stmt
  | Expression (expression : Expr) : Stmt
  | Block (statements : List Stmt) : Stmt
  | If (condition : Expr) (thenBranch : Stmt) (elseBranch : Stmt) : Stmt
  | While (condition : Expr) (body : Stmt) : Stmt
  | FunctionDecl (name : Token) (parameters : List (Token × TokenType))
      (returnType : TokenType) (body : Stmt) : Stmt
  | Return (keyword : Token) (value : Expr) : Stmt
  deriving Repr, Inhabited

/-- The statements of a `Program`; a `ProgramPtr` returned by the parser is never null. -/
abbrev Program := List Stmt

def Expr.isNull : Expr → Bool
  | Expr.null => true
  | _ => false

def Stmt.isNull : Stmt → Bool
  | Stmt.null => true
  | _ => false

/-! ## Parser (`Parser.cpp`) -/

/-- The state of a `Parser`; `lexer` is the referenced `Lexer`. -/
structure Parser where
  lexer : Lexer
  current : Token
  previous : Token
  errors : List Error
  deriving Repr, Inhabited

/-- Outcome of a parsing method: a value, an exception on its way up (only
`Lexer::nextToken` raises one), or no more fuel. -/
inductive PResult (α : Type) where
  | ok (a : α) (p : Parser)
  | thrown (p : Parser)
  | outOfFuel
  deriving Repr, Inhabited

def PResult.bind {α β : Type} (r : PResult α) (f : α → Parser → PResult β) : PResult β :=
  match r with
  | PResult.ok a p => f a p
  | PResult.thrown p => PResult.thrown p
  | PResult.outOfFuel => PResult.outOfFuel

namespace Parser

/-- The constructor `Parser::Parser(lexer)`; `none` when the first `nextToken` throws. -/
def new (lx : Lexer) : Option Parser :=
  match lx.nextToken with
  | LexResult.token t lx1 => some { lexer := lx1, current := t, previous := t, errors := [] }
  | LexResult.thrown _ => none

def advance (p : Parser) : PResult Unit :=
  match p.lexer.nextToken with
  | LexResult.token t lx => PResult.ok () { p with previous := p.current, current := t, lexer := lx }
  | LexResult.thrown lx => PResult.thrown { p with previous := p.current, lexer := lx }

def check (p : Parser) (type : TokenType) : Bool :=
  decide (p.current.type = type)

/-- The method `Parser::match`. -/
def matchTok (p : Parser) (type : TokenType) : PResult Bool :=
  if p.check type then p.advance.bind (fun _ p1 => PResult.ok true p1)
  else PResult.ok false p

def reportError (p : Parser) (token : Token) (message : String) : Parser :=
  { p with errors := p.errors ++
      [{ type := ErrorType.SYNTAX, message := message, line := token.line,
         column := token.column, stage := "Parser" }] }

/-- The method `bool Parser::consume(type, message)`. -/
def consume (p : Parser) (type : TokenType) (message : String) : PResult Bool :=
  if p.check type then p.advance.bind (fun _ p1 => PResult.ok true p1)
  else PResult.ok false (p.reportError p.current message)

/-- Modelled from the spec: `Parser::peekNext` is called by `parseStatement` but is
neither declared in `Parser.h` nor defined in `Parser.cpp`, and the spec does not
name it; it is taken to be a lookahead of one token that changes no state. Both
outcomes of the test it takes part in lead to `parseExpressionStatement`. -/
def peekNext (p : Parser) : TokenType :=
  match p.lexer.nextToken with
  | LexResult.token t _ => t.type
  | LexResult.thrown _ => TokenType.ERROR

/-- The chain `if (match(INT_TYPE)) ... else if (match(STRING_TYPE)) ...` of
`parseFunctionDeclaration`, for the given list of type keywords. -/
def matchTypes : List TokenType → Parser → PResult (Option TokenType)
  | [], p => PResult.ok none p
  | t :: ts, p =>
    (p.matchTok t).bind fun b p1 =>
      if b then PResult.ok (some t) p1 else matchTypes ts p1

mutual

def parseStatement : Nat → Parser → PResult Stmt
  | 0, _ => PResult.outOfFuel
  | n + 1, p =>
    (p.matchTok TokenType.LET).bind fun b p =>
    if b then parseVariableDeclaration n p else
    (p.matchTok TokenType.IF).bind fun b p =>
    if b then parseIfStatement n p else
    (p.matchTok TokenType.WHILE).bind fun b p =>
    if b then parseWhileStatement n p else
    (p.matchTok TokenType.FUNCTION).bind fun b p =>
    if b then parseFunctionDeclaration n p else
    (p.matchTok TokenType.RETURN).bind fun b p =>
    if b then parseReturnStatement n p else
    if p.check TokenType.IDENTIFIER && decide (p.peekNext = TokenType.LEFT_PAREN) then
      parseExpressionStatement n p
    else if p.check TokenType.PRINT then parsePrintStatement n p
    else parseExpressionStatement n p

/-- The `do { ... } while (match(COMMA))` loop of `parsePrintStatement`. -/
def parsePrintArguments : Nat → Parser → List Expr → PResult (List Expr)
  | 0, _, _ => PResult.outOfFuel
  | n + 1, p, expressions =>
    (parseExpression n p).bind fun expr p =>
    let expressions1 := if expr.isNull then expressions else expressions ++ [expr]
    (p.matchTok TokenType.COMMA).bind fun b p =>
    if b then parsePrintArguments n p expressions1 else PResult.ok expressions1 p

def parsePrintStatement : Nat → Parser → PResult Stmt
  | 0, _ => PResult.outOfFuel
  | n + 1, p =>
    (p.consume TokenType.LEFT_PAREN "Expected '(' after 'print'").bind fun b p =>
    if !b then PResult.ok Stmt.null p else
    (if !p.check TokenType.RIGHT_PAREN then parsePrintArguments n p []
     else PResult.ok [] p).bind fun expressions p =>
    (p.consume TokenType.RIGHT_PAREN "Expected ')' after print arguments").bind fun b p =>
    if !b then PResult.ok Stmt.null p else
    (p.consume TokenType.SEMICOLON "Expected ';' after statement").bind fun b p =>
    if !b then PResult.ok Stmt.null p else
    PResult.ok (Stmt.Print expressions) p

def parseVariableDeclaration : Nat → Parser → PResult Stmt
  | 0, _ => PResult.outOfFuel
  | n + 1, p =>
    (p.consume TokenType.IDENTIFIER "Expected variable name").bind fun b p =>
    if !b then PResult.ok Stmt.null p else
    let name := p.previous
    (p.matchTok TokenType.ASSIGN).bind fun b p =>
    if !b then
      PResult.ok Stmt.null (p.reportError p.current "Expected '=' in variable declaration")
    else
    (parseExpression n p).bind fun initializer p =>
    if initializer.isNull then
      PResult.ok Stmt.null (p.reportError p.current "Expected expression in variable declaration")
    else
    (p.consume TokenType.SEMICOLON "Expected ';' after variable declaration").bind fun b p =>
    if !b then PResult.ok Stmt.null p else
    PResult.ok (Stmt.VariableDecl name initializer) p

def parseIfStatement : Nat → Parser → PResult Stmt
  | 0, _ => PResult.outOfFuel
  | n + 1, p =>
    (p.consume TokenType.LEFT_PAREN "Expected '(' after 'if'").bind fun b p =>
    if !b then PResult.ok Stmt.null p else
    (parseExpression n p).bind fun condition p =>
    if condition.isNull then
      PResult.ok Stmt.null (p.reportError p.current "Expected condition expression")
    else
    (p.consume TokenType.RIGHT_PAREN "Expected ')' after condition").bind fun b p =>
    if !b then PResult.ok Stmt.null p else
    (p.consume TokenType.THEN "Expected 'then' after if condition").bind fun b p =>
    if !b then PResult.ok Stmt.null p else
    (parseStatement n p).bind fun thenBranch p =>
    if thenBranch.isNull then
      PResult.ok Stmt.null (p.reportError p.current "Expected statement after 'then'")
    else
    (p.matchTok TokenType.ELSE).bind fun hasElse p =>
    (if hasElse then parseStatement n p else PResult.ok Stmt.null p).bind fun elseBranch p =>
    if hasElse && elseBranch.isNull then
      PResult.ok Stmt.null (p.reportError p.current "Expected statement after 'else'")
    else
    (p.consume TokenType.END "Expected 'end' after if statement").bind fun b p =>
    if !b then PResult.ok Stmt.null p else
    (p.consume TokenType.SEMICOLON "Expected ';' after if statement").bind fun b p =>
    if !b then PResult.ok Stmt.null p else
    PResult.ok (Stmt.If condition thenBranch elseBranch) p

def parseWhileStatement : Nat → Parser → PResult Stmt
  | 0, _ => PResult.outOfFuel
  | n + 1, p =>
    (p.consume TokenType.LEFT_PAREN "Expected '(' after 'while'").bind fun b p =>
    if !b then PResult.ok Stmt.null p else
    (parseExpression n p).bind fun condition p =>
    if condition.isNull then
      PResult.ok Stmt.null (p.reportError p.current "Expected condition expression")
    else
    (p.consume TokenType.RIGHT_PAREN "Expected ')' after condition").bind fun b p =>
    if !b then PResult.ok Stmt.null p else
    (p.consume TokenType.DO "Expected 'do' after while condition").bind fun b p =>
    if !b then PResult.ok Stmt.null p else
    (parseStatement n p).bind fun body p =>
    if body.isNull then
      PResult.ok Stmt.null (p.reportError p.current "Expected statement after 'do'")
    else
    (p.consume TokenType.END "Expected 'end' after while statement").bind fun b p =>
    if !b then PResult.ok Stmt.null p else
    (p.consume TokenType.SEMICOLON "Expected ';' after while statement").bind fun b p =>
    if !b then PResult.ok Stmt.null p else
    PResult.ok (Stmt.While condition body) p

/-- The `while` loop of `parseBlock`. -/
def parseBlockStatements : Nat → Parser → List Stmt → PResult (List Stmt)
  | 0, _, _ => PResult.outOfFuel
  | n + 1, p, statements =>
    if !p.check TokenType.RIGHT_BRACE && !p.check TokenType.END_OF_FILE then
      (parseStatement n p).bind fun stmt p =>
      parseBlockStatements n p (if stmt.isNull then statements else statements ++ [stmt])
    else PResult.ok statements p

def parseBlock : Nat → Parser → PResult Stmt
  | 0, _ => PResult.outOfFuel
  | n + 1, p =>
    (p.consume TokenType.LEFT_BRACE "Expected '\x7b' to start block").bind fun b p =>
    if !b then PResult.ok Stmt.null p else
    (parseBlockStatements n p []).bind fun statements p =>
    (p.consume TokenType.RIGHT_BRACE "Expected '\x7d' to end block").bind fun b p =>
    if !b then PResult.ok Stmt.null p else
    PResult.ok (Stmt.Block statements) p

/-- The `do { ... } while (match(COMMA))` loop of `parseFunctionDeclaration`; `none`
is the `return nullptr` inside the loop. -/
def parseParameters : Nat → Parser → List (Token × TokenType) →
    PResult (Option (List (Token × TokenType)))
  | 0, _, _ => PResult.outOfFuel
  | n + 1, p, parameters =>
    (p.consume TokenType.IDENTIFIER "Expected parameter name").bind fun b p =>
    if !b then PResult.ok none p else
    let paramName := p.previous
    (p.consume TokenType.COLON "Expected ':' after parameter name").bind fun b p =>
    if !b then PResult.ok none p else
    (p.matchTypes [TokenType.INT_TYPE, TokenType.FLOAT_TYPE, TokenType.BOOL_TYPE,
        TokenType.STRING_TYPE]).bind fun ty p =>
    match ty with
    | none => PResult.ok none (p.reportError p.current "Expected type after ':'")
    | some paramType =>
      let parameters1 := parameters ++ [(paramName, paramType)]
      (p.matchTok TokenType.COMMA).bind fun b p =>
      if b then parseParameters n p parameters1 else PResult.ok (some parameters1) p

def parseFunctionDeclaration : Nat → Parser → PResult Stmt
  | 0, _ => PResult.outOfFuel
  | n + 1, p =>
    (p.consume TokenType.IDENTIFIER "Expected function name").bind fun b p =>
    if !b then PResult.ok Stmt.null p else
    let name := p.previous
    (p.consume TokenType.LEFT_PAREN "Expected '(' after function name").bind fun b p =>
    if !b then PResult.ok Stmt.null p else
    (if !p.check TokenType.RIGHT_PAREN then parseParameters n p []
     else PResult.ok (some []) p).bind fun params p =>
    match params with
    | none => PResult.ok Stmt.null p
    | some parameters =>
      (p.consume TokenType.RIGHT_PAREN "Expected ')' after parameters").bind fun b p =>
      if !b then PResult.ok Stmt.null p else
      (p.matchTok TokenType.COLON).bind fun hasColon p =>
      (if hasColon then
        p.matchTypes [TokenType.INT_TYPE, TokenType.FLOAT_TYPE, TokenType.BOOL_TYPE,
          TokenType.STRING_TYPE, TokenType.VOID_TYPE]
       else PResult.ok (some TokenType.VOID_TYPE) p).bind fun ty p =>
      match ty with
      | none => PResult.ok Stmt.null (p.reportError p.current "Expected return type after ':'")
      | some returnType =>
        (parseBlock n p).bind fun body p =>
        if body.isNull then
          PResult.ok Stmt.null (p.reportError p.current "Expected function body")
        else PResult.ok (Stmt.FunctionDecl name parameters returnType body) p

def parseReturnStatement : Nat → Parser → PResult Stmt
  | 0, _ => PResult.outOfFuel
  | n + 1, p =>
    let keyword := p.previous
    (if !p.check TokenType.SEMICOLON then parseExpression n p
     else PResult.ok Expr.null p).bind fun value p =>
    (p.consume TokenType.SEMICOLON "Expected ';' after return statement").bind fun b p =>
    if !b then PResult.ok Stmt.null p else
    PResult.ok (Stmt.Return keyword value) p

def parseExpressionStatement : Nat → Parser → PResult Stmt
  | 0, _ => PResult.outOfFuel
  | n + 1, p =>
    (parseExpression n p).bind fun expr p =>
    if expr.isNull then PResult.ok Stmt.null (p.reportError p.current "Expected expression")
    else
    (p.consume TokenType.SEMICOLON "Expected ';' after expression").bind fun b p =>
    if !b then PResult.ok Stmt.null p else
    PResult.ok (Stmt.Expression expr) p

def parseExpression : Nat → Parser → PResult Expr
  | 0, _ => PResult.outOfFuel
  | n + 1, p => parseAssignment n p

def parseAssignment : Nat → Parser → PResult Expr
  | 0, _ => PResult.outOfFuel
  | n + 1, p =>
    (parseEquality n p).bind fun expr p =>
    (p.matchTok TokenType.ASSIGN).bind fun b p =>
    if b then
      match expr with
      | Expr.Variable name =>
        (parseAssignment n p).bind fun value p =>
        if value.isNull then PResult.ok expr p
        else PResult.ok (Expr.Assignment name value) p
      | _ => PResult.ok expr (p.reportError p.previous "Invalid assignment target")
    else PResult.ok expr p

/-- The `while (match(EQUAL) || match(NOT_EQUAL))` loop of `parseEquality`. -/
def parseEqualityLoop : Nat → Parser → Expr → PResult Expr
  | 0, _, _ => PResult.outOfFuel
  | n + 1, p, expr =>
    (p.matchTypes [TokenType.EQUAL, TokenType.NOT_EQUAL]).bind fun m p =>
    match m with
    | none => PResult.ok expr p
    | some _ =>
      let op := p.previous
      (parseComparison n p).bind fun right p =>
      parseEqualityLoop n p (if right.isNull then expr else Expr.Binary expr op right)

def parseEquality : Nat → Parser → PResult Expr
  | 0, _ => PResult.outOfFuel
  | n + 1, p => (parseComparison n p).bind fun expr p => parseEqualityLoop n p expr

def parseComparisonLoop : Nat → Parser → Expr → PResult Expr
  | 0, _, _ => PResult.outOfFuel
  | n + 1, p, expr =>
    (p.matchTypes [TokenType.LESS, TokenType.LESS_EQUAL, TokenType.GREATER,
        TokenType.GREATER_EQUAL]).bind fun m p =>
    match m with
    | none => PResult.ok expr p
    | some _ =>
      let op := p.previous
      (parseTerm n p).bind fun right p =>
      parseComparisonLoop n p (if right.isNull then expr else Expr.Binary expr op right)

def parseComparison : Nat → Parser → PResult Expr
  | 0, _ => PResult.outOfFuel
  | n + 1, p => (parseTerm n p).bind fun expr p => parseComparisonLoop n p expr

def parseTermLoop : Nat → Parser → Expr → PResult Expr
  | 0, _, _ => PResult.outOfFuel
  | n + 1, p, expr =>
    (p.matchTypes [TokenType.PLUS, TokenType.MINUS]).bind fun m p =>
    match m with
    | none => PResult.ok expr p
    | some _ =>
      let op := p.previous
      (parseFactor n p).bind fun right p =>
      parseTermLoop n p (if right.isNull then expr else Expr.Binary expr op right)

def parseTerm : Nat → Parser → PResult Expr
  | 0, _ => PResult.outOfFuel
  | n + 1, p => (parseFactor n p).bind fun expr p => parseTermLoop n p expr

def parseFactorLoop : Nat → Parser → Expr → PResult Expr
  | 0, _, _ => PResult.outOfFuel
  | n + 1, p, expr =>
    (p.matchTypes [TokenType.MULTIPLY, TokenType.DIVIDE, TokenType.MODULO]).bind fun m p =>
    match m with
    | none => PResult.ok expr p
    | some _ =>
      let op := p.previous
      (parseUnary n p).bind fun right p =>
      parseFactorLoop n p (if right.isNull then expr else Expr.Binary expr op right)

def parseFactor : Nat → Parser → PResult Expr
  | 0, _ => PResult.outOfFuel
  | n + 1, p => (parseUnary n p).bind fun expr p => parseFactorLoop n p expr

def parseUnary : Nat → Parser → PResult Expr
  | 0, _ => PResult.outOfFuel
  | n + 1, p =>
    (p.matchTypes [TokenType.MINUS, TokenType.NOT]).bind fun m p =>
    match m with
    | none => parseCall n p
    | some _ =>
      let op := p.previous
      (parseUnary n p).bind fun right p =>
      if right.isNull then parseCall n p else PResult.ok (Expr.Unary op right) p

/-- The `while (true)` loop of `parseCall`. -/
def parseCallLoop : Nat → Parser → Expr → PResult Expr
  | 0, _, _ => PResult.outOfFuel
  | n + 1, p, expr =>
    (p.matchTok TokenType.LEFT_PAREN).bind fun b p =>
    if b then (finishCall n p expr).bind fun expr1 p => parseCallLoop n p expr1
    else PResult.ok expr p

def parseCall : Nat → Parser → PResult Expr
  | 0, _ => PResult.outOfFuel
  | n + 1, p => (parsePrimary n p).bind fun expr p => parseCallLoop n p expr

def parsePrimary : Nat → Parser → PResult Expr
  | 0, _ => PResult.outOfFuel
  | n + 1, p =>
    (p.matchTypes [TokenType.INT_LITERAL, TokenType.FLOAT_LITERAL, TokenType.BOOL_LITERAL,
        TokenType.STRING_LITERAL]).bind fun m p =>
    match m with
    | some _ => PResult.ok (Expr.Literal p.previous.value) p
    | none =>
      (p.matchTok TokenType.IDENTIFIER).bind fun b p =>
      if b then PResult.ok (Expr.Variable p.previous) p else
      (p.matchTok TokenType.LEFT_PAREN).bind fun b p =>
      if b then
        (parseExpression n p).bind fun expr p =>
        (p.consume TokenType.RIGHT_PAREN "Expected ')' after expression").bind fun b p =>
        if !b then PResult.ok Expr.null p else PResult.ok expr p
      else PResult.ok Expr.null (p.reportError p.current "Expected expression")

/-- The `do { ... } while (match(COMMA))` loop of `finishCall`. -/
def parseArguments : Nat → Parser → List Expr → PResult (List Expr)
  | 0, _, _ => PResult.outOfFuel
  | n + 1, p, arguments =>
    let p0 := if 255 ≤ arguments.length then
        p.reportError p.current "Cannot have more than 255 arguments" else p
    (parseExpression n p0).bind fun arg p =>
    let arguments1 := if arg.isNull then arguments else arguments ++ [arg]
    (p.matchTok TokenType.COMMA).bind fun b p =>
    if b then parseArguments n p arguments1 else PResult.ok arguments1 p

def finishCall : Nat → Parser → Expr → PResult Expr
  | 0, _, _ => PResult.outOfFuel
  | n + 1, p, callee =>
    (if !p.check TokenType.RIGHT_PAREN then parseArguments n p []
     else PResult.ok [] p).bind fun arguments p =>
    (p.consume TokenType.RIGHT_PAREN "Expected ')' after arguments").bind fun b p =>
    if !b then PResult.ok Expr.null p else
    match callee with
    | Expr.Variable name => PResult.ok (Expr.Call name arguments) p
    | _ => PResult.ok callee (p.reportError p.previous "Expected function name")

end

/-- The `while` loop in the `catch (...)` block of `parseProgram`. -/
def synchronize : Nat → Parser → PResult Unit
  | 0, _ => PResult.outOfFuel
  | n + 1, p =>
    if !p.check TokenType.END_OF_FILE && !p.check TokenType.SEMICOLON &&
       !p.check TokenType.LET && !p.check TokenType.IF && !p.check TokenType.WHILE &&
       !p.check TokenType.FUNCTION && !p.check TokenType.PRINT then
      p.advance.bind fun _ p1 => synchronize n p1
    else PResult.ok () p

/-- The `while (!check(END_OF_FILE))` loop of `parseProgram`, with its `try`/`catch`. -/
def parseProgramLoop : Nat → Parser → List Stmt → PResult (List Stmt)
  | 0, _, _ => PResult.outOfFuel
  | n + 1, p, statements =>
    if p.check TokenType.END_OF_FILE then PResult.ok statements p
    else
      match parseStatement n p with
      | PResult.ok stmt p1 =>
        parseProgramLoop n p1 (if stmt.isNull then statements else statements ++ [stmt])
      | PResult.thrown p1 =>
        (synchronize n p1).bind fun _ p2 =>
        (if p2.check TokenType.SEMICOLON then p2.advance else PResult.ok () p2).bind fun _ p3 =>
        parseProgramLoop n p3 statements
      | PResult.outOfFuel => PResult.outOfFuel

def parseProgram (fuel : Nat) (p : Parser) : PResult Program :=
  parseProgramLoop fuel p []

def parse (fuel : Nat) (p : Parser) : PResult Program :=
  parseProgram fuel p

end Parser

/-- The two lines `Lexer lexer(source); Parser parser(lexer); parser.parse()` of the
drivers (`main.cpp`, the tests). `thrown` without a parser state is not available,
so an exception of the constructor is reported as `none`. -/
def parseSource (fuel : Nat) (source : String) : Option (PResult Program) :=
  match Parser.new (Lexer.new source) with
  | some p => some (p.parse fuel)
  | none => none

/-! ## Scope table (`SymbolTable.cpp`) -/

inductive SymbolType where
  | VARIABLE | FUNCTION | PARAMETER
  deriving DecidableEq, Repr, Inhabited

structure Symbol where
  name : String
  type : SymbolType
  dataType : TokenType
  scopeLevel : Int
  isInitialized : Bool
  isConstant : Bool
  deriving DecidableEq, Repr, Inhabited

/-- The members `symbols` and `scopeLevel` of one `SymbolTable`; the map is kept as an
association list with at most one entry per name. -/
structure Scope where
  symbols : List (String × Symbol)
  scopeLevel : Int
  deriving DecidableEq, Repr, Inhabited

/-- A `SymbolTable` together with the tables reached through `parent`: `ancestors`
starts with the parent and ends with the global scope. A table whose `parent` is null
has no ancestors. -/
structure SymbolTable where
  scope : Scope
  ancestors : List Scope
  deriving DecidableEq, Repr, Inhabited

namespace SymbolTable

/-- The constructor with its default arguments: level 0, no parent. -/
def new : SymbolTable :=
  { scope := { symbols := [], scopeLevel := 0 }, ancestors := [] }

/-- The constructor `SymbolTable(scopeLevel, parent)`. -/
def newChild (scopeLevel : Int) (parent : SymbolTable) : SymbolTable :=
  { scope := { symbols := [], scopeLevel := scopeLevel },
    ancestors := parent.scope :: parent.ancestors }

def getParent (t : SymbolTable) : Option SymbolTable :=
  match t.ancestors with
  | [] => none
  | s :: rest => some { scope := s, ancestors := rest }

def getScopeLevel (t : SymbolTable) : Int :=
  t.scope.scopeLevel

def insert (t : SymbolTable) (symbol : Symbol) : Bool × SymbolTable :=
  match t.scope.symbols.lookup symbol.name with
  | some _ => (false, t)
  | none =>
    (true, { t with scope := { t.scope with symbols := t.scope.symbols ++ [(symbol.name, symbol)] } })

/-- The walk of `lookup` through a chain of scopes. -/
def lookupChain : List Scope → String → Option Symbol
  | [], _ => none
  | s :: rest, name =>
    match s.symbols.lookup name with
    | some symbol => some symbol
    | none => lookupChain rest name

def lookup (t : SymbolTable) (name : String) : Option Symbol :=
  lookupChain (t.scope :: t.ancestors) name

def lookupCurrentScope (t : SymbolTable) (name : String) : Option Symbol :=
  t.scope.symbols.lookup name

def remove (t : SymbolTable) (name : String) : Bool × SymbolTable :=
  ((t.scope.symbols.lookup name).isSome,
   { t with scope := { t.scope with symbols := t.scope.symbols.filter (fun e => e.1 ≠ name) } })

/-- Replace the symbol stored under `name` in one map. -/
def updateSymbol (symbols : List (String × Symbol)) (name : String) (f : Symbol → Symbol) :
    List (String × Symbol) :=
  symbols.map (fun e => if e.1 = name then (e.1, f e.2) else e)

/-- A write through the pointer returned by `lookup`: the symbol found first on the
chain is replaced by its image under `f`. -/
def updateChain : List Scope → String → (Symbol → Symbol) → List Scope
  | [], _, _ => []
  | s :: rest, name, f =>
    match s.symbols.lookup name with
    | some _ => { s with symbols := updateSymbol s.symbols name f } :: rest
    | none => s :: updateChain rest name f

def update (t : SymbolTable) (name : String) (f : Symbol → Symbol) : SymbolTable :=
  match updateChain (t.scope :: t.ancestors) name f with
  | [] => t
  | s :: rest => { scope := s, ancestors := rest }

end SymbolTable

/-! ## Visitors of the type checker and of the analyzer (`AST.h`) -/

/-- Outcome of a visitor of the type checker or of the analyzer: it returns, it throws
(the state is the one the object has when the exception leaves it), or it dereferences
a null pointer. -/
inductive Visit (σ : Type) where
  | returned (state : σ)
  | thrown (state : σ)
  | fault
  deriving DecidableEq, Repr, Inhabited

/-- The value of `f` on the state with which the visitor returned; `none` when it did
not return. -/
def Visit.map {σ β : Type} (r : Visit σ) (f : σ → β) : Option β :=
  match r with
  | Visit.returned state => some (f state)
  | _ => none

/-- The value of `f` on the state with which the visitor threw; `none` when it did not
throw. -/
def Visit.thrownWith {σ β : Type} (r : Visit σ) (f : σ → β) : Option β :=
  match r with
  | Visit.thrown state => some (f state)
  | _ => none

/-- The statement `return nullptr;` that ends every expression visitor of the type
checker and of the analyzer. The `Value` they return is the one of `AST.h`,
`std::variant<int, float, bool, std::string>`: a null pointer converts to none of `int`,
`float` and `bool`, so the `std::string` alternative is built from a null `const char*`,
and that constructor throws `std::logic_error`. Neither the visitors nor `check` and
`analyze` catch it. -/
def returnNullptr {σ : Type} (state : σ) : Visit σ :=
  Visit.thrown state

/-! ## Type checker (`TypeChecker.cpp`) -/

/-- The state of a `TypeChecker`. -/
structure TypeChecker where
  currentScope : SymbolTable
  errors : List Error
  currentReturnType : TokenType
  inFunction : Bool
  deriving DecidableEq, Repr, Inhabited

namespace TypeChecker

def new : TypeChecker :=
  { currentScope := SymbolTable.new, errors := [], currentReturnType := TokenType.VOID_TYPE,
    inFunction := false }

def isNumericType (type : TokenType) : Bool :=
  decide (type = TokenType.INT_TYPE) || decide (type = TokenType.FLOAT_TYPE)

def isBooleanType (type : TokenType) : Bool :=
  decide (type = TokenType.BOOL_TYPE)

def isStringType (type : TokenType) : Bool :=
  decide (type = TokenType.STRING_TYPE)

def typesCompatible (t1 t2 : TokenType) : Bool :=
  if t1 = t2 then true
  else if (t1 = TokenType.INT_TYPE ∧ t2 = TokenType.FLOAT_TYPE) ∨
      (t1 = TokenType.FLOAT_TYPE ∧ t2 = TokenType.INT_TYPE) then true
  else false

/-- The group `+ - * / %` tested first by `getBinaryResultType`. -/
def isArithmeticOp (op : TokenType) : Bool :=
  decide (op = TokenType.PLUS) || decide (op = TokenType.MINUS) ||
  decide (op = TokenType.MULTIPLY) || decide (op = TokenType.DIVIDE) ||
  decide (op = TokenType.MODULO)

/-- The group `== != < <= > >=` tested second by `getBinaryResultType`. -/
def isComparisonOp (op : TokenType) : Bool :=
  decide (op = TokenType.EQUAL) || decide (op = TokenType.NOT_EQUAL) ||
  decide (op = TokenType.LESS) || decide (op = TokenType.LESS_EQUAL) ||
  decide (op = TokenType.GREATER) || decide (op = TokenType.GREATER_EQUAL)

def getBinaryResultType (left right op : TokenType) : TokenType :=
  if isArithmeticOp op && decide (left = TokenType.INT_TYPE) &&
      decide (right = TokenType.INT_TYPE) then TokenType.INT_TYPE
  else if isArithmeticOp op &&
      (decide (left = TokenType.INT_TYPE) || decide (left = TokenType.FLOAT_TYPE)) &&
      (decide (right = TokenType.INT_TYPE) || decide (right = TokenType.FLOAT_TYPE)) then
    TokenType.FLOAT_TYPE
  else if isComparisonOp op then TokenType.BOOL_TYPE
  else if (decide (op = TokenType.AND) || decide (op = TokenType.OR)) &&
      decide (left = TokenType.BOOL_TYPE) && decide (right = TokenType.BOOL_TYPE) then
    TokenType.BOOL_TYPE
  else TokenType.ERROR

def reportError (tc : TypeChecker) (token : Token) (message : String) : TypeChecker :=
  { tc with errors := tc.errors ++
      [{ type := ErrorType.SEMANTIC, message := message, line := token.line,
         column := token.column, stage := "TypeChecker" }] }

mutual

/-- The expression visitors; `fault` is the dereference of a null `ExprPtr`. Each of
them ends in `return nullptr;`. -/
def visitExpr : Expr → TypeChecker → Visit TypeChecker
  | Expr.null, _ => Visit.fault
  | Expr.Literal _, tc => returnNullptr tc
  | Expr.Variable name, tc =>
    match tc.currentScope.lookup name.lexeme with
    | none =>
      returnNullptr (tc.reportError name ("Undefined variable '" ++ name.lexeme ++ "'"))
    | some _ => returnNullptr tc
  | Expr.Binary left _ right, tc =>
    match visitExpr left tc with
    | Visit.returned tc1 =>
      match visitExpr right tc1 with
      | Visit.returned tc2 => returnNullptr tc2
      | r => r
    | r => r
  | Expr.Unary _ right, tc =>
    match visitExpr right tc with
    | Visit.returned tc1 => returnNullptr tc1
    | r => r
  | Expr.Call _ arguments, tc =>
    match visitExprs arguments tc with
    | Visit.returned tc1 => returnNullptr tc1
    | r => r
  | Expr.Assignment _ value, tc =>
    match visitExpr value tc with
    | Visit.returned tc1 => returnNullptr tc1
    | r => r

/-- The loops `for (auto& e : ...) e->accept(*this);`. -/
def visitExprs : List Expr → TypeChecker → Visit TypeChecker
  | [], tc => Visit.returned tc
  | e :: es, tc =>
    match visitExpr e tc with
    | Visit.returned tc1 => visitExprs es tc1
    | r => r

end

/-- The loop of `visitFunctionDeclStmt` that inserts the parameters. -/
def insertParameters : List (Token × TokenType) → SymbolTable → SymbolTable
  | [], t => t
  | (paramName, paramType) :: rest, t =>
    insertParameters rest
      (t.insert { name := paramName.lexeme, type := SymbolType.PARAMETER, dataType := paramType,
                  scopeLevel := t.getScopeLevel, isInitialized := true, isConstant := false }).2

/-- The assignment `currentScope = oldScope`: the saved pointer is the parent of the
table that was current meanwhile. -/
def restoreScope (tc : TypeChecker) : TypeChecker :=
  match tc.currentScope.getParent with
  | some parent => { tc with currentScope := parent }
  | none => tc

mutual

/-- The statement visitors; `fault` is the dereference of a null pointer, and an
exception of an expression visitor leaves every statement visitor on its way. -/
def visitStmt : Stmt → TypeChecker → Visit TypeChecker
  | Stmt.null, _ => Visit.fault
  | Stmt.Print expressions, tc => visitExprs expressions tc
  | Stmt.VariableDecl _ initializer, tc =>
    if initializer.isNull then Visit.returned tc else visitExpr initializer tc
  | Stmt.Expression expression, tc =>
    if expression.isNull then Visit.returned tc else visitExpr expression tc
  | Stmt.Block statements, tc =>
    let tc1 := { tc with currentScope :=
      SymbolTable.newChild (tc.currentScope.getScopeLevel + 1) tc.currentScope }
    match visitStmts statements tc1 with
    | Visit.returned tc2 => Visit.returned tc2.restoreScope
    | r => r
  | Stmt.If condition thenBranch elseBranch, tc =>
    match (if condition.isNull then Visit.returned tc else visitExpr condition tc) with
    | Visit.returned tc1 =>
      match (if thenBranch.isNull then Visit.returned tc1 else visitStmt thenBranch tc1) with
      | Visit.returned tc2 =>
        if elseBranch.isNull then Visit.returned tc2 else visitStmt elseBranch tc2
      | r => r
    | r => r
  | Stmt.While condition body, tc =>
    match (if condition.isNull then Visit.returned tc else visitExpr condition tc) with
    | Visit.returned tc1 => if body.isNull then Visit.returned tc1 else visitStmt body tc1
    | r => r
  | Stmt.FunctionDecl _ parameters returnType body, tc =>
    let oldInFunction := tc.inFunction
    let oldReturnType := tc.currentReturnType
    let scope := insertParameters parameters
      (SymbolTable.newChild (tc.currentScope.getScopeLevel + 1) tc.currentScope)
    let tc1 := { tc with inFunction := true, currentReturnType := returnType, currentScope := scope }
    match (if body.isNull then Visit.returned tc1 else visitStmt body tc1) with
    | Visit.returned tc2 =>
      Visit.returned
        { tc2.restoreScope with inFunction := oldInFunction, currentReturnType := oldReturnType }
    | r => r
  | Stmt.Return _ value, tc =>
    if value.isNull then Visit.returned tc else visitExpr value tc

def visitStmts : List Stmt → TypeChecker → Visit TypeChecker
  | [], tc => Visit.returned tc
  | s :: ss, tc =>
    match visitStmt s tc with
    | Visit.returned tc1 => visitStmts ss tc1
    | r => r

end

/-- The method `TypeChecker::check`. -/
def check (tc : TypeChecker) (program : Program) : Visit TypeChecker :=
  visitStmts program tc

end TypeChecker

/-! ## Semantic analyzer (`SemanticAnalyzer.cpp`) -/

/-- The state of a `SemanticAnalyzer`; `globalScope` is the last table of the chain of
`currentScope`. -/
structure SemanticAnalyzer where
  currentScope : SymbolTable
  errors : List Error
  typeChecker : TypeChecker
  deriving DecidableEq, Repr, Inhabited

namespace SemanticAnalyzer

def new : SemanticAnalyzer :=
  { currentScope := SymbolTable.new, errors := [], typeChecker := TypeChecker.new }

def enterScope (a : SemanticAnalyzer) : SemanticAnalyzer :=
  { a with currentScope := SymbolTable.newChild (a.currentScope.getScopeLevel + 1) a.currentScope }

def exitScope (a : SemanticAnalyzer) : SemanticAnalyzer :=
  match a.currentScope.getParent with
  | some parent => { a with currentScope := parent }
  | none => a

def reportError (a : SemanticAnalyzer) (token : Token) (message : String) : SemanticAnalyzer :=
  { a with errors := a.errors ++
      [{ type := ErrorType.SEMANTIC, message := message, line := token.line,
         column := token.column, stage := "SemanticAnalyzer" }] }

def declareVariable (a : SemanticAnalyzer) (name : Token) (type : TokenType)
    (initialized : Bool) : SemanticAnalyzer :=
  let symbol : Symbol :=
    { name := name.lexeme, type := SymbolType.VARIABLE, dataType := type,
      scopeLevel := a.currentScope.getScopeLevel, isInitialized := initialized,
      isConstant := false }
  let r := a.currentScope.insert symbol
  if !r.1 then
    ({ a with currentScope := r.2 } : SemanticAnalyzer).reportError name
      ("Variable '" ++ name.lexeme ++ "' already declared in this scope")
  else { a with currentScope := r.2 }

def defineVariable (a : SemanticAnalyzer) (name : Token) : SemanticAnalyzer :=
  { a with currentScope :=
      a.currentScope.update name.lexeme (fun symbol => { symbol with isInitialized := true }) }

mutual

/-- The expression visitors; `fault` is the dereference of a null `ExprPtr`. Each of
them ends in `return nullptr;`. -/
def visitExpr : Expr → SemanticAnalyzer → Visit SemanticAnalyzer
  | Expr.null, _ => Visit.fault
  | Expr.Literal _, a => returnNullptr a
  | Expr.Variable name, a =>
    match a.currentScope.lookup name.lexeme with
    | none =>
      returnNullptr (a.reportError name ("Undefined variable '" ++ name.lexeme ++ "'"))
    | some symbol =>
      if !symbol.isInitialized then
        returnNullptr
          (a.reportError name ("Variable '" ++ name.lexeme ++ "' used before initialization"))
      else returnNullptr a
  | Expr.Binary left _ right, a =>
    match visitExpr left a with
    | Visit.returned a1 =>
      match visitExpr right a1 with
      | Visit.returned a2 => returnNullptr a2
      | r => r
    | r => r
  | Expr.Unary _ right, a =>
    match visitExpr right a with
    | Visit.returned a1 => returnNullptr a1
    | r => r
  | Expr.Call callee arguments, a =>
    let a1 :=
      match a.currentScope.lookup callee.lexeme with
      | none => a.reportError callee ("Undefined function '" ++ callee.lexeme ++ "'")
      | some symbol =>
        if symbol.type ≠ SymbolType.FUNCTION then
          a.reportError callee ("Undefined function '" ++ callee.lexeme ++ "'")
        else a
    match visitExprs arguments a1 with
    | Visit.returned a2 => returnNullptr a2
    | r => r
  | Expr.Assignment name value, a =>
    let a1 :=
      match a.currentScope.lookup name.lexeme with
      | none =>
        a.reportError name ("Cannot assign to undefined variable '" ++ name.lexeme ++ "'")
      | some symbol =>
        if symbol.isConstant then
          a.reportError name ("Cannot assign to constant '" ++ name.lexeme ++ "'")
        else a
    match visitExpr value a1 with
    | Visit.returned a2 => returnNullptr a2
    | r => r

/-- The loops `for (auto& e : ...) e->accept(*this);`. -/
def visitExprs : List Expr → SemanticAnalyzer → Visit SemanticAnalyzer
  | [], a => Visit.returned a
  | e :: es, a =>
    match visitExpr e a with
    | Visit.returned a1 => visitExprs es a1
    | r => r

end

/-- The loop of `visitFunctionDeclStmt` that declares the parameters. -/
def declareParameters : List (Token × TokenType) → SemanticAnalyzer → SemanticAnalyzer
  | [], a => a
  | (paramName, paramType) :: rest, a =>
    declareParameters rest (a.declareVariable paramName paramType true)

mutual

/-- The statement visitors; `fault` is the dereference of a null pointer, and an
exception of an expression visitor leaves every statement visitor on its way. -/
def visitStmt : Stmt → SemanticAnalyzer → Visit SemanticAnalyzer
  | Stmt.null, _ => Visit.fault
  | Stmt.Print expressions, a => visitExprs expressions a
  | Stmt.VariableDecl name initializer, a =>
    let a1 := a.declareVariable name TokenType.INT_TYPE (!initializer.isNull)
    if initializer.isNull then Visit.returned a1
    else
      match visitExpr initializer a1 with
      | Visit.returned a2 => Visit.returned (a2.defineVariable name)
      | r => r
  | Stmt.Expression expression, a =>
    if expression.isNull then Visit.returned a else visitExpr expression a
  | Stmt.Block statements, a =>
    match visitStmts statements a.enterScope with
    | Visit.returned a1 => Visit.returned a1.exitScope
    | r => r
  | Stmt.If condition thenBranch elseBranch, a =>
    match (if condition.isNull then Visit.returned a else visitExpr condition a) with
    | Visit.returned a1 =>
      match (if thenBranch.isNull then Visit.returned a1 else visitStmt thenBranch a1) with
      | Visit.returned a2 =>
        if elseBranch.isNull then Visit.returned a2 else visitStmt elseBranch a2
      | r => r
    | r => r
  | Stmt.While condition body, a =>
    match (if condition.isNull then Visit.returned a else visitExpr condition a) with
    | Visit.returned a1 => if body.isNull then Visit.returned a1 else visitStmt body a1
    | r => r
  | Stmt.FunctionDecl name parameters returnType body, a =>
    let a1 := declareParameters parameters (a.declareVariable name returnType true).enterScope
    match (if body.isNull then Visit.returned a1 else visitStmt body a1) with
    | Visit.returned a2 => Visit.returned a2.exitScope
    | r => r
  | Stmt.Return _ value, a =>
    if value.isNull then Visit.returned a else visitExpr value a

def visitStmts : List Stmt → SemanticAnalyzer → Visit SemanticAnalyzer
  | [], a => Visit.returned a
  | s :: ss, a =>
    match visitStmt s a with
    | Visit.returned a1 => visitStmts ss a1
    | r => r

end

/-- The first pass of `analyze`: every top-level `FunctionDeclStmt` is declared. -/
def declareFunctions : List Stmt → SemanticAnalyzer → SemanticAnalyzer
  | [], a => a
  | Stmt.FunctionDecl name _ returnType _ :: rest, a =>
    declareFunctions rest (a.declareVariable name returnType true)
  | _ :: rest, a => declareFunctions rest a

/-- The method `SemanticAnalyzer::analyze`. An exception of the second pass or of the
type checker leaves `analyze` before the errors of the type checker are appended. -/
def analyze (a : SemanticAnalyzer) (program : Program) : Visit SemanticAnalyzer :=
  match visitStmts program (declareFunctions program a) with
  | Visit.returned a1 =>
    match a1.typeChecker.check program with
    | Visit.returned tc =>
      Visit.returned { a1 with typeChecker := tc, errors := a1.errors ++ tc.errors }
    | Visit.thrown tc => Visit.thrown { a1 with typeChecker := tc }
    | Visit.fault => Visit.fault
  | r => r

def hasErrors (a : SemanticAnalyzer) : Bool :=
  !a.errors.isEmpty

end SemanticAnalyzer

/-! ## Runtime values and environments (`Environment.cpp`) -/

/-- The runtime `Value`: `std::variant<int, float, bool, std::string, nullptr_t,
FunctionObject>`. A function holds its parameters, its body and the index of the
environment it was declared in (`closure`). -/
inductive Value where
  | int (i : Int)
  | float (q : ℚ)
  | bool (b : Bool)
  | str (s : String)
  | null
  | function (parameters : List (String × TokenType)) (returnType : TokenType)
      (body : Stmt) (closure : Nat)
  deriving Repr, Inhabited

namespace Value

/-- The conversion of the value of a `LiteralExpr` to a runtime value. -/
def ofLit : LitValue → Value
  | LitValue.int i => Value.int i
  | LitValue.float q => Value.float q
  | LitValue.bool b => Value.bool b
  | LitValue.str s => Value.str s

def isInt : Value → Bool
  | Value.int _ => true
  | _ => false

def isFloat : Value → Bool
  | Value.float _ => true
  | _ => false

def isString : Value → Bool
  | Value.str _ => true
  | _ => false

def isNull : Value → Bool
  | Value.null => true
  | _ => false

def isFunction : Value → Bool
  | Value.function _ _ _ _ => true
  | _ => false

end Value

/-- An `Environment`: the map `values` (an association list with at most one entry per
name) and the heap index of `parent`. -/
structure Environment where
  values : List (String × Value)
  parent : Option Nat
  deriving Repr, Inhabited

/-- The text of `std::to_string(float)`, which is `printf("%f")`: six digits after the
point, the exact value rounded to nearest, ties to even. -/
def floatToString (q : ℚ) : String :=
  let scaled : ℚ := (if q < 0 then -q else q) * 1000000
  let fl : Int := Rat.floor scaled
  let frac : ℚ := scaled - (fl : ℚ)
  let r : Int :=
    if frac < 1 / 2 then fl
    else if 1 / 2 < frac then fl + 1
    else if fl % 2 = 0 then fl else fl + 1
  let n : Nat := r.toNat
  let digits : String := Nat.repr (n % 1000000)
  (if q < 0 then "-" else "") ++ Nat.repr (n / 1000000) ++ "." ++
    String.mk (List.replicate (6 - digits.length) '0') ++ digits

namespace Environment

/-- The assignment `values[name] = value` on the map. -/
def setValue (values : List (String × Value)) (name : String) (value : Value) :
    List (String × Value) :=
  match values.lookup name with
  | some _ => values.map (fun e => if e.1 = name then (e.1, value) else e)
  | none => values ++ [(name, value)]

/-- Replace the environment stored at index `env`. -/
def updateAt : List Environment → Nat → (Environment → Environment) → List Environment
  | [], _, _ => []
  | e :: rest, 0, f => f e :: rest
  | e :: rest, n + 1, f => e :: updateAt rest n f

/-- The method `define`, on the environment at index `env`. -/
def define (heap : List Environment) (env : Nat) (name : String) (value : Value) :
    List Environment :=
  updateAt heap env (fun e => { e with values := setValue e.values name value })

/-- The method `assign` with a bound on the length of the walk; `Except.error` is the
`std::runtime_error` it throws. -/
def assignAux (heap : List Environment) : Nat → Nat → String → Value →
    Except String (List Environment)
  | 0, _, name, _ => Except.error ("Undefined variable '" ++ name ++ "'")
  | n + 1, env, name, value =>
    match heap.get? env with
    | none => Except.error ("Undefined variable '" ++ name ++ "'")
    | some e =>
      match e.values.lookup name with
      | some _ => Except.ok (define heap env name value)
      | none =>
        match e.parent with
        | some parent => assignAux heap n parent name value
        | none => Except.error ("Undefined variable '" ++ name ++ "'")

/-- The method `assign`. A chain of parents visits every environment at most once, so
`heap.length` steps are enough. -/
def assign (heap : List Environment) (env : Nat) (name : String) (value : Value) :
    Except String (List Environment) :=
  assignAux heap heap.length env name value

/-- The method `get` with a bound on the length of the walk. -/
def getAux (heap : List Environment) : Nat → Nat → String → Except String Value
  | 0, _, name => Except.error ("Undefined variable '" ++ name ++ "'")
  | n + 1, env, name =>
    match heap.get? env with
    | none => Except.error ("Undefined variable '" ++ name ++ "'")
    | some e =>
      match e.values.lookup name with
      | some value => Except.ok value
      | none =>
        match e.parent with
        | some parent => getAux heap n parent name
        | none => Except.error ("Undefined variable '" ++ name ++ "'")

/-- The method `get`. -/
def get (heap : List Environment) (env : Nat) (name : String) : Except String Value :=
  getAux heap heap.length env name

/-- The method `exists` with a bound on the length of the walk. -/
def existsAux (heap : List Environment) : Nat → Nat → String → Bool
  | 0, _, _ => false
  | n + 1, env, name =>
    match heap.get? env with
    | none => false
    | some e =>
      match e.values.lookup name with
      | some _ => true
      | none =>
        match e.parent with
        | some parent => existsAux heap n parent name
        | none => false

/-- The method `exists` (a reserved word here, hence the longer name). -/
def existsName (heap : List Environment) (env : Nat) (name : String) : Bool :=
  existsAux heap heap.length env name

def isTruthy : Value → Bool
  | Value.null => false
  | Value.bool b => b
  | Value.int i => decide (i ≠ 0)
  | Value.float q => decide (q ≠ 0)
  | Value.str s => !s.isEmpty
  | Value.function _ _ _ _ => true

def isEqual : Value → Value → Bool
  | Value.null, Value.null => true
  | Value.null, _ => false
  | _, Value.null => false
  | Value.int a, Value.int b => decide (a = b)
  | Value.float a, Value.float b => decide (a = b)
  | Value.bool a, Value.bool b => decide (a = b)
  | Value.str a, Value.str b => decide (a = b)
  | Value.int a, Value.float b => decide ((a : ℚ) = b)
  | Value.float a, Value.int b => decide (a = (b : ℚ))
  | _, _ => false

def valueToString : Value → String
  | Value.null => "null"
  | Value.int i => intToString i
  | Value.float q => floatToString q
  | Value.bool b => if b then "true" else "false"
  | Value.str s => s
  | Value.function _ _ _ _ => "unknown"

end Environment

/-! ## Interpreter (`Interpreter.cpp`) -/

/-- The state of an `Interpreter`: the environments created so far (`heap`), the members
of the class, and the text written to `std::cout`. -/
structure Interpreter where
  heap : List Environment
  globalEnv : Nat
  currentEnv : Nat
  errors : List Error
  returnValue : Value
  hasReturn : Bool
  output : String
  deriving Repr, Inhabited

/-- Outcome of a visitor: a value with the new state, no more fuel, or the end of the
process (`fault`): the dereference of a null `ExprPtr`/`StmtPtr`, or the divide error of
`INT_MIN % -1`. Every `std::runtime_error` is caught inside the visitor that raises it,
so no outcome for an escaping exception is needed. -/
inductive Exec (α : Type) where
  | done (a : α) (s : Interpreter)
  | outOfFuel
  | fault
  deriving Repr, Inhabited

def Exec.bind {α β : Type} (r : Exec α) (f : α → Interpreter → Exec β) : Exec β :=
  match r with
  | Exec.done a s => f a s
  | Exec.outOfFuel => Exec.outOfFuel
  | Exec.fault => Exec.fault

namespace Interpreter

/-- The constructor: a global environment without parent; `defineNativeFunctions`
registers nothing. A default-constructed `Value` holds the `int` 0. -/
def new : Interpreter :=
  { heap := [{ values := [], parent := none }], globalEnv := 0, currentEnv := 0,
    errors := [], returnValue := Value.int 0, hasReturn := false, output := "" }

def toFloat : Value → Except String ℚ
  | Value.float q => Except.ok q
  | Value.int i => Except.ok (i : ℚ)
  | Value.bool b => Except.ok (if b then 1 else 0)
  | _ => Except.error "Cannot convert to float"

def toBool (value : Value) : Bool :=
  Environment.isTruthy value

/-- The helper `Interpreter::toString`. -/
def valueText (value : Value) : String :=
  Environment.valueToString value

/-- The test `(holds<int>(v) || holds<float>(v))`. -/
def isNumeric (value : Value) : Bool :=
  value.isInt || value.isFloat

/-- Apply a float operation to the widened operands. -/
def floatOp (f : ℚ → ℚ → ℚ) (left right : Value) : Except String Value :=
  match toFloat left, toFloat right with
  | Except.ok l, Except.ok r => Except.ok (Value.float (f l r))
  | Except.error e, _ => Except.error e
  | _, Except.error e => Except.error e

def add (left right : Value) : Except String Value :=
  match left, right with
  | Value.int a, Value.int b => Except.ok (Value.int (wrap32 (a + b)))
  | _, _ =>
    if isNumeric left && isNumeric right then floatOp (fun l r => l + r) left right
    else if left.isString || right.isString then
      Except.ok (Value.str (valueText left ++ valueText right))
    else Except.error "Invalid operands for addition"

def subtract (left right : Value) : Except String Value :=
  match left, right with
  | Value.int a, Value.int b => Except.ok (Value.int (wrap32 (a - b)))
  | _, _ =>
    if isNumeric left && isNumeric right then floatOp (fun l r => l - r) left right
    else Except.error "Invalid operands for subtraction"

def multiply (left right : Value) : Except String Value :=
  match left, right with
  | Value.int a, Value.int b => Except.ok (Value.int (wrap32 (a * b)))
  | _, _ =>
    if isNumeric left && isNumeric right then floatOp (fun l r => l * r) left right
    else Except.error "Invalid operands for multiplication"

def divide (left right : Value) : Except String Value :=
  if isNumeric left && isNumeric right then
    match toFloat right with
    | Except.error e => Except.error e
    | Except.ok divisor =>
      if divisor = 0 then Except.error "Division by zero"
      else
        match toFloat left with
        | Except.error e => Except.error e
        | Except.ok l => Except.ok (Value.float (l / divisor))
  else Except.error "Invalid operands for division"

def modulo (left right : Value) : Except String Value :=
  match left, right with
  | Value.int a, Value.int divisor =>
    if divisor = 0 then Except.error "Modulo by zero"
    else Except.ok (Value.int (wrap32 (Int.tmod a divisor)))
  | _, _ => Except.error "Invalid operands for modulo"

/-- The one pair of Integers on which `std::get<int>(left) % divisor` has no value: the
quotient of `INT_MIN` by `-1` is not an `int`, so the C++ expression is undefined there,
and the division instruction raises a divide error, which ends the process. Where the
machine instruction wraps (`+`, `-`, `*`, negation) the model wraps instead. -/
def moduloTraps (op : TokenType) (left right : Value) : Bool :=
  if op = TokenType.MODULO then
    match left, right with
    | Value.int a, Value.int divisor => decide (a = INT_MIN) && decide (divisor = -1)
    | _, _ => false
  else false

def equal (left right : Value) : Bool :=
  Environment.isEqual left right

def notEqual (left right : Value) : Bool :=
  !equal left right

def less (left right : Value) : Except String Bool :=
  match left, right with
  | Value.int a, Value.int b => Except.ok (decide (a < b))
  | _, _ =>
    if isNumeric left && isNumeric right then
      match toFloat left, toFloat right with
      | Except.ok l, Except.ok r => Except.ok (decide (l < r))
      | Except.error e, _ => Except.error e
      | _, Except.error e => Except.error e
    else
      match left, right with
      | Value.str a, Value.str b => Except.ok (decide (a < b))
      | _, _ => Except.error "Invalid operands for comparison"

def greater (left right : Value) : Except String Bool :=
  less right left

def lessEqual (left right : Value) : Except String Bool :=
  match less left right with
  | Except.error e => Except.error e
  | Except.ok b => Except.ok (b || equal left right)

def greaterEqual (left right : Value) : Except String Bool :=
  match greater left right with
  | Except.error e => Except.error e
  | Except.ok b => Except.ok (b || equal left right)

def logicalAnd (left right : Value) : Value :=
  Value.bool (toBool left && toBool right)

def logicalOr (left right : Value) : Value :=
  Value.bool (toBool left || toBool right)

def logicalNot (value : Value) : Value :=
  Value.bool (!toBool value)

def runtimeError (s : Interpreter) (token : Token) (message : String) : Interpreter :=
  { s with errors := s.errors ++
      [{ type := ErrorType.RUNTIME, message := message, line := token.line,
         column := token.column, stage := "Interpreter" }] }

/-- Lift a `bool` result to a `Value`. -/
def boolResult (r : Except String Bool) : Except String Value :=
  match r with
  | Except.ok b => Except.ok (Value.bool b)
  | Except.error e => Except.error e

/-- The `switch` of `visitBinaryExpr`; `none` is the `default:` branch. -/
def applyBinary (op : TokenType) (left right : Value) : Option (Except String Value) :=
  match op with
  | TokenType.PLUS => some (add left right)
  | TokenType.MINUS => some (subtract left right)
  | TokenType.MULTIPLY => some (multiply left right)
  | TokenType.DIVIDE => some (divide left right)
  | TokenType.MODULO => some (modulo left right)
  | TokenType.EQUAL => some (Except.ok (Value.bool (equal left right)))
  | TokenType.NOT_EQUAL => some (Except.ok (Value.bool (notEqual left right)))
  | TokenType.LESS => some (boolResult (less left right))
  | TokenType.GREATER => some (boolResult (greater left right))
  | TokenType.LESS_EQUAL => some (boolResult (lessEqual left right))
  | TokenType.GREATER_EQUAL => some (boolResult (greaterEqual left right))
  | TokenType.AND => some (Except.ok (logicalAnd left right))
  | TokenType.OR => some (Except.ok (logicalOr left right))
  | _ => none

/-- The `try` block of `visitBinaryExpr` with its `catch`, after both operands have
been evaluated. -/
def finishBinary (s : Interpreter) (op : Token) (left right : Value) : Value × Interpreter :=
  match applyBinary op.type left right with
  | some (Except.ok v) => (v, s)
  | some (Except.error e) => (Value.null, s.runtimeError op e)
  | none => (Value.null, s.runtimeError op "Unknown binary operator")

/-- The `switch` of `visitUnaryExpr`; `none` is the `default:` branch. -/
def applyUnary (op : TokenType) (right : Value) : Option (Except String Value) :=
  match op with
  | TokenType.MINUS =>
    match right with
    | Value.int i => some (Except.ok (Value.int (wrap32 (-i))))
    | Value.float q => some (Except.ok (Value.float (-q)))
    | _ => some (Except.error "Invalid operand for negation")
  | TokenType.NOT => some (Except.ok (logicalNot right))
  | _ => none

/-- The `try` block of `visitUnaryExpr` with its `catch`, after the operand has been
evaluated. -/
def finishUnary (s : Interpreter) (op : Token) (right : Value) : Value × Interpreter :=
  match applyUnary op.type right with
  | some (Except.ok v) => (v, s)
  | some (Except.error e) => (Value.null, s.runtimeError op e)
  | none => (Value.null, s.runtimeError op "Unknown unary operator")

/-- The loop of `visitCallExpr` that binds the arguments to the parameter names. -/
def bindParameters : List (String × TokenType) → List Value → List (String × Value) →
    List (String × Value)
  | p :: ps, v :: vs, values => bindParameters ps vs (Environment.setValue values p.1 v)
  | _, _, values => values

/-- The step `std::make_shared<Environment>(parent)`: the new environment is stored at
the end of the heap; its index is the old length. -/
def newEnvironment (s : Interpreter) (values : List (String × Value)) (parent : Nat) :
    Interpreter :=
  { s with heap := s.heap ++ [{ values := values, parent := some parent }] }

mutual

/-- The method `evaluate`, that is `expr->accept(*this)` with the expression visitors. -/
def evaluate : Nat → Interpreter → Expr → Exec Value
  | 0, _, _ => Exec.outOfFuel
  | n + 1, s, expr =>
    match expr with
    | Expr.null => Exec.fault
    | Expr.Literal value => Exec.done (Value.ofLit value) s
    | Expr.Variable name =>
      match Environment.get s.heap s.currentEnv name.lexeme with
      | Except.ok value => Exec.done value s
      | Except.error e => Exec.done Value.null (s.runtimeError name e)
    | Expr.Binary left op right =>
      (evaluate n s left).bind fun l s =>
      (evaluate n s right).bind fun r s =>
      if moduloTraps op.type l r then Exec.fault
      else Exec.done (finishBinary s op l r).1 (finishBinary s op l r).2
    | Expr.Unary op right =>
      (evaluate n s right).bind fun r s =>
      Exec.done (finishUnary s op r).1 (finishUnary s op r).2
    | Expr.Call callee arguments =>
      match Environment.get s.heap s.currentEnv callee.lexeme with
      | Except.error e => Exec.done Value.null (s.runtimeError callee e)
      | Except.ok calleeValue =>
        (evaluateArguments n s arguments []).bind fun args s =>
        match calleeValue with
        | Value.function parameters _ body closure =>
          if args.length ≠ parameters.length then
            Exec.done Value.null (s.runtimeError callee
              ("Expected " ++ Nat.repr parameters.length ++ " arguments but got " ++
                Nat.repr args.length))
          else
            let env := s.heap.length
            let s1 := s.newEnvironment (bindParameters parameters args []) closure
            let previousEnv := s1.currentEnv
            let s2 := { s1 with currentEnv := env, hasReturn := false }
            (match body with
             | Stmt.Block statements => executeBlock n s2 statements env
             | _ => Exec.done () s2).bind fun _ s3 =>
            let s4 := { s3 with currentEnv := previousEnv }
            if s4.hasReturn then Exec.done s4.returnValue s4 else Exec.done Value.null s4
        | _ => Exec.done Value.null (s.runtimeError callee "Can only call functions")
    | Expr.Assignment name value =>
      (evaluate n s value).bind fun v s =>
      match Environment.assign s.heap s.currentEnv name.lexeme v with
      | Except.ok heap => Exec.done v { s with heap := heap }
      | Except.error e => Exec.done v (s.runtimeError name e)

/-- The loop of `visitCallExpr` that evaluates the arguments. -/
def evaluateArguments : Nat → Interpreter → List Expr → List Value → Exec (List Value)
  | 0, _, _, _ => Exec.outOfFuel
  | n + 1, s, exprs, values =>
    match exprs with
    | [] => Exec.done values s
    | arg :: rest =>
      (evaluate n s arg).bind fun v s => evaluateArguments n s rest (values ++ [v])

/-- The method `execute`, that is `stmt->accept(*this)` with the statement visitors. -/
def execute : Nat → Interpreter → Stmt → Exec Unit
  | 0, _, _ => Exec.outOfFuel
  | n + 1, s, stmt =>
    match stmt with
    | Stmt.null => Exec.fault
    | Stmt.Print expressions =>
      (printValues n s expressions).bind fun _ s =>
      Exec.done () { s with output := s.output ++ "\n" }
    | Stmt.VariableDecl name initializer =>
      (if initializer.isNull then Exec.done Value.null s
       else evaluate n s initializer).bind fun value s =>
      Exec.done () { s with heap := Environment.define s.heap s.currentEnv name.lexeme value }
    | Stmt.Expression expression =>
      (evaluate n s expression).bind fun _ s => Exec.done () s
    | Stmt.Block statements =>
      executeBlock n (s.newEnvironment [] s.currentEnv) statements s.heap.length
    | Stmt.If condition thenBranch elseBranch =>
      (evaluate n s condition).bind fun c s =>
      if toBool c then execute n s thenBranch
      else if !elseBranch.isNull then execute n s elseBranch
      else Exec.done () s
    | Stmt.While condition body => whileLoop n s condition body
    | Stmt.FunctionDecl name parameters returnType body =>
      let func := Value.function (parameters.map fun p => (p.1.lexeme, p.2)) returnType body
        s.currentEnv
      Exec.done () { s with heap := Environment.define s.heap s.currentEnv name.lexeme func }
    | Stmt.Return _ value =>
      (if value.isNull then Exec.done Value.null s else evaluate n s value).bind fun v s =>
      Exec.done () { s with returnValue := v, hasReturn := true }

/-- The loop of `visitPrintStmt`. -/
def printValues : Nat → Interpreter → List Expr → Exec Unit
  | 0, _, _ => Exec.outOfFuel
  | n + 1, s, exprs =>
    match exprs with
    | [] => Exec.done () s
    | expr :: rest =>
      (evaluate n s expr).bind fun value s =>
      printValues n
        { s with output := s.output ++ valueText value ++ (if rest.isEmpty then "" else " ") }
        rest

/-- The loop of `visitWhileStmt`. -/
def whileLoop : Nat → Interpreter → Expr → Stmt → Exec Unit
  | 0, _, _, _ => Exec.outOfFuel
  | n + 1, s, condition, body =>
    (evaluate n s condition).bind fun c s =>
    if toBool c then (execute n s body).bind fun _ s => whileLoop n s condition body
    else Exec.done () s

/-- The `for` loop of `executeBlock`. -/
def executeStatements : Nat → Interpreter → List Stmt → Exec Unit
  | 0, _, _ => Exec.outOfFuel
  | n + 1, s, statements =>
    match statements with
    | [] => Exec.done () s
    | stmt :: rest =>
      (execute n s stmt).bind fun _ s =>
      if s.hasReturn then Exec.done () s else executeStatements n s rest

/-- The method `executeBlock`; its `catch (...)` handler is never entered. -/
def executeBlock : Nat → Interpreter → List Stmt → Nat → Exec Unit
  | 0, _, _, _ => Exec.outOfFuel
  | n + 1, s, statements, env =>
    let previousEnv := s.currentEnv
    (executeStatements n { s with currentEnv := env } statements).bind fun _ s1 =>
    Exec.done () { s1 with currentEnv := previousEnv }

end

/-- The loop of `interpret`; each top-level statement gets the whole fuel. -/
def interpretLoop (fuel : Nat) : Interpreter → List Stmt → Exec Unit
  | s, [] => Exec.done () s
  | s, stmt :: rest => (execute fuel s stmt).bind fun _ s1 => interpretLoop fuel s1 rest

/-- The method `interpret`; its `catch` handler is never entered. -/
def interpret (fuel : Nat) (s : Interpreter) (program : Program) : Exec Unit :=
  interpretLoop fuel s program

def hasErrors (s : Interpreter) : Bool :=
  !s.errors.isEmpty

end Interpreter

/-! ## Observations used to state and check results -/

mutual

/-- Structural equality test on expressions. -/
def Expr.beq : Expr → Expr → Bool
  | Expr.null, Expr.null => true
  | Expr.Literal a, Expr.Literal b => decide (a = b)
  | Expr.Variable a, Expr.Variable b => decide (a = b)
  | Expr.Binary l o r, Expr.Binary l1 o1 r1 => Expr.beq l l1 && decide (o = o1) && Expr.beq r r1
  | Expr.Unary o r, Expr.Unary o1 r1 => decide (o = o1) && Expr.beq r r1
  | Expr.Call c as, Expr.Call c1 as1 => decide (c = c1) && Expr.beqList as as1
  | Expr.Assignment n v, Expr.Assignment n1 v1 => decide (n = n1) && Expr.beq v v1
  | _, _ => false

def Expr.beqList : List Expr → List Expr → Bool
  | [], [] => true
  | a :: as, b :: bs => Expr.beq a b && Expr.beqList as bs
  | _, _ => false

end

mutual

/-- Structural equality test on statements. -/
def Stmt.beq : Stmt → Stmt → Bool
  | Stmt.null, Stmt.null => true
  | Stmt.Print es, Stmt.Print es1 => Expr.beqList es es1
  | Stmt.VariableDecl n e, Stmt.VariableDecl n1 e1 => decide (n = n1) && Expr.beq e e1
  | Stmt.Expression e, Stmt.Expression e1 => Expr.beq e e1
  | Stmt.Block ss, Stmt.Block ss1 => Stmt.beqList ss ss1
  | Stmt.If c t e, Stmt.If c1 t1 e1 => Expr.beq c c1 && Stmt.beq t t1 && Stmt.beq e e1
  | Stmt.While c b, Stmt.While c1 b1 => Expr.beq c c1 && Stmt.beq b b1
  | Stmt.FunctionDecl n ps rt b, Stmt.FunctionDecl n1 ps1 rt1 b1 =>
    decide (n = n1) && decide (ps = ps1) && decide (rt = rt1) && Stmt.beq b b1
  | Stmt.Return k v, Stmt.Return k1 v1 => decide (k = k1) && Expr.beq v v1
  | _, _ => false

def Stmt.beqList : List Stmt → List Stmt → Bool
  | [], [] => true
  | a :: as, b :: bs => Stmt.beq a b && Stmt.beqList as bs
  | _, _ => false

end

/-- Structural equality test on runtime values. -/
def Value.beq : Value → Value → Bool
  | Value.int a, Value.int b => decide (a = b)
  | Value.float a, Value.float b => decide (a = b)
  | Value.bool a, Value.bool b => decide (a = b)
  | Value.str a, Value.str b => decide (a = b)
  | Value.null, Value.null => true
  | Value.function ps rt b c, Value.function ps1 rt1 b1 c1 =>
    decide (ps = ps1) && decide (rt = rt1) && Stmt.beq b b1 && decide (c = c1)
  | _, _ => false

/-- A token of line 1 without payload, for writing syntax trees down. -/
def tok (type : TokenType) (lexeme : String) (column : Int) : Token :=
  { type := type, lexeme := lexeme, value := LitValue.int 0, line := 1, column := column }

namespace PResult

def isOk {α : Type} : PResult α → Bool
  | PResult.ok _ _ => true
  | _ => false

/-- The parser state of an `ok` result (the given state otherwise). -/
def parserD {α : Type} (r : PResult α) (d : Parser) : Parser :=
  match r with
  | PResult.ok _ p => p
  | _ => d

/-- The value of an `ok` result (the given value otherwise). -/
def valueD {α : Type} (r : PResult α) (d : α) : α :=
  match r with
  | PResult.ok a _ => a
  | _ => d

/-- `r` is out of fuel or already the result `r1`. -/
def le {α : Type} (r r1 : PResult α) : Prop :=
  r = PResult.outOfFuel ∨ r = r1

end PResult

namespace Exec

def isDone {α : Type} : Exec α → Bool
  | Exec.done _ _ => true
  | _ => false

/-- The state of a `done` result (the given state otherwise). -/
def stateD {α : Type} (r : Exec α) (d : Interpreter) : Interpreter :=
  match r with
  | Exec.done _ s => s
  | _ => d

/-- The value of a `done` result (the given value otherwise). -/
def valueD {α : Type} (r : Exec α) (d : α) : α :=
  match r with
  | Exec.done a _ => a
  | _ => d

end Exec

/-- The messages of a list of diagnostics. -/
def messages (errors : List Error) : List String :=
  errors.map (fun e => e.message)

/-- The parser state at the start of `parse()` for a source (a state at end of input
when the constructor throws). -/
@[irreducible]
def parserFor (source : String) : Parser :=
  (Parser.new (Lexer.new source)).getD
    { lexer := Lexer.new "", current := tok TokenType.END_OF_FILE "" 1,
      previous := tok TokenType.END_OF_FILE "" 1, errors := [] }

/-- The program returned by `parse()`, when it returns. -/
@[irreducible]
def parsedProgram (fuel : Nat) (source : String) : Program :=
  ((parserFor source).parse fuel).valueD []

/-- The diagnostics of the parser after `parse()`, when it returns. -/
@[irreducible]
def syntaxErrors (fuel : Nat) (source : String) : List Error :=
  (((parserFor source).parse fuel).parserD (parserFor source)).errors

/-- The state of the interpreter after `interpret(program)`, when it returns. -/
@[irreducible]
def stateAfter (fuel : Nat) (program : Program) : Interpreter :=
  (Interpreter.interpret fuel Interpreter.new program).stateD Interpreter.new

/-- Whether a lookup gives the value `v`. -/
def holds (r : Except String Value) (v : Value) : Bool :=
  match r with
  | Except.ok v1 => v1.beq v
  | Except.error _ => false

/-- The token kinds on which `parseStatement` consumes nothing: no `match` or `consume`
on the way from `parseStatement` to `parsePrimary` accepts them. -/
def stuckToken : TokenType → Bool
  | TokenType.ELSE | TokenType.FOR | TokenType.END | TokenType.THEN | TokenType.DO
  | TokenType.INT_TYPE | TokenType.FLOAT_TYPE | TokenType.BOOL_TYPE | TokenType.STRING_TYPE
  | TokenType.VOID_TYPE | TokenType.AND | TokenType.OR | TokenType.RIGHT_PAREN
  | TokenType.LEFT_BRACE | TokenType.RIGHT_BRACE | TokenType.COMMA | TokenType.COLON
  | TokenType.SEMICOLON | TokenType.ERROR | TokenType.PRINT | TokenType.INPUT => true
  | _ => false

namespace Parser

/-- One more unit of fuel changes no result of the parsing methods. -/
def FuelStep (n : Nat) : Prop :=
  (∀ p, PResult.le (parseStatement n p) (parseStatement (n + 1) p)) ∧
  (∀ p es, PResult.le (parsePrintArguments n p es) (parsePrintArguments (n + 1) p es)) ∧
  (∀ p, PResult.le (parsePrintStatement n p) (parsePrintStatement (n + 1) p)) ∧
  (∀ p, PResult.le (parseVariableDeclaration n p) (parseVariableDeclaration (n + 1) p)) ∧
  (∀ p, PResult.le (parseIfStatement n p) (parseIfStatement (n + 1) p)) ∧
  (∀ p, PResult.le (parseWhileStatement n p) (parseWhileStatement (n + 1) p)) ∧
  (∀ p ss, PResult.le (parseBlockStatements n p ss) (parseBlockStatements (n + 1) p ss)) ∧
  (∀ p, PResult.le (parseBlock n p) (parseBlock (n + 1) p)) ∧
  (∀ p ps, PResult.le (parseParameters n p ps) (parseParameters (n + 1) p ps)) ∧
  (∀ p, PResult.le (parseFunctionDeclaration n p) (parseFunctionDeclaration (n + 1) p)) ∧
  (∀ p, PResult.le (parseReturnStatement n p) (parseReturnStatement (n + 1) p)) ∧
  (∀ p, PResult.le (parseExpressionStatement n p) (parseExpressionStatement (n + 1) p)) ∧
  (∀ p, PResult.le (parseExpression n p) (parseExpression (n + 1) p)) ∧
  (∀ p, PResult.le (parseAssignment n p) (parseAssignment (n + 1) p)) ∧
  (∀ p e, PResult.le (parseEqualityLoop n p e) (parseEqualityLoop (n + 1) p e)) ∧
  (∀ p, PResult.le (parseEquality n p) (parseEquality (n + 1) p)) ∧
  (∀ p e, PResult.le (parseComparisonLoop n p e) (parseComparisonLoop (n + 1) p e)) ∧
  (∀ p, PResult.le (parseComparison n p) (parseComparison (n + 1) p)) ∧
  (∀ p e, PResult.le (parseTermLoop n p e) (parseTermLoop (n + 1) p e)) ∧
  (∀ p, PResult.le (parseTerm n p) (parseTerm (n + 1) p)) ∧
  (∀ p e, PResult.le (parseFactorLoop n p e) (parseFactorLoop (n + 1) p e)) ∧
  (∀ p, PResult.le (parseFactor n p) (parseFactor (n + 1) p)) ∧
  (∀ p, PResult.le (parseUnary n p) (parseUnary (n + 1) p)) ∧
  (∀ p e, PResult.le (parseCallLoop n p e) (parseCallLoop (n + 1) p e)) ∧
  (∀ p, PResult.le (parseCall n p) (parseCall (n + 1) p)) ∧
  (∀ p, PResult.le (parsePrimary n p) (parsePrimary (n + 1) p)) ∧
  (∀ p es, PResult.le (parseArguments n p es) (parseArguments (n + 1) p es)) ∧
  (∀ p e, PResult.le (finishCall n p e) (finishCall (n + 1) p e))

end Parser

/-! ## Programs of the scenarios -/

def intLit (i : Int) : Expr :=
  Expr.Literal (LitValue.int i)

def ident (name : String) (column : Int) : Token :=
  tok TokenType.IDENTIFIER name column

def var (name : String) (column : Int) : Expr :=
  Expr.Variable (ident name column)

/-- The source of the complex-expression scenario (interpreter test 5). -/
def c2Source : String :=
  "let x = 10; let y = 20; let z = (x + y) * 3 - 15 / 5; print(z);"

/-- What the parser returns for `c2Source`: `print(z);` is an expression statement that
calls the name `print`. -/
def c2Program : Program :=
  [ Stmt.VariableDecl (ident "x" 5) (intLit 10),
    Stmt.VariableDecl (ident "y" 17) (intLit 20),
    Stmt.VariableDecl (ident "z" 29)
      (Expr.Binary
        (Expr.Binary (Expr.Binary (var "x" 34) (tok TokenType.PLUS "+" 36) (var "y" 38))
          (tok TokenType.MULTIPLY "*" 41) (intLit 3))
        (tok TokenType.MINUS "-" 45)
        (Expr.Binary (intLit 15) (tok TokenType.DIVIDE "/" 50) (intLit 5))),
    Stmt.Expression (Expr.Call (ident "print" 55) [var "z" 61]) ]

/-- The source of the while scenario: two statements between `do` and `end`. -/
def c3Source : String :=
  "let i = 1; while (i <= 3) do print(i); i = i + 1; end;"

/-- The source of interpreter test 3: no parentheses around the condition, two
statements between `do` and `end`. -/
def c3TestSource : String :=
  "let i = 1; while i <= 3 do print(i); let i = i + 1; end"

/-- The source of the shadowing scenario. -/
def c4Source : String :=
  "let x = 1; { let x = 2; print(x); } print(x);"

/-- The tree of the shadowing scenario, with `Block` and `Print` nodes. -/
def c4Tree : Program :=
  [ Stmt.VariableDecl (ident "x" 5) (intLit 1),
    Stmt.Block [ Stmt.VariableDecl (ident "x" 18) (intLit 2), Stmt.Print [var "x" 31] ],
    Stmt.Print [var "x" 43] ]

/-- Two functions; `g` calls `f`, has a further statement and returns 2. -/
def c5Source : String :=
  "function f(): int { return 1; } function g(): int { let a = f(); let b = 5; return 2; } let r = g();"

/-- A function whose body is a loop that returns at once. -/
def c6Source : String :=
  "function f() { while (true) do return 1; end; }"

/-- A function returns an inner function, which has a parameter and reads `x` of the
outer call; the global scope binds another `x` afterwards, and a second function has a
parameter of the name `x`. -/
def c7Source : String :=
  "function mk(): int { let x = 5; function inner(p: int): int { return x; } return inner; } let h = mk(); let x = 7; function same(x: int): int { return x; }"

/-- The state after running `c7Source`. -/
@[irreducible]
def c7State : Interpreter :=
  stateAfter 200 (parsedProgram 200 c7Source)

/-- The declaration of the recursion scenario. -/
def c8Source : String :=
  "function fact(n: int): int { if (n <= 1) then return 1; end; return n * fact(n - 1); }"

/-- The state after executing the declaration of `fact`. -/
@[irreducible]
def c8State : Interpreter :=
  stateAfter 200 (parsedProgram 200 c8Source)

/-- The body of `fact` as the parser builds it. -/
def c8Body : Stmt :=
  Stmt.Block
    [ Stmt.If (Expr.Binary (var "n" 34) (tok TokenType.LESS_EQUAL "<=" 36) (intLit 1))
        (Stmt.Return (tok TokenType.RETURN "return" 47) (intLit 1)) Stmt.null,
      Stmt.Return (tok TokenType.RETURN "return" 62)
        (Expr.Binary (var "n" 69) (tok TokenType.MULTIPLY "*" 71)
          (Expr.Call (ident "fact" 73)
            [Expr.Binary (var "n" 78) (tok TokenType.MINUS "-" 80) (intLit 1)])) ]

/-- The call `fact(n)` with a literal argument. -/
def factCall (n : Int) : Expr :=
  Expr.Call (ident "fact" 1) [intLit n]

/-- Every parent index of the heap is an index of the heap. -/
def heapClosed (heap : List Environment) : Bool :=
  heap.all (fun e =>
    match e.parent with
    | some q => decide (q < heap.length)
    | none => true)

/-! ## Scenarios and observations for the interpreter's operators, environments and calls -/

/-- The visitor ended the process. -/
def Exec.isFault {α : Type} : Exec α → Bool
  | Exec.fault => true
  | _ => false

/-- The alternative a `Value` holds, as `std::variant::index` numbers them. -/
def Value.index : Value → Nat
  | Value.int _ => 0
  | Value.float _ => 1
  | Value.bool _ => 2
  | Value.str _ => 3
  | Value.null => 4
  | Value.function _ _ _ _ => 5

def strLit (s : String) : Expr := Expr.Literal (LitValue.str s)

def boolLit (b : Bool) : Expr := Expr.Literal (LitValue.bool b)

/-- The first statement binds `a` to the least `int`; the second divides it by `-1`. -/
def c11Source : String := "let a = -2147483647 - 1; let b = a % -1;"

namespace Environment

/-- The binding of `name` in the map of the environment at index `env` itself. -/
def binding (heap : List Environment) (env : Nat) (name : String) : Option Value :=
  match heap.get? env with
  | some e => e.values.lookup name
  | none => none

/-- The parent of the environment at index `env`. -/
def parentOf (heap : List Environment) (env : Nat) : Option Nat :=
  match heap.get? env with
  | some e => e.parent
  | none => none

/-- The nearest environment on the chain from `env` whose own map binds `name`: the
walk that `get`, `assign` and `exists` make, with the same bound on its length. -/
def resolveAux (heap : List Environment) : Nat → Nat → String → Option Nat
  | 0, _, _ => none
  | n + 1, env, name =>
    match heap.get? env with
    | none => none
    | some e =>
      match e.values.lookup name with
      | some _ => some env
      | none =>
        match e.parent with
        | some parent => resolveAux heap n parent name
        | none => none

def resolve (heap : List Environment) (env : Nat) (name : String) : Option Nat :=
  resolveAux heap heap.length env name

end Environment

/-- Two environments: the global one binds `x` and `y`, its child binds `y` again. -/
def c14Heap : List Environment :=
  [{ values := [("x", Value.int 1), ("y", Value.int 2)], parent := none },
   { values := [("y", Value.int 3)], parent := some 0 }]

/-- An interpreter whose current environment is the child of `c14Heap`. -/
def c14State : Interpreter := { Interpreter.new with heap := c14Heap, currentEnv := 1 }

/-- The value of a function `f(n)` whose body is `return 1;`, closed over the global
environment. -/
def c15Function : Value :=
  Value.function [("n", TokenType.INT_TYPE)] TokenType.INT_TYPE
    (Stmt.Block [Stmt.Return (tok TokenType.RETURN "return" 1) (intLit 1)]) 0

/-- A global environment that binds `f` to a function and `v` to an Integer. -/
def c15State : Interpreter :=
  { Interpreter.new with
    heap := [{ values := [("f", c15Function), ("v", Value.int 7)], parent := none }] }

def c16Source : String := "let a = 1 / 0; let b = 2;"

def c16AssignSource : String := "let a = x = 5; let b = 2;"

/-- The diagnostics `es` are still the first ones recorded when the visitor is done. -/
def Exec.keeps {α : Type} (es : List Error) : Exec α → Prop
  | Exec.done _ s => es <+: s.errors
  | _ => True

/-- The statements of the list are executed one after the other, each exactly once and
each from the state the one before it left, and the last one leaves the state `s1`. -/
def Interpreter.runsInOrder (fuel : Nat) : Interpreter → List Stmt → Interpreter → Prop
  | s, [], s1 => s1 = s
  | s, stmt :: rest, s1 =>
    ∃ s2, Interpreter.execute fuel s stmt = Exec.done () s2 ∧ runsInOrder fuel s2 rest s1

/-- Every visitor keeps the diagnostics recorded before it. -/
def Interpreter.KeepsErrors (n : Nat) : Prop :=
  (∀ s e es, es <+: s.errors → (Interpreter.evaluate n s e).keeps es) ∧
  (∀ s as vs es, es <+: s.errors → (Interpreter.evaluateArguments n s as vs).keeps es) ∧
  (∀ s st es, es <+: s.errors → (Interpreter.execute n s st).keeps es) ∧
  (∀ s xs es, es <+: s.errors → (Interpreter.printValues n s xs).keeps es) ∧
  (∀ s c b es, es <+: s.errors → (Interpreter.whileLoop n s c b).keeps es) ∧
  (∀ s sts es, es <+: s.errors → (Interpreter.executeStatements n s sts).keeps es) ∧
  (∀ s sts env es, es <+: s.errors → (Interpreter.executeBlock n s sts env).keeps es)

/-! ## Flat expressions and the trees they are grouped into -/

/-- Precedence tier of a binary operator: equality 0, relational 1, additive 2,
multiplicative 3; every other token has the number 4. -/
def tierOf : TokenType → Nat
  | TokenType.EQUAL | TokenType.NOT_EQUAL => 0
  | TokenType.LESS | TokenType.LESS_EQUAL | TokenType.GREATER | TokenType.GREATER_EQUAL => 1
  | TokenType.PLUS | TokenType.MINUS => 2
  | TokenType.MULTIPLY | TokenType.DIVIDE | TokenType.MODULO => 3
  | _ => 4

/-- The operators that the loop of a tier matches. -/
def tierTypes : Nat → List TokenType
  | 0 => [TokenType.EQUAL, TokenType.NOT_EQUAL]
  | 1 => [TokenType.LESS, TokenType.LESS_EQUAL, TokenType.GREATER, TokenType.GREATER_EQUAL]
  | 2 => [TokenType.PLUS, TokenType.MINUS]
  | 3 => [TokenType.MULTIPLY, TokenType.DIVIDE, TokenType.MODULO]
  | _ => []

/-- Atoms: a literal or an identifier. -/
def isAtomToken (t : Token) : Bool :=
  match t.type with
  | TokenType.INT_LITERAL | TokenType.FLOAT_LITERAL | TokenType.BOOL_LITERAL
  | TokenType.STRING_LITERAL | TokenType.IDENTIFIER => true
  | _ => false

/-- The node `parsePrimary` builds for an atom. -/
def atomExpr (t : Token) : Expr :=
  if t.type = TokenType.IDENTIFIER then Expr.Variable t else Expr.Literal t.value

/-- Tier of the operator at the root; 4 for a tree that is not a `Binary` node. -/
def Expr.rootTier : Expr → Nat
  | Expr.Binary _ op _ => tierOf op.type
  | _ => 4

/-- Grouping by tier: below an operator, the left operand has no weaker operator at its
root and the right operand has a stronger one (or none), and so in every subtree. -/
def Expr.grouped : Expr → Bool
  | Expr.Binary l op r =>
    Expr.grouped l && Expr.grouped r && decide (tierOf op.type ≤ l.rootTier) &&
      decide (tierOf op.type < r.rootTier)
  | Expr.Literal _ => true
  | Expr.Variable _ => true
  | _ => false

/-- The first operand of a tree of `Binary` nodes, and its operators from left to right,
each with the operand that follows it. -/
def Expr.flat : Expr → Expr × List (Token × Expr)
  | Expr.Binary l op r =>
    ((Expr.flat l).1, (Expr.flat l).2 ++ (op, (Expr.flat r).1) :: (Expr.flat r).2)
  | e => (e, [])

/-- The tokens of the operator/atom pairs, in order. -/
def flatTail : List (Token × Token) → List Token
  | [] => []
  | q :: qs => q.1 :: q.2 :: flatTail qs

/-- The next calls of `nextToken` return the tokens of the list, in order. -/
def Lexer.feeds : Lexer → List Token → Bool
  | _, [] => true
  | lx, t :: ts =>
    match lx.nextToken with
    | LexResult.token t1 lx1 => decide (t1 = t) && Lexer.feeds lx1 ts
    | LexResult.thrown _ => false

/-- The current token and the next tokens of the lexer are the tokens of the list. -/
def Parser.reads (p : Parser) : List Token → Bool
  | [] => true
  | t :: ts => decide (p.current = t) && p.lexer.feeds ts

/-- The parser after `k` calls of `advance`. -/
def Parser.skip : Parser → Nat → Parser
  | p, 0 => p
  | p, k + 1 =>
    match p.advance with
    | PResult.ok _ p1 => Parser.skip p1 k
    | _ => p

/-- The pairs are operators of the tiers `L` to 3, each followed by an atom. -/
def wellFormed (L : Nat) (pairs : List (Token × Token)) : Prop :=
  ∀ q ∈ pairs, isAtomToken q.2 = true ∧ L ≤ tierOf q.1.type ∧ tierOf q.1.type < 4

/-- The token does not continue an operand of tier `L`. -/
def stopsAt (L : Nat) (stop : Token) : Prop :=
  stop.type ≠ TokenType.LEFT_PAREN ∧ ¬ (L ≤ tierOf stop.type ∧ tierOf stop.type < 4)

/-- The first operator of the pairs, if there is one, is of tier `L`. -/
def leading (L : Nat) (pairs : List (Token × Token)) : Prop :=
  ∀ q ∈ pairs.head?, tierOf q.1.type = L

/-- For every sufficient fuel `f` returns `e` in the parser state `p1`. -/
def Parser.Yields (f : Nat → PResult Expr) (e : Expr) (p1 : Parser) : Prop :=
  ∃ k, ∀ n, k ≤ n → f n = PResult.ok e p1

/-- What a method that parses an operand of tier `L` does on a flat expression. -/
def Parser.SubSpec (sub : Nat → Parser → PResult Expr) (L : Nat) : Prop :=
  ∀ (p : Parser) (a0 : Token) (pairs : List (Token × Token)) (stop : Token)
    (rest : List Token),
    isAtomToken a0 = true → wellFormed L pairs → stopsAt L stop →
    p.reads (a0 :: flatTail pairs ++ stop :: rest) = true →
    ∃ e, Parser.Yields (fun n => sub n p) e (p.skip (2 * pairs.length + 1)) ∧
      e.flat = (atomExpr a0, pairs.map fun q => (q.1, atomExpr q.2)) ∧
      e.grouped = true ∧ L ≤ e.rootTier

/-- What the loop of tier `L` does on the rest of a flat expression. -/
def Parser.LoopSpec (loop : Nat → Parser → Expr → PResult Expr) (L : Nat) : Prop :=
  ∀ (pairs : List (Token × Token)) (p : Parser) (e0 : Expr) (stop : Token)
    (rest : List Token),
    wellFormed L pairs → leading L pairs → stopsAt L stop →
    p.reads (flatTail pairs ++ stop :: rest) = true →
    e0.grouped = true → L ≤ e0.rootTier →
    ∃ e, Parser.Yields (fun n => loop n p e0) e (p.skip (2 * pairs.length)) ∧
      e.flat = (e0.flat.1, e0.flat.2 ++ pairs.map fun q => (q.1, atomExpr q.2)) ∧
      e.grouped = true ∧ L ≤ e.rootTier

/-- The pairs are binary operators of the four tiers, each followed by an atom. -/
def flatPairs (pairs : List (Token × Token)) : Bool :=
  pairs.all fun q => decide (tierOf q.1.type < 4) && isAtomToken q.2

/-- The token of an integer literal on line 1. -/
def intTok (i : Int) (lexeme : String) (column : Int) : Token :=
  { type := TokenType.INT_LITERAL, lexeme := lexeme, value := LitValue.int i, line := 1,
    column := column }

def c18Source : String := "let x = 10 + 20 * 3 - 15 / 5 % 2;"

/-- The operators and operands that follow `10` in `c18Source`. -/
def c18Pairs : List (Token × Token) :=
  [(tok TokenType.PLUS "+" 12, intTok 20 "20" 14),
   (tok TokenType.MULTIPLY "*" 17, intTok 3 "3" 19),
   (tok TokenType.MINUS "-" 21, intTok 15 "15" 23),
   (tok TokenType.DIVIDE "/" 26, intTok 5 "5" 28),
   (tok TokenType.MODULO "%" 30, intTok 2 "2" 32)]

/-- The tree `Binary(Binary(10, +, Binary(20, *, 3)), -, Binary(Binary(15, /, 5), %, 2))`. -/
def c18Tree : Expr :=
  Expr.Binary
    (Expr.Binary (intLit 10) (tok TokenType.PLUS "+" 12)
      (Expr.Binary (intLit 20) (tok TokenType.MULTIPLY "*" 17) (intLit 3)))
    (tok TokenType.MINUS "-" 21)
    (Expr.Binary (Expr.Binary (intLit 15) (tok TokenType.DIVIDE "/" 26) (intLit 5))
      (tok TokenType.MODULO "%" 30) (intLit 2))

def c18LeftSource : String := "a - b - c;"

def c18LeftPairs : List (Token × Token) :=
  [(tok TokenType.MINUS "-" 3, ident "b" 5), (tok TokenType.MINUS "-" 7, ident "c" 9)]

/-- The tree `Binary(Binary(a, -, b), -, c)`. -/
def c18LeftTree : Expr :=
  Expr.Binary (Expr.Binary (var "a" 1) (tok TokenType.MINUS "-" 3) (var "b" 5))
    (tok TokenType.MINUS "-" 7) (var "c" 9)

/-! ## Scenarios of the parser's error handling -/

def c17Source : String := "a || b && c;"

def c17PrintSource : String := "print(a && b);"

/-- The test `dynamic_pointer_cast<VariableExpr>(expr)` of `parseAssignment`. -/
def Expr.isVariable : Expr → Bool
  | Expr.Variable _ => true
  | _ => false

def c19LiteralSource : String := "1 = 2;"

def c19GroupSource : String := "(a + b) = c;"

/-- The left-hand side that `parseEquality` returns at the start of `source`. -/
def c19Target (source : String) : Expr :=
  (Parser.parseEquality 20 (parserFor source)).valueD Expr.null

/-- The parser after `parseEquality` at the start of `source`. -/
def c19AtAssign (source : String) : Parser :=
  (Parser.parseEquality 20 (parserFor source)).parserD (parserFor source)

/-- The parser after the `=` that follows the left-hand side of `source`. -/
def c19PastAssign (source : String) : Parser :=
  (c19AtAssign source).advance.parserD (c19AtAssign source)

def c20Source : String := "let = 1; let = 2;"

def c20InitSource : String := "let x = ; let y = ;"

/-- Every diagnostic of the list is a syntax error. -/
def onlySyntaxErrors (errors : List Error) : Bool :=
  errors.all fun e => decide (e.type = ErrorType.SYNTAX)

/-! ## Scenarios of the later claims -/

/-- The source of parser test 3. -/
def c21Source : String := "if x > 10 then print(\"High\"); else print(\"Low\"); end"

/-- The same statement with the parentheses and the `;` that `parseIfStatement` asks for. -/
def c21ParenSource : String := "if (x > 10) then print(\"High\"); else print(\"Low\"); end;"

/-- The parser after one call of `parseStatement`. -/
def afterStatement (p : Parser) : Parser :=
  (Parser.parseStatement 100 p).parserD p

/-- The messages and stages of the diagnostics of `analyze` on the program parsed from
`source`; `none` when `analyze` does not return. -/
def analysis (source : String) : Option (List (String × String)) :=
  (SemanticAnalyzer.new.analyze (parsedProgram 200 source)).map
    fun a => a.errors.map fun e => (e.message, e.stage)

/-- The messages and stages of the diagnostics that the analyzer holds when `analyze`
throws on the program parsed from `source`; `none` when `analyze` does not throw. -/
def thrownAnalysis (source : String) : Option (List (String × String)) :=
  (SemanticAnalyzer.new.analyze (parsedProgram 200 source)).thrownWith
    fun a => a.errors.map fun e => (e.message, e.stage)

/-- The messages of the diagnostics of `TypeChecker::check` on the program parsed from
`source`; `none` when `check` does not return. -/
def typeErrors (source : String) : Option (List String) :=
  (TypeChecker.new.check (parsedProgram 200 source)).map fun tc => messages tc.errors

/-- The messages of the diagnostics that the type checker holds when `check` throws on
the program parsed from `source`; `none` when `check` does not throw. -/
def thrownTypeErrors (source : String) : Option (List String) :=
  (TypeChecker.new.check (parsedProgram 200 source)).thrownWith fun tc => messages tc.errors

/-- The declarations of interpreter test 1. -/
def c22Source : String := "let x = 10; let y = 20; let z = x + y;"

/-- A call before the declaration of the function. -/
def c23Source : String := "f(); function f() { }"

/-- A call after the declaration of the function. -/
def c23AfterSource : String := "function f() { } f();"

/-- A declaration whose initializer reads the declared variable. -/
def c24Source : String := "let x = x;"

/-- An addition of a Boolean and an integer, as an argument. -/
def c25Source : String := "print(true + 1);"

/-- An addition of a Boolean and an integer, as an initializer. -/
def c25LetSource : String := "let a = true + 1;"

/-- The operand types of the rule table: int, float, bool, string. -/
def isOperandType (t : TokenType) : Bool :=
  decide (t = TokenType.INT_TYPE) || decide (t = TokenType.FLOAT_TYPE) ||
  decide (t = TokenType.BOOL_TYPE) || decide (t = TokenType.STRING_TYPE)

/-- The rule table of the specification, in its words: arithmetic operators on two
numeric operands give integer for two integers and float for any mix with float; `+`
with either operand of string type gives string; comparison operators on two numeric or
two string operands give boolean; logical operators on two boolean operands give
boolean; every other combination is an error. -/
def ruleTable (left right op : TokenType) : TokenType :=
  if op = TokenType.PLUS ∧ (left = TokenType.STRING_TYPE ∨ right = TokenType.STRING_TYPE) then
    TokenType.STRING_TYPE
  else if TypeChecker.isArithmeticOp op ∧ TypeChecker.isNumericType left ∧
      TypeChecker.isNumericType right then
    if left = TokenType.INT_TYPE ∧ right = TokenType.INT_TYPE then TokenType.INT_TYPE
    else TokenType.FLOAT_TYPE
  else if TypeChecker.isComparisonOp op ∧
      ((TypeChecker.isNumericType left ∧ TypeChecker.isNumericType right) ∨
       (left = TokenType.STRING_TYPE ∧ right = TokenType.STRING_TYPE)) then
    TokenType.BOOL_TYPE
  else if (op = TokenType.AND ∨ op = TokenType.OR) ∧ left = TokenType.BOOL_TYPE ∧
      right = TokenType.BOOL_TYPE then
    TokenType.BOOL_TYPE
  else TokenType.ERROR

/-- The symbol `x` of the global scope. -/
def c27Outer : Symbol :=
  { name := "x", type := SymbolType.VARIABLE, dataType := TokenType.INT_TYPE, scopeLevel := 0,
    isInitialized := true, isConstant := false }

/-- A symbol `x` for a child scope. -/
def c27Inner : Symbol :=
  { name := "x", type := SymbolType.VARIABLE, dataType := TokenType.STRING_TYPE,
    scopeLevel := 1, isInitialized := false, isConstant := false }

/-- The global scope with `x` and an empty child scope. -/
def c27Table : SymbolTable :=
  SymbolTable.newChild 1 (SymbolTable.new.insert c27Outer).2

namespace Lexer

/-- The cursor is inside the source and the position counters are at least 1. -/
def wellFormed (lx : Lexer) : Prop :=
  lx.current ≤ lx.source.length ∧ 1 ≤ lx.line ∧ 1 ≤ lx.column

/-- The state while a token that began at line `l0`, column `c0` is read: as long as the
line counter is still `l0`, the column counter is `c0` plus the number of characters read
so far. -/
def inToken (l0 c0 : Int) (lx : Lexer) : Prop :=
  lx.wellFormed ∧ lx.start ≤ lx.current ∧ l0 ≤ lx.line ∧
  (lx.line = l0 → lx.column - ((lx.current : Int) - (lx.start : Int)) = c0)

end Lexer

/-- The position of a token that began at line `l0`, column `c0`: its line is not before
`l0`; an ERROR token has a column of at least 1; any other token that ends on line `l0`
has the column `c0`. -/
def Token.positioned (l0 c0 : Int) (t : Token) : Prop :=
  l0 ≤ t.line ∧ (t.type = TokenType.ERROR → 1 ≤ t.column) ∧
  (t.type ≠ TokenType.ERROR → t.line = l0 → t.column = c0)

namespace Lexer

/-- The lexer is at the first character of a token (or at the end): nothing for
`skipWhitespace` to skip. -/
def atTokenStart (lx : Lexer) : Bool :=
  lx.isAtEnd ||
    !(lx.peek = ' ' || lx.peek = '\t' || lx.peek = '\r' || lx.peek = '\n' || lx.peek = '#')

/-- The lexer after `k` calls of `nextToken` on a source, when none of them threw. -/
def after (source : String) : Nat → Option Lexer
  | 0 => some (Lexer.new source)
  | k + 1 =>
    match after source k with
    | some lx =>
      match lx.nextToken with
      | LexResult.token _ lx1 => some lx1
      | LexResult.thrown _ => none
    | none => none

end Lexer

/-- A number one above the largest `int`. -/
def c29Source : String := "2147483648"

/-- The lexer at the point where `std::stoi` throws on `c29Source`. -/
def c29Lexer : Lexer :=
  { source := c29Source.toList, start := 0, current := 10, line := 1, column := 11 }

/-- A float literal above the largest `float`: 1 and 39 zeros before the point. -/
def c29FloatSource : String := "1000000000000000000000000000000000000000.0"

/-- The lexer at the point where `std::stof` throws on `c29FloatSource`. -/
def c29FloatLexer : Lexer :=
  { source := c29FloatSource.toList, start := 0, current := 42, line := 1, column := 43 }

/-- The largest `int`. -/
def c29MaxSource : String := "2147483647"

def c29MaxToken : Token :=
  { type := TokenType.INT_LITERAL, lexeme := c29MaxSource, value := LitValue.int 2147483647,
    line := 1, column := 1 }

def c29MaxRest : Lexer :=
  { source := c29MaxSource.toList, start := 0, current := 10, line := 1, column := 11 }

/-- An unterminated string. -/
def c29StringSource : String := "\"abc"

def c29ErrorToken : Token :=
  { type := TokenType.ERROR, lexeme := "Unterminated string", value := LitValue.int 0,
    line := 1, column := 5 }

def c29StringRest : Lexer :=
  { source := c29StringSource.toList, start := 0, current := 4, line := 1, column := 5 }

/-- Two tokens on one line. -/
def c30LetSource : String := "let x"

/-- The first token of `c30LetSource`. -/
def c30Let : Token :=
  { type := TokenType.LET, lexeme := "let", value := LitValue.int 0, line := 1, column := 1 }

/-- The lexer after the first token of `c30LetSource`. -/
def c30Lexer : Lexer :=
  { source := c30LetSource.toList, start := 0, current := 3, line := 1, column := 4 }

/-- The second token of `c30LetSource`. -/
def c30Token : Token :=
  { type := TokenType.IDENTIFIER, lexeme := "x", value := LitValue.int 0, line := 1,
    column := 5 }

def c30Rest : Lexer :=
  { source := c30LetSource.toList, start := 4, current := 5, line := 1, column := 6 }

/-- A source whose first character starts no token. -/
def c30ErrorSource : String := "@"

def c30ErrorToken : Token :=
  { type := TokenType.ERROR, lexeme := "Unexpected character: '@'", value := LitValue.int 0,
    line := 1, column := 2 }

def c30ErrorRest : Lexer :=
  { source := c30ErrorSource.toList, start := 0, current := 1, line := 1, column := 2 }

/-- A string literal with a line break inside. -/
def c30Source : String := "\"a\nb\""

def c30StringToken : Token :=
  { type := TokenType.STRING_LITERAL, lexeme := c30Source, value := LitValue.str "a\nb",
    line := 3, column := -2 }

def c30StringRest : Lexer :=
  { source := c30Source.toList, start := 0, current := 5, line := 3, column := 3 }

/-! ## Definitions for the claims about the lexer and the interpreter -/

/-- A program of one function declaration with two parameters and an empty body. -/
def c38Source : String := "function add(a: int, b: int): int { }"

/-- A program of two function declarations. -/
def c38TwoSource : String := "function f() { } function g() { }"

/-- A result that is a state has the current environment `env` and a heap of at least
`size` environments. -/
def Exec.inEnv {α : Type} (env size : Nat) : Exec α → Prop
  | Exec.done _ s => s.currentEnv = env ∧ size ≤ s.heap.length
  | _ => True

/-- Every visitor started in the environment `env` ends in it, and no environment is
removed from the heap. -/
def Interpreter.KeepsEnv (n : Nat) : Prop :=
  (∀ s e env size, s.currentEnv = env → size ≤ s.heap.length →
    (Interpreter.evaluate n s e).inEnv env size) ∧
  (∀ s as vs env size, s.currentEnv = env → size ≤ s.heap.length →
    (Interpreter.evaluateArguments n s as vs).inEnv env size) ∧
  (∀ s st env size, s.currentEnv = env → size ≤ s.heap.length →
    (Interpreter.execute n s st).inEnv env size) ∧
  (∀ s xs env size, s.currentEnv = env → size ≤ s.heap.length →
    (Interpreter.printValues n s xs).inEnv env size) ∧
  (∀ s c b env size, s.currentEnv = env → size ≤ s.heap.length →
    (Interpreter.whileLoop n s c b).inEnv env size) ∧
  (∀ s sts env size, s.currentEnv = env → size ≤ s.heap.length →
    (Interpreter.executeStatements n s sts).inEnv env size) ∧
  (∀ s sts inner env size, s.currentEnv = env → size ≤ s.heap.length →
    (Interpreter.executeBlock n s sts inner).inEnv env size)

/-- The state in which the statements of a block (or of a function body with the closure
`parent` and the bound parameters `values`) start: a new environment is the current
one. -/
def Interpreter.enter (s : Interpreter) (values : List (String × Value)) (parent : Nat) :
    Interpreter :=
  { s.newEnvironment values parent with currentEnv := s.heap.length }

/-- A declaration of `x` with the initializer 1. -/
def c39Let : Stmt := Stmt.VariableDecl (ident "x" 5) (intLit 1)

/-- What a token shows apart from its position: kind, lexeme and value. -/
def Token.content (t : Token) : TokenType × String × LitValue :=
  (t.type, t.lexeme, t.value)

/-- The characters that a comment skips. -/
def notNewline (c : Char) : Bool := decide (c ≠ '\n')

/-- The characters inside a string literal. -/
def notQuote (c : Char) : Bool := decide (c ≠ '"')

/-- The text that is left when whitespace and comments are skipped; the flag says that
a comment is being skipped. -/
def skipBlank : Bool → List Char → List Char
  | _, [] => []
  | true, c :: r => if c = '\n' then skipBlank false r else skipBlank true r
  | false, c :: r =>
    if c = ' ' ∨ c = '\t' ∨ c = '\r' ∨ c = '\n' then skipBlank false r
    else if c = '#' then skipBlank true r
    else c :: r

/-- The characters that continue an identifier. -/
def isIdentChar (c : Char) : Bool := isAlnum c || decide (c = '_')

namespace Lexer

/-- The part of the source that has not been read. -/
def rest (lx : Lexer) : List Char := lx.source.drop lx.current

/-- While a token is read: `w` is the text read since the start of the token and `r` is
the part of the source that has not been read. -/
def scans (w r : List Char) (lx : Lexer) : Prop :=
  lx.source.drop lx.start = w ++ r ∧ lx.current = lx.start + w.length

end Lexer

/-- The content of the token made by `makeToken(type)` on the text `w`. -/
def plainContent (type : TokenType) (w : List Char) : TokenType × String × LitValue :=
  (type, String.mk w, LitValue.int 0)

/-- The text of the diagnostic for a character that starts no token. -/
def unexpected (c : Char) : TokenType × String × LitValue :=
  (TokenType.ERROR, "Unexpected character: '" ++ String.singleton c ++ "'", LitValue.int 0)

/-- The identifier or keyword that begins with `c`, on the text `r` after `c`. -/
def scanIdentifier (c : Char) (r : List Char) :
    (TokenType × String × LitValue) × List Char :=
  let word := String.mk (c :: r.takeWhile isIdentChar)
  (match Lexer.keywords.lookup word with
   | some ty =>
     if word = "true" then (ty, word, LitValue.bool true)
     else if word = "false" then (ty, word, LitValue.bool false)
     else (ty, word, LitValue.int 0)
   | none => (TokenType.IDENTIFIER, word, LitValue.int 0),
   r.dropWhile isIdentChar)

/-- The number that begins with the digit `c`; `none` when `std::stoi` or `std::stof`
throws. -/
def scanNumber (c : Char) (r : List Char) :
    Option ((TokenType × String × LitValue) × List Char) :=
  let ds := c :: r.takeWhile isDigit
  let r1 := r.dropWhile isDigit
  if r1.headD (Char.ofNat 0) = '.' ∧ isDigit (r1.tail.headD (Char.ofNat 0)) = true then
    let w := ds ++ '.' :: r1.tail.takeWhile isDigit
    match stof w with
    | some v =>
      some ((TokenType.FLOAT_LITERAL, String.mk w, LitValue.float v), r1.tail.dropWhile isDigit)
    | none => none
  else
    match stoi ds with
    | some v => some ((TokenType.INT_LITERAL, String.mk ds, LitValue.int v), r1)
    | none => none

/-- The string literal whose opening quote has been read, on the text `r` after it. -/
def scanString (r : List Char) : (TokenType × String × LitValue) × List Char :=
  match r.dropWhile notQuote with
  | [] => ((TokenType.ERROR, "Unterminated string", LitValue.int 0), [])
  | _ :: r1 =>
    ((TokenType.STRING_LITERAL, String.mk ('"' :: r.takeWhile notQuote ++ ['"']),
      LitValue.str (String.mk (r.takeWhile notQuote))), r1)

/-- An operator of one character `c`, or of two when `d` follows. -/
def scanPair (d : Char) (two one : TokenType × String × LitValue) (r : List Char) :
    (TokenType × String × LitValue) × List Char :=
  if r.head? = some d then (two, r.tail) else (one, r)

/-- The token that begins with the character `c`, on the text `r` after `c`. -/
def scanFrom (c : Char) (r : List Char) :
    Option ((TokenType × String × LitValue) × List Char) :=
  if isAlpha c || c = '_' then some (scanIdentifier c r)
  else if isDigit c then scanNumber c r
  else if c = '(' then some (plainContent TokenType.LEFT_PAREN [c], r)
  else if c = ')' then some (plainContent TokenType.RIGHT_PAREN [c], r)
  else if c = '{' then some (plainContent TokenType.LEFT_BRACE [c], r)
  else if c = '}' then some (plainContent TokenType.RIGHT_BRACE [c], r)
  else if c = ',' then some (plainContent TokenType.COMMA [c], r)
  else if c = ':' then some (plainContent TokenType.COLON [c], r)
  else if c = ';' then some (plainContent TokenType.SEMICOLON [c], r)
  else if c = '+' then some (plainContent TokenType.PLUS [c], r)
  else if c = '-' then some (plainContent TokenType.MINUS [c], r)
  else if c = '*' then some (plainContent TokenType.MULTIPLY [c], r)
  else if c = '/' then some (plainContent TokenType.DIVIDE [c], r)
  else if c = '%' then some (plainContent TokenType.MODULO [c], r)
  else if c = '=' then
    some (scanPair '=' (plainContent TokenType.EQUAL [c, '='])
      (plainContent TokenType.ASSIGN [c]) r)
  else if c = '!' then
    some (scanPair '=' (plainContent TokenType.NOT_EQUAL [c, '='])
      (plainContent TokenType.NOT [c]) r)
  else if c = '<' then
    some (scanPair '=' (plainContent TokenType.LESS_EQUAL [c, '='])
      (plainContent TokenType.LESS [c]) r)
  else if c = '>' then
    some (scanPair '=' (plainContent TokenType.GREATER_EQUAL [c, '='])
      (plainContent TokenType.GREATER [c]) r)
  else if c = '&' then
    some (scanPair '&' (plainContent TokenType.AND [c, '&']) (unexpected c) r)
  else if c = '|' then
    some (scanPair '|' (plainContent TokenType.OR [c, '|']) (unexpected c) r)
  else if c = '"' then some (scanString r)
  else some (unexpected c, r)

/-- The method `nextToken` read as a function of the unread text alone: the content of
the next token of the text `input`, and the text after it; `none` when the
conversion of a number throws. That `nextToken` computes this function is proved below
(`Lexer.nextToken_observe`); no claim is stated with it. -/
def scanToken (input : List Char) : Option ((TokenType × String × LitValue) × List Char) :=
  match skipBlank false input with
  | [] => some (plainContent TokenType.END_OF_FILE [], [])
  | c :: r => scanFrom c r

/-- What a call of `nextToken` shows: the content of the token and the text that is
left; `none` for the exception. -/
def LexResult.observe : LexResult → Option ((TokenType × String × LitValue) × List Char)
  | LexResult.token t lx => some (t.content, lx.rest)
  | LexResult.thrown _ => none

/-- The operators of two characters, with their token kinds. -/
def twoCharOperators : List (Char × Char × TokenType) :=
  [('=', '=', TokenType.EQUAL), ('!', '=', TokenType.NOT_EQUAL),
   ('<', '=', TokenType.LESS_EQUAL), ('>', '=', TokenType.GREATER_EQUAL),
   ('&', '&', TokenType.AND), ('|', '|', TokenType.OR)]

/-- The operators of one character that begin an operator of two, with their token
kinds. -/
def oneCharOperators : List (Char × TokenType) :=
  [('=', TokenType.ASSIGN), ('!', TokenType.NOT), ('<', TokenType.LESS),
   ('>', TokenType.GREATER)]

/-- The lexer at the start of `==x`. -/
def c31Lexer : Lexer := Lexer.new "==x"

/-- The lexer at the start of `=x`. -/
def c31AssignLexer : Lexer := Lexer.new "=x"

/-- The lexer at the start of `&x`. -/
def c31LoneLexer : Lexer := Lexer.new "&x"

/-- The string literal of lexer test 2, with the `;` that follows it. -/
def c35Source : String := "\"John Doe\";"

/-- A string literal without its closing quote. -/
def c35OpenSource : String := "\"abc def"

namespace Keywords

/-- The table `Keywords::keywordMap` of `Keywords.cpp`. -/
def keywordMap : List (String × TokenType) :=
  [ ("let", TokenType.LET), ("if", TokenType.IF), ("else", TokenType.ELSE),
    ("while", TokenType.WHILE), ("for", TokenType.FOR),
    ("function", TokenType.FUNCTION), ("return", TokenType.RETURN),
    ("end", TokenType.END), ("then", TokenType.THEN), ("do", TokenType.DO),
    ("int", TokenType.INT_TYPE), ("float", TokenType.FLOAT_TYPE),
    ("bool", TokenType.BOOL_TYPE), ("string", TokenType.STRING_TYPE),
    ("void", TokenType.VOID_TYPE), ("true", TokenType.BOOL_LITERAL),
    ("false", TokenType.BOOL_LITERAL), ("print", TokenType.PRINT),
    ("input", TokenType.INPUT) ]

/-- The method `Keywords::getKeyword`. -/
def getKeyword (word : String) : TokenType :=
  match keywordMap.lookup word with
  | some type => type
  | none => TokenType.IDENTIFIER

/-- The method `Keywords::isKeyword`. -/
def isKeyword (word : String) : Bool :=
  (keywordMap.lookup word).isSome

end Keywords

/-- The token kind that the lexer gives to the word `w`. -/
def wordType (w : String) : TokenType :=
  match Lexer.keywords.lookup w with
  | some type => type
  | none => TokenType.IDENTIFIER

/-- The value that the lexer attaches to the word `w`. -/
def wordValue (w : String) : LitValue :=
  if w = "true" then LitValue.bool true
  else if w = "false" then LitValue.bool false
  else LitValue.int 0

/-- The lexer at the start of `while (`. -/
def c33Lexer : Lexer := Lexer.new "while ("

/-- The lexer at the start of `print(`. -/
def c33PrintLexer : Lexer := Lexer.new "print("

/-- The text `r` does not continue a number as a fraction: it does not begin with `.`
and a digit. -/
def noFraction (r : List Char) : Bool :=
  !(decide (r.headD (Char.ofNat 0) = '.') && isDigit (r.tail.headD (Char.ofNat 0)))

/-- The source `1.`: a digit and a dot that no digit follows. -/
def c32DotSource : String := "1."

/-- The first number of lexer test 5. -/
def c32FloatSource : String := "3.14159"

/-- A run of digits above the largest `int`. -/
def c32LongSource : String := "2147483648"

/-- A float literal that is no `float`: the nearest one is 16777216. -/
def c32RoundedSource : String := "16777217.0"

/-- A float literal above the largest `float`: 1 and 39 zeros before the point. -/
def c32HugeSource : String := "1000000000000000000000000000000000000000.0"

/-- Text made of spaces, tabs, carriage returns, newlines and comments, each comment
ended by a newline; the flag says that the text begins inside a comment. -/
def isBlank : Bool → List Char → Bool
  | inComment, [] => !inComment
  | true, c :: r => if c = '\n' then isBlank false r else isBlank true r
  | false, c :: r =>
    if c = ' ' ∨ c = '\t' ∨ c = '\r' ∨ c = '\n' then isBlank false r
    else if c = '#' then isBlank true r
    else false

/-- Text made of whitespace and comments whose last comment may lack its newline. -/
def isTrailing : Bool → List Char → Bool
  | _, [] => true
  | true, c :: r => if c = '\n' then isTrailing false r else isTrailing true r
  | false, c :: r =>
    if c = ' ' ∨ c = '\t' ∨ c = '\r' ∨ c = '\n' then isTrailing false r
    else if c = '#' then isTrailing true r
    else false

/-- The text that is left after `k` tokens; `none` when the conversion of a number
throws. -/
def scanRest : Nat → List Char → Option (List Char)
  | 0, input => some input
  | k + 1, input =>
    match scanToken input with
    | some (_, r) => scanRest k r
    | none => none

/-- The contents of the first `n` tokens of a text, up to END_OF_FILE or to the
exception. -/
def scanAll : Nat → List Char → List (TokenType × String × LitValue)
  | 0, _ => []
  | n + 1, input =>
    match scanToken input with
    | some (t, r) => t :: (if t.1 = TokenType.END_OF_FILE then [] else scanAll n r)
    | none => []

/-- The contents of the tokens that the first `n` calls of `nextToken` return, up to
END_OF_FILE or to the exception. -/
def Lexer.contents : Nat → Lexer → List (TokenType × String × LitValue)
  | 0, _ => []
  | n + 1, lx =>
    match lx.nextToken with
    | LexResult.token t lx1 =>
      t.content :: (if t.type = TokenType.END_OF_FILE then [] else Lexer.contents n lx1)
    | LexResult.thrown _ => []

/-- The unread text after `k` calls of `nextToken`; `none` when one of them throws. -/
def Lexer.restAfter : Nat → Lexer → Option (List Char)
  | 0, lx => some lx.rest
  | k + 1, lx =>
    match lx.nextToken with
    | LexResult.token _ lx1 => Lexer.restAfter k lx1
    | LexResult.thrown _ => none

/-- A character that `skipWhitespace` skips, or that begins a comment. -/
def isBlankChar (c : Char) : Bool :=
  decide (c = ' ') || decide (c = '\t') || decide (c = '\r') || decide (c = '\n') ||
    decide (c = '#')

/-- The contents of the ERROR token of a string literal that is not closed. -/
def unterminated : TokenType × String × LitValue :=
  (TokenType.ERROR, "Unterminated string", LitValue.int 0)

/-- Reading a token from `a1 ++ post` that ends before `post` gives the same token when
the blank text `ws` is put in front of `post`, unless the token is a string literal that
is not closed and `ws` holds a quote; the rest is what it was, with `ws` in front of
`post` (a string literal that is not closed reads `ws` too). -/
def Stable (f : List Char → Option ((TokenType × String × LitValue) × List Char)) : Prop :=
  ∀ (a1 a2 post : List Char) (x : Char) (ws : List Char)
    (t : TokenType × String × LitValue),
    f (a1 ++ post) = some (t, a2 ++ post) → isBlankChar x = true →
    (post ≠ [] ∨ '"' ∉ x :: ws ∨ t ≠ unterminated) →
    ∃ r2, f (a1 ++ (x :: ws ++ post)) = some (t, r2) ∧
      (r2 = a2 ++ (x :: ws ++ post) ∨ (r2 = [] ∧ a2 = [] ∧ post = []))

/-- The end of `scanNumber`, once the first run of digits `ds` has been read. -/
def numberTail (ds r1 : List Char) : Option ((TokenType × String × LitValue) × List Char) :=
  if r1.headD (Char.ofNat 0) = '.' ∧ isDigit (r1.tail.headD (Char.ofNat 0)) = true then
    match stof (ds ++ '.' :: r1.tail.takeWhile isDigit) with
    | some v =>
      some ((TokenType.FLOAT_LITERAL, String.mk (ds ++ '.' :: r1.tail.takeWhile isDigit),
        LitValue.float v), r1.tail.dropWhile isDigit)
    | none => none
  else
    match stoi ds with
    | some v => some ((TokenType.INT_LITERAL, String.mk ds, LitValue.int v), r1)
    | none => none

/-- The text left by reading a token is an end of the text read. -/
def Shrinks (f : List Char → Option ((TokenType × String × LitValue) × List Char)) : Prop :=
  ∀ (r : List Char) (t : TokenType × String × LitValue) (r1 : List Char),
    f r = some (t, r1) → r1 <:+ r

/-- The blank text `ws` may be put in front of `post`: its comments are ended by
newlines, or nothing follows it. -/
def blankBefore (ws post : List Char) : Bool :=
  isBlank false ws || (post.isEmpty && isTrailing false ws)

/-- The source of lexer test 4 without its comments. -/
def c34Source : String := "let x = 5"

/-- The first comment of lexer test 4, with its newline. -/
def c34Comment : String := "# This is a comment\n"

/-- The second comment of lexer test 4, which ends the source. -/
def c34Trailing : String := " # Another comment"

/-- The source of lexer test 4. -/
def c34TestSource : String := "# This is a comment\nlet x = 5 # Another comment"

/-- The source `let x = 5` with a tab put after the space that follows `let`. -/
def c34GapSource : String := "let \tx = 5"

/-- The source `let x = 5` with a comment that holds quotes put after it. -/
def c34SaySource : String := "let x = 5 # say \"hi\""

/-- A source that ends inside a string literal. -/
def c34OpenSource : String := "\"a"

/-- A comment that holds a quote. -/
def c34QuoteComment : String := "#\"\n"

/-- A newline before the only token. -/
def c40Source : String := "\nx"

/-- Two tokens on consecutive lines. -/
def c40TwoSource : String := "a\nb"

/-- The token `x` of `c40Source`, as the lexer returns it. -/
def c40Token : Token :=
  { type := TokenType.IDENTIFIER, lexeme := "x", value := LitValue.int 0, line := 3,
    column := 1 }

/-- The token `b` of `c40TwoSource`, as the lexer returns it. -/
def c40Second : Token :=
  { type := TokenType.IDENTIFIER, lexeme := "b", value := LitValue.int 0, line := 3,
    column := 1 }

/-- The number of newline characters among the first `k` characters of a source. -/
def newlinesBefore (source : String) (k : Nat) : Nat :=
  ((source.toList.take k).filter fun c => decide (c = '\n')).length

/-- The token that call number `k + 1` of `nextToken` returns on a source. -/
def tokenAt (source : String) (k : Nat) : Option Token :=
  match Lexer.after source k with
  | some lx =>
    match lx.nextToken with
    | LexResult.token t _ => some t
    | LexResult.thrown _ => none
  | none => none

/-- The offset in the source of the first character of the token that call number
`k + 1` returns: the field `start` after the call. -/
def tokenStart (source : String) (k : Nat) : Option Nat :=
  (Lexer.after source (k + 1)).map Lexer.start

/-! # Theorems -/

/-! ## Equality tests are sound -/

mutual

theorem expr_eq_of_beq : ∀ (a b : Expr), Expr.beq a b = true → a = b
  | Expr.null, b, h => by cases b <;> simp [Expr.beq] at h ⊢
  | Expr.Literal _, b, h => by cases b <;> simp [Expr.beq] at h ⊢; exact h
  | Expr.Variable _, b, h => by cases b <;> simp [Expr.beq] at h ⊢; exact h
  | Expr.Binary l _ r, b, h => by
    cases b <;> simp [Expr.beq] at h ⊢
    exact ⟨expr_eq_of_beq l _ h.1.1, h.1.2, expr_eq_of_beq r _ h.2⟩
  | Expr.Unary _ r, b, h => by
    cases b <;> simp [Expr.beq] at h ⊢
    exact ⟨h.1, expr_eq_of_beq r _ h.2⟩
  | Expr.Call _ as, b, h => by
    cases b <;> simp [Expr.beq] at h ⊢
    exact ⟨h.1, exprs_eq_of_beq as _ h.2⟩
  | Expr.Assignment _ v, b, h => by
    cases b <;> simp [Expr.beq] at h ⊢
    exact ⟨h.1, expr_eq_of_beq v _ h.2⟩

theorem exprs_eq_of_beq : ∀ (as bs : List Expr), Expr.beqList as bs = true → as = bs
  | [], bs, h => by cases bs <;> simp [Expr.beqList] at h ⊢
  | a :: as, bs, h => by
    cases bs <;> simp [Expr.beqList] at h ⊢
    exact ⟨expr_eq_of_beq a _ h.1, exprs_eq_of_beq as _ h.2⟩

end

mutual

theorem stmt_eq_of_beq : ∀ (a b : Stmt), Stmt.beq a b = true → a = b
  | Stmt.null, b, h => by cases b <;> simp [Stmt.beq] at h ⊢
  | Stmt.Print es, b, h => by
    cases b <;> simp [Stmt.beq] at h ⊢
    exact exprs_eq_of_beq es _ h
  | Stmt.VariableDecl _ e, b, h => by
    cases b <;> simp [Stmt.beq] at h ⊢
    exact ⟨h.1, expr_eq_of_beq e _ h.2⟩
  | Stmt.Expression e, b, h => by
    cases b <;> simp [Stmt.beq] at h ⊢
    exact expr_eq_of_beq e _ h
  | Stmt.Block ss, b, h => by
    cases b <;> simp [Stmt.beq] at h ⊢
    exact stmts_eq_of_beq ss _ h
  | Stmt.If c t e, b, h => by
    cases b <;> simp [Stmt.beq] at h ⊢
    exact ⟨expr_eq_of_beq c _ h.1.1, stmt_eq_of_beq t _ h.1.2, stmt_eq_of_beq e _ h.2⟩
  | Stmt.While c body, b, h => by
    cases b <;> simp [Stmt.beq] at h ⊢
    exact ⟨expr_eq_of_beq c _ h.1, stmt_eq_of_beq body _ h.2⟩
  | Stmt.FunctionDecl _ _ _ body, b, h => by
    cases b <;> simp [Stmt.beq] at h ⊢
    exact ⟨h.1.1.1, h.1.1.2, h.1.2, stmt_eq_of_beq body _ h.2⟩
  | Stmt.Return _ v, b, h => by
    cases b <;> simp [Stmt.beq] at h ⊢
    exact ⟨h.1, expr_eq_of_beq v _ h.2⟩

theorem stmts_eq_of_beq : ∀ (as bs : List Stmt), Stmt.beqList as bs = true → as = bs
  | [], bs, h => by cases bs <;> simp [Stmt.beqList] at h ⊢
  | a :: as, bs, h => by
    cases bs <;> simp [Stmt.beqList] at h ⊢
    exact ⟨stmt_eq_of_beq a _ h.1, stmts_eq_of_beq as _ h.2⟩

end

theorem value_eq_of_beq (a b : Value) (h : Value.beq a b = true) : a = b := by
  cases a <;> cases b <;> simp [Value.beq] at h ⊢
  all_goals first | exact h | exact ⟨h.1.1.1, h.1.1.2, stmt_eq_of_beq _ _ h.1.2, h.2⟩

theorem holds_eq (r : Except String Value) (v : Value) (h : holds r v = true) :
    r = Except.ok v := by
  cases r with
  | error e => simp [holds] at h
  | ok v1 => simp only [holds] at h; rw [value_eq_of_beq v1 v h]

/-! ## The lookahead of `parseStatement` -/

/-- The outcome of the test `peekNext() == LEFT_PAREN` in `parseStatement` does not
matter: whatever it is, an IDENTIFIER goes to `parseExpressionStatement`. -/
theorem lookahead_irrelevant {α : Type} (p : Parser) (b : Bool) (x y : α) :
    (if (p.check TokenType.IDENTIFIER && b) = true then x
      else if p.check TokenType.PRINT = true then y else x) =
    (if p.check TokenType.PRINT = true then y else x) := by
  by_cases h : p.current.type = TokenType.IDENTIFIER
  · simp [Parser.check, h]
  · simp [Parser.check, h]

/-! ## Fuel of the parser -/

theorem PResult.le_refl {α : Type} (r : PResult α) : PResult.le r r :=
  Or.inr rfl

theorem PResult.le_trans {α : Type} {a b c : PResult α} (h1 : PResult.le a b)
    (h2 : PResult.le b c) : PResult.le a c := by
  rcases h1 with h | h
  · exact Or.inl h
  · rw [h]; exact h2

theorem PResult.le_bind {α β : Type} {r r1 : PResult α} {f g : α → Parser → PResult β}
    (h : PResult.le r r1) (hfg : ∀ a p, PResult.le (f a p) (g a p)) :
    PResult.le (r.bind f) (r1.bind g) := by
  rcases h with h | h
  · subst h; exact Or.inl rfl
  · subst h
    cases r with
    | ok a p => exact hfg a p
    | thrown p => exact Or.inr rfl
    | outOfFuel => exact Or.inl rfl

theorem PResult.le_ite {α : Type} {c : Prop} [Decidable c] {a a1 b b1 : PResult α}
    (h1 : c → PResult.le a a1) (h2 : ¬c → PResult.le b b1) :
    PResult.le (if c then a else b) (if c then a1 else b1) := by
  by_cases hc : c
  · simp only [hc, if_true]; exact h1 hc
  · simp only [hc, if_false]; exact h2 hc

namespace Parser

set_option maxHeartbeats 4000000 in
theorem fuelStep (n : Nat) : FuelStep n := by
  induction n with
  | zero =>
    refine ⟨?_, ?_, ?_, ?_, ?_, ?_, ?_, ?_, ?_, ?_, ?_, ?_, ?_, ?_, ?_, ?_, ?_, ?_, ?_, ?_, ?_, ?_,
      ?_, ?_, ?_, ?_, ?_, ?_⟩ <;> intros <;> exact Or.inl rfl
  | succ n ih =>
    obtain ⟨h1, h2, h3, h4, h5, h6, h7, h8, h9, h10, h11, h12, h13, h14, h15, h16, h17, h18,
      h19, h20, h21, h22, h23, h24, h25, h26, h27, h28⟩ := ih
    refine ⟨?_, ?_, ?_, ?_, ?_, ?_, ?_, ?_, ?_, ?_, ?_, ?_, ?_, ?_, ?_, ?_, ?_, ?_, ?_, ?_, ?_, ?_,
      ?_, ?_, ?_, ?_, ?_, ?_⟩
    all_goals intros
    all_goals simp only [parseStatement, parsePrintArguments, parsePrintStatement,
      parseVariableDeclaration, parseIfStatement, parseWhileStatement, parseBlockStatements,
      parseBlock, parseParameters, parseFunctionDeclaration, parseReturnStatement,
      parseExpressionStatement, parseExpression, parseAssignment, parseEqualityLoop,
      parseEquality, parseComparisonLoop, parseComparison, parseTermLoop, parseTerm,
      parseFactorLoop, parseFactor, parseUnary, parseCallLoop, parseCall, parsePrimary,
      parseArguments, finishCall]
    all_goals
      repeat' first
        | apply h1 | apply h2 | apply h3 | apply h4 | apply h5 | apply h6 | apply h7
        | apply h8 | apply h9 | apply h10 | apply h11 | apply h12 | apply h13 | apply h14
        | apply h15 | apply h16 | apply h17 | apply h18 | apply h19 | apply h20 | apply h21
        | apply h22 | apply h23 | apply h24 | apply h25 | apply h26 | apply h27 | apply h28
        | (with_reducible exact PResult.le_refl _)
        | (apply PResult.le_bind)
        | (apply PResult.le_ite)
        | intro _
        | split

/-- More fuel changes no result of `parseStatement`. -/
theorem parseStatement_mono (p : Parser) {n m : Nat} (h : n ≤ m) :
    PResult.le (parseStatement n p) (parseStatement m p) := by
  induction h with
  | refl => exact PResult.le_refl _
  | step _ ih => exact PResult.le_trans ih ((fuelStep _).1 p)

/-- A result of `parseStatement` at one fuel is its result at every fuel that suffices. -/
theorem parseStatement_result (p p1 : Parser) (stmt : Stmt) (k : Nat)
    (h : parseStatement k p = PResult.ok stmt p1) (n : Nat) :
    parseStatement n p = PResult.outOfFuel ∨ parseStatement n p = PResult.ok stmt p1 := by
  rcases Nat.le_total n k with hle | hle
  · have := parseStatement_mono p hle
    rw [h] at this; exact this
  · rcases parseStatement_mono p hle with h1 | h1
    · rw [h] at h1; cases h1
    · right; rw [← h1, h]

theorem ok_of_isOk {α : Type} (r : PResult α) (a : α) (d : Parser) (h : r.isOk = true) :
    r = PResult.ok (r.valueD a) (r.parserD d) := by
  cases r <;> simp [PResult.isOk, PResult.valueD, PResult.parserD] at h ⊢

/-- When a statement is parsed from `p` and the loop of `parseProgram` never ends from the
state reached, it never ends from `p`. -/
theorem parseProgramLoop_diverges_after (p : Parser) (k : Nat)
    (heof : p.check TokenType.END_OF_FILE = false)
    (hok : (parseStatement k p).isOk = true)
    (hrest : ∀ n ss, parseProgramLoop n ((parseStatement k p).parserD p) ss = PResult.outOfFuel)
    (n : Nat) (ss : List Stmt) : parseProgramLoop n p ss = PResult.outOfFuel := by
  cases n with
  | zero => rfl
  | succ n =>
    simp only [parseProgramLoop, heof]
    rcases parseStatement_result p _ _ k (ok_of_isOk _ Stmt.null p hok) n with h1 | h1
    · rw [h1]; rfl
    · rw [h1]; exact hrest n _

/-- On a token that starts no statement, `parseStatement` returns `nullptr` and leaves the
token where it is. -/
theorem parseStatement_stuck (p : Parser) (h : stuckToken p.current.type = true) :
    (parseStatement 11 p).isOk = true ∧
    (parseStatement 11 p).valueD Stmt.null = Stmt.null ∧
    ((parseStatement 11 p).parserD p).current = p.current := by
  cases hct : p.current.type <;> simp [stuckToken, hct] at h <;>
    simp [parseStatement, parsePrintStatement, parseExpressionStatement, parseExpression,
      parseAssignment, parseEquality, parseEqualityLoop, parseComparison, parseComparisonLoop,
      parseTerm, parseTermLoop, parseFactor, parseFactorLoop, parseUnary, parseCall,
      parseCallLoop, parsePrimary, matchTok, matchTypes, consume, check, reportError, hct,
      PResult.bind, PResult.isOk, PResult.valueD, PResult.parserD, Expr.isNull]

/-- From a token that starts no statement the loop of `parseProgram` never ends: each
turn reports errors, gets `nullptr` and is at the same token again. -/
theorem parseProgramLoop_stuck (n : Nat) : ∀ (p : Parser) (ss : List Stmt),
    stuckToken p.current.type = true → parseProgramLoop n p ss = PResult.outOfFuel := by
  induction n with
  | zero => intro p ss _; rfl
  | succ n ih =>
    intro p ss h
    have heof : p.check TokenType.END_OF_FILE = false := by
      cases hct : p.current.type <;> simp [stuckToken, hct] at h <;> simp [check, hct]
    obtain ⟨h1, h2, h3⟩ := parseStatement_stuck p h
    simp only [parseProgramLoop, heof]
    rcases parseStatement_result p _ _ 11 (ok_of_isOk _ Stmt.null p h1) n with h4 | h4
    · rw [h4]; rfl
    · rw [h4]; exact ih _ _ (by rw [h3]; exact h)

end Parser


theorem parseSource_eq (fuel : Nat) (source : String)
    (h : (Parser.new (Lexer.new source)).isSome = true) :
    parseSource fuel source = some ((parserFor source).parse fuel) := by
  unfold parseSource parserFor
  cases hp : Parser.new (Lexer.new source) with
  | none => rw [hp] at h; cases h
  | some p => rfl

theorem parseSource_stuck (source : String)
    (h : (Parser.new (Lexer.new source)).isSome = true)
    (hs : stuckToken (parserFor source).current.type = true) (fuel : Nat) :
    parseSource fuel source = some PResult.outOfFuel := by
  rw [parseSource_eq fuel source h]
  exact congrArg some (Parser.parseProgramLoop_stuck fuel _ _ hs)

/-! ## Loops of the interpreter -/

open Interpreter in
theorem evaluate_literal (n : Nat) (s : Interpreter) (v : LitValue) :
    evaluate (n + 1) s (Expr.Literal v) = Exec.done (Value.ofLit v) s := by
  simp [evaluate]

open Interpreter in
theorem execute_return_literal (n : Nat) (s : Interpreter) (kw : Token) (v : LitValue) :
    execute (n + 2) s (Stmt.Return kw (Expr.Literal v)) =
      Exec.done () { s with returnValue := Value.ofLit v, hasReturn := true } := by
  simp [execute, evaluate, Expr.isNull, Exec.bind]

open Interpreter in
/-- A `while` loop with a constant true condition whose body is `return v;` never ends:
`visitWhileStmt` does not look at `hasReturn`. -/
theorem whileLoop_return_diverges (kw : Token) (c v : LitValue)
    (hc : toBool (Value.ofLit c) = true) (n : Nat) :
    ∀ s, whileLoop n s (Expr.Literal c) (Stmt.Return kw (Expr.Literal v)) = Exec.outOfFuel := by
  induction n with
  | zero => intro s; rfl
  | succ n ih =>
    intro s
    rcases n with _ | _ | n
    · simp [whileLoop, evaluate, Exec.bind]
    · simp [whileLoop, evaluate, execute, Exec.bind, hc, Expr.isNull]
    · rw [whileLoop, evaluate_literal, Exec.bind]
      simp only [hc, if_true]
      rw [execute_return_literal, Exec.bind]
      exact ih _

open Interpreter in
/-- A call of a parameterless function whose body is such a loop never returns. -/
theorem call_loop_diverges (s : Interpreter) (callee kw : Token) (c v : LitValue)
    (rt : TokenType) (closure : Nat) (hc : toBool (Value.ofLit c) = true)
    (hget : Environment.get s.heap s.currentEnv callee.lexeme = Except.ok
      (Value.function [] rt
        (Stmt.Block [Stmt.While (Expr.Literal c) (Stmt.Return kw (Expr.Literal v))]) closure))
    (n : Nat) : evaluate n s (Expr.Call callee []) = Exec.outOfFuel := by
  rcases n with _ | _ | _ | _ | _ | n
  · rfl
  all_goals
    simp [evaluate, hget, evaluateArguments, Exec.bind, executeBlock, executeStatements,
      execute, whileLoop_return_diverges kw c v hc]

/-! ## Environments of calls -/

theorem heapClosed_parent (heap : List Environment) (h : heapClosed heap = true) (i : Nat)
    (e : Environment) (q : Nat) (hi : heap.get? i = some e) (hq : e.parent = some q) :
    q < heap.length := by
  unfold heapClosed at h
  rw [List.all_eq_true] at h
  have := h e (List.get?_mem hi)
  simpa [hq] using this

/-- An environment added at the end of the heap changes no lookup that starts in the
old heap. -/
theorem getAux_append (heap : List Environment) (extra : Environment) (name : String)
    (hclosed : heapClosed heap = true) (fuel : Nat) :
    ∀ i, i < heap.length →
      Environment.getAux (heap ++ [extra]) fuel i name = Environment.getAux heap fuel i name := by
  induction fuel with
  | zero => intro i _; rfl
  | succ fuel ih =>
    intro i hi
    have h1 : (heap ++ [extra]).get? i = heap.get? i := by
      simp [List.getElem?_append_left hi]
    simp only [Environment.getAux, h1]
    cases hg : heap.get? i with
    | none => rfl
    | some e =>
      simp only []
      cases hl : e.values.lookup name with
      | some v => rfl
      | none =>
        simp only []
        cases hp : e.parent with
        | none => rfl
        | some q => exact ih q (heapClosed_parent heap hclosed i e q hg hp)

/-- A variable that the fresh environment of a call does not bind is read from the
environment the function was declared in. -/
theorem get_fresh (heap : List Environment) (values : List (String × Value)) (E : Nat)
    (name : String) (hclosed : heapClosed heap = true) (hE : E < heap.length)
    (hname : values.lookup name = none) :
    Environment.get (heap ++ [{ values := values, parent := some E }]) heap.length name =
      Environment.get heap E name := by
  unfold Environment.get
  simp only [List.length_append, List.length_singleton, Environment.getAux]
  have h1 : (heap ++ [({ values := values, parent := some E } : Environment)]).get? heap.length =
      some { values := values, parent := some E } := by
    simp
  simp only [h1, hname]
  exact getAux_append heap _ name hclosed heap.length E hE

/-- A variable that the fresh environment of a call binds is read from it. -/
theorem get_bound (heap : List Environment) (values : List (String × Value))
    (parent : Option Nat) (name : String) (v : Value) (hname : values.lookup name = some v) :
    Environment.get (heap ++ [{ values := values, parent := parent }]) heap.length name =
      Except.ok v := by
  unfold Environment.get
  simp only [List.length_append, List.length_singleton, Environment.getAux]
  have h1 : (heap ++ [({ values := values, parent := parent } : Environment)]).get? heap.length =
      some { values := values, parent := parent } := by
    simp
  simp only [h1, hname]

/-! ## Checked results of the interpreter -/

theorem exec_done_of (r : Exec Value) (v : Value) (d : Interpreter) (h1 : r.isDone = true)
    (h2 : (r.valueD Value.null).beq v = true) : r = Exec.done v (r.stateD d) := by
  cases r with
  | done a s =>
    simp only [Exec.valueD] at h2
    simp only [Exec.stateD, value_eq_of_beq a v h2]
  | outOfFuel => cases h1
  | fault => cases h1

theorem c8_get : Environment.get c8State.heap c8State.currentEnv "fact" =
    Except.ok (Value.function [("n", TokenType.INT_TYPE)] TokenType.INT_TYPE c8Body 0) :=
  holds_eq _ _ (by decide!)

open Interpreter in
/-- The base case of `fact`: for `n ≤ 1` the call returns 1 from the `if`. -/
theorem fact_base (s : Interpreter) (E : Nat) (n : Int) (h : n ≤ 1)
    (hget : Environment.get s.heap s.currentEnv "fact" =
      Except.ok (Value.function [("n", TokenType.INT_TYPE)] TokenType.INT_TYPE c8Body E)) :
    evaluate 12 s (factCall n) =
      Exec.done (Value.int 1)
        { s with
          heap := s.heap ++ [{ values := [("n", Value.int n)], parent := some E }],
          returnValue := Value.int 1, hasReturn := true } := by
  have hb : (decide (n < 1) || decide (n = 1)) = true := by
    simp only [Bool.or_eq_true, decide_eq_true_eq]; omega
  have hg : Environment.get (s.heap ++ [{ values := [("n", Value.int n)], parent := some E }])
      s.heap.length "n" = Except.ok (Value.int n) :=
    get_bound _ _ _ _ _ (by simp [List.lookup])
  simp [factCall, intLit, ident, var, tok, evaluate, evaluateArguments, hget, c8Body,
    Exec.bind, bindParameters, Environment.setValue, newEnvironment, executeBlock,
    executeStatements, execute, hg, finishBinary, applyBinary, moduloTraps, Interpreter.lessEqual,
    Interpreter.less, Interpreter.equal, Environment.isEqual, boolResult, Interpreter.toBool,
    Environment.isTruthy, hb, Expr.isNull, Stmt.isNull, Value.ofLit, List.lookup]

/-- A checked run of `fact(k)` with fuel 150. -/
theorem fact_recursive (k : Int)
    (h1 : (Interpreter.evaluate 150 c8State (factCall k)).isDone = true)
    (h2 : ((Interpreter.evaluate 150 c8State (factCall k)).valueD Value.null).beq
      (Value.int (k.toNat.factorial : Int)) = true)
    (h3 : ((Interpreter.evaluate 150 c8State (factCall k)).stateD Interpreter.new).errors = []) :
    ∃ (fuel : Nat) (s1 : Interpreter),
      Interpreter.evaluate fuel c8State (factCall k) =
        Exec.done (Value.int (k.toNat.factorial : Int)) s1 ∧ s1.errors = [] :=
  ⟨150, _, exec_done_of _ _ Interpreter.new h1 h2, h3⟩

/-! ## Remainders in the range of `int` -/

theorem tmod_bounds (a b : Int) :
    (0 ≤ a → 0 ≤ Int.tmod a b ∧ Int.tmod a b ≤ a) ∧
    (a ≤ 0 → a ≤ Int.tmod a b ∧ Int.tmod a b ≤ 0) := by
  cases a with
  | ofNat m =>
    cases b with
    | ofNat k =>
      have := Nat.mod_le m k
      simp only [Int.tmod, Int.ofNat_eq_coe, Nat.succ_eq_add_one]
      omega
    | negSucc k =>
      have := Nat.mod_le m (k + 1)
      simp only [Int.tmod, Int.ofNat_eq_coe, Nat.succ_eq_add_one]
      omega
  | negSucc m =>
    cases b with
    | ofNat k =>
      have := Nat.mod_le (m + 1) k
      simp only [Int.tmod, Int.ofNat_eq_coe, Int.negSucc_eq, Nat.succ_eq_add_one]
      omega
    | negSucc k =>
      have := Nat.mod_le (m + 1) (k + 1)
      simp only [Int.tmod, Int.ofNat_eq_coe, Int.negSucc_eq, Nat.succ_eq_add_one]
      omega

theorem wrap32_tmod (a b : Int) (h1 : INT_MIN ≤ a) (h2 : a ≤ INT_MAX) :
    wrap32 (Int.tmod a b) = Int.tmod a b := by
  have h := tmod_bounds a b
  unfold wrap32
  unfold INT_MIN at h1
  unfold INT_MAX at h2
  omega

/-! ## Assignment in a chain of environments -/

open Environment in
theorem length_updateAt (heap : List Environment) (k : Nat) (f : Environment → Environment) :
    (updateAt heap k f).length = heap.length := by
  induction heap generalizing k with
  | nil => rfl
  | cons e rest ih =>
    cases k with
    | zero => rfl
    | succ k => simp [updateAt, ih]

open Environment in
theorem get?_updateAt (heap : List Environment) (k i : Nat) (f : Environment → Environment) :
    (updateAt heap k f).get? i = if i = k then (heap.get? i).map f else heap.get? i := by
  induction heap generalizing k i with
  | nil => simp [updateAt]
  | cons e rest ih =>
    cases k with
    | zero =>
      cases i with
      | zero => simp [updateAt]
      | succ i => simp [updateAt]
    | succ k =>
      cases i with
      | zero => simp [updateAt]
      | succ i =>
        have := ih k i
        simp only [List.get?_eq_getElem?] at this
        simp [updateAt, this]

open Environment in
theorem lookup_map_set (values : List (String × Value)) (name x : String) (v : Value) :
    (values.map (fun e => if e.1 = name then (e.1, v) else e)).lookup x =
      if x = name then (values.lookup x).map (fun _ => v) else values.lookup x := by
  induction values with
  | nil => simp [List.lookup]
  | cons e rest ih =>
    obtain ⟨a, b⟩ := e
    show List.lookup x ((if a = name then (a, v) else (a, b)) ::
      rest.map (fun e => if e.1 = name then (e.1, v) else e)) = _
    by_cases han : a = name
    · rw [if_pos han]
      by_cases hxa : x = a
      · subst hxa
        subst han
        simp [List.lookup]
      · have hb : (x == a) = false := by simpa using hxa
        simp only [List.lookup, hb]
        exact ih
    · rw [if_neg han]
      by_cases hxa : x = a
      · subst hxa
        simp [List.lookup, han]
      · have hb : (x == a) = false := by simpa using hxa
        simp only [List.lookup, hb]
        exact ih

open Environment in
theorem lookup_setValue (values : List (String × Value)) (name x : String) (v w : Value)
    (h : values.lookup name = some w) :
    (setValue values name v).lookup x = if x = name then some v else values.lookup x := by
  unfold setValue
  rw [h]
  simp only [lookup_map_set]
  by_cases hx : x = name
  · simp [hx, h]
  · simp [hx]

open Environment in
theorem define_bound (heap : List Environment) (k : Nat) (name : String) (v w : Value)
    (h : binding heap k name = some w) :
    (define heap k name v).length = heap.length ∧
    (∀ i x, binding (define heap k name v) i x =
      if i = k ∧ x = name then some v else binding heap i x) ∧
    (∀ i, parentOf (define heap k name v) i = parentOf heap i) := by
  refine ⟨length_updateAt _ _ _, ?_, ?_⟩
  · intro i x
    unfold binding define
    rw [get?_updateAt]
    unfold binding at h
    by_cases hik : i = k
    · subst hik
      cases hg : heap.get? i with
      | none => rw [hg] at h; cases h
      | some e =>
        rw [hg] at h
        simp only [if_true, Option.map_some', true_and]
        exact lookup_setValue e.values name x v w h
    · simp [hik]
  · intro i
    unfold parentOf define
    rw [get?_updateAt]
    by_cases hik : i = k
    · subst hik
      cases hg : heap.get? i <;> simp
    · simp [hik]

open Environment in
theorem assignAux_resolved (heap : List Environment) (name : String) (v : Value) (k : Nat) :
    ∀ (fuel env : Nat), resolveAux heap fuel env name = some k →
      assignAux heap fuel env name v = Except.ok (define heap k name v) ∧
      existsAux heap fuel env name = true ∧
      ∃ w, getAux heap fuel env name = Except.ok w ∧ binding heap k name = some w := by
  intro fuel
  induction fuel with
  | zero => intro env h; simp [resolveAux] at h
  | succ n ih =>
    intro env h
    unfold resolveAux at h
    unfold assignAux existsAux getAux
    cases hg : heap.get? env with
    | none => rw [hg] at h; cases h
    | some e =>
      rw [hg] at h
      dsimp only at h ⊢
      cases hl : e.values.lookup name with
      | some w =>
        rw [hl] at h
        injection h with h
        subst h
        refine ⟨rfl, rfl, w, rfl, ?_⟩
        unfold binding
        rw [hg]
        exact hl
      | none =>
        rw [hl] at h
        dsimp only at h ⊢
        cases hp : e.parent with
        | none => rw [hp] at h; cases h
        | some parent =>
          rw [hp] at h
          exact ih parent h

open Environment in
theorem assignAux_unresolved (heap : List Environment) (name : String) (v : Value) :
    ∀ (fuel env : Nat), resolveAux heap fuel env name = none →
      assignAux heap fuel env name v = Except.error ("Undefined variable '" ++ name ++ "'") ∧
      existsAux heap fuel env name = false := by
  intro fuel
  induction fuel with
  | zero => intro env _; exact ⟨rfl, rfl⟩
  | succ n ih =>
    intro env h
    unfold resolveAux at h
    unfold assignAux existsAux
    cases hg : heap.get? env with
    | none => exact ⟨rfl, rfl⟩
    | some e =>
      rw [hg] at h
      dsimp only at h ⊢
      cases hl : e.values.lookup name with
      | some w => rw [hl] at h; cases h
      | none =>
        rw [hl] at h
        dsimp only at h ⊢
        cases hp : e.parent with
        | none => exact ⟨rfl, rfl⟩
        | some parent =>
          rw [hp] at h
          exact ih parent h

/-! ## Diagnostics are only ever appended -/

theorem Exec.keeps_bind {α β : Type} (es : List Error) (r : Exec α)
    (f : α → Interpreter → Exec β) (h1 : r.keeps es)
    (h2 : ∀ a s, es <+: s.errors → (f a s).keeps es) : (r.bind f).keeps es := by
  cases r with
  | done a s => exact h2 a s h1
  | outOfFuel => trivial
  | fault => trivial

theorem Exec.keeps_fault {α : Type} (es : List Error) : (Exec.fault : Exec α).keeps es :=
  trivial

theorem Exec.keeps_outOfFuel {α : Type} (es : List Error) :
    (Exec.outOfFuel : Exec α).keeps es :=
  trivial

theorem Exec.keeps_done {α : Type} (es : List Error) (a : α) (s : Interpreter)
    (h : es <+: s.errors) : (Exec.done a s).keeps es := h

theorem keeps_runtimeError (es : List Error) (s : Interpreter) (t : Token) (m : String)
    (h : es <+: s.errors) : es <+: (s.runtimeError t m).errors :=
  h.trans (List.prefix_append _ _)

theorem keeps_finishBinary (es : List Error) (s : Interpreter) (op : Token) (l r : Value)
    (h : es <+: s.errors) : es <+: (Interpreter.finishBinary s op l r).2.errors := by
  unfold Interpreter.finishBinary
  split
  · exact h
  · exact keeps_runtimeError _ _ _ _ h
  · exact keeps_runtimeError _ _ _ _ h

theorem keeps_finishUnary (es : List Error) (s : Interpreter) (op : Token) (r : Value)
    (h : es <+: s.errors) : es <+: (Interpreter.finishUnary s op r).2.errors := by
  unfold Interpreter.finishUnary
  split
  · exact h
  · exact keeps_runtimeError _ _ _ _ h
  · exact keeps_runtimeError _ _ _ _ h

open Interpreter in
theorem Interpreter.keepsErrors (n : Nat) : Interpreter.KeepsErrors n := by
  induction n with
  | zero =>
    refine ⟨?_, ?_, ?_, ?_, ?_, ?_, ?_⟩ <;> intros <;> trivial
  | succ n ih =>
    obtain ⟨h1, h2, h3, h4, h5, h6, h7⟩ := ih
    refine ⟨?_, ?_, ?_, ?_, ?_, ?_, ?_⟩
    all_goals intro s
    all_goals intros
    all_goals
      first
        | unfold evaluate | unfold evaluateArguments | unfold execute | unfold printValues
        | unfold whileLoop | unfold executeStatements | unfold executeBlock
    all_goals
      repeat' first
        | (with_reducible exact Exec.keeps_fault _)
        | (with_reducible exact Exec.keeps_outOfFuel _)
        | (with_reducible assumption)
        | (with_reducible apply Exec.keeps_bind)
        | (with_reducible apply h1) | (with_reducible apply h2) | (with_reducible apply h3)
        | (with_reducible apply h4) | (with_reducible apply h5) | (with_reducible apply h6)
        | (with_reducible apply h7)
        | (with_reducible apply Exec.keeps_done)
        | (with_reducible apply keeps_runtimeError)
        | (with_reducible apply keeps_finishBinary)
        | (with_reducible apply keeps_finishUnary)
        | intro _
        | split
        | (dsimp only [Interpreter.newEnvironment])

theorem interpret_stateAfter (fuel : Nat) (program : Program)
    (h : (Interpreter.interpret fuel Interpreter.new program).isDone = true) :
    Interpreter.interpret fuel Interpreter.new program =
      Exec.done () (stateAfter fuel program) := by
  unfold stateAfter
  cases hr : Interpreter.interpret fuel Interpreter.new program with
  | done a s => rfl
  | outOfFuel => rw [hr] at h; cases h
  | fault => rw [hr] at h; cases h

theorem interpretLoop_runsInOrder (fuel : Nat) (program : List Stmt) :
    ∀ (s s1 : Interpreter), Interpreter.interpretLoop fuel s program = Exec.done () s1 ↔
      Interpreter.runsInOrder fuel s program s1 := by
  induction program with
  | nil =>
    intro s s1
    simp only [Interpreter.interpretLoop, Interpreter.runsInOrder]
    constructor
    · intro h; injection h with _ h; exact h.symm
    · intro h; rw [h]
  | cons stmt rest ih =>
    intro s s1
    simp only [Interpreter.interpretLoop, Interpreter.runsInOrder]
    cases hr : Interpreter.execute fuel s stmt with
    | done a s2 =>
      simp only [Exec.bind, ih]
      constructor
      · intro h; exact ⟨s2, rfl, h⟩
      · rintro ⟨s3, h3, h4⟩
        injection h3 with _ h3
        rw [h3]; exact h4
    | outOfFuel =>
      simp only [Exec.bind]
      constructor
      · intro h; cases h
      · rintro ⟨s3, h3, _⟩; cases h3
    | fault =>
      simp only [Exec.bind]
      constructor
      · intro h; cases h
      · rintro ⟨s3, h3, _⟩; cases h3

theorem interpretLoop_keeps (fuel : Nat) (program : List Stmt) :
    ∀ (s : Interpreter) (es : List Error), es <+: s.errors →
      (Interpreter.interpretLoop fuel s program).keeps es := by
  induction program with
  | nil => intro s es h; exact h
  | cons stmt rest ih =>
    intro s es h
    simp only [Interpreter.interpretLoop]
    exact Exec.keeps_bind es _ _ ((Interpreter.keepsErrors fuel).2.2.1 s stmt es h)
      (fun _ s2 h2 => ih s2 es h2)

/-! ## Fuel of `parse` -/

namespace Parser

theorem synchronize_step (n : Nat) :
    ∀ p, PResult.le (synchronize n p) (synchronize (n + 1) p) := by
  induction n with
  | zero => intro p; exact Or.inl rfl
  | succ n ih =>
    intro p
    rw [synchronize, synchronize]
    apply PResult.le_ite
    · intro _
      apply PResult.le_bind (PResult.le_refl _)
      intro _ p1
      exact ih p1
    · intro _
      exact PResult.le_refl _

theorem parseProgramLoop_step (n : Nat) :
    ∀ p ss, PResult.le (parseProgramLoop n p ss) (parseProgramLoop (n + 1) p ss) := by
  induction n with
  | zero => intro p ss; exact Or.inl rfl
  | succ n ih =>
    intro p ss
    rw [parseProgramLoop, parseProgramLoop]
    apply PResult.le_ite
    · intro _; exact PResult.le_refl _
    · intro _
      rcases (fuelStep n).1 p with h | h
      · rw [h]; exact Or.inl rfl
      · rw [← h]
        cases parseStatement n p with
        | ok stmt p1 => exact ih p1 _
        | thrown p1 =>
          apply PResult.le_bind (synchronize_step n p1)
          intro _ p2
          apply PResult.le_bind (PResult.le_refl _)
          intro _ p3
          exact ih p3 ss
        | outOfFuel => exact Or.inl rfl

/-- A result of `parse` at one fuel is its result at every larger fuel. -/
theorem parse_stable (p p1 : Parser) (program : Program) (k : Nat)
    (h : p.parse k = PResult.ok program p1) {n : Nat} (hn : k ≤ n) :
    p.parse n = PResult.ok program p1 := by
  induction hn with
  | refl => exact h
  | step _ ih =>
    rcases parseProgramLoop_step _ p [] with h1 | h1
    · unfold parse parseProgram at ih
      rw [ih] at h1; cases h1
    · unfold parse parseProgram at ih ⊢
      rw [← h1]; exact ih

end Parser

/-! ## The parser on a flat expression -/

theorem tierTypes_mem (L : Nat) (hL : L < 4) (t : TokenType) :
    t ∈ tierTypes L ↔ tierOf t = L := by
  rcases L with _ | _ | _ | _ | L
  · cases t <;> simp [tierTypes, tierOf]
  · cases t <;> simp [tierTypes, tierOf]
  · cases t <;> simp [tierTypes, tierOf]
  · cases t <;> simp [tierTypes, tierOf]
  · omega

namespace Parser

theorem reads_cons_cons (p : Parser) (t t1 : Token) (ts : List Token)
    (h : p.reads (t :: t1 :: ts) = true) :
    p.current = t ∧ p.advance = PResult.ok () (p.skip 1) ∧
    (p.skip 1).reads (t1 :: ts) = true ∧ (p.skip 1).previous = t ∧
    (p.skip 1).errors = p.errors ∧ (p.skip 1).current = t1 := by
  simp only [reads, Lexer.feeds, Bool.and_eq_true, decide_eq_true_eq] at h
  obtain ⟨hc, h2⟩ := h
  cases hn : p.lexer.nextToken with
  | thrown lx => rw [hn] at h2; cases h2
  | token t2 lx =>
    rw [hn] at h2
    simp only [Bool.and_eq_true, decide_eq_true_eq] at h2
    obtain ⟨ht, hf⟩ := h2
    subst ht
    have hadv : p.advance =
        PResult.ok () { p with previous := p.current, current := t2, lexer := lx } := by
      simp only [advance, hn]
    have hskip : p.skip 1 =
        { p with previous := p.current, current := t2, lexer := lx } := by
      simp only [skip, hadv]
    rw [hskip]
    refine ⟨hc, hadv, ?_, hc, rfl, rfl⟩
    simp only [reads, hf, decide_True, Bool.and_self]

theorem skip_of_advance (p p1 : Parser) (k : Nat) (h : p.advance = PResult.ok () p1) :
    p.skip (k + 1) = p1.skip k := by
  simp only [skip, h]

theorem skip_stuck (p : Parser) (h : ∀ p1, p.advance ≠ PResult.ok () p1) (k : Nat) :
    p.skip k = p := by
  cases k with
  | zero => rfl
  | succ k =>
    simp only [skip]
    split
    · rename_i u p1 heq
      exact absurd heq (h p1)
    · rfl

theorem skip_add (a b : Nat) : ∀ p : Parser, (p.skip a).skip b = p.skip (a + b) := by
  induction a with
  | zero => intro p; simp [skip]
  | succ a ih =>
    intro p
    cases hadv : p.advance with
    | ok u p1 =>
      have e1 : p.skip (a + 1) = p1.skip a := skip_of_advance p p1 a hadv
      have e2 : p.skip (a + 1 + b) = p1.skip (a + b) := by
        rw [show a + 1 + b = (a + b) + 1 by omega]
        exact skip_of_advance p p1 (a + b) hadv
      rw [e1, e2]; exact ih p1
    | thrown p1 =>
      have hs : ∀ q, p.advance ≠ PResult.ok () q := by
        intro q hq; rw [hadv] at hq; cases hq
      rw [skip_stuck p hs, skip_stuck p hs, skip_stuck p hs]
    | outOfFuel =>
      have hs : ∀ q, p.advance ≠ PResult.ok () q := by
        intro q hq; rw [hadv] at hq; cases hq
      rw [skip_stuck p hs, skip_stuck p hs, skip_stuck p hs]

theorem reads_skip (xs : List Token) : ∀ (p : Parser) (t : Token) (ts : List Token),
    p.reads (xs ++ t :: ts) = true →
    (p.skip xs.length).reads (t :: ts) = true ∧ (p.skip xs.length).errors = p.errors := by
  induction xs with
  | nil => intro p t ts h; exact ⟨h, rfl⟩
  | cons x xs ih =>
    intro p t ts h
    have hne : ∃ y ys, xs ++ t :: ts = y :: ys := by
      cases xs with
      | nil => exact ⟨t, ts, rfl⟩
      | cons y ys => exact ⟨y, ys ++ t :: ts, rfl⟩
    obtain ⟨y, ys, hy⟩ := hne
    have h1 : p.reads (x :: y :: ys) = true := by rw [← hy]; exact h
    obtain ⟨_, hadv, hr, _, he, _⟩ := reads_cons_cons p x y ys h1
    rw [← hy] at hr
    obtain ⟨h2, h3⟩ := ih (p.skip 1) t ts hr
    have hs : p.skip (xs.length + 1) = (p.skip 1).skip xs.length := by
      rw [skip_add, Nat.add_comm]
    simp only [List.length_cons]
    rw [hs]
    exact ⟨h2, h3.trans he⟩

theorem reads_current (p : Parser) (t : Token) (ts : List Token)
    (h : p.reads (t :: ts) = true) : p.current = t := by
  simp only [reads, Bool.and_eq_true, decide_eq_true_eq] at h
  exact h.1

theorem matchTok_false (p : Parser) (ty : TokenType) (h : p.current.type ≠ ty) :
    p.matchTok ty = PResult.ok false p := by
  simp [matchTok, check, h]

theorem matchTok_true (p : Parser) (t t1 : Token) (ts : List Token)
    (h : p.reads (t :: t1 :: ts) = true) :
    p.matchTok t.type = PResult.ok true (p.skip 1) := by
  obtain ⟨hc, hadv, _⟩ := reads_cons_cons p t t1 ts h
  simp [matchTok, check, hc, hadv, PResult.bind]

theorem matchTypes_none (types : List TokenType) (p : Parser)
    (h : p.current.type ∉ types) : p.matchTypes types = PResult.ok none p := by
  induction types with
  | nil => rfl
  | cons ty tys ih =>
    have h1 : p.current.type ≠ ty := fun e => h (by rw [e]; exact List.mem_cons_self _ _)
    have h2 : p.current.type ∉ tys := fun e => h (List.mem_cons_of_mem _ e)
    simp only [matchTypes, matchTok_false p ty h1, PResult.bind, Bool.false_eq_true, if_false]
    exact ih h2

theorem matchTypes_some (types : List TokenType) (p : Parser) (t t1 : Token)
    (ts : List Token) (h : p.reads (t :: t1 :: ts) = true) (hm : t.type ∈ types) :
    p.matchTypes types = PResult.ok (some t.type) (p.skip 1) := by
  have hc := reads_current p t _ h
  induction types with
  | nil => cases hm
  | cons ty tys ih =>
    by_cases h1 : t.type = ty
    · subst h1
      simp only [matchTypes, matchTok_true p t t1 ts h, PResult.bind, if_true]
    · have h2 : p.current.type ≠ ty := by rw [hc]; exact h1
      have hm2 : t.type ∈ tys := by
        rcases List.mem_cons.mp hm with e | e
        · exact absurd e h1
        · exact e
      simp only [matchTypes, matchTok_false p ty h2, PResult.bind, Bool.false_eq_true,
        if_false]
      exact ih hm2

theorem grouped_not_null (e : Expr) (h : e.grouped = true) : e.isNull = false := by
  cases e <;> simp [Expr.grouped] at h <;> rfl

theorem atomExpr_props (t : Token) :
    (atomExpr t).flat = (atomExpr t, []) ∧ (atomExpr t).grouped = true ∧
    (atomExpr t).rootTier = 4 := by
  unfold atomExpr
  split <;> exact ⟨rfl, rfl, rfl⟩

theorem unary_spec : SubSpec parseUnary 4 := by
  intro p a0 pairs stop rest hatom hwf hstop hreads
  have hnil : pairs = [] := by
    cases pairs with
    | nil => rfl
    | cons q qs =>
      have := hwf q (List.mem_cons_self _ _)
      omega
  subst hnil
  simp only [flatTail, List.nil_append, List.length_nil, Nat.mul_zero, Nat.zero_add,
    List.map_nil] at hreads ⊢
  obtain ⟨hc, hadv, hr1, hprev, _, hcur1⟩ := reads_cons_cons p a0 stop rest hreads
  obtain ⟨h1, h2, h3⟩ := atomExpr_props a0
  refine ⟨atomExpr a0, ⟨3, ?_⟩, h1, h2, by omega⟩
  intro n hn
  obtain ⟨m, rfl⟩ : ∃ m, n = m + 3 := ⟨n - 3, by omega⟩
  have hnot : p.current.type ∉ [TokenType.MINUS, TokenType.NOT] := by
    rw [hc]; intro hmem
    simp only [List.mem_cons, List.mem_singleton, List.not_mem_nil, or_false] at hmem
    rcases hmem with e | e <;> simp [isAtomToken, e] at hatom
  have hparen : (p.skip 1).current.type ≠ TokenType.LEFT_PAREN := by
    rw [hcur1]; exact hstop.1
  have hloop : ∀ e, parseCallLoop (m + 1) (p.skip 1) e = PResult.ok e (p.skip 1) := by
    intro e
    simp only [parseCallLoop, matchTok_false _ _ hparen, PResult.bind, Bool.false_eq_true,
      if_false]
  simp only [parseUnary, matchTypes_none _ p hnot, PResult.bind, parseCall, parsePrimary]
  by_cases hid : a0.type = TokenType.IDENTIFIER
  · have hlit : p.current.type ∉ [TokenType.INT_LITERAL, TokenType.FLOAT_LITERAL,
        TokenType.BOOL_LITERAL, TokenType.STRING_LITERAL] := by
      rw [hc, hid]; decide
    have hmt := matchTok_true p a0 stop rest hreads
    rw [hid] at hmt
    simp only [matchTypes_none _ p hlit, PResult.bind, hmt, if_true, hloop, hprev, atomExpr,
      hid]
  · have hlit : a0.type ∈ [TokenType.INT_LITERAL, TokenType.FLOAT_LITERAL,
        TokenType.BOOL_LITERAL, TokenType.STRING_LITERAL] := by
      revert hatom hid
      unfold isAtomToken
      cases a0.type <;> simp
    simp only [matchTypes_some _ p a0 stop rest hreads hlit, PResult.bind, hloop, hprev,
      atomExpr, hid, if_false]

theorem flatTail_append (xs ys : List (Token × Token)) :
    flatTail (xs ++ ys) = flatTail xs ++ flatTail ys := by
  induction xs with
  | nil => rfl
  | cons q qs ih => simp [flatTail, ih]

theorem flatTail_length (xs : List (Token × Token)) :
    (flatTail xs).length = 2 * xs.length := by
  induction xs with
  | nil => rfl
  | cons q qs ih => simp [flatTail, ih]; omega

/-- The pairs split into the operand of the next tier and what the loop of tier `L`
reads. -/
theorem split_pairs (L : Nat) (pairs : List (Token × Token)) (h : wellFormed L pairs) :
    ∃ pre post, pairs = pre ++ post ∧ wellFormed (L + 1) pre ∧ wellFormed L post ∧
      leading L post := by
  induction pairs with
  | nil =>
    refine ⟨[], [], rfl, ?_, ?_, ?_⟩
    · intro q hq; cases hq
    · intro q hq; cases hq
    · intro q hq; cases hq
  | cons q qs ih =>
    have hq := h q (List.mem_cons_self _ _)
    have hqs : wellFormed L qs := fun x hx => h x (List.mem_cons_of_mem _ hx)
    by_cases ht : tierOf q.1.type = L
    · refine ⟨[], q :: qs, rfl, ?_, h, ?_⟩
      · intro x hx; cases hx
      · intro x hx
        simp only [List.head?_cons, Option.mem_def, Option.some.injEq] at hx
        rw [← hx]; exact ht
    · obtain ⟨pre, post, h1, h2, h3, h4⟩ := ih hqs
      refine ⟨q :: pre, post, by rw [h1]; rfl, ?_, h3, h4⟩
      intro x hx
      rcases List.mem_cons.mp hx with e | e
      · rw [e]; exact ⟨hq.1, by omega, hq.2.2⟩
      · exact h2 x e

/-- The token after the operand of the next tier ends that operand. -/
theorem next_stop (L : Nat) (hL : L < 4) (post : List (Token × Token)) (stop : Token)
    (rest : List Token) (hl : leading L post) (hs : stopsAt L stop) :
    ∃ stop1 rest1, flatTail post ++ stop :: rest = stop1 :: rest1 ∧ stopsAt (L + 1) stop1 := by
  cases post with
  | nil =>
    refine ⟨stop, rest, rfl, hs.1, ?_⟩
    intro h; exact hs.2 ⟨by omega, h.2⟩
  | cons q qs =>
    have ht : tierOf q.1.type = L := hl q rfl
    refine ⟨q.1, q.2 :: flatTail qs ++ stop :: rest, rfl, ?_, ?_⟩
    · intro e
      rw [e] at ht
      simp [tierOf] at ht
      omega
    · intro h; omega

theorem loop_spec (L : Nat) (hL : L < 4) (sub : Nat → Parser → PResult Expr)
    (loop : Nat → Parser → Expr → PResult Expr)
    (hloop : ∀ n p e, loop (n + 1) p e =
      (p.matchTypes (tierTypes L)).bind fun m p1 =>
        match m with
        | none => PResult.ok e p1
        | some _ =>
          (sub n p1).bind fun right p2 =>
          loop n p2 (if right.isNull then e else Expr.Binary e p1.previous right))
    (hsub : SubSpec sub (L + 1)) : LoopSpec loop L := by
  suffices H : ∀ (len : Nat) (pairs : List (Token × Token)), pairs.length = len →
      ∀ (p : Parser) (e0 : Expr) (stop : Token) (rest : List Token),
      wellFormed L pairs → leading L pairs → stopsAt L stop →
      p.reads (flatTail pairs ++ stop :: rest) = true →
      e0.grouped = true → L ≤ e0.rootTier →
      ∃ e, Parser.Yields (fun n => loop n p e0) e (p.skip (2 * pairs.length)) ∧
        e.flat = (e0.flat.1, e0.flat.2 ++ pairs.map fun q => (q.1, atomExpr q.2)) ∧
        e.grouped = true ∧ L ≤ e.rootTier from fun pairs => H _ pairs rfl
  intro len
  induction len using Nat.strong_induction_on with
  | _ len ih =>
    intro pairs hlen p e0 stop rest hwf hlead hstop hreads hg hr
    cases pairs with
    | nil =>
      simp only [flatTail, List.nil_append] at hreads
      have hc := reads_current p stop rest hreads
      have hnot : p.current.type ∉ tierTypes L := by
        rw [hc, tierTypes_mem L hL]
        intro e
        exact hstop.2 ⟨by omega, by omega⟩
      refine ⟨e0, ⟨1, ?_⟩, by simp, hg, hr⟩
      intro n hn
      obtain ⟨m, rfl⟩ : ∃ m, n = m + 1 := ⟨n - 1, by omega⟩
      simp only [hloop, matchTypes_none _ p hnot, PResult.bind, List.length_nil, Nat.mul_zero,
        skip]
    | cons q tl =>
      obtain ⟨op, a⟩ := q
      have hq := hwf (op, a) (List.mem_cons_self _ _)
      have hop : tierOf op.type = L := hlead (op, a) rfl
      have htl : wellFormed L tl := fun x hx => hwf x (List.mem_cons_of_mem _ hx)
      obtain ⟨pre, post, hsplit, hpre, hpost, hleadpost⟩ := split_pairs L tl htl
      obtain ⟨stop1, rest1, hnext, hstop1⟩ := next_stop L hL post stop rest hleadpost hstop
      have hreads1 : p.reads (op :: a :: (flatTail tl ++ stop :: rest)) = true := by
        simpa [flatTail] using hreads
      obtain ⟨_, _, hr1, hprev, herr1, _⟩ := reads_cons_cons p op a _ hreads1
      have hmatch := matchTypes_some (tierTypes L) p op a _ hreads1
        ((tierTypes_mem L hL op.type).mpr hop)
      have hreads2 : (p.skip 1).reads (a :: flatTail pre ++ stop1 :: rest1) = true := by
        rw [← hnext, hsplit, flatTail_append] at *
        simpa using hr1
      obtain ⟨r, ⟨k1, hk1⟩, hrflat, hrg, hrt⟩ :=
        hsub (p.skip 1) a pre stop1 rest1 hq.1 hpre hstop1 hreads2
      have hrn := grouped_not_null r hrg
      have hreads3 : ((p.skip 1).skip (2 * pre.length + 1)).reads
          (flatTail post ++ stop :: rest) = true := by
        have := (reads_skip (a :: flatTail pre) (p.skip 1) stop1 rest1
          (by simpa using hreads2)).1
        simp only [List.length_cons, flatTail_length] at this
        rw [hnext]; exact this
      have hg1 : (Expr.Binary e0 op r).grouped = true := by
        simp only [Expr.grouped, hg, hrg, Bool.and_self, Bool.true_and, Bool.and_eq_true,
          decide_eq_true_eq]
        exact ⟨by omega, by omega⟩
      have hlenpost : post.length < len := by
        rw [← hlen, hsplit]; simp only [List.length_cons, List.length_append]; omega
      obtain ⟨e, ⟨k2, hk2⟩, heflat, heg, het⟩ :=
        ih post.length hlenpost post rfl ((p.skip 1).skip (2 * pre.length + 1))
          (Expr.Binary e0 op r) stop rest hpost hleadpost hstop hreads3 hg1
          (by simp only [Expr.rootTier]; omega)
      refine ⟨e, ⟨max k1 k2 + 1, ?_⟩, ?_, heg, het⟩
      · intro n hn
        obtain ⟨m, rfl⟩ : ∃ m, n = m + 1 := ⟨n - 1, by omega⟩
        have e1 := hk1 m (by omega)
        have e2 := hk2 m (by omega)
        simp only at e1 e2
        simp only [hloop, hmatch, PResult.bind, e1, hrn, Bool.false_eq_true, if_false, hprev,
          e2]
        congr 1
        rw [skip_add, skip_add, hsplit]
        congr 1
        simp only [List.length_cons, List.length_append]
        omega
      · rw [heflat]
        simp only [Expr.flat, hrflat, hsplit, List.map_cons, List.map_append,
          List.append_assoc, List.cons_append]

theorem tier_spec (L : Nat) (hL : L < 4) (sub parse : Nat → Parser → PResult Expr)
    (loop : Nat → Parser → Expr → PResult Expr)
    (hparse : ∀ n p, parse (n + 1) p = (sub n p).bind fun e p1 => loop n p1 e)
    (hsub : SubSpec sub (L + 1)) (hloop : LoopSpec loop L) : SubSpec parse L := by
  intro p a0 pairs stop rest hatom hwf hstop hreads
  obtain ⟨pre, post, hsplit, hpre, hpost, hleadpost⟩ := split_pairs L pairs hwf
  obtain ⟨stop1, rest1, hnext, hstop1⟩ := next_stop L hL post stop rest hleadpost hstop
  have hreads1 : p.reads (a0 :: flatTail pre ++ stop1 :: rest1) = true := by
    rw [← hnext]
    rw [hsplit, flatTail_append] at hreads
    simpa using hreads
  obtain ⟨e0, ⟨k1, hk1⟩, he0flat, he0g, he0t⟩ :=
    hsub p a0 pre stop1 rest1 hatom hpre hstop1 hreads1
  have hreads2 :
      (p.skip (2 * pre.length + 1)).reads (flatTail post ++ stop :: rest) = true := by
    have := (reads_skip (a0 :: flatTail pre) p stop1 rest1 (by simpa using hreads1)).1
    simp only [List.length_cons, flatTail_length] at this
    rw [hnext]; exact this
  obtain ⟨e, ⟨k2, hk2⟩, heflat, heg, het⟩ :=
    hloop post (p.skip (2 * pre.length + 1)) e0 stop rest hpost hleadpost hstop hreads2 he0g
      (by omega)
  refine ⟨e, ⟨max k1 k2 + 1, ?_⟩, ?_, heg, het⟩
  · intro n hn
    obtain ⟨m, rfl⟩ : ∃ m, n = m + 1 := ⟨n - 1, by omega⟩
    have e1 := hk1 m (by omega)
    have e2 := hk2 m (by omega)
    simp only at e1 e2
    simp only [hparse, e1, PResult.bind, e2]
    congr 1
    rw [skip_add, hsplit]
    congr 1
    simp only [List.length_append]
    omega
  · rw [heflat, he0flat, hsplit]
    simp only [List.map_append]

theorem factor_spec : SubSpec parseFactor 3 :=
  tier_spec 3 (by decide) parseUnary parseFactor parseFactorLoop
    (fun n p => by rw [parseFactor])
    unary_spec
    (loop_spec 3 (by decide) parseUnary parseFactorLoop
      (fun n p e => by rw [parseFactorLoop]; rfl) unary_spec)

theorem term_spec : SubSpec parseTerm 2 :=
  tier_spec 2 (by decide) parseFactor parseTerm parseTermLoop
    (fun n p => by rw [parseTerm])
    factor_spec
    (loop_spec 2 (by decide) parseFactor parseTermLoop
      (fun n p e => by rw [parseTermLoop]; rfl) factor_spec)

theorem comparison_spec : SubSpec parseComparison 1 :=
  tier_spec 1 (by decide) parseTerm parseComparison parseComparisonLoop
    (fun n p => by rw [parseComparison])
    term_spec
    (loop_spec 1 (by decide) parseTerm parseComparisonLoop
      (fun n p e => by rw [parseComparisonLoop]; rfl) term_spec)

theorem equality_spec : SubSpec parseEquality 0 :=
  tier_spec 0 (by decide) parseComparison parseEquality parseEqualityLoop
    (fun n p => by rw [parseEquality])
    comparison_spec
    (loop_spec 0 (by decide) parseComparison parseEqualityLoop
      (fun n p e => by rw [parseEqualityLoop]; rfl) comparison_spec)

end Parser

/-! ## Grouped trees -/

/-- In a grouped tree no operator is weaker than the one at the root. -/
theorem flat_tiers : ∀ (e : Expr), e.grouped = true →
    ∀ q ∈ e.flat.2, e.rootTier ≤ tierOf q.1.type
  | Expr.Binary l op r, h, q, hq => by
    simp only [Expr.grouped, Bool.and_eq_true, decide_eq_true_eq] at h
    obtain ⟨⟨⟨hl, hr⟩, h1⟩, h2⟩ := h
    simp only [Expr.flat, List.mem_append, List.mem_cons] at hq
    simp only [Expr.rootTier]
    rcases hq with hq | hq | hq
    · have := flat_tiers l hl q hq
      omega
    · rw [hq]
    · have := flat_tiers r hr q hq
      omega
  | Expr.Literal _, _, q, hq => by simp [Expr.flat] at hq
  | Expr.Variable _, _, q, hq => by simp [Expr.flat] at hq
  | Expr.null, h, _, _ => by simp [Expr.grouped] at h
  | Expr.Unary _ _, h, _, _ => by simp [Expr.grouped] at h
  | Expr.Call _ _, h, _, _ => by simp [Expr.grouped] at h
  | Expr.Assignment _ _, h, _, _ => by simp [Expr.grouped] at h

theorem flat_leaf (e : Expr) (h : e.grouped = true) (hnil : e.flat.2 = []) : e.flat.1 = e := by
  cases e <;> simp [Expr.grouped, Expr.flat] at h hnil ⊢

/-- A grouped tree is determined by its operands and operators read from left to right. -/
theorem grouped_unique : ∀ (e1 e2 : Expr), e1.grouped = true → e2.grouped = true →
    e1.flat = e2.flat → e1 = e2
  | Expr.Binary l1 op1 r1, e2, h1, h2, hf => by
    cases e2 with
    | Binary l2 op2 r2 =>
      have g1 := h1
      have g2 := h2
      simp only [Expr.grouped, Bool.and_eq_true, decide_eq_true_eq] at g1 g2
      obtain ⟨⟨⟨hl1, hr1⟩, ha1⟩, hb1⟩ := g1
      obtain ⟨⟨⟨hl2, hr2⟩, ha2⟩, hb2⟩ := g2
      simp only [Expr.flat, Prod.mk.injEq] at hf
      obtain ⟨hfst, hsnd⟩ := hf
      have key : l1.flat.2 = l2.flat.2 ∧ (op1, r1.flat.1) = (op2, r2.flat.1) ∧
          r1.flat.2 = r2.flat.2 := by
        rcases List.append_eq_append_iff.mp hsnd with ⟨a, ha, hb⟩ | ⟨c, hc, hd⟩
        · cases a with
          | nil =>
            simp only [List.nil_append, List.cons.injEq] at hb
            simp only [List.append_nil] at ha
            exact ⟨ha.symm, hb.1, hb.2⟩
          | cons x a =>
            simp only [List.cons_append, List.cons.injEq] at hb
            have m1 : (op1, r1.flat.1) ∈ l2.flat.2 := by
              rw [ha, ← hb.1]; simp
            have m2 : (op2, r2.flat.1) ∈ r1.flat.2 := by
              rw [hb.2]; simp
            have t1 := flat_tiers l2 hl2 _ m1
            have t2 := flat_tiers r1 hr1 _ m2
            simp only at t1 t2
            omega
        · cases c with
          | nil =>
            simp only [List.nil_append, List.cons.injEq] at hd
            simp only [List.append_nil] at hc
            exact ⟨hc, hd.1.symm, hd.2.symm⟩
          | cons x c =>
            simp only [List.cons_append, List.cons.injEq] at hd
            have m1 : (op2, r2.flat.1) ∈ l1.flat.2 := by
              rw [hc, ← hd.1]; simp
            have m2 : (op1, r1.flat.1) ∈ r2.flat.2 := by
              rw [hd.2]; simp
            have t1 := flat_tiers l1 hl1 _ m1
            have t2 := flat_tiers r2 hr2 _ m2
            simp only at t1 t2
            omega
      obtain ⟨k1, k2, k3⟩ := key
      simp only [Prod.mk.injEq] at k2
      have el : l1 = l2 := grouped_unique l1 l2 hl1 hl2 (Prod.ext hfst k1)
      have er : r1 = r2 := grouped_unique r1 r2 hr1 hr2 (Prod.ext k2.2 k3)
      rw [el, er, k2.1]
    | Literal _ => simp [Expr.flat] at hf
    | Variable _ => simp [Expr.flat] at hf
    | null => simp [Expr.grouped] at h2
    | Unary _ _ => simp [Expr.grouped] at h2
    | Call _ _ => simp [Expr.grouped] at h2
    | Assignment _ _ => simp [Expr.grouped] at h2
  | Expr.Literal v, e2, _, h2, hf => by
    have hnil : e2.flat.2 = [] := by rw [← hf]; rfl
    have := flat_leaf e2 h2 hnil
    rw [← this, ← hf]; rfl
  | Expr.Variable v, e2, _, h2, hf => by
    have hnil : e2.flat.2 = [] := by rw [← hf]; rfl
    have := flat_leaf e2 h2 hnil
    rw [← this, ← hf]; rfl
  | Expr.null, _, h, _, _ => by simp [Expr.grouped] at h
  | Expr.Unary _ _, _, h, _, _ => by simp [Expr.grouped] at h
  | Expr.Call _ _, _, h, _, _ => by simp [Expr.grouped] at h
  | Expr.Assignment _ _, _, h, _, _ => by simp [Expr.grouped] at h

/-! ## Symbol tables and the analyzer -/

/-- A name found in the innermost scope is the result of the lookup. -/
theorem lookupChain_head (s : Scope) (rest : List Scope) (name : String) (symbol : Symbol)
    (h : s.symbols.lookup name = some symbol) :
    SymbolTable.lookupChain (s :: rest) name = some symbol := by
  simp only [SymbolTable.lookupChain, h]

/-- A symbol appended under a name that the map does not hold is found under that name. -/
theorem lookup_append_new (symbols : List (String × Symbol)) (name : String) (symbol : Symbol)
    (h : symbols.lookup name = none) :
    (symbols ++ [(name, symbol)]).lookup name = some symbol := by
  induction symbols with
  | nil => simp [List.lookup]
  | cons e rest ih =>
    obtain ⟨k, v⟩ := e
    by_cases hk : name = k
    · subst hk; simp [List.lookup] at h
    · have hb : (name == k) = false := by simpa using hk
      simp only [List.lookup, hb] at h
      simp only [List.cons_append, List.lookup, hb]
      exact ih h

/-- Appending a symbol leaves the lookup of every other name unchanged. -/
theorem lookup_append_other (symbols : List (String × Symbol)) (name other : String)
    (symbol : Symbol) (h : other ≠ name) :
    (symbols ++ [(name, symbol)]).lookup other = symbols.lookup other := by
  induction symbols with
  | nil =>
    have hb : (other == name) = false := by simpa using h
    simp [List.lookup, hb]
  | cons e rest ih =>
    obtain ⟨k, v⟩ := e
    by_cases hk : other = k
    · subst hk; simp [List.lookup]
    · have hb : (other == k) = false := by simpa using hk
      simp only [List.cons_append, List.lookup, hb]
      exact ih

open SemanticAnalyzer in
/-- No expression visitor of the analyzer returns: each ends in `return nullptr;`. -/
theorem SemanticAnalyzer.visitExpr_never_returns (e : Expr) (a a1 : SemanticAnalyzer) :
    visitExpr e a ≠ Visit.returned a1 := by
  cases e with
  | null => simp [visitExpr]
  | Literal v => simp [visitExpr, returnNullptr]
  | Variable name =>
    simp only [visitExpr, returnNullptr]
    split
    · simp
    · split <;> simp
  | Binary l op r =>
    simp only [visitExpr, returnNullptr]
    cases visitExpr l a with
    | returned b =>
      dsimp only
      cases visitExpr r b <;> simp
    | thrown b => simp
    | fault => simp
  | Unary op r =>
    simp only [visitExpr, returnNullptr]
    cases visitExpr r a <;> simp
  | Call callee arguments =>
    simp only [visitExpr, returnNullptr]
    cases visitExprs arguments _ <;> simp
  | Assignment name value =>
    simp only [visitExpr, returnNullptr]
    cases visitExpr value _ <;> simp

open TypeChecker in
/-- No expression visitor of the type checker returns. -/
theorem TypeChecker.visitExpr_throws_or_faults (e : Expr) (tc tc1 : TypeChecker) :
    visitExpr e tc ≠ Visit.returned tc1 := by
  cases e with
  | null => simp [visitExpr]
  | Literal v => simp [visitExpr, returnNullptr]
  | Variable name =>
    simp only [visitExpr, returnNullptr]
    split <;> simp
  | Binary l op r =>
    simp only [visitExpr, returnNullptr]
    cases visitExpr l tc with
    | returned b =>
      dsimp only
      cases visitExpr r b <;> simp
    | thrown b => simp
    | fault => simp
  | Unary op r =>
    simp only [visitExpr, returnNullptr]
    cases visitExpr r tc <;> simp
  | Call callee arguments =>
    simp only [visitExpr, returnNullptr]
    cases visitExprs arguments tc <;> simp
  | Assignment name value =>
    simp only [visitExpr, returnNullptr]
    cases visitExpr value tc <;> simp

open SemanticAnalyzer in
/-- A program whose first statement is a declaration with an initializer is not analysed
to the end: `analyze` does not return. -/
theorem SemanticAnalyzer.analyze_declaration (a a1 : SemanticAnalyzer) (name : Token)
    (initializer : Expr) (rest : List Stmt) (h : initializer.isNull = false) :
    a.analyze (Stmt.VariableDecl name initializer :: rest) ≠ Visit.returned a1 := by
  have hd : declareFunctions (Stmt.VariableDecl name initializer :: rest) a =
      declareFunctions rest a := rfl
  simp only [analyze, hd, visitStmts, visitStmt, h, Bool.not_false, Bool.false_eq_true,
    if_false]
  cases hv : visitExpr initializer
      ((declareFunctions rest a).declareVariable name TokenType.INT_TYPE true) with
  | returned b => exact absurd hv (SemanticAnalyzer.visitExpr_never_returns _ _ _)
  | thrown b => simp
  | fault => simp

open SemanticAnalyzer in
/-- In a scope that does not yet hold the name, the visit of `let x = x;` records no
diagnostic: the symbol is inserted as initialized before the initializer is visited, and
the visit of the initializer ends in the exception of `return nullptr;`. -/
theorem declared_initialized (a : SemanticAnalyzer) (name : Token)
    (h : a.currentScope.lookupCurrentScope name.lexeme = none) :
    (∃ symbol, (a.declareVariable name TokenType.INT_TYPE true).currentScope.lookup
        name.lexeme = some symbol ∧ symbol.isInitialized = true) ∧
    (a.declareVariable name TokenType.INT_TYPE true).errors = a.errors ∧
    visitStmt (Stmt.VariableDecl name (Expr.Variable name)) a =
      Visit.thrown (a.declareVariable name TokenType.INT_TYPE true) := by
  simp only [SymbolTable.lookupCurrentScope] at h
  have hd : a.declareVariable name TokenType.INT_TYPE true =
      { a with currentScope := { a.currentScope with scope := { a.currentScope.scope with
          symbols := a.currentScope.scope.symbols ++ [(name.lexeme,
            { name := name.lexeme, type := SymbolType.VARIABLE, dataType := TokenType.INT_TYPE,
              scopeLevel := a.currentScope.getScopeLevel, isInitialized := true,
              isConstant := false })] } } } := by
    simp [declareVariable, SymbolTable.insert, h]
  have hl : (a.declareVariable name TokenType.INT_TYPE true).currentScope.lookup name.lexeme =
      some { name := name.lexeme, type := SymbolType.VARIABLE, dataType := TokenType.INT_TYPE,
              scopeLevel := a.currentScope.getScopeLevel, isInitialized := true,
              isConstant := false } := by
    rw [hd]
    simp only [SymbolTable.lookup]
    exact lookupChain_head _ _ _ _ (lookup_append_new _ _ _ h)
  refine ⟨⟨_, hl, rfl⟩, by rw [hd], ?_⟩
  simp only [visitStmt, Expr.isNull, Bool.not_false, visitExpr, hl, Bool.not_true,
    Bool.false_eq_true, if_false, returnNullptr]

open SymbolTable in
/-- The lookup along a chain of scopes returns the symbol of the first scope that holds
the name, and nothing exactly when no scope holds it. -/
theorem lookupChain_spec (name : String) : ∀ (chain : List Scope),
    (∀ symbol, lookupChain chain name = some symbol ↔
      ∃ i scope, chain.get? i = some scope ∧ scope.symbols.lookup name = some symbol ∧
        ∀ j, j < i → ∀ inner, chain.get? j = some inner → inner.symbols.lookup name = none) ∧
    (lookupChain chain name = none ↔ ∀ scope ∈ chain, scope.symbols.lookup name = none)
  | [] => by
    constructor
    · intro symbol
      simp [lookupChain]
    · simp [lookupChain]
  | s :: rest => by
    obtain ⟨ih1, ih2⟩ := lookupChain_spec name rest
    cases hs : s.symbols.lookup name with
    | some found =>
      constructor
      · intro symbol
        simp only [lookupChain, hs, Option.some.injEq]
        constructor
        · intro h
          refine ⟨0, s, rfl, by rw [hs, h], ?_⟩
          intro j hj; omega
        · rintro ⟨i, scope, hget, hl, hbefore⟩
          cases i with
          | zero =>
            simp only [List.get?_cons_zero, Option.some.injEq] at hget
            rw [← hget, hs] at hl
            exact Option.some.inj hl
          | succ i =>
            have := hbefore 0 (by omega) s rfl
            rw [hs] at this; cases this
      · simp only [lookupChain, hs, List.mem_cons, forall_eq_or_imp, false_and, reduceCtorEq]
    | none =>
      constructor
      · intro symbol
        simp only [lookupChain, hs]
        rw [ih1 symbol]
        constructor
        · rintro ⟨i, scope, hget, hl, hbefore⟩
          refine ⟨i + 1, scope, by simpa using hget, hl, ?_⟩
          intro j hj inner hinner
          cases j with
          | zero =>
            simp only [List.get?_cons_zero, Option.some.injEq] at hinner
            rw [← hinner]; exact hs
          | succ j =>
            exact hbefore j (by omega) inner (by simpa using hinner)
        · rintro ⟨i, scope, hget, hl, hbefore⟩
          cases i with
          | zero =>
            simp only [List.get?_cons_zero, Option.some.injEq] at hget
            rw [← hget, hs] at hl; cases hl
          | succ i =>
            refine ⟨i, scope, by simpa using hget, hl, ?_⟩
            intro j hj inner hinner
            exact hbefore (j + 1) (by omega) inner (by simpa using hinner)
      · simp only [lookupChain, hs, List.mem_cons, forall_eq_or_imp, true_and]
        exact ih2

/-! ## Positions kept by the lexer -/

namespace Lexer

/-- The method `advance` keeps the lexer well formed. -/
theorem advance_wellFormed (lx : Lexer) (h : lx.wellFormed) : lx.advance.2.wellFormed := by
  obtain ⟨h1, h2, h3⟩ := h
  unfold advance
  by_cases he : lx.isAtEnd = true
  · simp only [he, if_true]; exact ⟨h1, h2, h3⟩
  · have hlt : lx.current < lx.source.length := by
      simp only [isAtEnd, decide_eq_true_eq, not_le] at he; exact he
    simp only [he, Bool.false_eq_true, if_false]
    split
    · exact ⟨by simp only; omega, by simp only; omega, by simp only; omega⟩
    · exact ⟨by simp only; omega, by simp only; omega, by simp only; omega⟩

/-- The method `advance` keeps the column in step with the characters read. -/
theorem advance_inToken (l0 c0 : Int) (lx : Lexer) (h : lx.inToken l0 c0) :
    lx.advance.2.inToken l0 c0 := by
  obtain ⟨hw, h1, h2, h3⟩ := h
  have hw2 := advance_wellFormed lx hw
  refine ⟨hw2, ?_, ?_, ?_⟩
  all_goals
    unfold advance at *
    by_cases he : lx.isAtEnd = true
    · simp only [he, if_true] at *
      first | exact h1 | exact h2 | exact h3
    · simp only [he, Bool.false_eq_true, if_false] at *
      split
      · simp only
        omega
      · simp only
        omega

/-- The method `match` keeps the column in step with the characters read. -/
theorem matchChar_inToken (l0 c0 : Int) (lx : Lexer) (c : Char) (h : lx.inToken l0 c0) :
    (lx.matchChar c).2.inToken l0 c0 := by
  obtain ⟨⟨hw1, hw2, hw3⟩, h1, h2, h3⟩ := h
  unfold matchChar
  split
  · exact ⟨⟨hw1, hw2, hw3⟩, h1, h2, h3⟩
  · rename_i hc
    have hlt : lx.current < lx.source.length := by
      simp only [isAtEnd, Bool.or_eq_true, decide_eq_true_eq, not_or, not_le] at hc
      exact hc.1
    refine ⟨⟨?_, ?_, ?_⟩, ?_, ?_, ?_⟩ <;> simp only <;> omega

/-- Skipping a comment keeps the lexer well formed. -/
theorem skipCommentLoop_wellFormed (n : Nat) : ∀ lx : Lexer, lx.wellFormed →
    (skipCommentLoop n lx).wellFormed := by
  induction n with
  | zero => intro lx h; exact h
  | succ n ih =>
    intro lx h
    unfold skipCommentLoop
    split
    · exact ih _ (advance_wellFormed lx h)
    · exact h

/-- Skipping whitespace keeps the lexer well formed. -/
theorem skipWhitespaceLoop_wellFormed (n : Nat) : ∀ lx : Lexer, lx.wellFormed →
    (skipWhitespaceLoop n lx).wellFormed := by
  induction n with
  | zero => intro lx h; exact h
  | succ n ih =>
    intro lx h
    unfold skipWhitespaceLoop
    split
    · exact h
    · dsimp only
      split
      · exact ih _ (advance_wellFormed lx h)
      · split
        · refine ih _ (advance_wellFormed _ ?_)
          obtain ⟨h1, h2, h3⟩ := h
          exact ⟨h1, by simp only; omega, by simp only; omega⟩
        · split
          · exact ih _ (skipCommentLoop_wellFormed _ lx h)
          · exact h

theorem digitLoop_inToken (l0 c0 : Int) (n : Nat) : ∀ lx : Lexer, lx.inToken l0 c0 →
    (digitLoop n lx).inToken l0 c0 := by
  induction n with
  | zero => intro lx h; exact h
  | succ n ih =>
    intro lx h
    unfold digitLoop
    split
    · exact ih _ (advance_inToken l0 c0 lx h)
    · exact h

theorem identLoop_inToken (l0 c0 : Int) (n : Nat) : ∀ lx : Lexer, lx.inToken l0 c0 →
    (identLoop n lx).inToken l0 c0 := by
  induction n with
  | zero => intro lx h; exact h
  | succ n ih =>
    intro lx h
    unfold identLoop
    split
    · exact ih _ (advance_inToken l0 c0 lx h)
    · exact h

theorem stringLoop_inToken (l0 c0 : Int) (n : Nat) : ∀ lx : Lexer, lx.inToken l0 c0 →
    (stringLoop n lx).inToken l0 c0 := by
  induction n with
  | zero => intro lx h; exact h
  | succ n ih =>
    intro lx h
    unfold stringLoop
    split
    · refine ih _ (advance_inToken l0 c0 _ ?_)
      split
      · obtain ⟨⟨hw1, hw2, hw3⟩, h1, h2, h3⟩ := h
        refine ⟨⟨hw1, ?_, ?_⟩, h1, ?_, ?_⟩ <;> simp only <;> omega
      · exact h
    · exact h

/-- The length of the text of the token is the distance of the two cursors. -/
theorem text_length (l0 c0 : Int) (lx : Lexer) (h : lx.inToken l0 c0) :
    (lx.text.length : Int) = (lx.current : Int) - (lx.start : Int) := by
  obtain ⟨⟨hw1, _, _⟩, h1, _, _⟩ := h
  unfold text
  simp only [List.length_take, List.length_drop]
  omega

/-- A token made on the line where it began carries the column where it began. -/
theorem makeToken_positioned (l0 c0 : Int) (lx : Lexer) (ty : TokenType)
    (h : lx.inToken l0 c0) (hty : ty ≠ TokenType.ERROR) :
    (lx.makeToken ty).positioned l0 c0 := by
  have ht := text_length l0 c0 lx h
  obtain ⟨_, _, h2, h3⟩ := h
  refine ⟨h2, fun e => absurd e hty, fun _ hl => ?_⟩
  simp only [makeToken] at hl ⊢
  rw [ht]; exact h3 hl

theorem makeTokenWith_positioned (l0 c0 : Int) (lx : Lexer) (ty : TokenType) (v : LitValue)
    (h : lx.inToken l0 c0) (hty : ty ≠ TokenType.ERROR) :
    (lx.makeTokenWith ty v).positioned l0 c0 := by
  have ht := text_length l0 c0 lx h
  obtain ⟨_, _, h2, h3⟩ := h
  refine ⟨h2, fun e => absurd e hty, fun _ hl => ?_⟩
  simp only [makeTokenWith] at hl ⊢
  rw [ht]; exact h3 hl

/-- An ERROR token carries the position of the lexer, which is at least 1. -/
theorem errorToken_positioned (l0 c0 : Int) (lx : Lexer) (m : String)
    (h : lx.inToken l0 c0) : (lx.errorToken m).positioned l0 c0 := by
  obtain ⟨⟨_, _, hw3⟩, _, h2, _⟩ := h
  exact ⟨h2, fun _ => hw3, fun hne => absurd rfl hne⟩

theorem lookup_mem {α : Type} (xs : List (String × α)) (k : String) (v : α)
    (h : xs.lookup k = some v) : v ∈ xs.map Prod.snd := by
  induction xs with
  | nil => simp [List.lookup] at h
  | cons e rest ih =>
    obtain ⟨a, b⟩ := e
    simp only [List.lookup] at h
    split at h
    · injection h with h; simp [h]
    · simp only [List.map_cons, List.mem_cons]; exact Or.inr (ih h)

theorem keywords_not_error (w : String) (ty : TokenType) (h : keywords.lookup w = some ty) :
    ty ≠ TokenType.ERROR := by
  have hm := lookup_mem keywords w ty h
  intro e
  rw [e] at hm
  revert hm
  decide

theorem identifier_positioned (l0 c0 : Int) (lx : Lexer) (h : lx.inToken l0 c0) :
    lx.identifier.2.inToken l0 c0 ∧ lx.identifier.1.positioned l0 c0 := by
  have h1 := identLoop_inToken l0 c0 (lx.source.length - lx.current) lx h
  unfold identifier
  dsimp only
  split
  · rename_i ty hk
    have hty := keywords_not_error _ ty hk
    split
    · exact ⟨h1, makeTokenWith_positioned l0 c0 _ ty _ h1 hty⟩
    · split
      · exact ⟨h1, makeTokenWith_positioned l0 c0 _ ty _ h1 hty⟩
      · exact ⟨h1, makeToken_positioned l0 c0 _ ty h1 hty⟩
  · exact ⟨h1, makeToken_positioned l0 c0 _ _ h1 (by decide)⟩

theorem stringLiteral_positioned (l0 c0 : Int) (lx : Lexer) (h : lx.inToken l0 c0) :
    lx.stringLiteral.2.inToken l0 c0 ∧ lx.stringLiteral.1.positioned l0 c0 := by
  have h1 := stringLoop_inToken l0 c0 (lx.source.length - lx.current) lx h
  unfold stringLiteral
  dsimp only
  split
  · exact ⟨h1, errorToken_positioned l0 c0 _ _ h1⟩
  · have h2 := advance_inToken l0 c0 _ h1
    exact ⟨h2, makeTokenWith_positioned l0 c0 _ _ _ h2 (by decide)⟩

theorem numberLiteral_positioned (l0 c0 : Int) (lx : Lexer) (h : lx.inToken l0 c0)
    (t : Token) (lx1 : Lexer) (hr : lx.numberLiteral = LexResult.token t lx1) :
    lx1.inToken l0 c0 ∧ t.positioned l0 c0 := by
  have h1 := digitLoop_inToken l0 c0 (lx.source.length - lx.current) lx h
  unfold numberLiteral at hr
  dsimp only at hr
  split at hr
  · have h2 := advance_inToken l0 c0 _ h1
    have h3 := digitLoop_inToken l0 c0
      ((digitLoop (lx.source.length - lx.current) lx).advance.2.source.length -
        (digitLoop (lx.source.length - lx.current) lx).advance.2.current) _ h2
    split at hr
    · injection hr with ht hl
      subst ht; subst hl
      exact ⟨h3, makeTokenWith_positioned l0 c0 _ _ _ h3 (by decide)⟩
    · cases hr
  · split at hr
    · injection hr with ht hl
      subst ht; subst hl
      exact ⟨h1, makeTokenWith_positioned l0 c0 _ _ _ h1 (by decide)⟩
    · cases hr

/-- The method `numberLiteral` throws only when `std::stoi` is given a run of digits
above the largest `int`, or when `std::stof` throws on the text of the token. -/
theorem numberLiteral_thrown (lx lx1 : Lexer) (h : lx.numberLiteral = LexResult.thrown lx1) :
    (stoi lx1.text = none ∧ 2147483647 < digitsValue lx1.text) ∨ stof lx1.text = none := by
  unfold numberLiteral at h
  dsimp only at h
  split at h
  · split at h
    · cases h
    · rename_i hs
      injection h with h
      subst h
      exact Or.inr hs
  · split at h
    · cases h
    · rename_i hs
      injection h with h
      subst h
      refine Or.inl ⟨hs, ?_⟩
      unfold stoi at hs
      dsimp only at hs
      split at hs
      · cases hs
      · omega

/-- A token begins at the position of the lexer. -/
theorem start_inToken (lx : Lexer) (h : lx.wellFormed) :
    ({ lx with start := lx.current } : Lexer).inToken lx.line lx.column := by
  obtain ⟨h1, h2, h3⟩ := h
  refine ⟨⟨h1, h2, h3⟩, Nat.le_refl _, Int.le_refl _, ?_⟩
  intro _
  simp only
  omega


/-- Case split on an equation whose left side is a conditional. -/
theorem ite_elim {α : Type} {c : Prop} [Decidable c] {a b r : α} {P : Prop}
    (h : (if c then a else b) = r) (h1 : a = r → P) (h2 : b = r → P) : P := by
  by_cases hc : c
  · rw [if_pos hc] at h
    exact h1 h
  · rw [if_neg hc] at h
    exact h2 h

set_option maxHeartbeats 4000000 in
/-- Every token of `nextToken` is positioned relative to the place where the lexer is
after skipping whitespace, and the lexer stays well formed. -/
theorem nextToken_positioned (lx0 : Lexer) (hwf : lx0.wellFormed) (t : Token) (lx1 : Lexer)
    (h : lx0.nextToken = LexResult.token t lx1) :
    lx1.wellFormed ∧ t.positioned lx0.skipWhitespace.line lx0.skipWhitespace.column := by
  have hs : lx0.skipWhitespace.wellFormed := skipWhitespaceLoop_wellFormed _ _ hwf
  have h1 := start_inToken _ hs
  have h2 := advance_inToken _ _ _ h1
  unfold nextToken at h
  dsimp only at h
  generalize ({ lx0.skipWhitespace with start := lx0.skipWhitespace.current } : Lexer) = lxa
    at h h1 h2
  generalize lxa.advance.1 = c at h
  generalize lxa.advance.2 = lxb at h h2
  have hm := fun c => matchChar_inToken _ _ _ c h2
  repeat' first
    | exact ⟨(numberLiteral_positioned _ _ _ h2 _ _ h).1.1,
        (numberLiteral_positioned _ _ _ h2 _ _ h).2⟩
    | (injection h with ht hl
       subst ht
       subst hl
       first
        | exact ⟨h1.1, makeToken_positioned _ _ _ _ h1 (by decide)⟩
        | exact ⟨h2.1, makeToken_positioned _ _ _ _ h2 (by decide)⟩
        | exact ⟨(hm _).1, makeToken_positioned _ _ _ _ (hm _) (by decide)⟩
        | exact ⟨h2.1, errorToken_positioned _ _ _ _ h2⟩
        | exact ⟨(identifier_positioned _ _ _ h2).1.1, (identifier_positioned _ _ _ h2).2⟩
        | exact ⟨(stringLiteral_positioned _ _ _ h2).1.1, (stringLiteral_positioned _ _ _ h2).2⟩)
    | refine ite_elim h (fun h => ?_) (fun h => ?_)

set_option maxHeartbeats 4000000 in
/-- The method `nextToken` throws only when `std::stoi` is given a run of digits above the
largest `int`, or when `std::stof` throws on the text of the token. -/
theorem nextToken_thrown (lx0 lx1 : Lexer) (h : lx0.nextToken = LexResult.thrown lx1) :
    (stoi lx1.text = none ∧ 2147483647 < digitsValue lx1.text) ∨ stof lx1.text = none := by
  unfold nextToken at h
  dsimp only at h
  generalize ({ lx0.skipWhitespace with start := lx0.skipWhitespace.current } : Lexer) = lxa
    at h
  generalize lxa.advance.1 = c at h
  generalize lxa.advance.2 = lxb at h
  repeat' first
    | exact numberLiteral_thrown _ _ h
    | cases h
    | refine ite_elim h (fun h => ?_) (fun h => ?_)

/-- At the first character of a token `skipWhitespace` changes nothing. -/
theorem skipWhitespace_atTokenStart (lx : Lexer) (h : lx.atTokenStart = true) :
    lx.skipWhitespace = lx := by
  unfold skipWhitespace
  cases hn : lx.source.length - lx.current with
  | zero => rfl
  | succ n =>
    unfold skipWhitespaceLoop
    unfold atTokenStart at h
    by_cases he : lx.isAtEnd = true
    · simp [he]
    · simp only [he, Bool.false_or, Bool.not_eq_true', Bool.or_eq_false_iff,
        decide_eq_false_iff_not] at h
      obtain ⟨⟨⟨⟨h1, h2⟩, h3⟩, h4⟩, h5⟩ := h
      simp [he, h1, h2, h3, h4, h5]

/-- A new lexer is well formed. -/
theorem new_wellFormed (source : String) : (Lexer.new source).wellFormed := by
  exact ⟨Nat.zero_le _, Int.le_refl _, Int.le_refl _⟩

/-- The lexer is well formed after every call of `nextToken`. -/
theorem after_wellFormed (source : String) :
    ∀ (k : Nat) (lx : Lexer), after source k = some lx → lx.wellFormed
  | 0, lx, h => by
    injection h with h
    subst h
    exact new_wellFormed source
  | k + 1, lx, h => by
    unfold after at h
    cases hk : after source k with
    | none => rw [hk] at h; cases h
    | some lx0 =>
      rw [hk] at h
      dsimp only at h
      cases hn : lx0.nextToken with
      | thrown l => rw [hn] at h; cases h
      | token t l =>
        rw [hn] at h
        injection h with h
        subst h
        exact (nextToken_positioned lx0 (after_wellFormed source k lx0 hk) t l hn).1

end Lexer

/-! ## The lexer read as a function of the unread text; environments -/

theorem Exec.inEnv_bind {α β : Type} (env1 env size : Nat) (r : Exec α)
    (f : α → Interpreter → Exec β) (h1 : r.inEnv env1 size)
    (h2 : ∀ a s, s.currentEnv = env1 → size ≤ s.heap.length → (f a s).inEnv env size) :
    (r.bind f).inEnv env size := by
  cases r with
  | done a s => exact h2 a s h1.1 h1.2
  | outOfFuel => trivial
  | fault => trivial

theorem assignAux_length (heap : List Environment) (name : String) (v : Value) :
    ∀ (n env : Nat) (heap1 : List Environment),
      Environment.assignAux heap n env name v = Except.ok heap1 → heap1.length = heap.length
  | 0, env, heap1, h => by simp [Environment.assignAux] at h
  | n + 1, env, heap1, h => by
    unfold Environment.assignAux at h
    split at h
    · cases h
    · split at h
      · injection h with h
        rw [← h]
        exact length_updateAt _ _ _
      · split at h
        · exact assignAux_length heap name v n _ heap1 h
        · cases h

theorem Exec.inEnv_done {α : Type} (env size : Nat) (a : α) (s : Interpreter)
    (h1 : s.currentEnv = env) (h2 : size ≤ s.heap.length) : (Exec.done a s).inEnv env size :=
  ⟨h1, h2⟩

theorem Exec.inEnv_fault {α : Type} (env size : Nat) : (Exec.fault : Exec α).inEnv env size :=
  trivial

theorem Exec.inEnv_outOfFuel {α : Type} (env size : Nat) :
    (Exec.outOfFuel : Exec α).inEnv env size :=
  trivial

theorem finishBinary_env (s : Interpreter) (op : Token) (l r : Value) :
    (Interpreter.finishBinary s op l r).2.currentEnv = s.currentEnv ∧
    (Interpreter.finishBinary s op l r).2.heap = s.heap := by
  unfold Interpreter.finishBinary
  split <;> exact ⟨rfl, rfl⟩

theorem finishUnary_env (s : Interpreter) (op : Token) (r : Value) :
    (Interpreter.finishUnary s op r).2.currentEnv = s.currentEnv ∧
    (Interpreter.finishUnary s op r).2.heap = s.heap := by
  unfold Interpreter.finishUnary
  split <;> exact ⟨rfl, rfl⟩

theorem assign_length (heap heap1 : List Environment) (env : Nat) (name : String) (v : Value)
    (h : Environment.assign heap env name v = Except.ok heap1) : heap1.length = heap.length :=
  assignAux_length heap name v _ _ _ h

/-- The body of a called function runs in the new environment and ends in it. -/
theorem callBody_inEnv (n : Nat) (s : Interpreter) (body : Stmt) (size : Nat)
    (h7 : ∀ (s : Interpreter) (sts : List Stmt) (inner env size : Nat), s.currentEnv = env →
      size ≤ s.heap.length → (Interpreter.executeBlock n s sts inner).inEnv env size)
    (hsz : size ≤ s.heap.length) :
    Exec.inEnv s.currentEnv size
      (match body with
       | Stmt.Block statements => Interpreter.executeBlock n s statements s.currentEnv
       | _ => Exec.done () s) := by
  split
  · exact h7 _ _ _ _ _ rfl hsz
  · exact ⟨rfl, hsz⟩

open Interpreter in
theorem Interpreter.keepsEnv (n : Nat) : Interpreter.KeepsEnv n := by
  induction n with
  | zero =>
    refine ⟨?_, ?_, ?_, ?_, ?_, ?_, ?_⟩ <;> intros <;> trivial
  | succ n ih =>
    obtain ⟨h1, h2, h3, h4, h5, h6, h7⟩ := ih
    refine ⟨?_, ?_, ?_, ?_, ?_, ?_, ?_⟩
    all_goals intro s
    all_goals intros
    all_goals
      first
        | unfold evaluate | unfold evaluateArguments | unfold execute | unfold printValues
        | unfold whileLoop | unfold executeStatements | unfold executeBlock
    all_goals
      repeat' first
        | (with_reducible exact Exec.inEnv_fault _ _)
        | (with_reducible exact Exec.inEnv_outOfFuel _ _)
        | (with_reducible assumption)
        | (refine Exec.inEnv_bind _ _ _ _ _ (callBody_inEnv n _ _ _ h7 ?_) ?_)
        | (with_reducible apply Exec.inEnv_bind)
        | (with_reducible apply h1) | (with_reducible apply h2) | (with_reducible apply h3)
        | (with_reducible apply h4) | (with_reducible apply h5) | (with_reducible apply h6)
        | (with_reducible apply h7)
        | (with_reducible apply Exec.inEnv_done)
        | (with_reducible rfl)
        | intro _
        | (have hlen := assign_length _ _ _ _ _ (by assumption); dsimp only; omega)
        | split
        | (simp only [Interpreter.runtimeError, (finishBinary_env _ _ _ _).1,
            (finishBinary_env _ _ _ _).2, (finishUnary_env _ _ _).1, (finishUnary_env _ _ _).2,
            Interpreter.newEnvironment, List.length_append, List.length_singleton,
            Environment.define, length_updateAt]; first | assumption | omega)
        | (dsimp only)

/-- A `let` changes the map of the current environment only. -/
theorem let_changes_current (n : Nat) (s s1 : Interpreter) (name : Token) (init : Expr)
    (h : Interpreter.execute (n + 1) s (Stmt.VariableDecl name init) = Exec.done () s1) :
    ∃ v s0, (if init.isNull = true then Exec.done Value.null s
        else Interpreter.evaluate n s init) = Exec.done v s0 ∧
      s1 = { s0 with heap := Environment.define s0.heap s0.currentEnv name.lexeme v } ∧
      s1.currentEnv = s.currentEnv ∧
      ∀ outer, outer ≠ s.currentEnv → s1.heap.get? outer = s0.heap.get? outer := by
  unfold Interpreter.execute at h
  dsimp only at h
  cases hr : (if init.isNull = true then Exec.done Value.null s
      else Interpreter.evaluate n s init) with
  | outOfFuel => rw [hr] at h; cases h
  | fault => rw [hr] at h; cases h
  | done v s0 =>
    rw [hr] at h
    simp only [Exec.bind] at h
    injection h with _ h
    have hc : s0.currentEnv = s.currentEnv := by
      by_cases hn : init.isNull = true
      · rw [if_pos hn] at hr
        injection hr with _ hr
        rw [hr]
      · rw [if_neg hn] at hr
        have := (Interpreter.keepsEnv n).1 s init s.currentEnv 0 rfl (Nat.zero_le _)
        rw [hr] at this
        exact this.1
    refine ⟨v, s0, rfl, h.symm, ?_, ?_⟩
    · rw [← h]
      exact hc
    · intro outer ho
      rw [← h]
      simp only [Environment.define, get?_updateAt, hc, if_neg ho]

/-- A `let` in a block leaves the map of the environment outside the block as the
evaluation of its initializer left it. -/
theorem block_let (n : Nat) (s s0 : Interpreter) (name : Token) (init : Expr) (v : Value)
    (hs : s.currentEnv < s.heap.length) (hn : init.isNull = false)
    (h : Interpreter.evaluate n (s.enter [] s.currentEnv) init = Exec.done v s0) :
    ∃ s1, Interpreter.execute (n + 4) s (Stmt.Block [Stmt.VariableDecl name init]) =
        Exec.done () s1 ∧
      s1.currentEnv = s.currentEnv ∧
      s1.heap.get? s.currentEnv = s0.heap.get? s.currentEnv := by
  have hk := (Interpreter.keepsEnv n).1 (s.enter [] s.currentEnv) init s.heap.length 0 rfl
    (Nat.zero_le _)
  rw [h] at hk
  have hc : s0.currentEnv = s.heap.length := hk.1
  unfold Interpreter.enter at h
  dsimp only at h
  refine ⟨{ s0 with heap := Environment.define s0.heap s0.currentEnv name.lexeme v,
                    currentEnv := s.currentEnv }, ?_, rfl, ?_⟩
  · simp only [Interpreter.execute, Interpreter.executeBlock, Interpreter.executeStatements, hn,
      Bool.false_eq_true, if_false, h, Exec.bind, ite_self]
    rfl
  · simp only [Environment.define, get?_updateAt, hc]
    rw [if_neg (by omega)]

/-- A `let` in the body of a called function leaves the map of the environment of the
caller as the evaluation of its initializer left it. -/
theorem call_let (n : Nat) (s s0 : Interpreter) (callee name : Token) (init : Expr)
    (v : Value) (returnType : TokenType) (closure : Nat)
    (hs : s.currentEnv < s.heap.length) (hn : init.isNull = false)
    (hf : Environment.get s.heap s.currentEnv callee.lexeme =
      Except.ok (Value.function [] returnType (Stmt.Block [Stmt.VariableDecl name init])
        closure))
    (h : Interpreter.evaluate n { s.enter [] closure with hasReturn := false } init =
      Exec.done v s0) :
    ∃ r s1, Interpreter.evaluate (n + 4) s (Expr.Call callee []) = Exec.done r s1 ∧
      s1.currentEnv = s.currentEnv ∧
      s1.heap.get? s.currentEnv = s0.heap.get? s.currentEnv := by
  have hk := (Interpreter.keepsEnv n).1 { s.enter [] closure with hasReturn := false } init
    s.heap.length 0 rfl (Nat.zero_le _)
  rw [h] at hk
  have hc : s0.currentEnv = s.heap.length := hk.1
  unfold Interpreter.enter at h
  dsimp only at h
  refine ⟨if s0.hasReturn = true then s0.returnValue else Value.null,
    { s0 with heap := Environment.define s0.heap s0.currentEnv name.lexeme v,
              currentEnv := s.currentEnv }, ?_, rfl, ?_⟩
  · simp only [Interpreter.evaluate, Interpreter.evaluateArguments, hf,
      Interpreter.executeBlock, Interpreter.executeStatements, Interpreter.execute, hn,
      Bool.false_eq_true, if_false, h, Exec.bind, ite_self, Interpreter.bindParameters,
      List.length_nil, ne_eq, not_true_eq_false]
    by_cases hret : s0.hasReturn = true
    · simp only [hret, if_true]
      rfl
    · simp only [hret, if_false]
      rfl
  · simp only [Environment.define, get?_updateAt, hc]
    rw [if_neg (by omega)]

namespace Lexer

theorem getD_eq_headD_drop (l : List Char) (n : Nat) (d : Char) :
    l.getD n d = (l.drop n).headD d := by
  induction l generalizing n with
  | nil => simp
  | cons a l ih =>
    cases n with
    | zero => simp
    | succ n => simp [ih]

theorem isAtEnd_iff (lx : Lexer) : lx.isAtEnd = true ↔ lx.rest = [] := by
  simp [isAtEnd, rest, List.drop_eq_nil_iff]

theorem isAtEnd_cons (lx : Lexer) (c : Char) (r : List Char) (h : lx.rest = c :: r) :
    lx.isAtEnd = false := by
  cases he : lx.isAtEnd with
  | false => rfl
  | true => rw [(isAtEnd_iff lx).1 he] at h; cases h

theorem peek_eq (lx : Lexer) : lx.peek = lx.rest.headD (Char.ofNat 0) := by
  unfold peek
  split
  · rename_i he
    rw [(isAtEnd_iff lx).1 he]
    rfl
  · exact getD_eq_headD_drop _ _ _

theorem peekNext_eq (lx : Lexer) : lx.peekNext = lx.rest.tail.headD (Char.ofNat 0) := by
  unfold peekNext rest
  rw [List.tail_drop]
  split
  · rename_i he
    rw [List.drop_eq_nil_iff.2 he]
    rfl
  · exact getD_eq_headD_drop _ _ _

theorem rest_length (lx : Lexer) : lx.rest.length = lx.source.length - lx.current := by
  simp [rest]

theorem scans_rest (w r : List Char) (lx : Lexer) (h : lx.scans w r) : lx.rest = r := by
  obtain ⟨h1, h2⟩ := h
  unfold rest
  rw [h2, ← List.drop_drop, h1]
  simp

theorem scans_text (w r : List Char) (lx : Lexer) (h : lx.scans w r) : lx.text = w := by
  obtain ⟨h1, h2⟩ := h
  unfold text
  rw [h1, h2]
  simp

theorem scans_start (lx : Lexer) :
    ({ lx with start := lx.current } : Lexer).scans [] lx.rest :=
  ⟨rfl, rfl⟩

theorem scans_congr (w r : List Char) (lx lx1 : Lexer) (h : lx.scans w r)
    (h1 : lx1.source = lx.source) (h2 : lx1.start = lx.start) (h3 : lx1.current = lx.current) :
    lx1.scans w r := by
  unfold scans at *
  rw [h1, h2, h3]
  exact h

theorem scans_step (w r : List Char) (c : Char) (lx lx1 : Lexer) (h : lx.scans w (c :: r))
    (h1 : lx1.source = lx.source) (h2 : lx1.start = lx.start)
    (h3 : lx1.current = lx.current + 1) : lx1.scans (w ++ [c]) r := by
  unfold scans at *
  rw [h1, h2, h3, h.1, h.2]
  simp
  omega

theorem getD_scans (w r : List Char) (c : Char) (lx : Lexer) (h : lx.scans w (c :: r)) :
    lx.source.getD lx.current (Char.ofNat 0) = c := by
  rw [getD_eq_headD_drop]
  show lx.rest.headD _ = c
  rw [scans_rest w _ lx h]
  rfl

theorem advance_scans (w r : List Char) (c : Char) (lx : Lexer) (h : lx.scans w (c :: r)) :
    lx.advance.1 = c ∧ lx.advance.2.scans (w ++ [c]) r := by
  have he := isAtEnd_cons lx c r (scans_rest w _ lx h)
  have hg := getD_scans w r c lx h
  unfold advance
  rw [he]
  simp only [Bool.false_eq_true, if_false, hg]
  split
  · exact ⟨rfl, scans_step w r c lx _ h rfl rfl rfl⟩
  · exact ⟨rfl, scans_step w r c lx _ h rfl rfl rfl⟩

theorem advance_nil (w : List Char) (lx : Lexer) (h : lx.scans w []) : lx.advance.2 = lx := by
  have he := (isAtEnd_iff lx).2 (scans_rest w _ lx h)
  unfold advance
  rw [he]
  rfl

theorem matchChar_true (w r : List Char) (c : Char) (lx : Lexer) (h : lx.scans w (c :: r)) :
    (lx.matchChar c).1 = true ∧ (lx.matchChar c).2.scans (w ++ [c]) r := by
  have he := isAtEnd_cons lx c r (scans_rest w _ lx h)
  have hg := getD_scans w r c lx h
  unfold matchChar
  rw [he, hg]
  simp only [Bool.false_or, ne_eq, not_true_eq_false, decide_False, Bool.false_eq_true, if_false]
  exact ⟨trivial, scans_step w r c lx _ h rfl rfl rfl⟩

theorem matchChar_false (w r : List Char) (c : Char) (lx : Lexer) (h : lx.scans w r)
    (hc : r.head? ≠ some c) : lx.matchChar c = (false, lx) := by
  unfold matchChar
  cases r with
  | nil =>
    rw [(isAtEnd_iff lx).2 (scans_rest w _ lx h)]
    rfl
  | cons d r =>
    have he := isAtEnd_cons lx d r (scans_rest w _ lx h)
    have hg := getD_scans w r d lx h
    have hd : d ≠ c := by
      intro e
      exact hc (by rw [e]; rfl)
    rw [he, hg]
    simp [hd]

theorem digitLoop_scans : ∀ (n : Nat) (lx : Lexer) (w r : List Char), lx.scans w r →
    r.length ≤ n → (digitLoop n lx).scans (w ++ r.takeWhile isDigit) (r.dropWhile isDigit)
  | 0, lx, w, r, h, hn => by
    have : r = [] := List.length_eq_zero.1 (Nat.le_zero.1 hn)
    subst this
    simpa [digitLoop] using h
  | n + 1, lx, w, r, h, hn => by
    unfold digitLoop
    rw [peek_eq, scans_rest w r lx h]
    cases r with
    | nil => simpa [show isDigit (Char.ofNat 0) = false from by decide] using h
    | cons c r =>
      by_cases hc : isDigit c = true
      · have := digitLoop_scans n lx.advance.2 (w ++ [c]) r (advance_scans w r c lx h).2
          (by simpa using hn)
        simpa [hc] using this
      · simpa [hc] using h

theorem identLoop_scans : ∀ (n : Nat) (lx : Lexer) (w r : List Char), lx.scans w r →
    r.length ≤ n →
    (identLoop n lx).scans (w ++ r.takeWhile isIdentChar) (r.dropWhile isIdentChar)
  | 0, lx, w, r, h, hn => by
    have : r = [] := List.length_eq_zero.1 (Nat.le_zero.1 hn)
    subst this
    simpa [identLoop] using h
  | n + 1, lx, w, r, h, hn => by
    unfold identLoop
    rw [peek_eq, scans_rest w r lx h]
    cases r with
    | nil =>
      have e : (isAlnum (Char.ofNat 0) || decide (Char.ofNat 0 = '_')) = false := by decide
      simpa [e] using h
    | cons c r =>
      by_cases hc : isIdentChar c = true
      · have := identLoop_scans n lx.advance.2 (w ++ [c]) r (advance_scans w r c lx h).2
          (by simpa using hn)
        have hc2 : (isAlnum c || decide (c = '_')) = true := hc
        simpa [hc, hc2] using this
      · have hc2 : ¬ (isAlnum c || decide (c = '_')) = true := hc
        simpa [hc, hc2] using h

theorem stringLoop_scans : ∀ (n : Nat) (lx : Lexer) (w r : List Char), lx.scans w r →
    r.length ≤ n → (stringLoop n lx).scans (w ++ r.takeWhile notQuote) (r.dropWhile notQuote)
  | 0, lx, w, r, h, hn => by
    have : r = [] := List.length_eq_zero.1 (Nat.le_zero.1 hn)
    subst this
    simpa [stringLoop] using h
  | n + 1, lx, w, r, h, hn => by
    unfold stringLoop
    rw [peek_eq, scans_rest w r lx h]
    cases r with
    | nil =>
      rw [(isAtEnd_iff lx).2 (scans_rest w _ lx h)]
      simpa using h
    | cons c r =>
      rw [isAtEnd_cons lx c r (scans_rest w _ lx h)]
      by_cases hc : c = '"'
      · subst hc
        simpa [notQuote] using h
      · have h1 : (if c = '\n' then ({ lx with line := lx.line + 1, column := 1 } : Lexer)
            else lx).scans w (c :: r) := by
          split
          · exact scans_congr w _ lx _ h rfl rfl rfl
          · exact h
        have := stringLoop_scans n _ (w ++ [c]) r (advance_scans w r c _ h1).2
          (by simpa using hn)
        simpa [hc, notQuote] using this

theorem advance_rest (lx : Lexer) (c : Char) (r : List Char) (h : lx.rest = c :: r) :
    lx.advance.1 = c ∧ lx.advance.2.rest = r := by
  have h1 : ({ lx with start := lx.current } : Lexer).scans [] (c :: r) := by
    rw [← h]
    exact scans_start lx
  have h2 := advance_scans [] r c _ h1
  have he := isAtEnd_cons lx c r h
  have e1 : ({ lx with start := lx.current } : Lexer).advance.1 = lx.advance.1 := by
    unfold advance
    simp only [isAtEnd]
    split
    · rfl
    · split <;> rfl
  have e2 : ({ lx with start := lx.current } : Lexer).advance.2.rest = lx.advance.2.rest := by
    unfold advance
    simp only [isAtEnd]
    split
    · rfl
    · split <;> rfl
  exact ⟨e1 ▸ h2.1, e2 ▸ scans_rest _ _ _ h2.2⟩

theorem skipCommentLoop_rest : ∀ (n : Nat) (lx : Lexer), lx.rest.length ≤ n →
    (skipCommentLoop n lx).rest = lx.rest.dropWhile notNewline
  | 0, lx, hn => by
    have : lx.rest = [] := List.length_eq_zero.1 (Nat.le_zero.1 hn)
    simp [skipCommentLoop, this]
  | n + 1, lx, hn => by
    unfold skipCommentLoop
    rw [peek_eq]
    cases hr : lx.rest with
    | nil =>
      rw [(isAtEnd_iff lx).2 hr]
      simp [hr]
    | cons c r =>
      rw [isAtEnd_cons lx c r hr]
      by_cases hc : c = '\n'
      · subst hc
        simp [notNewline, hr]
      · have h2 := advance_rest lx c r hr
        have := skipCommentLoop_rest n lx.advance.2 (by rw [h2.2]; rw [hr] at hn; simpa using hn)
        simp [hc, notNewline, this, h2.2]

theorem skipBlank_true : ∀ (r : List Char),
    skipBlank true r = skipBlank false (r.dropWhile notNewline)
  | [] => rfl
  | c :: r => by
    by_cases hc : c = '\n'
    · subst hc
      simp [skipBlank, notNewline]
    · simp [skipBlank, notNewline, hc, skipBlank_true r]

theorem skipWhitespaceLoop_rest : ∀ (n : Nat) (lx : Lexer), lx.rest.length ≤ n →
    (skipWhitespaceLoop n lx).rest = skipBlank false lx.rest
  | 0, lx, hn => by
    have : lx.rest = [] := List.length_eq_zero.1 (Nat.le_zero.1 hn)
    simp [skipWhitespaceLoop, this, skipBlank]
  | n + 1, lx, hn => by
    unfold skipWhitespaceLoop
    cases hr : lx.rest with
    | nil =>
      rw [(isAtEnd_iff lx).2 hr]
      simp [hr, skipBlank]
    | cons c r =>
      rw [isAtEnd_cons lx c r hr]
      rw [hr] at hn
      have hn1 : r.length ≤ n := by simpa using hn
      have hp : lx.peek = c := by rw [peek_eq, hr]; rfl
      simp only [Bool.false_eq_true, if_false, hp]
      by_cases h1 : c = ' ' ∨ c = '\t' ∨ c = '\r'
      · have h2 := advance_rest lx c r hr
        have := skipWhitespaceLoop_rest n lx.advance.2 (by rw [h2.2]; exact hn1)
        have hb : skipBlank false (c :: r) = skipBlank false r := by
          rcases h1 with h | h | h <;> subst h <;> simp [skipBlank]
        rw [hb, ← h2.2, ← this]
        have hd : (decide (c = ' ') || decide (c = '\t') || decide (c = '\r')) = true := by
          rcases h1 with h | h | h <;> subst h <;> decide
        rw [if_pos hd]
      · have hd : ¬ (decide (c = ' ') || decide (c = '\t') || decide (c = '\r')) = true := by
          simpa [or_assoc] using h1
        rw [if_neg hd]
        by_cases h2 : c = '\n'
        · subst h2
          rw [if_pos rfl]
          have hr2 : ({ lx with line := lx.line + 1, column := 1 } : Lexer).rest = '\n' :: r := hr
          have h3 := advance_rest _ _ r hr2
          rw [skipWhitespaceLoop_rest n _ (by rw [h3.2]; exact hn1), h3.2]
          simp [skipBlank]
        · rw [if_neg h2]
          by_cases h3 : c = '#'
          · subst h3
            rw [if_pos rfl]
            have h4 : lx.skipComment.rest = (r.dropWhile notNewline) := by
              unfold skipComment
              rw [skipCommentLoop_rest _ _ (by rw [rest_length]), hr]
              simp [notNewline]
            rw [skipWhitespaceLoop_rest n _ (by
              rw [h4]
              exact (List.dropWhile_suffix _).length_le.trans hn1), h4]
            simp [skipBlank, skipBlank_true]
          · rw [if_neg h3]
            have : ¬ (c = ' ' ∨ c = '\t' ∨ c = '\r' ∨ c = '\n') := by
              intro h
              rcases h with h | h | h | h
              · exact h1 (Or.inl h)
              · exact h1 (Or.inr (Or.inl h))
              · exact h1 (Or.inr (Or.inr h))
              · exact h2 h
            simp [skipBlank, this, h3, hr]

theorem skipWhitespace_rest (lx : Lexer) : lx.skipWhitespace.rest = skipBlank false lx.rest := by
  unfold skipWhitespace
  exact skipWhitespaceLoop_rest _ _ (by rw [rest_length])

theorem makeToken_content (w r : List Char) (lx : Lexer) (type : TokenType)
    (h : lx.scans w r) :
    (LexResult.token (lx.makeToken type) lx).observe = some (plainContent type w, r) := by
  simp only [LexResult.observe, Token.content, makeToken, plainContent, scans_text w r lx h,
    scans_rest w r lx h]

theorem errorToken_content (w r : List Char) (lx : Lexer) (m : String)
    (h : lx.scans w r) :
    (LexResult.token (lx.errorToken m) lx).observe =
      some ((TokenType.ERROR, m, LitValue.int 0), r) := by
  simp only [LexResult.observe, Token.content, errorToken, scans_rest w r lx h]

theorem identifier_content (c : Char) (r : List Char) (lx : Lexer) (h : lx.scans [c] r) :
    (LexResult.token lx.identifier.1 lx.identifier.2).observe = some (scanIdentifier c r) := by
  have h1 := identLoop_scans (lx.source.length - lx.current) lx [c] r h
    (by rw [← rest_length, scans_rest _ _ _ h])
  have ht := scans_text _ _ _ h1
  have hr := scans_rest _ _ _ h1
  unfold identifier scanIdentifier
  simp only [ht, List.singleton_append]
  cases Lexer.keywords.lookup (String.mk (c :: r.takeWhile isIdentChar)) with
  | none => simp [LexResult.observe, Token.content, makeToken, ht, hr]
  | some ty =>
    simp only
    split
    · simp [LexResult.observe, Token.content, makeTokenWith, ht, hr]
    · split
      · simp [LexResult.observe, Token.content, makeTokenWith, ht, hr]
      · simp [LexResult.observe, Token.content, makeToken, ht, hr]

theorem headD_eq_cons (l : List Char) (d c : Char) (h : l.headD d = c) (hd : d ≠ c) :
    l = c :: l.tail := by
  cases l with
  | nil => exact absurd h hd
  | cons a l =>
    simp only [List.headD_cons] at h
    rw [h]
    rfl

theorem dropWhile_head (p : Char → Bool) : ∀ (l : List Char) (q : Char) (r : List Char),
    l.dropWhile p = q :: r → p q = false
  | [], q, r, h => by simp at h
  | a :: l, q, r, h => by
    by_cases ha : p a = true
    · rw [List.dropWhile_cons_of_pos ha] at h
      exact dropWhile_head p l q r h
    · rw [List.dropWhile_cons_of_neg ha] at h
      injection h with h1 h2
      rw [← h1]
      simpa using ha

theorem numberLiteral_content (c : Char) (r : List Char) (lx : Lexer) (h : lx.scans [c] r) :
    lx.numberLiteral.observe = scanNumber c r := by
  have h1 := digitLoop_scans (lx.source.length - lx.current) lx [c] r h
    (by rw [← rest_length, scans_rest _ _ _ h])
  have ht := scans_text _ _ _ h1
  have hr := scans_rest _ _ _ h1
  unfold numberLiteral scanNumber
  simp only [peek_eq, peekNext_eq, hr, ht, Bool.and_eq_true, decide_eq_true_eq,
    List.singleton_append]
  split
  · rename_i hc
    have hd := headD_eq_cons _ _ _ hc.1 (by decide)
    rw [hd] at h1
    have h2 := (advance_scans _ _ _ _ h1).2
    have h3 := digitLoop_scans
      ((digitLoop (lx.source.length - lx.current) lx).advance.2.source.length -
        (digitLoop (lx.source.length - lx.current) lx).advance.2.current) _ _ _ h2
      (by rw [← rest_length, scans_rest _ _ _ h2])
    simp only [scans_text _ _ _ h3, List.singleton_append, List.cons_append,
      List.append_assoc, List.nil_append]
    cases hf : stof (c :: (List.takeWhile isDigit r ++
        '.' :: List.takeWhile isDigit (List.dropWhile isDigit r).tail)) with
    | none => simp [LexResult.observe]
    | some v =>
      simp [LexResult.observe, Token.content, makeTokenWith, scans_text _ _ _ h3,
        scans_rest _ _ _ h3]
  · cases hs : stoi (c :: List.takeWhile isDigit r) with
    | none => simp [LexResult.observe]
    | some v => simp [LexResult.observe, Token.content, makeTokenWith, ht, hr]

theorem stringLiteral_content (r : List Char) (lx : Lexer) (h : lx.scans ['"'] r) :
    (LexResult.token lx.stringLiteral.1 lx.stringLiteral.2).observe = some (scanString r) := by
  have h1 := stringLoop_scans (lx.source.length - lx.current) lx ['"'] r h
    (by rw [← rest_length, scans_rest _ _ _ h])
  have hr := scans_rest _ _ _ h1
  unfold stringLiteral scanString
  cases hd : r.dropWhile notQuote with
  | nil =>
    rw [hd] at h1 hr
    simp only [(isAtEnd_iff _).2 hr, if_true]
    exact errorToken_content _ _ _ _ h1
  | cons q r1 =>
    rw [hd] at h1 hr
    have hq : q = '"' := by
      have := dropWhile_head notQuote r q r1 hd
      simpa [notQuote] using this
    subst hq
    simp only [isAtEnd_cons _ _ _ hr, Bool.false_eq_true, if_false]
    have h2 := (advance_scans _ _ _ _ h1).2
    have ht := scans_text _ _ _ h2
    have hr2 := scans_rest _ _ _ h2
    obtain ⟨h3, h4⟩ := h2
    have hv : List.take ((stringLoop (lx.source.length - lx.current) lx).advance.2.current -
          (stringLoop (lx.source.length - lx.current) lx).advance.2.start - 2)
        (List.drop ((stringLoop (lx.source.length - lx.current) lx).advance.2.start + 1)
          (stringLoop (lx.source.length - lx.current) lx).advance.2.source) =
        r.takeWhile notQuote := by
      rw [h4, ← List.drop_drop, h3]
      simp
    simp only [LexResult.observe, Token.content, makeTokenWith, ht, hr2, hv,
      List.singleton_append, List.cons_append, List.nil_append]

theorem pair_content (c d : Char) (r : List Char) (lx : Lexer) (two : TokenType)
    (one : Token) (oneContent : TokenType × String × LitValue) (h : lx.scans [c] r)
    (h1 : one.content = oneContent) :
    (if (lx.matchChar d).1 = true then
        LexResult.token ((lx.matchChar d).2.makeToken two) (lx.matchChar d).2
      else LexResult.token one lx).observe =
      some (scanPair d (plainContent two [c, d]) oneContent r) := by
  unfold scanPair
  by_cases hd : r.head? = some d
  · have hr : r = d :: r.tail := by
      cases r with
      | nil => cases hd
      | cons a r =>
        simp only [List.head?_cons, Option.some.injEq] at hd
        rw [hd]
        rfl
    rw [hr] at h
    have hm := matchChar_true _ _ _ _ h
    rw [if_pos hm.1, if_pos hd]
    exact makeToken_content _ _ _ _ hm.2
  · rw [matchChar_false _ _ _ _ h hd, if_neg hd]
    simp only [Bool.false_eq_true, if_false, LexResult.observe, h1, scans_rest _ _ _ h]

/-- Case split on what a conditional result shows. -/
theorem observe_ite {c : Prop} [Decidable c] {a b : LexResult}
    {a1 b1 : Option ((TokenType × String × LitValue) × List Char)}
    (h1 : c → a.observe = a1) (h2 : ¬ c → b.observe = b1) :
    (if c then a else b).observe = if c then a1 else b1 := by
  by_cases hc : c
  · rw [if_pos hc, if_pos hc]
    exact h1 hc
  · rw [if_neg hc, if_neg hc]
    exact h2 hc

theorem makeToken_plain (w r : List Char) (lx : Lexer) (type : TokenType)
    (h : lx.scans w r) : (lx.makeToken type).content = plainContent type w := by
  simp only [Token.content, makeToken, plainContent, scans_text w r lx h]

set_option maxHeartbeats 4000000 in
/-- What `nextToken` shows depends on the unread text only, and is what `scanToken`
computes from it. -/
theorem nextToken_observe (lx0 : Lexer) : lx0.nextToken.observe = scanToken lx0.rest := by
  have hs : ({ lx0.skipWhitespace with start := lx0.skipWhitespace.current } : Lexer).scans []
      (skipBlank false lx0.rest) := by
    rw [← skipWhitespace_rest]
    exact scans_start _
  unfold nextToken scanToken
  dsimp only
  generalize ({ lx0.skipWhitespace with start := lx0.skipWhitespace.current } : Lexer) = lxa
    at hs ⊢
  cases hb : skipBlank false lx0.rest with
  | nil =>
    rw [hb] at hs
    rw [(isAtEnd_iff lxa).2 (scans_rest _ _ _ hs)]
    simp only [if_true]
    exact makeToken_content _ _ _ _ hs
  | cons c r =>
    rw [hb] at hs
    rw [isAtEnd_cons lxa c r (scans_rest _ _ _ hs)]
    simp only [Bool.false_eq_true, if_false]
    have ha := advance_scans [] r c lxa hs
    rw [ha.1]
    have h2 : lxa.advance.2.scans [c] r := ha.2
    generalize lxa.advance.2 = lxb at h2 ⊢
    unfold scanFrom
    repeat' first
      | exact identifier_content c r lxb h2
      | exact numberLiteral_content c r lxb h2
      | exact makeToken_content _ _ _ _ h2
      | exact pair_content c _ r lxb _ _ _ h2 (makeToken_plain _ _ _ _ h2)
      | exact pair_content c _ r lxb _ _ _ h2 rfl
      | exact errorToken_content _ _ _ _ h2
      | (subst hq; exact stringLiteral_content _ _ h2)
      | refine observe_ite ?_ ?_
      | intro hq

/-- A call whose observation is a token returned that token. -/
theorem observe_some (res : LexResult) (k : TokenType × String × LitValue) (r : List Char)
    (h : res.observe = some (k, r)) :
    ∃ t lx1, res = LexResult.token t lx1 ∧ t.type = k.1 ∧ t.lexeme = k.2.1 ∧
      t.value = k.2.2 ∧ lx1.rest = r := by
  cases res with
  | thrown lx => cases h
  | token t lx1 =>
    simp only [LexResult.observe, Token.content, Option.some.injEq, Prod.mk.injEq] at h
    obtain ⟨h1, h2⟩ := h
    refine ⟨t, lx1, rfl, ?_, ?_, ?_, h2⟩
    · rw [← h1]
    · rw [← h1]
    · rw [← h1]

theorem nextToken_some (lx : Lexer) (k : TokenType × String × LitValue) (r : List Char)
    (h : scanToken lx.rest = some (k, r)) :
    ∃ t lx1, lx.nextToken = LexResult.token t lx1 ∧ t.type = k.1 ∧ t.lexeme = k.2.1 ∧
      t.value = k.2.2 ∧ lx1.rest = r :=
  observe_some _ _ _ ((nextToken_observe lx).trans h)

end Lexer

theorem scan_two (a b : Char) (ty : TokenType) (r : List Char)
    (hm : (a, b, ty) ∈ twoCharOperators) :
    scanToken (a :: b :: r) = some (plainContent ty [a, b], r) := by
  simp only [twoCharOperators, List.mem_cons, Prod.mk.injEq, List.mem_singleton,
    List.not_mem_nil, or_false] at hm
  rcases hm with h | h | h | h | h | h <;> obtain ⟨rfl, rfl, rfl⟩ := h <;>
  simp [scanToken, skipBlank, scanFrom, scanPair, isAlpha, isDigit]

theorem scan_one (a : Char) (ty : TokenType) (r : List Char)
    (hm : (a, ty) ∈ oneCharOperators) (hr : r.head? ≠ some '=') :
    scanToken (a :: r) = some (plainContent ty [a], r) := by
  simp only [oneCharOperators, List.mem_cons, Prod.mk.injEq, List.mem_singleton,
    List.not_mem_nil, or_false] at hm
  rcases hm with h | h | h | h <;> obtain ⟨rfl, rfl⟩ := h <;>
  simp [scanToken, skipBlank, scanFrom, scanPair, isAlpha, isDigit, hr]

theorem scan_lone (a : Char) (r : List Char) (ha : a = '&' ∨ a = '|')
    (hr : r.head? ≠ some a) : scanToken (a :: r) = some (unexpected a, r) := by
  rcases ha with rfl | rfl <;>
  simp [scanToken, skipBlank, scanFrom, scanPair, isAlpha, isDigit, hr]

theorem takeWhile_append_stop (p : Char → Bool) : ∀ (a r : List Char),
    (∀ x ∈ a, p x = true) → (∀ x, r.head? = some x → p x = false) →
    (a ++ r).takeWhile p = a ∧ (a ++ r).dropWhile p = r
  | [], r, _, hr => by
    cases r with
    | nil => exact ⟨rfl, rfl⟩
    | cons x r =>
      have := hr x rfl
      simp [List.takeWhile, List.dropWhile, this]
  | y :: a, r, ha, hr => by
    have hy : p y = true := ha y (List.mem_cons_self _ _)
    have ih := takeWhile_append_stop p a r (fun x hx => ha x (List.mem_cons_of_mem _ hx)) hr
    simp [List.takeWhile, List.dropWhile, hy, ih.1, ih.2]

theorem scan_string_closed (body r : List Char) (hb : '"' ∉ body) :
    scanToken ('"' :: body ++ '"' :: r) =
      some ((TokenType.STRING_LITERAL, String.mk ('"' :: body ++ ['"']),
        LitValue.str (String.mk body)), r) := by
  have h := takeWhile_append_stop notQuote body ('"' :: r)
    (fun x hx => by
      have : x ≠ '"' := fun e => hb (e ▸ hx)
      simpa [notQuote] using this)
    (fun x hx => by
      simp only [List.head?_cons, Option.some.injEq] at hx
      rw [← hx]
      rfl)
  simp [scanToken, skipBlank, scanFrom, isAlpha, isDigit, scanString, h.1, h.2]

theorem scan_string_open (body : List Char) (hb : '"' ∉ body) :
    scanToken ('"' :: body) =
      some ((TokenType.ERROR, "Unterminated string", LitValue.int 0), []) := by
  have h := takeWhile_append_stop notQuote body []
    (fun x hx => by
      have : x ≠ '"' := fun e => hb (e ▸ hx)
      simpa [notQuote] using this)
    (fun x hx => by cases hx)
  rw [List.append_nil] at h
  simp [scanToken, skipBlank, scanFrom, isAlpha, isDigit, scanString, h.2]

theorem scanIdentifier_eq (c : Char) (r : List Char) :
    scanIdentifier c r =
      ((wordType (String.mk (c :: r.takeWhile isIdentChar)),
        String.mk (c :: r.takeWhile isIdentChar),
        wordValue (String.mk (c :: r.takeWhile isIdentChar))), r.dropWhile isIdentChar) := by
  unfold scanIdentifier wordType wordValue
  dsimp only
  cases hl : Lexer.keywords.lookup (String.mk (c :: r.takeWhile isIdentChar)) with
  | some ty =>
    dsimp only
    split
    · rfl
    · split <;> rfl
  | none =>
    dsimp only
    have h1 : String.mk (c :: r.takeWhile isIdentChar) ≠ "true" := by
      intro e
      rw [e] at hl
      revert hl
      decide
    have h2 : String.mk (c :: r.takeWhile isIdentChar) ≠ "false" := by
      intro e
      rw [e] at hl
      revert hl
      decide
    rw [if_neg h1, if_neg h2]

theorem lookup_append_keys {α : Type} (k : String) : ∀ (l1 l2 : List (String × α)),
    (l1 ++ l2).lookup k = match l1.lookup k with
      | some v => some v
      | none => l2.lookup k
  | [], l2 => rfl
  | (a, v) :: l1, l2 => by
    by_cases h : k = a
    · subst h
      simp [List.lookup]
    · have hb : (k == a) = false := by simpa using h
      simp only [List.cons_append, List.lookup, hb]
      exact lookup_append_keys k l1 l2

theorem getKeyword_wordType (w : String) :
    Keywords.getKeyword w = wordType w ↔ w ≠ "print" ∧ w ≠ "input" := by
  have hk : Keywords.keywordMap =
      Lexer.keywords ++ [("print", TokenType.PRINT), ("input", TokenType.INPUT)] := rfl
  unfold Keywords.getKeyword wordType
  rw [hk, lookup_append_keys]
  cases hl : Lexer.keywords.lookup w with
  | some ty =>
    dsimp only
    simp only [true_iff]
    constructor
    · intro e
      rw [e, show Lexer.keywords.lookup "print" = none from by decide] at hl
      cases hl
    · intro e
      rw [e, show Lexer.keywords.lookup "input" = none from by decide] at hl
      cases hl
  | none =>
    dsimp only
    by_cases h1 : w = "print"
    · subst h1
      simp [List.lookup]
    · by_cases h2 : w = "input"
      · subst h2
        simp [List.lookup]
      · have b1 : (w == "print") = false := by simpa using h1
        have b2 : (w == "input") = false := by simpa using h2
        simp [List.lookup, b1, b2, h1, h2]

theorem scanToken_cons (c : Char) (r : List Char) (h : skipBlank false (c :: r) = c :: r) :
    scanToken (c :: r) = scanFrom c r := by
  unfold scanToken
  rw [h]

theorem isIdentStart (c : Char) (r : List Char) (hc : isAlpha c = true ∨ c = '_') :
    skipBlank false (c :: r) = c :: r ∧ (isAlpha c || decide (c = '_')) = true := by
  have h1 : c ≠ ' ' := by rintro rfl; revert hc; decide
  have h2 : c ≠ '\t' := by rintro rfl; revert hc; decide
  have h3 : c ≠ '\r' := by rintro rfl; revert hc; decide
  have h4 : c ≠ '\n' := by rintro rfl; revert hc; decide
  have h5 : c ≠ '#' := by rintro rfl; revert hc; decide
  constructor
  · simp [skipBlank, h1, h2, h3, h4, h5]
  · rcases hc with h | h
    · simp [h]
    · simp [h]

theorem isDigitStart (c : Char) (r : List Char) (hc : isDigit c = true) :
    skipBlank false (c :: r) = c :: r ∧ (isAlpha c || decide (c = '_')) = false := by
  have h1 : c ≠ ' ' := by rintro rfl; revert hc; decide
  have h2 : c ≠ '\t' := by rintro rfl; revert hc; decide
  have h3 : c ≠ '\r' := by rintro rfl; revert hc; decide
  have h4 : c ≠ '\n' := by rintro rfl; revert hc; decide
  have h5 : c ≠ '#' := by rintro rfl; revert hc; decide
  have h6 : c ≠ '_' := by rintro rfl; revert hc; decide
  have h7 : isAlpha c = false := by
    unfold isDigit at hc
    unfold isAlpha
    simp only [Bool.and_eq_true, decide_eq_true_eq] at hc
    simp only [Bool.or_eq_false_iff, Bool.and_eq_false_iff, decide_eq_false_iff_not]
    omega
  constructor
  · simp [skipBlank, h1, h2, h3, h4, h5]
  · simp [h6, h7]

theorem scanToken_digit (c : Char) (r : List Char) (hc : isDigit c = true) :
    scanToken (c :: r) = scanNumber c r := by
  have h := isDigitStart c r hc
  rw [scanToken_cons _ _ h.1]
  unfold scanFrom
  rw [h.2, if_neg (by decide), if_pos hc]

theorem Lexer.contents_scanAll : ∀ (n : Nat) (lx : Lexer),
    Lexer.contents n lx = scanAll n lx.rest
  | 0, _ => rfl
  | n + 1, lx => by
    have h := Lexer.nextToken_observe lx
    unfold Lexer.contents scanAll
    cases hn : lx.nextToken with
    | thrown l =>
      rw [hn] at h
      rw [← h]
      rfl
    | token t lx1 =>
      rw [hn] at h
      rw [← h]
      simp only [LexResult.observe, Token.content, Lexer.contents_scanAll n lx1]

theorem Lexer.restAfter_scanRest : ∀ (k : Nat) (lx : Lexer),
    Lexer.restAfter k lx = scanRest k lx.rest
  | 0, _ => rfl
  | k + 1, lx => by
    have h := Lexer.nextToken_observe lx
    unfold Lexer.restAfter scanRest
    cases hn : lx.nextToken with
    | thrown l =>
      rw [hn] at h
      rw [← h]
      rfl
    | token t lx1 =>
      rw [hn] at h
      rw [← h]
      simp only [LexResult.observe, Lexer.restAfter_scanRest k lx1]

theorem skipBlank_blank : ∀ (b : Bool) (ws x : List Char), isBlank b ws = true →
    skipBlank b (ws ++ x) = skipBlank false x
  | true, [], x, h => by simp [isBlank] at h
  | false, [], x, _ => rfl
  | true, c :: r, x, h => by
    by_cases hc : c = '\n'
    · simp only [isBlank, hc, if_true] at h
      simp only [List.cons_append, skipBlank, hc, if_true]
      exact skipBlank_blank false r x h
    · simp only [isBlank, hc, if_false] at h
      simp only [List.cons_append, skipBlank, hc, if_false]
      exact skipBlank_blank true r x h
  | false, c :: r, x, h => by
    by_cases hc : c = ' ' ∨ c = '\t' ∨ c = '\r' ∨ c = '\n'
    · simp only [isBlank, hc, if_true] at h
      simp only [List.cons_append, skipBlank, hc, if_true]
      exact skipBlank_blank false r x h
    · by_cases h2 : c = '#'
      · simp only [isBlank, hc, if_false, h2, if_true] at h
        simp only [List.cons_append, skipBlank, hc, if_false, h2, if_true]
        exact skipBlank_blank true r x h
      · simp [isBlank, hc, h2] at h

theorem isTrailing_comment : ∀ (ws : List Char), isTrailing false ws = true →
    isTrailing true ws = true
  | [], _ => rfl
  | c :: r, h => by
    by_cases hc : c = '\n'
    · subst hc
      simpa [isTrailing] using h
    · by_cases h1 : c = ' ' ∨ c = '\t' ∨ c = '\r' ∨ c = '\n'
      · simp only [isTrailing, h1, if_true] at h
        simp only [isTrailing, hc, if_false]
        exact isTrailing_comment r h
      · by_cases h2 : c = '#'
        · simp only [isTrailing, h1, if_false, h2, if_true] at h
          simp only [isTrailing, hc, if_false]
          exact h
        · simp [isTrailing, h1, h2] at h

theorem skipBlank_trailing : ∀ (b : Bool) (ws : List Char), isTrailing b ws = true →
    skipBlank b ws = []
  | true, [], _ => rfl
  | false, [], _ => rfl
  | true, c :: r, h => by
    by_cases hc : c = '\n'
    · simp only [isTrailing, hc, if_true] at h
      simp only [skipBlank, hc, if_true]
      exact skipBlank_trailing false r h
    · simp only [isTrailing, hc, if_false] at h
      simp only [skipBlank, hc, if_false]
      exact skipBlank_trailing true r h
  | false, c :: r, h => by
    by_cases hc : c = ' ' ∨ c = '\t' ∨ c = '\r' ∨ c = '\n'
    · simp only [isTrailing, hc, if_true] at h
      simp only [skipBlank, hc, if_true]
      exact skipBlank_trailing false r h
    · by_cases h2 : c = '#'
      · simp only [isTrailing, hc, if_false, h2, if_true] at h
        simp only [skipBlank, hc, if_false, h2, if_true]
        exact skipBlank_trailing true r h
      · simp [isTrailing, hc, h2] at h

theorem isTrailing_of_blank : ∀ (b : Bool) (ws : List Char), isBlank b ws = true →
    isTrailing b ws = true
  | true, [], _ => rfl
  | false, [], _ => rfl
  | true, c :: r, h => by
    by_cases hc : c = '\n'
    · simp only [isBlank, hc, if_true] at h
      simp only [isTrailing, hc, if_true]
      exact isTrailing_of_blank false r h
    · simp only [isBlank, hc, if_false] at h
      simp only [isTrailing, hc, if_false]
      exact isTrailing_of_blank true r h
  | false, c :: r, h => by
    by_cases hc : c = ' ' ∨ c = '\t' ∨ c = '\r' ∨ c = '\n'
    · simp only [isBlank, hc, if_true] at h
      simp only [isTrailing, hc, if_true]
      exact isTrailing_of_blank false r h
    · by_cases h2 : c = '#'
      · simp only [isBlank, hc, if_false, h2, if_true] at h
        simp only [isTrailing, hc, if_false, h2, if_true]
        exact isTrailing_of_blank true r h
      · simp [isBlank, hc, h2] at h

theorem isTrailing_head (ws : List Char) (h : isTrailing false ws = true) :
    ∀ x, ws.head? = some x → isBlankChar x = true := by
  intro x hx
  cases ws with
  | nil => cases hx
  | cons c r =>
    simp only [List.head?_cons, Option.some.injEq] at hx
    subst hx
    by_cases hc : c = ' ' ∨ c = '\t' ∨ c = '\r' ∨ c = '\n'
    · rcases hc with e | e | e | e <;> subst e <;> decide
    · by_cases h2 : c = '#'
      · subst h2
        decide
      · simp [isTrailing, hc, h2] at h

/-- Skipping that ends inside the text `a` does not depend on what follows `a`. -/
theorem skipBlank_append_cons : ∀ (b : Bool) (a x : List Char) (c : Char) (a1 : List Char),
    skipBlank b a = c :: a1 → skipBlank b (a ++ x) = c :: (a1 ++ x)
  | _, [], x, c, a1, h => by simp [skipBlank] at h
  | true, y :: r, x, c, a1, h => by
    by_cases hc : y = '\n'
    · simp only [skipBlank, hc, if_true] at h
      simp only [List.cons_append, skipBlank, hc, if_true]
      exact skipBlank_append_cons false r x c a1 h
    · simp only [skipBlank, hc, if_false] at h
      simp only [List.cons_append, skipBlank, hc, if_false]
      exact skipBlank_append_cons true r x c a1 h
  | false, y :: r, x, c, a1, h => by
    by_cases hc : y = ' ' ∨ y = '\t' ∨ y = '\r' ∨ y = '\n'
    · simp only [skipBlank, hc, if_true] at h
      simp only [List.cons_append, skipBlank, hc, if_true]
      exact skipBlank_append_cons false r x c a1 h
    · by_cases h2 : y = '#'
      · simp only [skipBlank, hc, if_false, h2, if_true] at h
        simp only [List.cons_append, skipBlank, hc, if_false, h2, if_true]
        exact skipBlank_append_cons true r x c a1 h
      · simp only [skipBlank, hc, if_false, h2] at h
        simp only [List.cons_append, skipBlank, hc, if_false, h2]
        injection h with e1 e2
        rw [e1, e2]
        rfl

/-- Text that is skipped completely stays skipped when blank text follows. -/
theorem skipBlank_append_nil : ∀ (b : Bool) (a x : List Char),
    skipBlank b a = [] → isTrailing false x = true → skipBlank b (a ++ x) = []
  | true, [], x, _, hx => skipBlank_trailing true x (isTrailing_comment x hx)
  | false, [], x, _, hx => skipBlank_trailing false x hx
  | true, y :: r, x, h, hx => by
    by_cases hc : y = '\n'
    · simp only [skipBlank, hc, if_true] at h
      simp only [List.cons_append, skipBlank, hc, if_true]
      exact skipBlank_append_nil false r x h hx
    · simp only [skipBlank, hc, if_false] at h
      simp only [List.cons_append, skipBlank, hc, if_false]
      exact skipBlank_append_nil true r x h hx
  | false, y :: r, x, h, hx => by
    by_cases hc : y = ' ' ∨ y = '\t' ∨ y = '\r' ∨ y = '\n'
    · simp only [skipBlank, hc, if_true] at h
      simp only [List.cons_append, skipBlank, hc, if_true]
      exact skipBlank_append_nil false r x h hx
    · by_cases h2 : y = '#'
      · simp only [skipBlank, hc, if_false, h2, if_true] at h
        simp only [List.cons_append, skipBlank, hc, if_false, h2, if_true]
        exact skipBlank_append_nil true r x h hx
      · simp [skipBlank, hc, h2] at h

/-- What is left after skipping is an end of the text. -/
theorem skipBlank_suffix : ∀ (b : Bool) (a : List Char), skipBlank b a <:+ a
  | true, [] => List.suffix_refl _
  | false, [] => List.suffix_refl _
  | true, y :: r => by
    unfold skipBlank
    split
    · exact (skipBlank_suffix false r).trans (List.suffix_cons _ _)
    · exact (skipBlank_suffix true r).trans (List.suffix_cons _ _)
  | false, y :: r => by
    unfold skipBlank
    split
    · exact (skipBlank_suffix false r).trans (List.suffix_cons _ _)
    · split
      · exact (skipBlank_suffix true r).trans (List.suffix_cons _ _)
      · exact List.suffix_refl _

theorem blank_not_digit (x : Char) (h : isBlankChar x = true) : isDigit x = false := by
  simp only [isBlankChar, Bool.or_eq_true, decide_eq_true_eq] at h
  rcases h with (((e | e) | e) | e) | e <;> subst e <;> decide

theorem blank_not_ident (x : Char) (h : isBlankChar x = true) : isIdentChar x = false := by
  simp only [isBlankChar, Bool.or_eq_true, decide_eq_true_eq] at h
  rcases h with (((e | e) | e) | e) | e <;> subst e <;> decide

theorem blank_not_operator (x d : Char) (h : isBlankChar x = true)
    (hd : d = '=' ∨ d = '&' ∨ d = '|' ∨ d = '.') : x ≠ d := by
  simp only [isBlankChar, Bool.or_eq_true, decide_eq_true_eq] at h
  rcases h with (((e | e) | e) | e) | e <;> subst e <;>
    rcases hd with e | e | e | e <;> subst e <;> decide

theorem dropWhile_eq_self (p : Char → Bool) (l : List Char) (h : l.dropWhile p = l) :
    l.takeWhile p = [] := by
  have := List.takeWhile_append_dropWhile p l
  rw [h] at this
  exact List.append_left_eq_self.1 this

theorem append_eq_self_left (a b : List Char) (h : b.length ≥ (a ++ b).length) : a = [] := by
  rw [List.length_append] at h
  exact List.length_eq_zero.1 (by omega)

/-- A run of characters that ends before `post` is read in the same way when blank text
is put in front of `post`. -/
theorem takeWhile_stable (p : Char → Bool) : ∀ (a1 a2 post ws : List Char),
    (a1 ++ post).dropWhile p = a2 ++ post → (∀ x, ws.head? = some x → p x = false) →
    (a1 ++ (ws ++ post)).takeWhile p = (a1 ++ post).takeWhile p ∧
    (a1 ++ (ws ++ post)).dropWhile p = a2 ++ (ws ++ post)
  | [], a2, post, ws, h, hw => by
    simp only [List.nil_append] at h ⊢
    have ha : a2 = [] := append_eq_self_left a2 post (by
      rw [← h]
      exact (List.dropWhile_suffix p).length_le)
    subst ha
    simp only [List.nil_append] at h ⊢
    have ht := dropWhile_eq_self p post h
    cases ws with
    | nil => exact ⟨rfl, h⟩
    | cons x ws =>
      have hx := hw x rfl
      simp [List.takeWhile, List.dropWhile, hx, ht]
  | y :: a1, a2, post, ws, h, hw => by
    by_cases hy : p y = true
    · simp only [List.cons_append, List.dropWhile_cons_of_pos hy] at h
      have ih := takeWhile_stable p a1 a2 post ws h hw
      simp only [List.cons_append, List.takeWhile_cons_of_pos hy,
        List.dropWhile_cons_of_pos hy, ih.1, ih.2, and_self]
    · simp only [List.cons_append, List.dropWhile_cons_of_neg hy] at h
      have ha : a2 = y :: a1 := by
        have := List.append_cancel_right (show (y :: a1) ++ post = a2 ++ post from h)
        exact this.symm
      subst ha
      simp only [List.cons_append, List.takeWhile_cons_of_neg hy,
        List.dropWhile_cons_of_neg hy, and_self]

theorem stable_single (k : TokenType × String × LitValue) :
    Stable (fun r => some (k, r)) := by
  intro a1 a2 post x ws t h _ _
  simp only [Option.some.injEq, Prod.mk.injEq] at h
  obtain ⟨h1, h2⟩ := h
  have := List.append_cancel_right h2
  subst this
  subst h1
  exact ⟨_, rfl, Or.inl rfl⟩

theorem stable_identifier (c : Char) : Stable (fun r => some (scanIdentifier c r)) := by
  intro a1 a2 post x ws t h hx _
  simp only [scanIdentifier_eq, Option.some.injEq, Prod.mk.injEq] at h
  obtain ⟨h1, h2⟩ := h
  have hs := takeWhile_stable isIdentChar a1 a2 post (x :: ws) h2 (fun y hy => by
    simp only [List.head?_cons, Option.some.injEq] at hy
    rw [← hy]
    exact blank_not_ident x hx)
  refine ⟨_, ?_, Or.inl rfl⟩
  simp only [scanIdentifier_eq, Option.some.injEq, Prod.mk.injEq]
  rw [hs.1, hs.2, h1]
  exact ⟨rfl, rfl⟩

theorem stable_pair (d : Char) (two one : TokenType × String × LitValue)
    (hd : d = '=' ∨ d = '&' ∨ d = '|') : Stable (fun r => some (scanPair d two one r)) := by
  intro a1 a2 post x ws t h hx _
  cases a1 with
  | nil =>
    simp only [List.nil_append] at h ⊢
    by_cases hp : post.head? = some d
    · simp only [scanPair, hp, if_true, Option.some.injEq, Prod.mk.injEq] at h
      have hl := congrArg List.length h.2
      cases post with
      | nil => cases hp
      | cons p0 post =>
        simp only [List.tail_cons, List.length_append, List.length_cons] at hl
        omega
    · simp only [scanPair, hp, if_false, Option.some.injEq, Prod.mk.injEq] at h
      have ha : a2 = [] := append_eq_self_left a2 post (by rw [← h.2])
      subst ha
      have hxd : x ≠ d := blank_not_operator x d hx (by
        rcases hd with e | e | e
        · exact Or.inl e
        · exact Or.inr (Or.inl e)
        · exact Or.inr (Or.inr (Or.inl e)))
      refine ⟨_, ?_, Or.inl rfl⟩
      simp [scanPair, hxd, h.1]
  | cons y a1 =>
    by_cases hp : y = d
    · subst hp
      simp only [scanPair, List.cons_append, List.head?_cons, if_true, List.tail_cons,
        Option.some.injEq, Prod.mk.injEq] at h
      have := List.append_cancel_right h.2
      subst this
      refine ⟨_, ?_, Or.inl rfl⟩
      simp [scanPair, h.1]
    · have hn : ¬ (some y = some d) := fun e => hp (Option.some.inj e)
      simp only [scanPair, List.cons_append, List.head?_cons, hn, if_false,
        Option.some.injEq, Prod.mk.injEq] at h
      have := List.append_cancel_right (show (y :: a1) ++ post = a2 ++ post from h.2)
      subst this
      refine ⟨_, ?_, Or.inl rfl⟩
      simp [scanPair, hn, h.1]

/-- A run of characters that ends inside `a1` is read in the same way whatever follows
`a1`. -/
theorem takeWhile_inside (p : Char → Bool) : ∀ (a1 a2 post y : List Char),
    (a1 ++ post).dropWhile p = a2 ++ post → a2 ≠ [] →
    (a1 ++ y).takeWhile p = (a1 ++ post).takeWhile p ∧ (a1 ++ y).dropWhile p = a2 ++ y
  | [], a2, post, y, h, hn => by
    simp only [List.nil_append] at h
    exact absurd (append_eq_self_left a2 post (by
      rw [← h]
      exact (List.dropWhile_suffix p).length_le)) hn
  | z :: a1, a2, post, y, h, hn => by
    by_cases hz : p z = true
    · simp only [List.cons_append, List.dropWhile_cons_of_pos hz] at h
      have ih := takeWhile_inside p a1 a2 post y h hn
      simp only [List.cons_append, List.takeWhile_cons_of_pos hz,
        List.dropWhile_cons_of_pos hz, ih.1, ih.2, and_self]
    · simp only [List.cons_append, List.dropWhile_cons_of_neg hz] at h
      have ha : a2 = z :: a1 :=
        (List.append_cancel_right (show (z :: a1) ++ post = a2 ++ post from h)).symm
      subst ha
      simp only [List.cons_append, List.takeWhile_cons_of_neg hz,
        List.dropWhile_cons_of_neg hz, and_self]

theorem stable_string : Stable (fun r => some (scanString r)) := by
  intro a1 a2 post x ws t h hx hq
  simp only [Option.some.injEq] at h
  unfold scanString at h
  cases hd : (a1 ++ post).dropWhile notQuote with
  | nil =>
    rw [hd] at h
    simp only [Prod.mk.injEq] at h
    obtain ⟨h1, h2⟩ := h
    have hp : post = [] := (List.append_eq_nil.1 h2.symm).2
    have ha : a2 = [] := (List.append_eq_nil.1 h2.symm).1
    subst hp
    subst ha
    have hws : '"' ∉ x :: ws := by
      rcases hq with e | e | e
      · exact absurd rfl e
      · exact e
      · exact absurd h1.symm e
    have hall : ∀ y ∈ a1 ++ (x :: ws ++ []), notQuote y = true := by
      intro y hy
      rw [List.append_nil] at hy hd
      rcases List.mem_append.1 hy with e | e
      · exact (List.dropWhile_eq_nil_iff.1 hd) y e
      · have : y ≠ '"' := fun e2 => hws (e2 ▸ e)
        simpa [notQuote] using this
    refine ⟨[], ?_, Or.inr ⟨rfl, rfl, rfl⟩⟩
    simp only [Option.some.injEq]
    unfold scanString
    rw [List.dropWhile_eq_nil_iff.2 hall]
    simp only [Prod.mk.injEq, and_true]
    exact h1
  | cons q r1 =>
    rw [hd] at h
    simp only [Prod.mk.injEq] at h
    obtain ⟨h1, h2⟩ := h
    subst h2
    have hs := takeWhile_inside notQuote a1 (q :: a2) post (x :: ws ++ post) hd
      (List.cons_ne_nil _ _)
    refine ⟨_, ?_, Or.inl rfl⟩
    simp only [Option.some.injEq]
    unfold scanString
    rw [hs.2, hs.1]
    simp only [List.cons_append, Prod.mk.injEq, and_true]
    exact h1

theorem scanNumber_eq (c : Char) (r : List Char) :
    scanNumber c r = numberTail (c :: r.takeWhile isDigit) (r.dropWhile isDigit) := rfl

theorem numberTail_suffix (ds r1 r : List Char) (t : TokenType × String × LitValue)
    (h : numberTail ds r1 = some (t, r)) : r <:+ r1 := by
  unfold numberTail at h
  split at h
  · split at h
    · simp only [Option.some.injEq, Prod.mk.injEq] at h
      rw [← h.2]
      exact (List.dropWhile_suffix _).trans (List.tail_suffix _)
    · cases h
  · split at h
    · simp only [Option.some.injEq, Prod.mk.injEq] at h
      rw [← h.2]
    · cases h

theorem numberTail_stable (ds b a2 post : List Char) (x : Char) (ws : List Char)
    (t : TokenType × String × LitValue)
    (h : numberTail ds (b ++ post) = some (t, a2 ++ post)) (hx : isBlankChar x = true) :
    numberTail ds (b ++ (x :: ws ++ post)) = some (t, a2 ++ (x :: ws ++ post)) := by
  have hxd : isDigit x = false := blank_not_digit x hx
  have hxp : x ≠ '.' := blank_not_operator x '.' hx (Or.inr (Or.inr (Or.inr rfl)))
  cases b with
  | nil =>
    simp only [List.nil_append] at h ⊢
    have hl := (numberTail_suffix _ _ _ _ h).length_le
    have ha : a2 = [] := append_eq_self_left a2 post hl
    subst ha
    simp only [List.nil_append] at h ⊢
    unfold numberTail at h ⊢
    split at h
    · rename_i hc
      split at h
      swap
      · cases h
      simp only [Option.some.injEq, Prod.mk.injEq] at h
      have h2 := congrArg List.length h.2
      have h3 : (post.tail.dropWhile isDigit).length ≤ post.tail.length :=
        (List.dropWhile_suffix _).length_le
      cases post with
      | nil => exact absurd hc.1 (by decide)
      | cons p0 post =>
        simp only [List.tail_cons, List.length_cons] at h2 h3
        omega
    · simp only [List.cons_append, List.headD_cons, hxp, false_and, if_false]
      cases hs : stoi ds with
      | none => rw [hs] at h; cases h
      | some v =>
        rw [hs] at h
        simp only [Option.some.injEq, Prod.mk.injEq] at h ⊢
        exact ⟨h.1, trivial⟩
  | cons y b =>
    cases b with
    | nil =>
      unfold numberTail at h ⊢
      simp only [List.cons_append, List.nil_append, List.headD_cons, List.tail_cons] at h ⊢
      by_cases hc : y = '.' ∧ isDigit (post.headD (Char.ofNat 0)) = true
      · rw [if_pos hc] at h
        split at h
        swap
        · cases h
        simp only [Option.some.injEq, Prod.mk.injEq] at h
        have h2 := congrArg List.length h.2
        cases post with
        | nil => exact absurd hc.2 (by decide)
        | cons p0 post =>
          simp only [List.headD_cons] at hc
          rw [List.dropWhile_cons_of_pos hc.2] at h2
          have h3 : (post.dropWhile isDigit).length ≤ post.length :=
            (List.dropWhile_suffix _).length_le
          simp only [List.length_append, List.length_cons] at h2
          omega
      · rw [if_neg hc] at h
        rw [if_neg (by simp [hxd])]
        cases hs : stoi ds with
        | none => rw [hs] at h; cases h
        | some v =>
          rw [hs] at h
          simp only [Option.some.injEq, Prod.mk.injEq] at h ⊢
          have ha : a2 = [y] :=
            (List.append_cancel_right (show [y] ++ post = a2 ++ post from h.2)).symm
          subst ha
          exact ⟨h.1, rfl⟩
    | cons z b =>
      unfold numberTail at h ⊢
      simp only [List.cons_append, List.headD_cons, List.tail_cons] at h ⊢
      by_cases hc : y = '.' ∧ isDigit z = true
      · rw [if_pos hc] at h
        rw [if_pos hc]
        cases hf : stof (ds ++ '.' :: List.takeWhile isDigit (z :: (b ++ post))) with
        | none => rw [hf] at h; cases h
        | some v =>
          rw [hf] at h
          simp only [Option.some.injEq, Prod.mk.injEq] at h
          have hs := takeWhile_stable isDigit (z :: b) a2 post (x :: ws) h.2 (fun y hy => by
            simp only [List.head?_cons, Option.some.injEq] at hy
            rw [← hy]
            exact hxd)
          simp only [List.cons_append] at hs
          rw [hs.1, hs.2, hf]
          simp only [Option.some.injEq, Prod.mk.injEq]
          exact ⟨h.1, trivial⟩
      · rw [if_neg hc] at h
        rw [if_neg hc]
        cases hs : stoi ds with
        | none => rw [hs] at h; cases h
        | some v =>
          rw [hs] at h
          simp only [Option.some.injEq, Prod.mk.injEq] at h ⊢
          have ha : a2 = y :: z :: b :=
            (List.append_cancel_right (show (y :: z :: b) ++ post = a2 ++ post from h.2)).symm
          subst ha
          exact ⟨h.1, rfl⟩

theorem takeWhile_all (p : Char → Bool) : ∀ (a y : List Char), (∀ x ∈ a, p x = true) →
    (a ++ y).takeWhile p = a ++ y.takeWhile p ∧ (a ++ y).dropWhile p = y.dropWhile p
  | [], y, _ => ⟨rfl, rfl⟩
  | z :: a, y, h => by
    have hz : p z = true := h z (List.mem_cons_self _ _)
    have ih := takeWhile_all p a y (fun x hx => h x (List.mem_cons_of_mem _ hx))
    simp only [List.cons_append, List.takeWhile_cons_of_pos hz, List.dropWhile_cons_of_pos hz,
      ih.1, ih.2, and_self]

theorem dropWhile_ne_nil (p : Char → Bool) : ∀ (a : List Char), ¬ (∀ x ∈ a, p x = true) →
    a.dropWhile p ≠ []
  | [], h => absurd (fun x hx => by cases hx) h
  | z :: a, h => by
    by_cases hz : p z = true
    · rw [List.dropWhile_cons_of_pos hz]
      exact dropWhile_ne_nil p a (fun hall => h (fun x hx => by
        rcases List.mem_cons.1 hx with e | e
        · rw [e]; exact hz
        · exact hall x e))
    · rw [List.dropWhile_cons_of_neg hz]
      exact List.cons_ne_nil _ _

theorem takeWhile_not_all (p : Char → Bool) : ∀ (a y : List Char),
    ¬ (∀ x ∈ a, p x = true) →
    (a ++ y).takeWhile p = a.takeWhile p ∧ (a ++ y).dropWhile p = a.dropWhile p ++ y
  | [], y, h => absurd (fun x hx => by cases hx) h
  | z :: a, y, h => by
    by_cases hz : p z = true
    · have ih := takeWhile_not_all p a y (fun hall => h (fun x hx => by
        rcases List.mem_cons.1 hx with e | e
        · rw [e]; exact hz
        · exact hall x e))
      simp only [List.cons_append, List.takeWhile_cons_of_pos hz,
        List.dropWhile_cons_of_pos hz, ih.1, ih.2, and_self]
    · simp only [List.cons_append, List.takeWhile_cons_of_neg hz,
        List.dropWhile_cons_of_neg hz, and_self]

theorem stable_number (c : Char) : Stable (fun r => scanNumber c r) := by
  intro a1 a2 post x ws t h hx _
  have hxd : isDigit x = false := blank_not_digit x hx
  simp only [scanNumber_eq] at h ⊢
  refine ⟨_, ?_, Or.inl rfl⟩
  by_cases hall : ∀ y ∈ a1, isDigit y = true
  · have e1 := takeWhile_all isDigit a1 post hall
    have e2 := takeWhile_all isDigit a1 (x :: ws ++ post) hall
    rw [e1.1, e1.2] at h
    rw [e2.1, e2.2]
    have hl := (numberTail_suffix _ _ _ _ h).length_le
    have hl2 : (post.dropWhile isDigit).length ≤ post.length :=
      (List.dropWhile_suffix _).length_le
    have ha : a2 = [] := append_eq_self_left a2 post (hl.trans hl2)
    subst ha
    simp only [List.nil_append] at h hl ⊢
    have hd : post.dropWhile isDigit = post :=
      (List.dropWhile_suffix isDigit).eq_of_length (Nat.le_antisymm hl2 hl)
    have ht := dropWhile_eq_self isDigit post hd
    rw [hd, ht] at h
    simp only [List.cons_append, List.takeWhile_cons_of_neg (by simpa using hxd),
      List.dropWhile_cons_of_neg (by simpa using hxd)]
    have := numberTail_stable (c :: (a1 ++ [])) [] [] post x ws t h hx
    simpa using this
  · have e1 := takeWhile_not_all isDigit a1 post hall
    have e2 := takeWhile_not_all isDigit a1 (x :: ws ++ post) hall
    rw [e1.1, e1.2] at h
    rw [e2.1, e2.2]
    exact numberTail_stable _ _ _ _ _ _ _ h hx

theorem stable_ite {p : Prop} [Decidable p]
    {f g : List Char → Option ((TokenType × String × LitValue) × List Char)}
    (h1 : p → Stable f) (h2 : ¬ p → Stable g) : Stable (fun r => if p then f r else g r) := by
  by_cases hp : p
  · simp only [if_pos hp]
    exact h1 hp
  · simp only [if_neg hp]
    exact h2 hp

set_option maxHeartbeats 4000000 in
theorem scanFrom_stable (c : Char) : Stable (fun r => scanFrom c r) := by
  unfold scanFrom
  repeat' first
    | exact stable_identifier c
    | exact stable_number c
    | exact stable_single _
    | exact stable_pair _ _ _ (by decide)
    | exact stable_string
    | refine stable_ite (fun _ => ?_) (fun _ => ?_)

theorem shrinks_ite {p : Prop} [Decidable p]
    {f g : List Char → Option ((TokenType × String × LitValue) × List Char)}
    (h1 : p → Shrinks f) (h2 : ¬ p → Shrinks g) :
    Shrinks (fun r => if p then f r else g r) := by
  by_cases hp : p
  · simp only [if_pos hp]
    exact h1 hp
  · simp only [if_neg hp]
    exact h2 hp

theorem shrinks_single (k : TokenType × String × LitValue) :
    Shrinks (fun r => some (k, r)) := by
  intro r t r1 h
  simp only [Option.some.injEq, Prod.mk.injEq] at h
  rw [← h.2]

theorem shrinks_identifier (c : Char) : Shrinks (fun r => some (scanIdentifier c r)) := by
  intro r t r1 h
  simp only [scanIdentifier_eq, Option.some.injEq, Prod.mk.injEq] at h
  rw [← h.2]
  exact List.dropWhile_suffix _

theorem shrinks_number (c : Char) : Shrinks (fun r => scanNumber c r) := by
  intro r t r1 h
  simp only [scanNumber_eq] at h
  exact (numberTail_suffix _ _ _ _ h).trans (List.dropWhile_suffix _)

theorem shrinks_pair (d : Char) (two one : TokenType × String × LitValue) :
    Shrinks (fun r => some (scanPair d two one r)) := by
  intro r t r1 h
  simp only [scanPair, Option.some.injEq] at h
  split at h
  · simp only [Prod.mk.injEq] at h
    rw [← h.2]
    exact List.tail_suffix _
  · simp only [Prod.mk.injEq] at h
    rw [← h.2]

theorem shrinks_string : Shrinks (fun r => some (scanString r)) := by
  intro r t r1 h
  simp only [Option.some.injEq] at h
  unfold scanString at h
  cases hd : r.dropWhile notQuote with
  | nil =>
    rw [hd] at h
    simp only [Prod.mk.injEq] at h
    rw [← h.2]
    exact List.nil_suffix
  | cons q r2 =>
    rw [hd] at h
    simp only [Prod.mk.injEq] at h
    rw [← h.2]
    have : r2 <:+ q :: r2 := List.suffix_cons _ _
    exact this.trans (hd ▸ List.dropWhile_suffix _)

set_option maxHeartbeats 4000000 in
theorem scanFrom_shrinks (c : Char) : Shrinks (fun r => scanFrom c r) := by
  unfold scanFrom
  repeat' first
    | exact shrinks_identifier c
    | exact shrinks_number c
    | exact shrinks_single _
    | exact shrinks_pair _ _ _
    | exact shrinks_string
    | refine shrinks_ite (fun _ => ?_) (fun _ => ?_)

theorem scanToken_suffix (input : List Char) (t : TokenType × String × LitValue)
    (r : List Char) (h : scanToken input = some (t, r)) : r <:+ input := by
  unfold scanToken at h
  cases hs : skipBlank false input with
  | nil =>
    rw [hs] at h
    simp only [Option.some.injEq, Prod.mk.injEq] at h
    rw [← h.2]
    exact List.nil_suffix
  | cons c r0 =>
    rw [hs] at h
    have h1 := scanFrom_shrinks c r0 t r h
    have h2 : r0 <:+ c :: r0 := List.suffix_cons _ _
    exact (h1.trans h2).trans (hs ▸ skipBlank_suffix false input)

theorem scanRest_suffix : ∀ (k : Nat) (input r : List Char),
    scanRest k input = some r → r <:+ input
  | 0, input, r, h => by
    simp only [scanRest, Option.some.injEq] at h
    rw [h]
  | k + 1, input, r, h => by
    unfold scanRest at h
    cases hs : scanToken input with
    | none => rw [hs] at h; cases h
    | some v =>
      obtain ⟨t, r1⟩ := v
      rw [hs] at h
      exact (scanRest_suffix k r1 r h).trans (scanToken_suffix input t r1 hs)

/-- Text that is skipped completely leaves, with more text after it, an end of that
text. -/
theorem skipBlank_append_suffix : ∀ (b : Bool) (a x : List Char),
    skipBlank b a = [] → skipBlank b (a ++ x) <:+ x
  | b, [], x, _ => skipBlank_suffix b x
  | true, y :: r, x, h => by
    by_cases hc : y = '\n'
    · simp only [skipBlank, hc, if_true] at h
      simp only [List.cons_append, skipBlank, hc, if_true]
      exact skipBlank_append_suffix false r x h
    · simp only [skipBlank, hc, if_false] at h
      simp only [List.cons_append, skipBlank, hc, if_false]
      exact skipBlank_append_suffix true r x h
  | false, y :: r, x, h => by
    by_cases hc : y = ' ' ∨ y = '\t' ∨ y = '\r' ∨ y = '\n'
    · simp only [skipBlank, hc, if_true] at h
      simp only [List.cons_append, skipBlank, hc, if_true]
      exact skipBlank_append_suffix false r x h
    · by_cases h2 : y = '#'
      · simp only [skipBlank, hc, if_false, h2, if_true] at h
        simp only [List.cons_append, skipBlank, hc, if_false, h2, if_true]
        exact skipBlank_append_suffix true r x h
      · simp [skipBlank, hc, h2] at h

theorem scanToken_congr (x y : List Char) (h : skipBlank false x = skipBlank false y) :
    scanToken x = scanToken y := by
  unfold scanToken
  rw [h]

theorem scanAll_congr (x y : List Char) (h : skipBlank false x = skipBlank false y) :
    ∀ n, scanAll n x = scanAll n y
  | 0 => rfl
  | n + 1 => by
    unfold scanAll
    rw [scanToken_congr x y h]

/-- Blank text put after a token and the blank text `b` that follows it, in front of
`post`, changes no token of the text, unless it ends the text, holds a quote and follows
a string literal that is not closed. -/
theorem scanAll_insert (b post : List Char) (x : Char) (ws : List Char)
    (hbl : blankBefore b post = true)
    (hb : blankBefore (x :: ws) post = true) :
    ∀ (k : Nat) (a : List Char), scanRest k (a ++ (b ++ post)) = some (b ++ post) →
      (post ≠ [] ∨ '"' ∉ x :: ws ∨ unterminated ∉ scanAll k (a ++ (b ++ post))) →
      ∀ n, scanAll n (a ++ (b ++ (x :: ws ++ post))) = scanAll n (a ++ (b ++ post)) := by
  have ht : isTrailing false (x :: ws) = true := by
    unfold blankBefore at hb
    rcases Bool.or_eq_true_iff.1 hb with e | e
    · exact isTrailing_of_blank false _ e
    · exact (Bool.and_eq_true_iff.1 e).2
  have hx : isBlankChar x = true := isTrailing_head _ ht x rfl
  have hskip : skipBlank false (x :: ws ++ post) = skipBlank false post := by
    unfold blankBefore at hb
    rcases Bool.or_eq_true_iff.1 hb with e | e
    · exact skipBlank_blank false _ post e
    · have hp : post = [] := List.isEmpty_iff.1 (Bool.and_eq_true_iff.1 e).1
      subst hp
      rw [List.append_nil, skipBlank_trailing false _ ht]
      rfl
  have hskipb : skipBlank false (b ++ (x :: ws ++ post)) = skipBlank false (b ++ post) := by
    unfold blankBefore at hbl
    rcases Bool.or_eq_true_iff.1 hbl with e | e
    · rw [skipBlank_blank false b _ e, skipBlank_blank false b _ e, hskip]
    · have hp : post = [] := List.isEmpty_iff.1 (Bool.and_eq_true_iff.1 e).1
      have htb : isTrailing false b = true := (Bool.and_eq_true_iff.1 e).2
      subst hp
      rw [List.append_nil, List.append_nil, skipBlank_trailing false b htb,
        skipBlank_append_nil false b _ (skipBlank_trailing false b htb) ht]
  intro k
  induction k with
  | zero =>
    intro a h _ n
    simp only [scanRest, Option.some.injEq] at h
    have ha : a = [] := append_eq_self_left a (b ++ post) (by rw [h])
    subst ha
    exact scanAll_congr _ _ hskipb n
  | succ k ih =>
    intro a h hq n
    unfold scanRest at h
    cases hs : scanToken (a ++ (b ++ post)) with
    | none => rw [hs] at h; cases h
    | some v =>
      obtain ⟨t, r1⟩ := v
      rw [hs] at h
      simp only at h
      obtain ⟨a2, ha2⟩ := scanRest_suffix k r1 (b ++ post) h
      subst ha2
      have hall : scanAll (k + 1) (a ++ (b ++ post)) =
          t :: (if t.1 = TokenType.END_OF_FILE then [] else scanAll k (a2 ++ (b ++ post))) := by
        rw [scanAll, hs]
      cases n with
      | zero => rfl
      | succ n =>
        cases hsk : skipBlank false a with
        | nil =>
          have hsuf := skipBlank_append_suffix false a (b ++ post) hsk
          cases hsp : skipBlank false (a ++ (b ++ post)) with
          | nil =>
            unfold scanToken at hs
            rw [hsp] at hs
            simp only [Option.some.injEq, Prod.mk.injEq] at hs
            have hbp : b ++ post = [] := (List.append_eq_nil.1 hs.2.symm).2
            have hb0 : b = [] := (List.append_eq_nil.1 hbp).1
            have hp : post = [] := (List.append_eq_nil.1 hbp).2
            subst hb0
            subst hp
            have e1 : skipBlank false (a ++ ([] ++ (x :: ws ++ []))) = [] :=
              skipBlank_append_nil false a _ hsk (by
                rw [List.nil_append, List.append_nil]; exact ht)
            exact scanAll_congr _ _ (e1.trans hsp.symm) (n + 1)
          | cons c r =>
            exfalso
            unfold scanToken at hs
            rw [hsp] at hs hsuf
            have h1 := (scanFrom_shrinks c r t _ hs).length_le
            have h2 := hsuf.length_le
            simp only [List.length_append, List.length_cons] at h1 h2
            omega
        | cons c a1 =>
          have e1 := skipBlank_append_cons false a (b ++ post) c a1 hsk
          have e2 := skipBlank_append_cons false a (b ++ (x :: ws ++ post)) c a1 hsk
          have hs1 : scanFrom c ((a1 ++ b) ++ post) = some (t, (a2 ++ b) ++ post) := by
            unfold scanToken at hs
            rw [e1] at hs
            rw [List.append_assoc, List.append_assoc]
            exact hs
          have hqt : post ≠ [] ∨ '"' ∉ x :: ws ∨ t ≠ unterminated := by
            rcases hq with e | e | e
            · exact Or.inl e
            · exact Or.inr (Or.inl e)
            · refine Or.inr (Or.inr (fun et => e ?_))
              rw [hall, et]
              exact List.mem_cons_self _ _
          obtain ⟨r2, hr2, hcase⟩ :=
            scanFrom_stable c (a1 ++ b) (a2 ++ b) post x ws t hs1 hx hqt
          have hs2 : scanToken (a ++ (b ++ (x :: ws ++ post))) = some (t, r2) := by
            unfold scanToken
            rw [e2, ← List.append_assoc]
            exact hr2
          unfold scanAll
          rw [hs, hs2]
          simp only
          by_cases heof : t.1 = TokenType.END_OF_FILE
          · rw [if_pos heof, if_pos heof]
          · rw [if_neg heof, if_neg heof]
            have hqk : post ≠ [] ∨ '"' ∉ x :: ws ∨
                unterminated ∉ scanAll k (a2 ++ (b ++ post)) := by
              rcases hq with e | e | e
              · exact Or.inl e
              · exact Or.inr (Or.inl e)
              · refine Or.inr (Or.inr (fun em => e ?_))
                rw [hall, if_neg heof]
                exact List.mem_cons_of_mem _ em
            rcases hcase with e | ⟨e3, e4, e5⟩
            · rw [e, List.append_assoc, ih a2 h hqk n]
            · subst e3
              have hb0 : b = [] := (List.append_eq_nil.1 e4).2
              have ha0 : a2 = [] := (List.append_eq_nil.1 e4).1
              subst hb0
              subst ha0
              subst e5
              rfl

theorem lookup_mem_values {α β : Type} [BEq α] : ∀ (l : List (α × β)) (k : α) (v : β),
    l.lookup k = some v → v ∈ l.map Prod.snd
  | [], k, v, h => by simp [List.lookup] at h
  | (a, b) :: l, k, v, h => by
    unfold List.lookup at h
    split at h
    · simp only [Option.some.injEq] at h
      simp [h]
    · simp only [List.map_cons, List.mem_cons]
      exact Or.inr (lookup_mem_values l k v h)

theorem scanIdentifier_type (c : Char) (r : List Char) :
    (scanIdentifier c r).1.1 ≠ TokenType.ERROR := by
  unfold scanIdentifier
  dsimp only
  cases h : Lexer.keywords.lookup (String.mk (c :: r.takeWhile isIdentChar)) with
  | none => simp
  | some ty =>
    have hm := lookup_mem_values _ _ _ h
    have hne : ty ≠ TokenType.ERROR := by
      intro e
      rw [e] at hm
      revert hm
      decide
    dsimp only
    split
    · exact hne
    · split <;> exact hne

theorem unexpected_ne (c : Char) : unexpected c ≠ unterminated := by
  intro h
  have h1 := congrArg (fun t => t.2.1.length) h
  simp [unexpected, unterminated, String.length_append] at h1
  revert h1
  decide


theorem plainContent_ne (type : TokenType) (w : List Char) (h : type ≠ TokenType.ERROR) :
    plainContent type w ≠ unterminated := by
  intro e
  have h1 := congrArg (fun t => t.1) e
  simp only [plainContent, unterminated] at h1
  exact h h1

theorem scanNumber_ne (c : Char) (r r1 : List Char) :
    scanNumber c r ≠ some (unterminated, r1) := by
  unfold scanNumber
  dsimp only
  split
  · split
    · intro e
      simp [unterminated] at e
    · simp
  · split
    · intro e
      simp [unterminated] at e
    · simp

theorem scanPair_ne (d : Char) (two one : TokenType × String × LitValue) (r r1 : List Char)
    (h2 : two ≠ unterminated) (h1 : one ≠ unterminated) :
    scanPair d two one r ≠ (unterminated, r1) := by
  unfold scanPair
  split
  · intro e
    exact h2 (congrArg Prod.fst e)
  · intro e
    exact h1 (congrArg Prod.fst e)

theorem ite_cases {α : Type} {c : Prop} [Decidable c] {a b r : α} {P : Prop}
    (h : (if c then a else b) = r) (h1 : c → a = r → P) (h2 : ¬ c → b = r → P) : P := by
  by_cases hc : c
  · rw [if_pos hc] at h
    exact h1 hc h
  · rw [if_neg hc] at h
    exact h2 hc h

/-- Only a string literal that is not closed gives the ERROR token "Unterminated
string". -/
theorem scanFrom_unterminated (c : Char) (r r1 : List Char)
    (h : scanFrom c r = some (unterminated, r1)) : c = '"' := by
  unfold scanFrom at h
  repeat' first
    | assumption
    | (exfalso
       simp only [Option.some.injEq] at h
       first
        | exact scanIdentifier_type c r (by rw [h]; rfl)
        | exact scanNumber_ne c r r1 h
        | exact plainContent_ne _ _ (by decide) (congrArg Prod.fst h)
        | exact unexpected_ne c (congrArg Prod.fst h)
        | exact scanPair_ne _ _ _ _ _ (plainContent_ne _ _ (by decide))
            (plainContent_ne _ _ (by decide)) h
        | exact scanPair_ne _ _ _ _ _ (plainContent_ne _ _ (by decide))
            (unexpected_ne c) h)
    | refine ite_cases h (fun _ h => ?_) (fun _ h => ?_)

theorem scanFrom_quote (r : List Char) : scanFrom '"' r = some (scanString r) := by
  simp [scanFrom, isAlpha, isDigit]

theorem scanAll_nil (k : Nat) : unterminated ∉ scanAll k [] := by
  cases k with
  | zero => simp [scanAll]
  | succ k =>
    simp [scanAll, scanToken, skipBlank, plainContent, unterminated]

/-- Blank text that holds a quote, put at the end of a text that ends in a string literal
that is not closed, changes the tokens of the text. -/
theorem scanAll_insert_changes (x : Char) (ws : List Char)
    (ht : isTrailing false (x :: ws) = true) (hqm : '"' ∈ x :: ws) :
    ∀ (k : Nat) (a b : List Char), scanRest k (a ++ b) = some b →
      isTrailing false b = true → unterminated ∈ scanAll k (a ++ b) →
      ∀ n, k ≤ n → scanAll n (a ++ (b ++ (x :: ws))) ≠ scanAll n (a ++ b) := by
  have hx : isBlankChar x = true := isTrailing_head _ ht x rfl
  intro k
  induction k with
  | zero =>
    intro a b _ _ hm
    simp [scanAll] at hm
  | succ k ih =>
    intro a b h hb hm n hn
    unfold scanRest at h
    cases hs : scanToken (a ++ b) with
    | none => rw [hs] at h; cases h
    | some v =>
      obtain ⟨t, r1⟩ := v
      rw [hs] at h
      simp only at h
      obtain ⟨a2, ha2⟩ := scanRest_suffix k r1 b h
      subst ha2
      rw [scanAll, hs] at hm
      simp only at hm
      cases n with
      | zero => omega
      | succ n =>
        cases hsk : skipBlank false a with
        | nil =>
          exfalso
          have e0 : skipBlank false (a ++ b) = [] :=
            skipBlank_append_nil false a b hsk hb
          unfold scanToken at hs
          rw [e0] at hs
          simp only [Option.some.injEq, Prod.mk.injEq] at hs
          rw [← hs.1] at hm
          simp [plainContent, unterminated] at hm
        | cons c a1 =>
          have e1 := skipBlank_append_cons false a b c a1 hsk
          have e2 := skipBlank_append_cons false a (b ++ (x :: ws)) c a1 hsk
          have hs1 : scanFrom c (a1 ++ b) = some (t, a2 ++ b) := by
            unfold scanToken at hs
            rw [e1] at hs
            exact hs
          by_cases et : t = unterminated
          · subst et
            have hc := scanFrom_unterminated c _ _ hs1
            subst hc
            have hd : (a1 ++ (b ++ (x :: ws))).dropWhile notQuote ≠ [] := by
              intro e
              have := (List.dropWhile_eq_nil_iff.1 e) '"' (by
                simp only [List.mem_append]
                exact Or.inr (Or.inr hqm))
              revert this
              decide
            have hs2 : ∃ t2 r2, scanToken (a ++ (b ++ (x :: ws))) = some (t2, r2) ∧
                t2.1 = TokenType.STRING_LITERAL := by
              unfold scanToken
              rw [e2]
              dsimp only
              rw [scanFrom_quote]
              unfold scanString
              cases hd2 : (a1 ++ (b ++ (x :: ws))).dropWhile notQuote with
              | nil => exact absurd hd2 hd
              | cons q r3 => exact ⟨_, _, rfl, rfl⟩
            obtain ⟨t2, r2, hs3, hty⟩ := hs2
            unfold scanAll
            rw [hs, hs3]
            intro e
            have e3 := congrArg (fun l => (l.head?.map Prod.fst)) e
            simp [hty, unterminated] at e3
          · have hm2 : t.1 ≠ TokenType.END_OF_FILE ∧ unterminated ∈ scanAll k (a2 ++ b) := by
              rcases List.mem_cons.1 hm with e | e
              · exact absurd e.symm et
              · by_cases heof : t.1 = TokenType.END_OF_FILE
                · rw [if_pos heof] at e
                  simp at e
                · rw [if_neg heof] at e
                  exact ⟨heof, e⟩
            have hs1b : scanFrom c ((a1 ++ b) ++ []) = some (t, (a2 ++ b) ++ []) := by
              rw [List.append_nil, List.append_nil]
              exact hs1
            obtain ⟨r2, hr2, hcase⟩ :=
              scanFrom_stable c (a1 ++ b) (a2 ++ b) [] x ws t hs1b hx (Or.inr (Or.inr et))
            rw [List.append_nil] at hr2 hcase
            have hs2 : scanToken (a ++ (b ++ (x :: ws))) = some (t, r2) := by
              unfold scanToken
              rw [e2, ← List.append_assoc]
              exact hr2
            unfold scanAll
            rw [hs, hs2]
            simp only [if_neg hm2.1]
            rcases hcase with e | ⟨_, e4, _⟩
            · rw [e, List.append_assoc]
              intro e5
              exact ih a2 b h hb hm2.2 n (by omega) (List.cons_injective e5)
            · exfalso
              rw [e4] at hm2
              exact scanAll_nil k hm2.2

open Interpreter Environment in
/-- The assignment `values[name] = value` binds the name and leaves the others. -/
theorem lookup_setValue_any (values : List (String × Value)) (name x : String) (v : Value) :
    (setValue values name v).lookup x = if x = name then some v else values.lookup x := by
  cases h : values.lookup name with
  | some w => exact lookup_setValue values name x v w h
  | none =>
    unfold setValue
    rw [h]
    simp only [List.lookup_append, List.lookup]
    by_cases hx : x = name
    · subst hx
      simp [h]
    · have : (x == name) = false := by simpa using hx
      simp [hx, this]

open Interpreter in
/-- The loop that binds the arguments gives every parameter name the argument of its
last occurrence, and leaves every other name as it was. -/
theorem lookup_bindParameters : ∀ (ps : List (String × TokenType)) (vs : List Value)
    (values : List (String × Value)) (name : String),
    (bindParameters ps vs values).lookup name =
      match ((ps.map Prod.fst).zip vs).reverse.lookup name with
      | some v => some v
      | none => values.lookup name
  | [], vs, values, name => by simp [bindParameters]
  | p :: ps, [], values, name => by simp [bindParameters]
  | p :: ps, v :: vs, values, name => by
    rw [bindParameters, lookup_bindParameters ps vs _ name]
    simp only [List.map_cons, List.zip_cons_cons, List.reverse_cons, List.lookup_append]
    cases h : ((ps.map Prod.fst).zip vs).reverse.lookup name with
    | some w => simp
    | none =>
      simp only [Option.none_or, lookup_setValue_any, List.lookup]
      by_cases hx : name = p.1
      · simp [hx]
      · have : (name == p.1) = false := by simpa using hx
        simp [hx, this]

/-! ## The claims -/

/-- C1 (defect of the code). `parse()` does not return for every source: on the source
`)` and on a source whose first token is the lexer's ERROR token (`@`), `parseProgram`
never returns, whatever the fuel; each turn of its loop reports `Expected expression`
twice, gets `nullptr` and is at the same token again. -/
theorem C1_parse_never_returns (fuel : Nat) :
    parseSource fuel ")" = some PResult.outOfFuel ∧
    parseSource fuel "@" = some PResult.outOfFuel ∧
    (parserFor "@").current.type = TokenType.ERROR ∧
    messages ((Parser.parseStatement 11 (parserFor ")")).parserD (parserFor ")")).errors =
      ["Expected expression", "Expected expression"] :=
  ⟨parseSource_stuck ")" (by decide!) (by decide!) fuel,
   parseSource_stuck "@" (by decide!) (by decide!) fuel, by decide!, by decide!⟩

/-- C2 (defect of the code). The source of the complex-expression scenario parses without
syntax errors into `c2Program`, but `SemanticAnalyzer::analyze` does not return on it:
the visit of the first initializer, the literal 10, ends in the exception of
`return nullptr;`, with no diagnostic recorded. Executed nevertheless, the program binds
`z` to the Float 87, writes nothing and records the runtime error
`Undefined variable 'print'`; and the text of the Float 87 is `87.000000`, not `87.0`. -/
theorem C2_complex_expression_pipeline :
    ((parserFor c2Source).parse 200).isOk = true ∧
    syntaxErrors 200 c2Source = [] ∧
    parsedProgram 200 c2Source = c2Program ∧
    (SemanticAnalyzer.new.analyze c2Program).map (fun a => messages a.errors) = none ∧
    (SemanticAnalyzer.new.analyze c2Program).thrownWith (fun a => messages a.errors) =
      some [] ∧
    (Interpreter.interpret 200 Interpreter.new c2Program).isDone = true ∧
    Environment.get (stateAfter 200 c2Program).heap 0 "z" = Except.ok (Value.float 87) ∧
    (stateAfter 200 c2Program).output = "" ∧
    messages (stateAfter 200 c2Program).errors = ["Undefined variable 'print'"] ∧
    Environment.valueToString (Value.float 87) = "87.000000" :=
  ⟨by decide!, by decide!, stmts_eq_of_beq _ _ (by decide!), by decide!, by decide!,
   by decide!, holds_eq _ _ (by decide!), by decide!, by decide!, by decide!⟩

/-- The loop of `parseProgram` never ends on the source of the while scenario. -/
theorem c3_parse_diverges (n : Nat) (ss : List Stmt) :
    Parser.parseProgramLoop n (parserFor c3Source) ss = PResult.outOfFuel := by
  refine Parser.parseProgramLoop_diverges_after _ 100 (by decide!) (by decide!) ?_ n ss
  intro n ss
  refine Parser.parseProgramLoop_diverges_after _ 100 (by decide!) (by decide!) ?_ n ss
  intro n ss
  refine Parser.parseProgramLoop_diverges_after _ 100 (by decide!) (by decide!) ?_ n ss
  intro n ss
  exact Parser.parseProgramLoop_stuck n _ ss (by decide!)

/-- The loop of `parseProgram` never ends on the source of interpreter test 3. -/
theorem c3_test_diverges (n : Nat) (ss : List Stmt) :
    Parser.parseProgramLoop n (parserFor c3TestSource) ss = PResult.outOfFuel := by
  refine Parser.parseProgramLoop_diverges_after _ 100 (by decide!) (by decide!) ?_ n ss
  intro n ss
  refine Parser.parseProgramLoop_diverges_after _ 100 (by decide!) (by decide!) ?_ n ss
  intro n ss
  refine Parser.parseProgramLoop_diverges_after _ 100 (by decide!) (by decide!) ?_ n ss
  intro n ss
  exact Parser.parseProgramLoop_stuck n _ ss (by decide!)

/-- C3 (defect of the code). The source of the while scenario,
`let i = 1; while (i <= 3) do print(i); i = i + 1; end;`, does not parse: `parse()`
never returns on it, whatever the fuel. The first statement is the declaration of `i`;
`parseWhileStatement` then reads `print(i);` as the body, finds `i` where it requires
`end`, reports "Expected 'end' after while statement" and returns `nullptr`;
`i = i + 1;` is read as a statement of its own, without a further diagnostic, and the
parser stays at `end`, which no statement starts with. On the source of interpreter
test 3, which has no parentheses around the condition, `parse()` never returns
either. -/
theorem C3_while_scenario_never_parses (fuel : Nat) :
    parseSource fuel c3Source = some PResult.outOfFuel ∧
    Stmt.beq ((Parser.parseStatement 100 (parserFor c3Source)).valueD Stmt.null)
      (Stmt.VariableDecl (ident "i" 5) (intLit 1)) = true ∧
    (Parser.parseStatement 100 (afterStatement (parserFor c3Source))).valueD (Stmt.Block []) =
      Stmt.null ∧
    messages (afterStatement (afterStatement (parserFor c3Source))).errors =
      ["Expected 'end' after while statement"] ∧
    Stmt.beq
      ((Parser.parseStatement 100
        (afterStatement (afterStatement (parserFor c3Source)))).valueD Stmt.null)
      (Stmt.Expression (Expr.Assignment (ident "i" 40)
        (Expr.Binary (var "i" 44) (tok TokenType.PLUS "+" 46) (intLit 1)))) = true ∧
    messages (afterStatement (afterStatement (afterStatement (parserFor c3Source)))).errors =
      ["Expected 'end' after while statement"] ∧
    (afterStatement (afterStatement (afterStatement (parserFor c3Source)))).current.type =
      TokenType.END ∧
    parseSource fuel c3TestSource = some PResult.outOfFuel := by
  refine ⟨?_, by decide!, stmt_eq_of_beq _ _ (by decide!), by decide!, by decide!, by decide!,
    by decide!, ?_⟩
  · rw [parseSource_eq fuel c3Source (by decide!)]
    exact congrArg some (c3_parse_diverges fuel [])
  · rw [parseSource_eq fuel c3TestSource (by decide!)]
    exact congrArg some (c3_test_diverges fuel [])

/-- C4 (defect of the code). `parseStatement` has no case for a left brace, so for the
source `let x = 1; { let x = 2; print(x); } print(x);` the parser, once past the first
statement, is at the brace, reports `Expected expression` and never returns. The tree of
the scenario (with `Block` and `Print` nodes), executed by the interpreter, writes `2`
and then `1` and leaves the outer `x` at 1. -/
theorem C4_block_statement_not_parsed (fuel : Nat) :
    parseSource fuel c4Source = some PResult.outOfFuel ∧
    ((Parser.parseStatement 100 (parserFor c4Source)).parserD
      (parserFor c4Source)).current.type = TokenType.LEFT_BRACE ∧
    ((Interpreter.interpret 200 Interpreter.new c4Tree).isDone = true ∧
      (stateAfter 200 c4Tree).output = "2\n1\n" ∧
      Environment.get (stateAfter 200 c4Tree).heap 0 "x" = Except.ok (Value.int 1)) := by
  refine ⟨?_, by decide!, by decide!, by decide!, holds_eq _ _ (by decide!)⟩
  rw [parseSource_eq fuel c4Source (by decide!)]
  refine congrArg some ?_
  refine Parser.parseProgramLoop_diverges_after _ 100 (by decide!) (by decide!) ?_ fuel []
  intro n ss
  exact Parser.parseProgramLoop_stuck n _ ss (by decide!)

/-- C5 (defect of the code). `visitCallExpr` does not clear `hasReturn`: after the call
`f()`, whose body executed `return 1;`, the flag is still set. So in
`function g(): int { let a = f(); let b = 5; return 2; }` the loop of `executeBlock`
stops right after `let a = f();`: `let b = 5;` is not executed (no environment binds
`b`) and `g()` yields 1, the value returned by `f`, not 2. -/
theorem C5_return_flag_not_cleared :
    (((parserFor c5Source).parse 200).isOk = true ∧ syntaxErrors 200 c5Source = []) ∧
    ((Interpreter.evaluate 100 (stateAfter 200 ((parsedProgram 200 c5Source).take 2))
        (Expr.Call (ident "f" 1) [])).valueD Value.null = Value.int 1 ∧
      ((Interpreter.evaluate 100 (stateAfter 200 ((parsedProgram 200 c5Source).take 2))
        (Expr.Call (ident "f" 1) [])).stateD Interpreter.new).hasReturn = true) ∧
    ((Interpreter.interpret 200 Interpreter.new (parsedProgram 200 c5Source)).isDone = true ∧
      Environment.get (stateAfter 200 (parsedProgram 200 c5Source)).heap 0 "r" =
        Except.ok (Value.int 1) ∧
      (stateAfter 200 (parsedProgram 200 c5Source)).heap.all
        (fun e => (e.values.lookup "b").isNone) = true ∧
      (stateAfter 200 (parsedProgram 200 c5Source)).errors = []) :=
  ⟨⟨by decide!, by decide!⟩,
   ⟨value_eq_of_beq _ _ (by decide!), by decide!⟩,
   ⟨by decide!, holds_eq _ _ (by decide!), by decide!, by decide!⟩⟩

/-- C6 (defect of the code). `visitWhileStmt` does not look at `hasReturn`: after the
declaration `function f() { while (true) do return 1; end; }` (which parses without
errors) the call `f()` never returns, whatever the fuel; the loop evaluates its
condition again after every `return`. -/
theorem C6_return_inside_while_loops_forever (fuel : Nat) :
    (((parserFor c6Source).parse 200).isOk = true ∧ syntaxErrors 200 c6Source = []) ∧
    Interpreter.evaluate fuel (stateAfter 200 (parsedProgram 200 c6Source))
      (Expr.Call (ident "f" 1) []) = Exec.outOfFuel :=
  ⟨⟨by decide!, by decide!⟩,
   call_loop_diverges _ (ident "f" 1) (tok TokenType.RETURN "return" 32) (LitValue.bool true)
     (LitValue.int 1) TokenType.VOID_TYPE 0 (by decide) (holds_eq _ _ (by decide!)) fuel⟩

open Interpreter in
/-- C7. Scoping of calls is lexical. Let the callee resolve, from the environment of the
caller, to a function declared in environment `E` whose body is `return x;`, and let the
arguments evaluate (in the caller's state) to as many values as there are parameters.
Then the call adds one fresh environment whose parent is `E` and whose map binds each
parameter name to its argument (the last one, when a name occurs twice) and nothing
else. When `x` is a parameter the call yields its argument; otherwise it yields what
`E`'s chain binds `x` to (null and an undefined-variable error when it binds nothing),
whatever the caller's environment binds `x` to. -/
theorem C7_lexical_scope (n : Nat) (s s1 : Interpreter) (callee kw x : Token)
    (arguments : List Expr) (args : List Value) (parameters : List (String × TokenType))
    (rt : TokenType) (E : Nat)
    (hf : Environment.get s.heap s.currentEnv callee.lexeme = Except.ok
      (Value.function parameters rt (Stmt.Block [Stmt.Return kw (Expr.Variable x)]) E))
    (hargs : evaluateArguments (n + 4) s arguments [] = Exec.done args s1)
    (hlen : args.length = parameters.length)
    (hE : E < s1.heap.length) (hclosed : heapClosed s1.heap = true) :
    ∃ fresh : Environment,
      fresh.parent = some E ∧
      (∀ name, fresh.values.lookup name =
        ((parameters.map Prod.fst).zip args).reverse.lookup name) ∧
      evaluate (n + 5) s (Expr.Call callee arguments) =
        match ((parameters.map Prod.fst).zip args).reverse.lookup x.lexeme with
        | some a =>
          Exec.done a
            { s1 with heap := s1.heap ++ [fresh], returnValue := a, hasReturn := true }
        | none =>
          match Environment.get s1.heap E x.lexeme with
          | Except.ok v =>
            Exec.done v
              { s1 with heap := s1.heap ++ [fresh], returnValue := v, hasReturn := true }
          | Except.error e =>
            Exec.done Value.null
              { s1 with
                heap := s1.heap ++ [fresh],
                errors := s1.errors ++
                  [{ type := ErrorType.RUNTIME, message := e, line := x.line,
                     column := x.column, stage := "Interpreter" }],
                returnValue := Value.null, hasReturn := true } := by
  have hlook : ∀ name, (bindParameters parameters args []).lookup name =
      ((parameters.map Prod.fst).zip args).reverse.lookup name := by
    intro name
    rw [lookup_bindParameters]
    cases ((parameters.map Prod.fst).zip args).reverse.lookup name <;> rfl
  refine ⟨{ values := bindParameters parameters args [], parent := some E }, rfl, hlook, ?_⟩
  simp only [evaluate, hf, hargs, Exec.bind, hlen, ne_eq, not_true_eq_false, if_false,
    executeBlock, executeStatements, execute, Expr.isNull, newEnvironment, Bool.false_eq_true]
  cases hx : ((parameters.map Prod.fst).zip args).reverse.lookup x.lexeme with
  | some a =>
    rw [get_bound s1.heap _ (some E) x.lexeme a ((hlook x.lexeme).trans hx)]
    simp [Exec.bind]
  | none =>
    rw [get_fresh s1.heap _ E x.lexeme hclosed hE ((hlook x.lexeme).trans hx)]
    cases Environment.get s1.heap E x.lexeme with
    | ok v => simp [Exec.bind]
    | error e => simp [Exec.bind, runtimeError]

/-- C7, witness. After `c7Source` the name `h` holds the function `inner`, declared in
the environment of the call `mk()` (index 1), which has returned; that environment binds
`x` to 5 and the global one, from which the calls are made, binds `x` to 7. The call
`h(9)` binds `p` to 9 in a fresh environment below environment 1 and yields 5; the call
`same(9)` binds `x` to 9 in a fresh environment below the global one and yields 9. -/
theorem C7_lexical_scope_witness :
    Environment.get c7State.heap c7State.currentEnv "x" = Except.ok (Value.int 7) ∧
    Environment.get c7State.heap 1 "x" = Except.ok (Value.int 5) ∧
    (∃ fresh : Environment, fresh.parent = some 1 ∧
      fresh.values.lookup "p" = some (Value.int 9) ∧ fresh.values.lookup "x" = none ∧
      Interpreter.evaluate 5 c7State (Expr.Call (ident "h" 1) [intLit 9]) =
        Exec.done (Value.int 5)
          { c7State with
            heap := c7State.heap ++ [fresh],
            returnValue := Value.int 5, hasReturn := true }) ∧
    (∃ fresh : Environment, fresh.parent = some 0 ∧
      fresh.values.lookup "x" = some (Value.int 9) ∧
      Interpreter.evaluate 5 c7State (Expr.Call (ident "same" 1) [intLit 9]) =
        Exec.done (Value.int 9)
          { c7State with
            heap := c7State.heap ++ [fresh],
            returnValue := Value.int 9, hasReturn := true }) := by
  have hx : Environment.get c7State.heap 1 "x" = Except.ok (Value.int 5) :=
    holds_eq _ _ (by decide!)
  refine ⟨holds_eq _ _ (by decide!), hx, ?_, ?_⟩
  · obtain ⟨fresh, h1, h2, h3⟩ := C7_lexical_scope 0 c7State c7State (ident "h" 1)
      (tok TokenType.RETURN "return" 63) (ident "x" 70) [intLit 9] [Value.int 9]
      [("p", TokenType.INT_TYPE)] TokenType.INT_TYPE 1 (holds_eq _ _ (by decide!)) rfl rfl
      (by decide!) (by decide!)
    refine ⟨fresh, h1, (h2 "p").trans rfl, (h2 "x").trans rfl, ?_⟩
    rw [h3]
    rw [show (ident "x" 70).lexeme = "x" from rfl, hx]
    rfl
  · obtain ⟨fresh, h1, h2, h3⟩ := C7_lexical_scope 0 c7State c7State (ident "same" 1)
      (tok TokenType.RETURN "return" 145) (ident "x" 152) [intLit 9] [Value.int 9]
      [("x", TokenType.INT_TYPE)] TokenType.INT_TYPE 0 (holds_eq _ _ (by decide!)) rfl rfl
      (by decide!) (by decide!)
    refine ⟨fresh, h1, (h2 "x").trans rfl, ?_⟩
    rw [h3]
    rfl

set_option maxHeartbeats 4000000 in
/-- C8. A function can call itself by name and terminate: in the state after the
declaration of `fact`, for every Integer `n ≤ 12` the call `fact(n)` returns (with
enough fuel), records no runtime error and yields Integer 1 when `n ≤ 1` and Integer
`n!` otherwise. -/
theorem C8_fact_recursion (n : Int) (hmin : INT_MIN ≤ n) (hmax : n ≤ 12) :
    ∃ (fuel : Nat) (s1 : Interpreter),
      Interpreter.evaluate fuel c8State (factCall n) =
        Exec.done (Value.int (if n ≤ 1 then 1 else (n.toNat.factorial : Int))) s1 ∧
      s1.errors = [] := by
  by_cases h : n ≤ 1
  · refine ⟨12, { c8State with
        heap := c8State.heap ++ [{ values := [("n", Value.int n)], parent := some 0 }],
        returnValue := Value.int 1, hasReturn := true }, ?_, ?_⟩
    · rw [if_pos h]; exact fact_base c8State 0 n h c8_get
    · show c8State.errors = []
      decide!
  · rw [if_neg h]
    have hn : n = 2 ∨ n = 3 ∨ n = 4 ∨ n = 5 ∨ n = 6 ∨ n = 7 ∨ n = 8 ∨ n = 9 ∨ n = 10 ∨
        n = 11 ∨ n = 12 := by omega
    rcases hn with rfl | rfl | rfl | rfl | rfl | rfl | rfl | rfl | rfl | rfl | rfl
    · exact fact_recursive 2 (by decide!) (by decide!) (by decide!)
    · exact fact_recursive 3 (by decide!) (by decide!) (by decide!)
    · exact fact_recursive 4 (by decide!) (by decide!) (by decide!)
    · exact fact_recursive 5 (by decide!) (by decide!) (by decide!)
    · exact fact_recursive 6 (by decide!) (by decide!) (by decide!)
    · exact fact_recursive 7 (by decide!) (by decide!) (by decide!)
    · exact fact_recursive 8 (by decide!) (by decide!) (by decide!)
    · exact fact_recursive 9 (by decide!) (by decide!) (by decide!)
    · exact fact_recursive 10 (by decide!) (by decide!) (by decide!)
    · exact fact_recursive 11 (by decide!) (by decide!) (by decide!)
    · exact fact_recursive 12 (by decide!) (by decide!) (by decide!)

/-- C8, witness: `fact(5)` returns 120 without a runtime error. -/
theorem C8_fact_recursion_witness :
    (INT_MIN ≤ (5 : Int) ∧ (5 : Int) ≤ 12) ∧
    ∃ (fuel : Nat) (s1 : Interpreter),
      Interpreter.evaluate fuel c8State (factCall 5) = Exec.done (Value.int 120) s1 ∧
      s1.errors = [] :=
  ⟨⟨by decide, by decide⟩, C8_fact_recursion 5 (by decide) (by decide)⟩

open Interpreter in
/-- C9, amended. When the operands of `+` evaluate to the Integers `a` and `b` and the
sum `a + b` lies in the range of a 32-bit `int`, `Binary(left, +, right)` yields the
Integer `a + b`, in the state the operands left: no runtime error is recorded. -/
theorem C9_int_addition (n : Nat) (s s1 s2 : Interpreter) (left right : Expr) (op : Token)
    (a b : Int) (hop : op.type = TokenType.PLUS)
    (hl : evaluate n s left = Exec.done (Value.int a) s1)
    (hr : evaluate n s1 right = Exec.done (Value.int b) s2)
    (hmin : INT_MIN ≤ a + b) (hmax : a + b ≤ INT_MAX) :
    evaluate (n + 1) s (Expr.Binary left op right) = Exec.done (Value.int (a + b)) s2 := by
  have hw : wrap32 (a + b) = a + b := by
    unfold wrap32
    unfold INT_MIN at hmin
    unfold INT_MAX at hmax
    omega
  simp [evaluate, hl, hr, Exec.bind, finishBinary, applyBinary, moduloTraps, hop, add, hw]

/-- C9, witness: `10 + 20` is the Integer 30 and the state is unchanged. -/
theorem C9_int_addition_witness :
    (INT_MIN ≤ (10 : Int) + 20 ∧ (10 : Int) + 20 ≤ INT_MAX) ∧
    Interpreter.evaluate 2 Interpreter.new
      (Expr.Binary (intLit 10) (tok TokenType.PLUS "+" 4) (intLit 20)) =
      Exec.done (Value.int 30) Interpreter.new :=
  ⟨⟨by decide, by decide⟩,
   C9_int_addition 1 Interpreter.new Interpreter.new Interpreter.new (intLit 10) (intLit 20)
     (tok TokenType.PLUS "+" 4) 10 20 rfl rfl rfl (by decide) (by decide)⟩

/-- C9, counterexample. Both 2147483647 and 1 are integer literals, and
`2147483647 + 1` evaluates to the Integer -2147483648, which is not their sum. -/
theorem C9_counterexample :
    Interpreter.evaluate 2 Interpreter.new
      (Expr.Binary (intLit 2147483647) (tok TokenType.PLUS "+" 12) (intLit 1)) =
      Exec.done (Value.int (-2147483648)) Interpreter.new ∧
    Value.int (-2147483648) ≠ Value.int (2147483647 + 1) := by
  refine ⟨?_, ?_⟩
  · simp [Interpreter.evaluate, intLit, Exec.bind, Interpreter.finishBinary,
      Interpreter.applyBinary, Interpreter.moduloTraps, tok, Interpreter.add, wrap32,
      Value.ofLit]
  · intro h
    injection h with h
    omega

open Interpreter in
/-- C10. When the operands of `/` evaluate to numeric values, which widen to the floats
`lf` and `rf`, then `Binary(left, /, right)` yields null and appends the one runtime
error `Division by zero` when `rf` is zero, and otherwise yields the Float `lf / rf`
(also for two Integers) in the state the operands left; either way the visitor returns
normally. -/
theorem C10_division (n : Nat) (s s1 s2 : Interpreter) (left right : Expr) (op : Token)
    (l r : Value) (hop : op.type = TokenType.DIVIDE)
    (hl : evaluate n s left = Exec.done l s1) (hr : evaluate n s1 right = Exec.done r s2)
    (hnl : isNumeric l = true) (hnr : isNumeric r = true) :
    ∃ (lf rf : ℚ), toFloat l = Except.ok lf ∧ toFloat r = Except.ok rf ∧
      evaluate (n + 1) s (Expr.Binary left op right) =
        if rf = 0 then
          Exec.done Value.null
            { s2 with errors := s2.errors ++
                [{ type := ErrorType.RUNTIME, message := "Division by zero", line := op.line,
                   column := op.column, stage := "Interpreter" }] }
        else Exec.done (Value.float (lf / rf)) s2 := by
  cases l <;> simp [isNumeric, Value.isInt, Value.isFloat] at hnl <;>
    cases r <;> simp [isNumeric, Value.isInt, Value.isFloat] at hnr <;>
    refine ⟨_, _, rfl, rfl, ?_⟩ <;>
    simp only [evaluate, hl, hr, Exec.bind, finishBinary, applyBinary, moduloTraps, hop, divide,
      isNumeric, reduceCtorEq, if_false, Bool.false_eq_true,
      Value.isInt, Value.isFloat, toFloat, Bool.or_true, Bool.true_or, Bool.and_self,
      if_true, runtimeError] <;>
    split_ifs <;> simp_all

/-- C10, witness: `15 / 5` is the Float 3 with no error, and `1 / 0` is null with the
one error `Division by zero`. -/
theorem C10_division_witness :
    (∃ (lf rf : ℚ), Interpreter.toFloat (Value.int 15) = Except.ok lf ∧
      Interpreter.toFloat (Value.int 5) = Except.ok rf ∧
      Interpreter.evaluate 2 Interpreter.new
        (Expr.Binary (intLit 15) (tok TokenType.DIVIDE "/" 4) (intLit 5)) =
        if rf = 0 then
          Exec.done Value.null
            { Interpreter.new with errors := Interpreter.new.errors ++
                [{ type := ErrorType.RUNTIME, message := "Division by zero", line := 1,
                   column := 4, stage := "Interpreter" }] }
        else Exec.done (Value.float (lf / rf)) Interpreter.new) ∧
    (Interpreter.evaluate 2 Interpreter.new
        (Expr.Binary (intLit 15) (tok TokenType.DIVIDE "/" 4) (intLit 5))).valueD Value.null =
      Value.float 3 ∧
    (Interpreter.evaluate 2 Interpreter.new
        (Expr.Binary (intLit 1) (tok TokenType.DIVIDE "/" 3) (intLit 0))).valueD (Value.int 0) =
      Value.null ∧
    messages ((Interpreter.evaluate 2 Interpreter.new
        (Expr.Binary (intLit 1) (tok TokenType.DIVIDE "/" 3) (intLit 0))).stateD
        Interpreter.new).errors = ["Division by zero"] :=
  ⟨C10_division 1 Interpreter.new Interpreter.new Interpreter.new (intLit 15) (intLit 5)
     (tok TokenType.DIVIDE "/" 4) (Value.int 15) (Value.int 5) rfl rfl rfl rfl rfl,
   value_eq_of_beq _ _ (by decide!), value_eq_of_beq _ _ (by decide!), by decide!⟩

open Interpreter in
/-- C11 (defect of the code). When the operands of `%` evaluate to `l` and `r`: for
Integers `a` and `b` with `a` in the range of a 32-bit `int`, `b` not zero and the pair
not `(-2147483648, -1)`, `Binary(left, %, right)` yields the Integer remainder
`Int.tmod a b`, which satisfies `a = q * b + m` for the quotient `q` truncated toward
zero, and records no error; for the pair `(-2147483648, -1)` the evaluation does not
return: the process ends in the divide error; for an Integer divisor 0 it yields null
and appends the one runtime error `Modulo by zero`; when either operand is not an
Integer (a Float included) it yields null and appends the one runtime error
`Invalid operands for modulo`. -/
theorem C11_modulo (n : Nat) (s s1 s2 : Interpreter) (left right : Expr) (op : Token)
    (l r : Value) (hop : op.type = TokenType.MODULO)
    (hl : evaluate n s left = Exec.done l s1) (hr : evaluate n s1 right = Exec.done r s2) :
    (∀ a b : Int, l = Value.int a → r = Value.int b → INT_MIN ≤ a → a ≤ INT_MAX →
      b ≠ 0 → ¬ (a = INT_MIN ∧ b = -1) →
      evaluate (n + 1) s (Expr.Binary left op right) = Exec.done (Value.int (Int.tmod a b)) s2 ∧
      a = Int.tdiv a b * b + Int.tmod a b) ∧
    (l = Value.int (-2147483648) → r = Value.int (-1) →
      evaluate (n + 1) s (Expr.Binary left op right) = Exec.fault) ∧
    (∀ a : Int, l = Value.int a → r = Value.int 0 →
      evaluate (n + 1) s (Expr.Binary left op right) =
        Exec.done Value.null
          { s2 with errors := s2.errors ++
              [{ type := ErrorType.RUNTIME, message := "Modulo by zero", line := op.line,
                 column := op.column, stage := "Interpreter" }] }) ∧
    (l.isInt = false ∨ r.isInt = false →
      evaluate (n + 1) s (Expr.Binary left op right) =
        Exec.done Value.null
          { s2 with errors := s2.errors ++
              [{ type := ErrorType.RUNTIME, message := "Invalid operands for modulo",
                 line := op.line, column := op.column, stage := "Interpreter" }] }) := by
  refine ⟨?_, ?_, ?_, ?_⟩
  · intro a b hla hrb h1 h2 hb hne
    subst hla
    subst hrb
    have hw := wrap32_tmod a b h1 h2
    have ht : (decide (a = INT_MIN) && decide (b = -1)) = false := by
      simpa using hne
    refine ⟨?_, (Int.tdiv_add_tmod' a b).symm⟩
    simp [evaluate, hl, hr, Exec.bind, finishBinary, applyBinary, moduloTraps, hop, modulo,
      hw, hb, ht]
  · intro hla hrb
    subst hla
    subst hrb
    simp [evaluate, hl, hr, Exec.bind, moduloTraps, hop, INT_MIN]
  · intro a hla hr0
    subst hla
    subst hr0
    have ht : (decide (a = INT_MIN) && decide ((0 : Int) = -1)) = false := by simp
    simp [evaluate, hl, hr, Exec.bind, finishBinary, applyBinary, moduloTraps, hop, modulo, ht,
      runtimeError]
  · intro h
    rcases h with h | h
    · cases l <;> simp [Value.isInt] at h <;>
        simp [evaluate, hl, hr, Exec.bind, finishBinary, applyBinary, moduloTraps, hop, modulo,
          runtimeError]
    · cases r <;> simp [Value.isInt] at h <;> cases l <;>
        simp [evaluate, hl, hr, Exec.bind, finishBinary, applyBinary, moduloTraps, hop, modulo,
          runtimeError]

/-- C11, witness: `15 % 4` is 3, `-7 % 2` is -1, `7 % 0` and `7.5 % 2` are null with one
runtime error each, and `-2147483648 % -1` ends in the divide error. The source
`let a = -2147483647 - 1; let b = a % -1;` parses without a syntax error, its first
statement binds `a` to the Integer -2147483648, and its run ends in the divide error. -/
theorem C11_modulo_witness :
    (Interpreter.evaluate 2 Interpreter.new
        (Expr.Binary (intLit 15) (tok TokenType.MODULO "%" 4) (intLit 4)) =
        Exec.done (Value.int 3) Interpreter.new ∧
      (15 : Int) = Int.tdiv 15 4 * 4 + 3) ∧
    (Interpreter.evaluate 2 Interpreter.new
        (Expr.Binary (intLit (-7)) (tok TokenType.MODULO "%" 4) (intLit 2)) =
        Exec.done (Value.int (-1)) Interpreter.new ∧
      (-7 : Int) = Int.tdiv (-7) 2 * 2 + -1) ∧
    Interpreter.evaluate 2 Interpreter.new
        (Expr.Binary (intLit (-2147483648)) (tok TokenType.MODULO "%" 3) (intLit (-1))) =
      Exec.fault ∧
    Interpreter.evaluate 2 Interpreter.new
        (Expr.Binary (intLit 7) (tok TokenType.MODULO "%" 3) (intLit 0)) =
      Exec.done Value.null
        { Interpreter.new with errors :=
            [{ type := ErrorType.RUNTIME, message := "Modulo by zero", line := 1, column := 3,
               stage := "Interpreter" }] } ∧
    Interpreter.evaluate 2 Interpreter.new
        (Expr.Binary (Expr.Literal (LitValue.float (15 / 2))) (tok TokenType.MODULO "%" 5)
          (intLit 2)) =
      Exec.done Value.null
        { Interpreter.new with errors :=
            [{ type := ErrorType.RUNTIME, message := "Invalid operands for modulo", line := 1,
               column := 5, stage := "Interpreter" }] } ∧
    (messages (syntaxErrors 100 c11Source) = [] ∧
      (parsedProgram 100 c11Source).length = 2 ∧
      holds (Environment.get (stateAfter 20 ((parsedProgram 100 c11Source).take 1)).heap 0 "a")
        (Value.int (-2147483648)) = true ∧
      (Interpreter.interpret 20 Interpreter.new (parsedProgram 100 c11Source)).isFault =
        true) :=
  ⟨(C11_modulo 1 Interpreter.new Interpreter.new Interpreter.new (intLit 15) (intLit 4)
      (tok TokenType.MODULO "%" 4) (Value.int 15) (Value.int 4) rfl rfl rfl).1 15 4 rfl rfl
      (by decide) (by decide) (by decide) (by decide),
   (C11_modulo 1 Interpreter.new Interpreter.new Interpreter.new (intLit (-7)) (intLit 2)
      (tok TokenType.MODULO "%" 4) (Value.int (-7)) (Value.int 2) rfl rfl rfl).1 (-7) 2 rfl rfl
      (by decide) (by decide) (by decide) (by decide),
   (C11_modulo 1 Interpreter.new Interpreter.new Interpreter.new (intLit (-2147483648))
      (intLit (-1)) (tok TokenType.MODULO "%" 3) (Value.int (-2147483648)) (Value.int (-1))
      rfl rfl rfl).2.1 rfl rfl,
   (C11_modulo 1 Interpreter.new Interpreter.new Interpreter.new (intLit 7) (intLit 0)
      (tok TokenType.MODULO "%" 3) (Value.int 7) (Value.int 0) rfl rfl rfl).2.2.1 7 rfl rfl,
   (C11_modulo 1 Interpreter.new Interpreter.new Interpreter.new
      (Expr.Literal (LitValue.float (15 / 2))) (intLit 2)
      (tok TokenType.MODULO "%" 5) (Value.float (15 / 2)) (Value.int 2) rfl rfl rfl).2.2.2
      (Or.inl rfl),
   by decide!⟩

open Interpreter in
/-- C12. When the operands of `+` evaluate to `l` and `r` and at least one of them is a
String, `Binary(left, +, right)` yields the String `valueToString(l)` followed by
`valueToString(r)`, in the state the operands left: no runtime error is recorded. -/
theorem C12_string_concatenation (n : Nat) (s s1 s2 : Interpreter) (left right : Expr)
    (op : Token) (l r : Value) (hop : op.type = TokenType.PLUS)
    (hl : evaluate n s left = Exec.done l s1) (hr : evaluate n s1 right = Exec.done r s2)
    (hstr : l.isString = true ∨ r.isString = true) :
    evaluate (n + 1) s (Expr.Binary left op right) =
      Exec.done (Value.str (Environment.valueToString l ++ Environment.valueToString r)) s2 := by
  rcases hstr with h | h
  · cases l <;> simp [Value.isString] at h
    cases r <;>
      simp [evaluate, hl, hr, Exec.bind, finishBinary, applyBinary, moduloTraps, hop, add,
        isNumeric, Value.isInt, Value.isFloat, Value.isString, valueText]
  · cases r <;> simp [Value.isString] at h
    cases l <;>
      simp [evaluate, hl, hr, Exec.bind, finishBinary, applyBinary, moduloTraps, hop, add,
        isNumeric, Value.isInt, Value.isFloat, Value.isString, valueText]

/-- C12, witness: `"Hello, " + "World!"` is `"Hello, World!"` and `"a" + 1` is `"a1"`. -/
theorem C12_string_concatenation_witness :
    Interpreter.evaluate 2 Interpreter.new
      (Expr.Binary (strLit "Hello, ") (tok TokenType.PLUS "+" 11) (strLit "World!")) =
      Exec.done (Value.str "Hello, World!") Interpreter.new ∧
    Interpreter.evaluate 2 Interpreter.new
      (Expr.Binary (strLit "a") (tok TokenType.PLUS "+" 5) (intLit 1)) =
      Exec.done (Value.str "a1") Interpreter.new :=
  ⟨C12_string_concatenation 1 Interpreter.new Interpreter.new Interpreter.new
     (strLit "Hello, ") (strLit "World!") (tok TokenType.PLUS "+" 11) (Value.str "Hello, ")
     (Value.str "World!") rfl rfl rfl (Or.inl rfl),
   C12_string_concatenation 1 Interpreter.new Interpreter.new Interpreter.new
     (strLit "a") (intLit 1) (tok TokenType.PLUS "+" 5) (Value.str "a")
     (Value.int 1) rfl rfl rfl (Or.inl rfl)⟩

open Interpreter in
/-- C13, amended. When the operands of a comparison evaluate to values that hold
different alternatives and are not both numeric, `==` yields the Boolean false and `!=`
the Boolean true, in the state the operands left: no runtime error is recorded and the
result is not null. The ordering operators `<`, `>`, `<=` and `>=` yield null on such
operands and append the one runtime error `Invalid operands for comparison`. -/
theorem C13_mixed_equality (n : Nat) (s s1 s2 : Interpreter) (left right : Expr)
    (op : Token) (l r : Value)
    (hl : evaluate n s left = Exec.done l s1) (hr : evaluate n s1 right = Exec.done r s2)
    (hty : l.index ≠ r.index) (hnum : (isNumeric l && isNumeric r) = false) :
    (op.type = TokenType.EQUAL →
      evaluate (n + 1) s (Expr.Binary left op right) = Exec.done (Value.bool false) s2) ∧
    (op.type = TokenType.NOT_EQUAL →
      evaluate (n + 1) s (Expr.Binary left op right) = Exec.done (Value.bool true) s2) ∧
    (op.type = TokenType.LESS ∨ op.type = TokenType.GREATER ∨
        op.type = TokenType.LESS_EQUAL ∨ op.type = TokenType.GREATER_EQUAL →
      evaluate (n + 1) s (Expr.Binary left op right) =
        Exec.done Value.null
          { s2 with errors := s2.errors ++
              [{ type := ErrorType.RUNTIME, message := "Invalid operands for comparison",
                 line := op.line, column := op.column, stage := "Interpreter" }] }) := by
  have h : Environment.isEqual l r = false := by
    cases l <;> cases r <;>
      simp [Value.index, isNumeric, Value.isInt, Value.isFloat] at hty hnum <;>
      simp [Environment.isEqual]
  have hless : less l r = Except.error "Invalid operands for comparison" := by
    cases l <;> cases r <;>
      simp [Value.index, isNumeric, Value.isInt, Value.isFloat] at hty hnum <;>
      simp [less, isNumeric, Value.isInt, Value.isFloat]
  have hgreater : less r l = Except.error "Invalid operands for comparison" := by
    cases l <;> cases r <;>
      simp [Value.index, isNumeric, Value.isInt, Value.isFloat] at hty hnum <;>
      simp [less, isNumeric, Value.isInt, Value.isFloat]
  refine ⟨?_, ?_, ?_⟩
  · intro hop
    simp [evaluate, hl, hr, Exec.bind, finishBinary, applyBinary, moduloTraps, hop,
      Interpreter.equal, Interpreter.notEqual, h]
  · intro hop
    simp [evaluate, hl, hr, Exec.bind, finishBinary, applyBinary, moduloTraps, hop,
      Interpreter.equal, Interpreter.notEqual, h]
  · intro hop
    rcases hop with hop | hop | hop | hop <;>
      simp [evaluate, hl, hr, Exec.bind, finishBinary, applyBinary, moduloTraps, hop,
        boolResult, greater, lessEqual, greaterEqual, hless, hgreater, runtimeError]

/-- C13, witness: `1 == "1"` is false and `true != 1` is true, with no error, and
`1 < "1"` is null with the error `Invalid operands for comparison`. -/
theorem C13_mixed_equality_witness :
    (Interpreter.evaluate 2 Interpreter.new
        (Expr.Binary (intLit 1) (tok TokenType.EQUAL "==" 3) (strLit "1")) =
        Exec.done (Value.bool false) Interpreter.new) ∧
    (Interpreter.evaluate 2 Interpreter.new
        (Expr.Binary (boolLit true) (tok TokenType.NOT_EQUAL "!=" 6) (intLit 1)) =
        Exec.done (Value.bool true) Interpreter.new) ∧
    (Interpreter.evaluate 2 Interpreter.new
        (Expr.Binary (intLit 1) (tok TokenType.LESS "<" 3) (strLit "1")) =
        Exec.done Value.null
          { Interpreter.new with errors :=
              [{ type := ErrorType.RUNTIME, message := "Invalid operands for comparison",
                 line := 1, column := 3, stage := "Interpreter" }] }) :=
  ⟨(C13_mixed_equality 1 Interpreter.new Interpreter.new Interpreter.new (intLit 1)
      (strLit "1") (tok TokenType.EQUAL "==" 3) (Value.int 1) (Value.str "1") rfl rfl
      (by decide) rfl).1 rfl,
   (C13_mixed_equality 1 Interpreter.new Interpreter.new Interpreter.new (boolLit true)
      (intLit 1) (tok TokenType.NOT_EQUAL "!=" 6) (Value.bool true) (Value.int 1) rfl rfl
      (by decide) rfl).2.1 rfl,
   (C13_mixed_equality 1 Interpreter.new Interpreter.new Interpreter.new (intLit 1)
      (strLit "1") (tok TokenType.LESS "<" 3) (Value.int 1) (Value.str "1") rfl rfl
      (by decide) rfl).2.2 (Or.inl rfl)⟩

/-- C13, counterexample. `1 == "1"` and `true == 1` return normally with the Boolean
false and record no runtime error. -/
theorem C13_counterexample :
    (Interpreter.evaluate 2 Interpreter.new
        (Expr.Binary (intLit 1) (tok TokenType.EQUAL "==" 3) (strLit "1"))).isDone = true ∧
    ((Interpreter.evaluate 2 Interpreter.new
        (Expr.Binary (intLit 1) (tok TokenType.EQUAL "==" 3) (strLit "1"))).valueD
        Value.null).beq (Value.bool false) = true ∧
    ((Interpreter.evaluate 2 Interpreter.new
        (Expr.Binary (intLit 1) (tok TokenType.EQUAL "==" 3) (strLit "1"))).stateD
        Interpreter.new).errors.length = 0 ∧
    ((Interpreter.evaluate 2 Interpreter.new
        (Expr.Binary (boolLit true) (tok TokenType.EQUAL "==" 6) (intLit 1))).valueD
        Value.null).beq (Value.bool false) = true ∧
    ((Interpreter.evaluate 2 Interpreter.new
        (Expr.Binary (boolLit true) (tok TokenType.EQUAL "==" 6) (intLit 1))).stateD
        Interpreter.new).errors.length = 0 := by
  decide!

open Interpreter Environment in
/-- C14. `Environment::assign(name, v)` never creates a binding. If `k` is the nearest
environment on the chain from `env` that binds `name`, the assignment succeeds, no
environment is added, the binding of `name` in `k` becomes `v`, and every other binding
and every parent link in the heap is unchanged. If no environment on the chain binds
`name`, then `exists(name)` is false, `assign` fails with `Undefined variable 'name'`
and returns no changed heap, and `visitAssignmentExpr` yields the assigned value in the
state the right-hand side left, with exactly one runtime error appended. -/
theorem C14_assign_frame (heap : List Environment) (env : Nat) (name : String) (v : Value) :
    (∀ k, resolve heap env name = some k →
      ∃ heap1 w, assign heap env name v = Except.ok heap1 ∧
        existsName heap env name = true ∧ Environment.get heap env name = Except.ok w ∧
        binding heap k name = some w ∧ heap1.length = heap.length ∧
        (∀ i x, binding heap1 i x = if i = k ∧ x = name then some v else binding heap i x) ∧
        (∀ i, parentOf heap1 i = parentOf heap i)) ∧
    (resolve heap env name = none →
      existsName heap env name = false ∧
      assign heap env name v = Except.error ("Undefined variable '" ++ name ++ "'") ∧
      ∀ (n : Nat) (s s1 : Interpreter) (target : Token) (value : Expr),
        evaluate n s value = Exec.done v s1 → s1.heap = heap → s1.currentEnv = env →
        target.lexeme = name →
        evaluate (n + 1) s (Expr.Assignment target value) =
          Exec.done v { s1 with errors := s1.errors ++
            [{ type := ErrorType.RUNTIME, message := "Undefined variable '" ++ name ++ "'",
               line := target.line, column := target.column, stage := "Interpreter" }] }) := by
  constructor
  · intro k hk
    obtain ⟨h1, h2, w, h3, h4⟩ := assignAux_resolved heap name v k heap.length env hk
    obtain ⟨h5, h6, h7⟩ := define_bound heap k name v w h4
    exact ⟨_, w, h1, h2, h3, h4, h5, h6, h7⟩
  · intro hk
    obtain ⟨h1, h2⟩ := assignAux_unresolved heap name v heap.length env hk
    refine ⟨h2, h1, ?_⟩
    intro n s s1 target value hv hh he ht
    have h1b : Environment.assign s1.heap s1.currentEnv target.lexeme v =
        Except.error ("Undefined variable '" ++ name ++ "'") := by
      rw [hh, he, ht]; exact h1
    simp only [evaluate, hv, Exec.bind, h1b, runtimeError]

/-- C14, witness: in the child of `c14Heap`, assigning 9 to `x` updates the global
binding only, and assigning to the unbound `z` fails with one runtime error. -/
theorem C14_assign_frame_witness :
    (∃ heap1 w, Environment.assign c14Heap 1 "x" (Value.int 9) = Except.ok heap1 ∧
        Environment.existsName c14Heap 1 "x" = true ∧
        Environment.get c14Heap 1 "x" = Except.ok w ∧
        Environment.binding c14Heap 0 "x" = some w ∧ heap1.length = c14Heap.length ∧
        (∀ i x, Environment.binding heap1 i x =
          if i = 0 ∧ x = "x" then some (Value.int 9) else Environment.binding c14Heap i x) ∧
        (∀ i, Environment.parentOf heap1 i = Environment.parentOf c14Heap i)) ∧
    (Environment.existsName c14Heap 1 "z" = false ∧
      Environment.assign c14Heap 1 "z" (Value.int 9) =
        Except.error ("Undefined variable '" ++ "z" ++ "'") ∧
      Interpreter.evaluate 2 c14State (Expr.Assignment (ident "z" 1) (intLit 9)) =
        Exec.done (Value.int 9) { c14State with errors := c14State.errors ++
          [{ type := ErrorType.RUNTIME, message := "Undefined variable '" ++ "z" ++ "'",
             line := 1, column := 1, stage := "Interpreter" }] }) :=
  ⟨(C14_assign_frame c14Heap 1 "x" (Value.int 9)).1 0 (by decide),
   ((C14_assign_frame c14Heap 1 "z" (Value.int 9)).2 (by decide)).1,
   ((C14_assign_frame c14Heap 1 "z" (Value.int 9)).2 (by decide)).2.1,
   ((C14_assign_frame c14Heap 1 "z" (Value.int 9)).2 (by decide)).2.2 1 c14State c14State
     (ident "z" 1) (intLit 9) rfl rfl rfl rfl⟩

open Interpreter in
/-- C15. When the callee name is bound to `calleeValue` and the arguments evaluate to
`args`, leaving the state `s1`: for a Function value whose parameter count differs from
the argument count, the call yields null in `s1` with exactly one runtime error
appended, so no environment is created and no statement of the body runs; for a value
that is not a Function, the call yields null in `s1` with the one runtime error
`Can only call functions` appended. -/
theorem C15_call_checks (n : Nat) (s s1 : Interpreter) (callee : Token)
    (arguments : List Expr) (args : List Value) (calleeValue : Value)
    (hget : Environment.get s.heap s.currentEnv callee.lexeme = Except.ok calleeValue)
    (hargs : evaluateArguments n s arguments [] = Exec.done args s1) :
    (∀ parameters returnType body closure,
      calleeValue = Value.function parameters returnType body closure →
      args.length ≠ parameters.length →
      evaluate (n + 1) s (Expr.Call callee arguments) =
        Exec.done Value.null
          { s1 with errors := s1.errors ++
            [{ type := ErrorType.RUNTIME,
               message := "Expected " ++ Nat.repr parameters.length ++
                 " arguments but got " ++ Nat.repr args.length,
               line := callee.line, column := callee.column, stage := "Interpreter" }] }) ∧
    (calleeValue.isFunction = false →
      evaluate (n + 1) s (Expr.Call callee arguments) =
        Exec.done Value.null
          { s1 with errors := s1.errors ++
            [{ type := ErrorType.RUNTIME, message := "Can only call functions",
               line := callee.line, column := callee.column, stage := "Interpreter" }] }) := by
  constructor
  · intro parameters returnType body closure hf hne
    subst hf
    simp only [evaluate, hget, hargs, Exec.bind, hne, runtimeError, ne_eq, not_false_eq_true,
      if_true]
  · intro hf
    cases calleeValue <;> simp [Value.isFunction] at hf <;>
      simp only [evaluate, hget, hargs, Exec.bind, runtimeError]

/-- C15, witness: `f()` for a one-parameter `f` records `Expected 1 arguments but got 0`,
and `v(1)` for the Integer `v` records `Can only call functions`; both yield null. -/
theorem C15_call_checks_witness :
    Interpreter.evaluate 2 c15State (Expr.Call (ident "f" 1) []) =
      Exec.done Value.null
        { c15State with errors := c15State.errors ++
          [{ type := ErrorType.RUNTIME,
             message := "Expected " ++ Nat.repr 1 ++ " arguments but got " ++ Nat.repr 0,
             line := 1, column := 1, stage := "Interpreter" }] } ∧
    Interpreter.evaluate 3 c15State (Expr.Call (ident "v" 1) [intLit 1]) =
      Exec.done Value.null
        { c15State with errors := c15State.errors ++
          [{ type := ErrorType.RUNTIME, message := "Can only call functions",
             line := 1, column := 1, stage := "Interpreter" }] } :=
  ⟨(C15_call_checks 1 c15State c15State (ident "f" 1) [] []
      c15Function (holds_eq _ _ (by decide!)) rfl).1 [("n", TokenType.INT_TYPE)]
      TokenType.INT_TYPE (Stmt.Block [Stmt.Return (tok TokenType.RETURN "return" 1) (intLit 1)]) 0 rfl
      (by decide),
   (C15_call_checks 2 c15State c15State (ident "v" 1) [intLit 1] [Value.int 1]
      (Value.int 7) (holds_eq _ _ (by decide!)) rfl).2 rfl⟩

open Interpreter in
/-- C16, amended. `interpret` is done with the state `s1` exactly when every top-level
statement has been executed once, in program order, each from the state its predecessor
left, whatever diagnostics that state holds; the diagnostics recorded before are still
the first ones afterwards. A failing variable read, binary or unary operator, or call of
an undefined name returns normally with null and its diagnostic appended; an assignment
to an undefined name returns normally with the assigned value and its diagnostic
appended. -/
theorem C16_interpret_runs_every_statement (fuel : Nat) (s s1 : Interpreter)
    (program : Program) :
    (interpret fuel s program = Exec.done () s1 ↔ runsInOrder fuel s program s1) ∧
    (interpret fuel s program = Exec.done () s1 → s.errors <+: s1.errors) ∧
    (∀ (n : Nat) (name : Token) (e : String),
      Environment.get s.heap s.currentEnv name.lexeme = Except.error e →
      evaluate (n + 1) s (Expr.Variable name) =
        Exec.done Value.null (s.runtimeError name e)) ∧
    (∀ (n : Nat) (left right : Expr) (op : Token) (l r : Value) (s2 s3 : Interpreter)
      (e : String), evaluate n s left = Exec.done l s2 →
      evaluate n s2 right = Exec.done r s3 → moduloTraps op.type l r = false →
      applyBinary op.type l r = some (Except.error e) →
      evaluate (n + 1) s (Expr.Binary left op right) =
        Exec.done Value.null (s3.runtimeError op e)) ∧
    (∀ (n : Nat) (right : Expr) (op : Token) (r : Value) (s2 : Interpreter) (e : String),
      evaluate n s right = Exec.done r s2 → applyUnary op.type r = some (Except.error e) →
      evaluate (n + 1) s (Expr.Unary op right) =
        Exec.done Value.null (s2.runtimeError op e)) ∧
    (∀ (n : Nat) (callee : Token) (arguments : List Expr) (e : String),
      Environment.get s.heap s.currentEnv callee.lexeme = Except.error e →
      evaluate (n + 1) s (Expr.Call callee arguments) =
        Exec.done Value.null (s.runtimeError callee e)) ∧
    (∀ (n : Nat) (name : Token) (value : Expr) (v : Value) (s2 : Interpreter) (e : String),
      evaluate n s value = Exec.done v s2 →
      Environment.assign s2.heap s2.currentEnv name.lexeme v = Except.error e →
      evaluate (n + 1) s (Expr.Assignment name value) =
        Exec.done v (s2.runtimeError name e)) := by
  refine ⟨interpretLoop_runsInOrder fuel program s s1, ?_, ?_, ?_, ?_, ?_, ?_⟩
  · intro h
    have := interpretLoop_keeps fuel program s s.errors (List.prefix_refl _)
    unfold interpret at h
    rw [h] at this
    exact this
  · intro n name e h
    simp only [evaluate, h]
  · intro n left right op l r s2 s3 e hl hr ht ha
    simp only [evaluate, hl, hr, Exec.bind, ht, finishBinary, ha, Bool.false_eq_true, if_false]
  · intro n right op r s2 e hr ha
    simp only [evaluate, hr, Exec.bind, finishUnary, ha]
  · intro n callee arguments e h
    simp only [evaluate, h]
  · intro n name value v s2 e hv ha
    simp only [evaluate, hv, Exec.bind, ha]

/-- C16, witness: for `let a = 1 / 0; let b = 2;` both statements are executed in order,
`a` is bound to null, `b` to 2, and the one diagnostic is `Division by zero`. -/
theorem C16_interpret_runs_every_statement_witness :
    Interpreter.runsInOrder 10 Interpreter.new (parsedProgram 100 c16Source)
      (stateAfter 10 (parsedProgram 100 c16Source)) ∧
    messages (syntaxErrors 100 c16Source) = [] ∧
    holds (Environment.get (stateAfter 10 (parsedProgram 100 c16Source)).heap 0 "a")
      Value.null = true ∧
    holds (Environment.get (stateAfter 10 (parsedProgram 100 c16Source)).heap 0 "b")
      (Value.int 2) = true ∧
    messages (stateAfter 10 (parsedProgram 100 c16Source)).errors = ["Division by zero"] :=
  ⟨(C16_interpret_runs_every_statement 10 Interpreter.new _ _).1.mp
      (interpret_stateAfter 10 _ (by decide!)),
   by decide!, by decide!, by decide!, by decide!⟩

/-- C16, counterexample. For `let a = x = 5; let b = 2;` the run terminates with the one
diagnostic `Undefined variable 'x'`, and the failing expression `x = 5` has yielded the
Integer 5, not null: `a` is bound to 5. -/
theorem C16_counterexample :
    messages (syntaxErrors 100 c16AssignSource) = [] ∧
    (Interpreter.interpret 10 Interpreter.new (parsedProgram 100 c16AssignSource)).isDone =
      true ∧
    messages (stateAfter 10 (parsedProgram 100 c16AssignSource)).errors =
      ["Undefined variable 'x'"] ∧
    holds (Environment.get (stateAfter 10 (parsedProgram 100 c16AssignSource)).heap 0 "a")
      (Value.int 5) = true ∧
    holds (Environment.get (stateAfter 10 (parsedProgram 100 c16AssignSource)).heap 0 "a")
      Value.null = false := by
  decide!

/-- C17 (defect of the code). The parser has no level for `||` and `&&`. For the source
`a || b && c;` it parses `a`, reports `Expected ';' after expression` at `||`, and is then
at a token that `parseStatement` neither consumes nor skips, so `parse` never returns,
whatever the fuel. For `print(a && b);` it reports `Expected ')' after arguments` and
`Expected expression`, is then at `&&`, and never returns either. -/
theorem C17_logical_operators_not_parsed (fuel : Nat) :
    (parseSource fuel c17Source = some PResult.outOfFuel ∧
      messages ((Parser.parseStatement 100 (parserFor c17Source)).parserD
        (parserFor c17Source)).errors = ["Expected ';' after expression"] ∧
      ((Parser.parseStatement 100 (parserFor c17Source)).parserD
        (parserFor c17Source)).current.type = TokenType.OR) ∧
    (parseSource fuel c17PrintSource = some PResult.outOfFuel ∧
      messages ((Parser.parseStatement 100 (parserFor c17PrintSource)).parserD
        (parserFor c17PrintSource)).errors =
        ["Expected ')' after arguments", "Expected expression"] ∧
      ((Parser.parseStatement 100 (parserFor c17PrintSource)).parserD
        (parserFor c17PrintSource)).current.type = TokenType.AND) := by
  refine ⟨⟨?_, by decide!, by decide!⟩, ⟨?_, by decide!, by decide!⟩⟩
  · rw [parseSource_eq fuel c17Source (by decide!)]
    refine congrArg some ?_
    refine Parser.parseProgramLoop_diverges_after _ 100 (by decide!) (by decide!) ?_ fuel []
    intro n ss
    exact Parser.parseProgramLoop_stuck n _ ss (by decide!)
  · rw [parseSource_eq fuel c17PrintSource (by decide!)]
    refine congrArg some ?_
    refine Parser.parseProgramLoop_diverges_after _ 100 (by decide!) (by decide!) ?_ fuel []
    intro n ss
    exact Parser.parseProgramLoop_stuck n _ ss (by decide!)

open Parser in
/-- C18. Let the parser be at an atom `a0` that is followed by the operator/atom pairs
`pairs`, whose operators are of the four tiers, and then by a token `stop` that is no
such operator, no `(` and no `=`. For every sufficient fuel `parseExpression` returns a
tree `e`, having consumed exactly these tokens up to `stop` and reported no error. Read
from left to right `e` has the atoms and operators of the input, and `e` is grouped:
below every operator the right operand has a stronger operator at its root (or is an
atom) and the left operand has no weaker one, so a stronger tier groups tighter and
operators of one tier associate to the left. `e` is the only tree with these two
properties. -/
theorem C18_precedence_and_associativity (p : Parser) (a0 : Token)
    (pairs : List (Token × Token)) (stop : Token) (rest : List Token)
    (hatom : isAtomToken a0 = true) (hpairs : flatPairs pairs = true)
    (hstop : tierOf stop.type = 4 ∧ stop.type ≠ TokenType.LEFT_PAREN ∧
      stop.type ≠ TokenType.ASSIGN)
    (hreads : p.reads (a0 :: flatTail pairs ++ stop :: rest) = true) :
    ∃ e, (∃ k, ∀ n, k ≤ n →
        parseExpression n p = PResult.ok e (p.skip (2 * pairs.length + 1))) ∧
      (p.skip (2 * pairs.length + 1)).errors = p.errors ∧
      (p.skip (2 * pairs.length + 1)).current = stop ∧
      e.flat = (atomExpr a0, pairs.map fun q => (q.1, atomExpr q.2)) ∧
      e.grouped = true ∧
      ∀ e1 : Expr, e1.grouped = true → e1.flat = e.flat → e1 = e := by
  have hwf : wellFormed 0 pairs := by
    intro q hq
    have := List.all_eq_true.mp hpairs q hq
    simp only [Bool.and_eq_true, decide_eq_true_eq] at this
    exact ⟨this.2, Nat.zero_le _, this.1⟩
  have hs : stopsAt 0 stop := ⟨hstop.2.1, fun h => by omega⟩
  obtain ⟨e, ⟨k, hk⟩, hflat, hg, _⟩ :=
    equality_spec p a0 pairs stop rest hatom hwf hs hreads
  have hsk := reads_skip (a0 :: flatTail pairs) p stop rest (by simpa using hreads)
  simp only [List.length_cons, flatTail_length] at hsk
  have hcur := reads_current _ _ _ hsk.1
  refine ⟨e, ⟨k + 2, ?_⟩, hsk.2, hcur, hflat, hg,
    fun e1 h1 h2 => grouped_unique e1 e h1 hg h2⟩
  intro n hn
  obtain ⟨m, rfl⟩ : ∃ m, n = m + 2 := ⟨n - 2, by omega⟩
  have e1 := hk m (by omega)
  simp only at e1
  have hne : (p.skip (2 * pairs.length + 1)).current.type ≠ TokenType.ASSIGN := by
    rw [hcur]; exact hstop.2.2
  simp only [parseExpression, parseAssignment, e1, PResult.bind, matchTok_false _ _ hne,
    Bool.false_eq_true, if_false]

/-- C18, witness: for `10 + 20 * 3 - 15 / 5 % 2` the tree is
`Binary(Binary(10, +, Binary(20, *, 3)), -, Binary(Binary(15, /, 5), %, 2))` and for
`a - b - c` it is `Binary(Binary(a, -, b), -, c)`; both sources parse without an error. -/
theorem C18_precedence_and_associativity_witness :
    ((∃ k, ∀ n, k ≤ n →
        Parser.parseExpression n ((parserFor c18Source).skip 3) =
          PResult.ok c18Tree (((parserFor c18Source).skip 3).skip 11)) ∧
      (((parserFor c18Source).skip 3).skip 11).errors = [] ∧
      Stmt.beqList (parsedProgram 100 c18Source)
        [Stmt.VariableDecl (ident "x" 5) c18Tree] = true ∧
      messages (syntaxErrors 100 c18Source) = []) ∧
    ((∃ k, ∀ n, k ≤ n →
        Parser.parseExpression n (parserFor c18LeftSource) =
          PResult.ok c18LeftTree ((parserFor c18LeftSource).skip 5)) ∧
      ((parserFor c18LeftSource).skip 5).errors = [] ∧
      Stmt.beqList (parsedProgram 100 c18LeftSource) [Stmt.Expression c18LeftTree] = true ∧
      messages (syntaxErrors 100 c18LeftSource) = []) := by
  refine ⟨⟨?_, by decide!, by decide!, by decide!⟩,
    ⟨?_, by decide!, by decide!, by decide!⟩⟩
  · obtain ⟨e, hk, _, _, hflat, _, huniq⟩ :=
      C18_precedence_and_associativity ((parserFor c18Source).skip 3) (intTok 10 "10" 9)
        c18Pairs (tok TokenType.SEMICOLON ";" 33) [] (by decide) (by decide)
        (by decide) (by decide!)
    have h : c18Tree = e := huniq c18Tree (by decide) (by rw [hflat]; rfl)
    rw [h]; exact hk
  · obtain ⟨e, hk, _, _, hflat, _, huniq⟩ :=
      C18_precedence_and_associativity (parserFor c18LeftSource) (ident "a" 1)
        c18LeftPairs (tok TokenType.SEMICOLON ";" 10) [] (by decide) (by decide)
        (by decide) (by decide!)
    have h : c18LeftTree = e := huniq c18LeftTree (by decide) (by rw [hflat]; rfl)
    rw [h]; exact hk

open Parser in
/-- C19. When `parseEquality` has returned the left-hand side `L`: if the next token is
`=` and `L` is not a `Variable` node, `parseAssignment` consumes the `=`, appends exactly
one syntax error `Invalid assignment target`, located at the `=`, and returns `L` itself;
and whatever follows, the result of `parseAssignment` is `L` itself or an `Assignment`
node whose target is the name of the `Variable` node `L`. -/
theorem C19_invalid_assignment_target (n : Nat) (p p1 : Parser) (L : Expr)
    (hL : parseEquality n p = PResult.ok L p1) :
    (∀ p2, p1.current.type = TokenType.ASSIGN → p1.advance = PResult.ok () p2 →
      L.isVariable = false →
      parseAssignment (n + 1) p =
        PResult.ok L { p2 with errors := p1.errors ++
          [{ type := ErrorType.SYNTAX, message := "Invalid assignment target",
             line := p1.current.line, column := p1.current.column, stage := "Parser" }] }) ∧
    (∀ r p3, parseAssignment (n + 1) p = PResult.ok r p3 →
      r = L ∨ ∃ name value, L = Expr.Variable name ∧ r = Expr.Assignment name value) := by
  constructor
  · intro p2 hty hadv hvar
    have hp2 : p2.errors = p1.errors ∧ p2.previous = p1.current := by
      unfold Parser.advance at hadv
      split at hadv
      · injection hadv with _ h; subst h; exact ⟨rfl, rfl⟩
      · cases hadv
    have hm : p1.matchTok TokenType.ASSIGN = PResult.ok true p2 := by
      simp [Parser.matchTok, Parser.check, hty, hadv, PResult.bind]
    rw [parseAssignment, hL]
    simp only [PResult.bind, hm, if_true]
    cases L <;> simp [Expr.isVariable] at hvar <;>
      simp [Parser.reportError, hp2.1, hp2.2]
  · intro r p3 h
    rw [parseAssignment, hL] at h
    simp only [PResult.bind] at h
    cases hm : p1.matchTok TokenType.ASSIGN with
    | outOfFuel => rw [hm] at h; cases h
    | thrown q => rw [hm] at h; cases h
    | ok b q =>
      rw [hm] at h
      dsimp only at h
      cases b with
      | false =>
        simp only [Bool.false_eq_true, if_false] at h
        injection h with h1 _
        exact Or.inl h1.symm
      | true =>
        simp only [if_true] at h
        cases L with
        | Variable name =>
          dsimp only at h
          cases hv : parseAssignment n q with
          | outOfFuel => rw [hv] at h; cases h
          | thrown _ => rw [hv] at h; cases h
          | ok value q2 =>
            rw [hv] at h
            simp only [PResult.bind] at h
            split at h
            · injection h with h1 _; exact Or.inl h1.symm
            · injection h with h1 _; exact Or.inr ⟨name, value, rfl, h1.symm⟩
        | _ =>
          all_goals
            dsimp only at h
            injection h with h1 _
            exact Or.inl h1.symm

/-- C19, witness: for `1 = 2;` the result is the literal 1 and for `(a + b) = c;` it is
`Binary(a, +, b)`, each with the one error `Invalid assignment target`. -/
theorem C19_invalid_assignment_target_witness :
    (Parser.parseAssignment 21 (parserFor c19LiteralSource) =
        PResult.ok (c19Target c19LiteralSource)
          { c19PastAssign c19LiteralSource with
            errors := (c19AtAssign c19LiteralSource).errors ++
              [{ type := ErrorType.SYNTAX, message := "Invalid assignment target",
                 line := (c19AtAssign c19LiteralSource).current.line,
                 column := (c19AtAssign c19LiteralSource).current.column,
                 stage := "Parser" }] } ∧
      (c19Target c19LiteralSource).beq (intLit 1) = true ∧
      (c19AtAssign c19LiteralSource).errors = []) ∧
    (Parser.parseAssignment 21 (parserFor c19GroupSource) =
        PResult.ok (c19Target c19GroupSource)
          { c19PastAssign c19GroupSource with
            errors := (c19AtAssign c19GroupSource).errors ++
              [{ type := ErrorType.SYNTAX, message := "Invalid assignment target",
                 line := (c19AtAssign c19GroupSource).current.line,
                 column := (c19AtAssign c19GroupSource).current.column,
                 stage := "Parser" }] } ∧
      (c19Target c19GroupSource).beq
        (Expr.Binary (var "a" 2) (tok TokenType.PLUS "+" 4) (var "b" 6)) = true ∧
      (c19AtAssign c19GroupSource).errors = []) :=
  ⟨⟨(C19_invalid_assignment_target 20 (parserFor c19LiteralSource)
        (c19AtAssign c19LiteralSource) (c19Target c19LiteralSource)
        (Parser.ok_of_isOk _ Expr.null (parserFor c19LiteralSource) (by decide!))).1
        (c19PastAssign c19LiteralSource) (by decide!)
        (Parser.ok_of_isOk _ () (c19AtAssign c19LiteralSource) (by decide!)) (by decide!),
      by decide!, by decide!⟩,
   ⟨(C19_invalid_assignment_target 20 (parserFor c19GroupSource)
        (c19AtAssign c19GroupSource) (c19Target c19GroupSource)
        (Parser.ok_of_isOk _ Expr.null (parserFor c19GroupSource) (by decide!))).1
        (c19PastAssign c19GroupSource) (by decide!)
        (Parser.ok_of_isOk _ () (c19AtAssign c19GroupSource) (by decide!)) (by decide!),
      by decide!, by decide!⟩⟩

/-- C20 (defect of the code). The methods of the parser report an error and return a
null pointer instead of throwing, so the recovery in the `catch` block of `parseProgram`
is never entered. For `let = 1; let = 2;` the parser returns, for every fuel from 200 on,
the program of the two expression statements `1;` and `2;` with eight diagnostics, four
for each malformed statement, all of them syntax errors. For `let x = ; let y = ;` it
never returns. -/
theorem C20_two_malformed_statements :
    (∀ fuel, 200 ≤ fuel → parseSource fuel c20Source = parseSource 200 c20Source) ∧
    ((parserFor c20Source).parse 200).isOk = true ∧
    Stmt.beqList (parsedProgram 200 c20Source)
      [Stmt.Expression (intLit 1), Stmt.Expression (intLit 2)] = true ∧
    messages (syntaxErrors 200 c20Source) =
      ["Expected variable name", "Expected expression", "Invalid assignment target",
       "Expected expression", "Expected variable name", "Expected expression",
       "Invalid assignment target", "Expected expression"] ∧
    onlySyntaxErrors (syntaxErrors 200 c20Source) = true ∧
    (∀ fuel, parseSource fuel c20InitSource = some PResult.outOfFuel) := by
  refine ⟨?_, by decide!, by decide!, by decide!, by decide!, ?_⟩
  · intro fuel hfuel
    rw [parseSource_eq fuel c20Source (by decide!), parseSource_eq 200 c20Source (by decide!)]
    refine congrArg some ?_
    have h := Parser.ok_of_isOk ((parserFor c20Source).parse 200) [] (parserFor c20Source)
      (by decide!)
    rw [h]
    exact Parser.parse_stable _ _ _ 200 h hfuel
  · intro fuel
    rw [parseSource_eq fuel c20InitSource (by decide!)]
    refine congrArg some ?_
    refine Parser.parseProgramLoop_diverges_after _ 100 (by decide!) (by decide!) ?_ fuel []
    intro n ss
    exact Parser.parseProgramLoop_stuck n _ ss (by decide!)

/-- C21 (code defect): an `if` statement without parentheses around its condition and
without a `;` after `end` does not parse. On the source of parser test 3,
`if x > 10 then print("High"); else print("Low"); end`, `parse` does not return for any
amount of fuel: the first `parseStatement` reports "Expected '(' after 'if'" and
consumes only `if`, the second reads `x > 10` as an expression statement and reports
"Expected ';' after expression", and the parser then stays at `then`, which no
statement starts with. With the parentheses and `end;` the statement parses into one
statement without a diagnostic. -/
theorem C21_if_without_parentheses (fuel : Nat) :
    parseSource fuel c21Source = some PResult.outOfFuel ∧
    messages (afterStatement (parserFor c21Source)).errors = ["Expected '(' after 'if'"] ∧
    messages (afterStatement (afterStatement (parserFor c21Source))).errors =
      ["Expected '(' after 'if'", "Expected ';' after expression"] ∧
    (afterStatement (afterStatement (parserFor c21Source))).current.type = TokenType.THEN ∧
    ((parserFor c21ParenSource).parse 200).isOk = true ∧
    (parsedProgram 200 c21ParenSource).length = 1 ∧
    messages (syntaxErrors 200 c21ParenSource) = [] := by
  refine ⟨?_, by decide!, by decide!, by decide!, by decide!, by decide!, by decide!⟩
  rw [parseSource_eq fuel c21Source (by decide!)]
  refine congrArg some ?_
  refine Parser.parseProgramLoop_diverges_after _ 100 (by decide!) (by decide!) ?_ fuel []
  intro n ss
  refine Parser.parseProgramLoop_diverges_after _ 100 (by decide!) (by decide!) ?_ n ss
  intro n ss
  exact Parser.parseProgramLoop_stuck n _ ss (by decide!)

/-- C22 (code defect): `let x = 10; let y = 20; let z = x + y;` parses into three
declarations without a syntax error, but `analyze` does not return on it: the visit of
the first initializer, the literal 10, ends in the exception of `return nullptr;`, with
no diagnostic recorded, and the pass of the type checker is never reached. The same
holds for every program whose first statement is a declaration with an initializer:
`analyze` does not return on it, in any state of the analyzer. -/
theorem C22_let_sequence_throws :
    ((parserFor c22Source).parse 200).isOk = true ∧
    messages (syntaxErrors 200 c22Source) = [] ∧
    (parsedProgram 200 c22Source).length = 3 ∧
    analysis c22Source = none ∧
    thrownAnalysis c22Source = some [] ∧
    (∀ (a a1 : SemanticAnalyzer) (name : Token) (initializer : Expr) (rest : List Stmt),
      initializer.isNull = false →
      a.analyze (Stmt.VariableDecl name initializer :: rest) ≠ Visit.returned a1) ∧
    (∀ (e : Expr) (a a1 : SemanticAnalyzer),
      SemanticAnalyzer.visitExpr e a ≠ Visit.returned a1) :=
  ⟨by decide!, by decide!, by decide!, by decide!, by decide!,
    fun a a1 name initializer rest h =>
      SemanticAnalyzer.analyze_declaration a a1 name initializer rest h,
    SemanticAnalyzer.visitExpr_never_returns⟩

/-- C23 (code defect): a call of a declared top-level function is never resolved. For
`f(); function f() { }` the analyzer records "Undefined function 'f'" for the call and
then leaves `analyze` by the exception of `return nullptr;`; for `function f() { } f();`
it has recorded "Variable 'f' already declared in this scope" before, because both
passes declare the function. Every symbol that `declareVariable` inserts, for functions
too, has the kind VARIABLE, and the visit of a call whose callee resolves to no symbol
of the kind FUNCTION records "Undefined function". -/
theorem C23_call_never_resolves :
    (messages (syntaxErrors 200 c23Source) = [] ∧
      analysis c23Source = none ∧
      thrownAnalysis c23Source = some [("Undefined function 'f'", "SemanticAnalyzer")]) ∧
    (messages (syntaxErrors 200 c23AfterSource) = [] ∧
      analysis c23AfterSource = none ∧
      thrownAnalysis c23AfterSource =
        some [("Variable 'f' already declared in this scope", "SemanticAnalyzer"),
          ("Undefined function 'f'", "SemanticAnalyzer")]) ∧
    (∀ (a : SemanticAnalyzer) (name : Token) (type : TokenType) (initialized : Bool)
      (symbol : Symbol),
      (a.declareVariable name type initialized).currentScope.lookupCurrentScope name.lexeme =
        some symbol → a.currentScope.lookupCurrentScope name.lexeme = none →
      symbol.type = SymbolType.VARIABLE) ∧
    (∀ (a : SemanticAnalyzer) (callee : Token),
      (∀ symbol, a.currentScope.lookup callee.lexeme = some symbol →
        symbol.type ≠ SymbolType.FUNCTION) →
      SemanticAnalyzer.visitExpr (Expr.Call callee []) a =
        Visit.thrown { a with errors := a.errors ++
          [{ type := ErrorType.SEMANTIC,
             message := "Undefined function '" ++ callee.lexeme ++ "'",
             line := callee.line, column := callee.column,
             stage := "SemanticAnalyzer" }] }) := by
  refine ⟨by decide!, by decide!, ?_, ?_⟩
  · intro a name type initialized symbol h hnone
    simp only [SemanticAnalyzer.declareVariable, SymbolTable.insert,
      SymbolTable.lookupCurrentScope] at h hnone
    rw [hnone] at h
    simp [List.lookup_append, hnone, List.lookup] at h
    rw [← h]
  · intro a callee h
    simp only [SemanticAnalyzer.visitExpr, SemanticAnalyzer.visitExprs, returnNullptr,
      SemanticAnalyzer.reportError]
    cases hl : a.currentScope.lookup callee.lexeme with
    | none => rfl
    | some symbol => simp [h symbol hl]

/-- C24 (code defect): the symbol of `let x = e;` is inserted as initialized before the
initializer is visited. In every analyzer state whose current scope does not hold the
name, the declared symbol is found initialized, and the visit of `let x = x;` records no
diagnostic: it ends in the exception of `return nullptr;` with the error list as it was.
For the source `let x = x;`, `analyze` does not return and holds no diagnostic when the
exception leaves it. -/
theorem C24_initialized_before_initializer :
    (∀ (a : SemanticAnalyzer) (name : Token),
      a.currentScope.lookupCurrentScope name.lexeme = none →
      (∃ symbol, (a.declareVariable name TokenType.INT_TYPE true).currentScope.lookup
          name.lexeme = some symbol ∧ symbol.isInitialized = true) ∧
      (a.declareVariable name TokenType.INT_TYPE true).errors = a.errors ∧
      SemanticAnalyzer.visitStmt (Stmt.VariableDecl name (Expr.Variable name)) a =
        Visit.thrown (a.declareVariable name TokenType.INT_TYPE true)) ∧
    messages (syntaxErrors 200 c24Source) = [] ∧
    Stmt.beqList (parsedProgram 200 c24Source)
      [Stmt.VariableDecl (ident "x" 5) (var "x" 9)] = true ∧
    analysis c24Source = none ∧
    thrownAnalysis c24Source = some [] :=
  ⟨declared_initialized, by decide!, by decide!, by decide!, by decide!⟩

/-- C25 (code defect): `TypeChecker::check` does not return on `print(true + 1);` nor on
`let a = true + 1;`, and records no diagnostic: the visit of the literal `true` ends in
the exception of `return nullptr;`. In every state of the type checker the visit of a
Binary expression whose left operand is a literal throws with nothing recorded: the
operand types are not compared. `analyze` does not reach the type checker on these
sources: it holds "Undefined function 'print'" for the first and nothing for the second
when the exception leaves it. -/
theorem C25_type_mismatch_not_reported :
    messages (syntaxErrors 200 c25Source) = [] ∧
    typeErrors c25Source = none ∧
    thrownTypeErrors c25Source = some [] ∧
    thrownAnalysis c25Source = some [("Undefined function 'print'", "SemanticAnalyzer")] ∧
    messages (syntaxErrors 200 c25LetSource) = [] ∧
    Stmt.beqList (parsedProgram 200 c25LetSource)
      [Stmt.VariableDecl (ident "a" 5)
        (Expr.Binary (boolLit true) (tok TokenType.PLUS "+" 14) (intLit 1))] = true ∧
    typeErrors c25LetSource = none ∧
    thrownTypeErrors c25LetSource = some [] ∧
    thrownAnalysis c25LetSource = some [] ∧
    (∀ (tc : TypeChecker) (value : LitValue) (op : Token) (right : Expr),
      TypeChecker.visitExpr (Expr.Binary (Expr.Literal value) op right) tc =
        Visit.thrown tc) ∧
    (∀ (e : Expr) (tc tc1 : TypeChecker), TypeChecker.visitExpr e tc ≠ Visit.returned tc1) := by
  refine ⟨by decide!, by decide!, by decide!, by decide!, by decide!, by decide!, by decide!,
    by decide!, by decide!, ?_, TypeChecker.visitExpr_throws_or_faults⟩
  intro tc value op right
  simp [TypeChecker.visitExpr, returnNullptr]

/-- C26 counterexample: for `string + int` `getBinaryResultType` gives the ERROR type
where the rule table gives string, and for `bool < int` it gives bool where the rule
table gives the ERROR type. -/
theorem C26_counterexample :
    (TypeChecker.getBinaryResultType TokenType.STRING_TYPE TokenType.INT_TYPE TokenType.PLUS =
        TokenType.ERROR ∧
      ruleTable TokenType.STRING_TYPE TokenType.INT_TYPE TokenType.PLUS =
        TokenType.STRING_TYPE) ∧
    (TypeChecker.getBinaryResultType TokenType.BOOL_TYPE TokenType.INT_TYPE TokenType.LESS =
        TokenType.BOOL_TYPE ∧
      ruleTable TokenType.BOOL_TYPE TokenType.INT_TYPE TokenType.LESS = TokenType.ERROR) := by
  decide

set_option maxHeartbeats 4000000 in
/-- C26 (amended): for operand types among int, float, bool and string,
`getBinaryResultType` equals the rule table of the specification exactly when the
operator is not `+` with a string operand and not a comparison of operands that are
neither both numeric nor both string. A comparison operator gives bool for every pair
of operand types; an arithmetic operator gives int for two ints and float for any other
numeric pair; an arithmetic operator other than `+` with a string operand gives the
ERROR type on every pair that is not numeric; `&&` and `||` give bool exactly when both
operands are bool and the ERROR type otherwise; every other operator gives the ERROR
type. -/
theorem C26_binary_result_type (left right op : TokenType)
    (hl : isOperandType left = true) (hr : isOperandType right = true) :
    (TypeChecker.getBinaryResultType left right op = ruleTable left right op ↔
      ¬ (op = TokenType.PLUS ∧ (left = TokenType.STRING_TYPE ∨ right = TokenType.STRING_TYPE)) ∧
      ¬ (TypeChecker.isComparisonOp op = true ∧
        ¬ ((TypeChecker.isNumericType left = true ∧ TypeChecker.isNumericType right = true) ∨
           (left = TokenType.STRING_TYPE ∧ right = TokenType.STRING_TYPE)))) ∧
    (TypeChecker.isComparisonOp op = true →
      TypeChecker.getBinaryResultType left right op = TokenType.BOOL_TYPE) ∧
    (TypeChecker.isArithmeticOp op = true → TypeChecker.isNumericType left = true →
      TypeChecker.isNumericType right = true →
      TypeChecker.getBinaryResultType left right op =
        if left = TokenType.INT_TYPE ∧ right = TokenType.INT_TYPE then TokenType.INT_TYPE
        else TokenType.FLOAT_TYPE) ∧
    (TypeChecker.isArithmeticOp op = true →
      ¬ (TypeChecker.isNumericType left = true ∧ TypeChecker.isNumericType right = true) →
      ¬ (op = TokenType.PLUS ∧ (left = TokenType.STRING_TYPE ∨ right = TokenType.STRING_TYPE)) →
      TypeChecker.getBinaryResultType left right op = TokenType.ERROR) ∧
    (op = TokenType.AND ∨ op = TokenType.OR →
      (TypeChecker.getBinaryResultType left right op = TokenType.BOOL_TYPE ↔
        left = TokenType.BOOL_TYPE ∧ right = TokenType.BOOL_TYPE) ∧
      (TypeChecker.getBinaryResultType left right op = TokenType.BOOL_TYPE ∨
        TypeChecker.getBinaryResultType left right op = TokenType.ERROR)) ∧
    (TypeChecker.isArithmeticOp op = false → TypeChecker.isComparisonOp op = false →
      op ≠ TokenType.AND → op ≠ TokenType.OR →
      TypeChecker.getBinaryResultType left right op = TokenType.ERROR) := by
  have hl1 : left = TokenType.INT_TYPE ∨ left = TokenType.FLOAT_TYPE ∨
      left = TokenType.BOOL_TYPE ∨ left = TokenType.STRING_TYPE := by
    simpa [isOperandType, or_assoc] using hl
  have hr1 : right = TokenType.INT_TYPE ∨ right = TokenType.FLOAT_TYPE ∨
      right = TokenType.BOOL_TYPE ∨ right = TokenType.STRING_TYPE := by
    simpa [isOperandType, or_assoc] using hr
  rcases hl1 with h | h | h | h <;> rcases hr1 with h' | h' | h' | h' <;> subst h <;> subst h' <;>
    cases op <;> refine ⟨?_, ?_, ?_, ?_, ?_, ?_⟩ <;> decide

/-- C26 witness: the theorem at `int + float`, where the function agrees with the rule
table, and at `bool < int`, where it gives bool. -/
theorem C26_binary_result_type_witness :
    (isOperandType TokenType.INT_TYPE = true ∧ isOperandType TokenType.FLOAT_TYPE = true ∧
      TypeChecker.getBinaryResultType TokenType.INT_TYPE TokenType.FLOAT_TYPE TokenType.PLUS =
        ruleTable TokenType.INT_TYPE TokenType.FLOAT_TYPE TokenType.PLUS) ∧
    (isOperandType TokenType.BOOL_TYPE = true ∧
      TypeChecker.getBinaryResultType TokenType.BOOL_TYPE TokenType.INT_TYPE TokenType.LESS =
        TokenType.BOOL_TYPE) :=
  ⟨⟨rfl, rfl,
      (C26_binary_result_type TokenType.INT_TYPE TokenType.FLOAT_TYPE TokenType.PLUS rfl
        rfl).1.mpr (by decide)⟩,
    rfl,
    (C26_binary_result_type TokenType.BOOL_TYPE TokenType.INT_TYPE TokenType.LESS rfl
      rfl).2.1 rfl⟩

/-- C27: `insert` returns false exactly when the map of the current scope already holds
the name, and then the table is unchanged; otherwise it returns true, the symbol is
what `lookupCurrentScope` and `lookup` return for its name afterwards, the ancestor
scopes and the scope level are untouched, and every other name of the current scope
is found as before. No ancestor scope is consulted. -/
theorem C27_insert (t : SymbolTable) (s : Symbol) :
    ((t.insert s).1 = false ↔ (t.lookupCurrentScope s.name).isSome = true) ∧
    ((t.insert s).1 = false → (t.insert s).2 = t) ∧
    ((t.insert s).1 = true →
      (t.insert s).2.lookupCurrentScope s.name = some s ∧
      (t.insert s).2.lookup s.name = some s ∧
      (t.insert s).2.ancestors = t.ancestors ∧
      (t.insert s).2.scope.scopeLevel = t.scope.scopeLevel ∧
      ∀ other, other ≠ s.name →
        (t.insert s).2.lookupCurrentScope other = t.lookupCurrentScope other) := by
  unfold SymbolTable.insert SymbolTable.lookupCurrentScope
  cases h : t.scope.symbols.lookup s.name with
  | some old => simp
  | none =>
    simp only [Option.isSome_none, Bool.false_eq_true, iff_false, Bool.true_eq_false,
      not_false_eq_true, false_implies, true_implies, true_and]
    refine ⟨lookup_append_new _ _ _ h, ?_, ?_⟩
    · simp only [SymbolTable.lookup, SymbolTable.lookupChain, lookup_append_new _ _ _ h]
    · intro other ho
      exact lookup_append_other _ _ _ _ ho

/-- C27 witness: in a child scope of a global scope that holds `x`, inserting another
`x` succeeds and shadows the outer symbol, which the parent still holds; inserting `x`
once more fails and leaves the table as it is. -/
theorem C27_insert_witness :
    (c27Table.lookup "x" = some c27Outer ∧ c27Table.lookupCurrentScope "x" = none) ∧
    ((c27Table.insert c27Inner).1 = true ∧
      (c27Table.insert c27Inner).2.lookupCurrentScope "x" = some c27Inner ∧
      (c27Table.insert c27Inner).2.getParent.map (fun p => p.lookup "x") =
        some (some c27Outer)) ∧
    (((c27Table.insert c27Inner).2.insert c27Outer).1 = false ∧
      ((c27Table.insert c27Inner).2.insert c27Outer).2 = (c27Table.insert c27Inner).2) :=
  ⟨by decide,
   ⟨by decide, ((C27_insert c27Table c27Inner).2.2 (by decide)).1, by decide⟩,
   ⟨by decide, (C27_insert (c27Table.insert c27Inner).2 c27Outer).2.1 (by decide)⟩⟩

/-- C28: `lookup` returns a symbol exactly when it is the entry for the name in some
scope of the chain from the current scope to the global scope such that no scope before
it on the chain holds the name; it returns nothing exactly when no scope of the chain
holds the name; and a symbol inserted in a new child scope is what `lookup` returns for
its name, whatever the enclosing scopes hold, while the parent table is kept. -/
theorem C28_lookup (t : SymbolTable) (name : String) :
    (∀ symbol, t.lookup name = some symbol ↔
      ∃ i scope, (t.scope :: t.ancestors).get? i = some scope ∧
        scope.symbols.lookup name = some symbol ∧
        ∀ j, j < i → ∀ inner, (t.scope :: t.ancestors).get? j = some inner →
          inner.symbols.lookup name = none) ∧
    (t.lookup name = none ↔
      ∀ scope ∈ t.scope :: t.ancestors, scope.symbols.lookup name = none) ∧
    (∀ (level : Int) (s : Symbol), s.name = name →
      ((SymbolTable.newChild level t).insert s).2.lookup name = some s ∧
      ((SymbolTable.newChild level t).insert s).2.getParent = some t) := by
  refine ⟨(lookupChain_spec name _).1, (lookupChain_spec name _).2, ?_⟩
  intro level s hs
  subst hs
  simp [SymbolTable.newChild, SymbolTable.insert, SymbolTable.lookup, SymbolTable.lookupChain,
    SymbolTable.getParent, List.lookup]

/-- C29 (code defect): `nextToken` raises an exception on a run of digits above the
largest `int` and on a float literal outside the range of `float`. On the source
`2147483648` the first call throws (`std::stoi` in `numberLiteral`), so the constructor
of the parser, which reads the first token, does not return a parser; on a 1 with 39
zeros and `.0` it throws too (`std::stof`); `2147483647` is still an INT_LITERAL token
and an unterminated string is an ERROR token. In every state of the lexer `nextToken`
throws only in these two ways: the text of the token is a run of digits whose value is
above 2147483647, or a number on which `std::stof` throws. -/
theorem C29_lexer_throws :
    (Lexer.new c29Source).nextToken = LexResult.thrown c29Lexer ∧
    (Parser.new (Lexer.new c29Source)).isSome = false ∧
    (Lexer.new c29FloatSource).nextToken = LexResult.thrown c29FloatLexer ∧
    (Parser.new (Lexer.new c29FloatSource)).isSome = false ∧
    (∃ lx, (Lexer.new c29MaxSource).nextToken = LexResult.token c29MaxToken lx) ∧
    (∃ lx, (Lexer.new c29StringSource).nextToken = LexResult.token c29ErrorToken lx) ∧
    (∀ lx0 lx1 : Lexer, lx0.nextToken = LexResult.thrown lx1 →
      (stoi lx1.text = none ∧ 2147483647 < digitsValue lx1.text) ∨ stof lx1.text = none) :=
  ⟨by decide!, by decide!, by decide!, by decide!, ⟨c29MaxRest, by decide!⟩,
    ⟨c29StringRest, by decide!⟩, Lexer.nextToken_thrown⟩

/-- C30 counterexample: the first token of the source `@` is an ERROR token with
line 1 and column 2, and the string literal that spans two lines has line 3 and
column -2. -/
theorem C30_counterexample :
    (∃ lx, (Lexer.new c30ErrorSource).nextToken = LexResult.token c30ErrorToken lx) ∧
    (Lexer.new c30ErrorSource).atTokenStart = true ∧
    c30ErrorToken.line = 1 ∧ c30ErrorToken.column = 2 ∧
    (∃ lx, (Lexer.new c30Source).nextToken = LexResult.token c30StringToken lx) ∧
    c30StringToken.type = TokenType.STRING_LITERAL ∧
    c30StringToken.line = 3 ∧ c30StringToken.column = -2 ∧ ¬ (1 ≤ c30StringToken.column) :=
  ⟨⟨c30ErrorRest, by decide!⟩, by decide!, by decide!, by decide!,
    ⟨c30StringRest, by decide!⟩, by decide!, by decide!, by decide!, by decide!⟩

/-- C30 (amended): for every source and every call of `nextToken` on it that returns a
token (after `k` earlier calls that returned one), the token has line at least 1; an
ERROR token has column at least 1; a token other than ERROR whose line is the line on
which it begins has the column at which it begins, which is at least 1; and the first
token of a source that begins with a token, if it is not an ERROR token and its line
is 1, has column 1. -/
theorem C30_token_positions (source : String) (k : Nat) (lx0 : Lexer) (t : Token)
    (lx1 : Lexer) (hk : Lexer.after source k = some lx0)
    (h : lx0.nextToken = LexResult.token t lx1) :
    1 ≤ t.line ∧
    (t.type = TokenType.ERROR → 1 ≤ t.column) ∧
    (t.type ≠ TokenType.ERROR → t.line = lx0.skipWhitespace.line →
      t.column = lx0.skipWhitespace.column ∧ 1 ≤ t.column) ∧
    (k = 0 → (Lexer.new source).atTokenStart = true → t.type ≠ TokenType.ERROR →
      t.line = 1 → t.column = 1) := by
  have hwf := Lexer.after_wellFormed source k lx0 hk
  have hs : lx0.skipWhitespace.wellFormed := Lexer.skipWhitespaceLoop_wellFormed _ _ hwf
  obtain ⟨_, hp1, hp2, hp3⟩ := Lexer.nextToken_positioned lx0 hwf t lx1 h
  obtain ⟨_, hs2, hs3⟩ := hs
  refine ⟨by omega, hp2, ?_, ?_⟩
  · intro hne hl
    have := hp3 hne hl
    exact ⟨this, by omega⟩
  · intro h0 hst hne hl
    subst h0
    injection hk with hk
    subst hk
    rw [Lexer.skipWhitespace_atTokenStart _ hst] at hp3
    exact hp3 hne hl

/-- C30 witness: on `let x` the first call returns `let` at line 1, column 1, and the
second call returns `x` at column 5, the column at which it begins. -/
theorem C30_token_positions_witness :
    (Lexer.after c30LetSource 0 = some (Lexer.new c30LetSource) ∧
      (Lexer.new c30LetSource).nextToken = LexResult.token c30Let c30Lexer ∧
      (Lexer.new c30LetSource).atTokenStart = true ∧ c30Let.column = 1) ∧
    (Lexer.after c30LetSource 1 = some c30Lexer ∧
      c30Lexer.nextToken = LexResult.token c30Token c30Rest ∧
      c30Lexer.skipWhitespace.column = 5 ∧ c30Token.column = 5 ∧ 1 ≤ c30Token.column) :=
  ⟨⟨rfl, by decide!, by decide!,
      (C30_token_positions c30LetSource 0 (Lexer.new c30LetSource) c30Let c30Lexer rfl
        (by decide!)).2.2.2 rfl (by decide!) (by decide!) (by decide!)⟩,
    by decide!, by decide!, by decide!,
    ((C30_token_positions c30LetSource 1 c30Lexer c30Token c30Rest (by decide!)
      (by decide!)).2.2.1 (by decide!) (by decide!)).1,
    ((C30_token_positions c30LetSource 1 c30Lexer c30Token c30Rest (by decide!)
      (by decide!)).2.2.1 (by decide!) (by decide!)).2⟩

/-- C31: two-character operators are matched greedily. In every state of the lexer whose
unread text begins with the character `a`: when `a` and the next character `b` are one
of the pairs `==`, `!=`, `<=`, `>=`, `&&`, `||`, `nextToken` returns one token of the
kind of the pair whose lexeme is both characters, and both are read; when `a` is `=`,
`!`, `<` or `>` and the next character is not `=`, it returns ASSIGN, NOT, LESS or
GREATER with the lexeme `a`; a `&` not followed by `&` and a `|` not followed by `|`
give an ERROR token. -/
theorem C31_two_character_operators (lx : Lexer) (a : Char) (r : List Char)
    (h : lx.rest = a :: r) :
    (∀ b ty, (a, b, ty) ∈ twoCharOperators → r.head? = some b →
      ∃ t lx1, lx.nextToken = LexResult.token t lx1 ∧ t.type = ty ∧
        t.lexeme = String.mk [a, b] ∧ lx1.rest = r.tail) ∧
    (∀ ty, (a, ty) ∈ oneCharOperators → r.head? ≠ some '=' →
      ∃ t lx1, lx.nextToken = LexResult.token t lx1 ∧ t.type = ty ∧
        t.lexeme = String.mk [a] ∧ lx1.rest = r) ∧
    (a = '&' ∨ a = '|' → r.head? ≠ some a →
      ∃ t lx1, lx.nextToken = LexResult.token t lx1 ∧ t.type = TokenType.ERROR ∧
        t.lexeme = "Unexpected character: '" ++ String.singleton a ++ "'" ∧ lx1.rest = r) := by
  refine ⟨?_, ?_, ?_⟩
  · intro b ty hm hb
    have hr : r = b :: r.tail := by
      cases r with
      | nil => cases hb
      | cons x r =>
        simp only [List.head?_cons, Option.some.injEq] at hb
        rw [hb]
        rfl
    rw [hr] at h
    obtain ⟨t, lx1, h1, h2, h3, _, h5⟩ :=
      Lexer.nextToken_some lx _ _ (by rw [h]; exact scan_two a b ty r.tail hm)
    exact ⟨t, lx1, h1, h2, h3, h5⟩
  · intro ty hm hr
    obtain ⟨t, lx1, h1, h2, h3, _, h5⟩ :=
      Lexer.nextToken_some lx _ _ (by rw [h]; exact scan_one a ty r hm hr)
    exact ⟨t, lx1, h1, h2, h3, h5⟩
  · intro ha hr
    obtain ⟨t, lx1, h1, h2, h3, _, h5⟩ :=
      Lexer.nextToken_some lx _ _ (by rw [h]; exact scan_lone a r ha hr)
    exact ⟨t, lx1, h1, h2, h3, h5⟩

/-- C31 witness: `==x` gives EQUAL with the lexeme `==`, `=x` gives ASSIGN, and `&x`
gives an ERROR token; `x` is left unread each time. -/
theorem C31_two_character_operators_witness :
    (c31Lexer.rest = '=' :: ['=', 'x'] ∧
      ∃ t lx1, c31Lexer.nextToken = LexResult.token t lx1 ∧ t.type = TokenType.EQUAL ∧
        t.lexeme = String.mk ['=', '='] ∧ lx1.rest = ['x']) ∧
    (c31AssignLexer.rest = '=' :: ['x'] ∧
      ∃ t lx1, c31AssignLexer.nextToken = LexResult.token t lx1 ∧
        t.type = TokenType.ASSIGN ∧ t.lexeme = String.mk ['='] ∧ lx1.rest = ['x']) ∧
    (c31LoneLexer.rest = '&' :: ['x'] ∧
      ∃ t lx1, c31LoneLexer.nextToken = LexResult.token t lx1 ∧ t.type = TokenType.ERROR ∧
        t.lexeme = "Unexpected character: '" ++ String.singleton '&' ++ "'" ∧
        lx1.rest = ['x']) :=
  ⟨⟨rfl, (C31_two_character_operators c31Lexer '=' ['=', 'x'] rfl).1 '=' TokenType.EQUAL
      (by decide) rfl⟩,
    ⟨rfl, (C31_two_character_operators c31AssignLexer '=' ['x'] rfl).2.1 TokenType.ASSIGN
      (by decide) (by decide)⟩,
    ⟨rfl, (C31_two_character_operators c31LoneLexer '&' ['x'] rfl).2.2 (Or.inl rfl)
      (by decide)⟩⟩

/-- C32 (code defect): in every state of the lexer whose unread text begins with a run
of digits `d :: ds`. When the run is maximal and no `.` with a digit follows, `nextToken`
returns one INT_LITERAL with the lexeme of the run and its decimal value if that value
is at most 2147483647, and throws if it is larger. When `.`, a digit and a maximal run
of digits follow, `std::stof` is given the digits, the dot and the digits after it, that
is the decimal number of all the digits over the power of ten of those after the dot;
when it gives a `float` the text is one FLOAT_LITERAL with that value, and when it throws
so does `nextToken`. A `.` that begins the unread text gives an ERROR token. -/
theorem C32_number_literals (lx : Lexer) (d : Char) (ds r : List Char)
    (h : lx.rest = d :: ds ++ r) (hd : isDigit d = true)
    (hds : ∀ x ∈ ds, isDigit x = true) :
    ((∀ x, r.head? = some x → isDigit x = false) → noFraction r = true →
      (digitsValue (d :: ds) ≤ 2147483647 →
        ∃ t lx1, lx.nextToken = LexResult.token t lx1 ∧ t.type = TokenType.INT_LITERAL ∧
          t.lexeme = String.mk (d :: ds) ∧
          t.value = LitValue.int (digitsValue (d :: ds)) ∧ lx1.rest = r) ∧
      (2147483647 < digitsValue (d :: ds) → ∃ lx1, lx.nextToken = LexResult.thrown lx1)) ∧
    (∀ f fs r1, r = '.' :: f :: fs ++ r1 → isDigit f = true →
      (∀ x ∈ fs, isDigit x = true) → (∀ x, r1.head? = some x → isDigit x = false) →
      stof (d :: ds ++ '.' :: f :: fs) =
        toBinary32 (digitsValue (d :: ds ++ f :: fs)) (10 ^ (fs.length + 1)) ∧
      (∀ v, stof (d :: ds ++ '.' :: f :: fs) = some v →
        ∃ t lx1, lx.nextToken = LexResult.token t lx1 ∧ t.type = TokenType.FLOAT_LITERAL ∧
          t.lexeme = String.mk (d :: ds ++ '.' :: f :: fs) ∧
          t.value = LitValue.float v ∧ lx1.rest = r1) ∧
      (stof (d :: ds ++ '.' :: f :: fs) = none →
        ∃ lx1, lx.nextToken = LexResult.thrown lx1)) ∧
    (∀ (lx2 : Lexer) (r2 : List Char), lx2.rest = '.' :: r2 →
      ∃ t lx3, lx2.nextToken = LexResult.token t lx3 ∧ t.type = TokenType.ERROR ∧
        t.lexeme = "Unexpected character: '.'" ∧ lx3.rest = r2) := by
  rw [List.cons_append] at h
  refine ⟨?_, ?_, ?_⟩
  rotate_left 2
  · intro lx2 r2 h2
    obtain ⟨t, lx3, h3, h4, h5, _, h7⟩ := Lexer.nextToken_some lx2 (unexpected '.') r2 (by
      rw [h2]
      simp [scanToken, skipBlank, scanFrom, isAlpha, isDigit])
    exact ⟨t, lx3, h3, h4, h5, h7⟩
  · intro hr hf
    have hw := takeWhile_append_stop isDigit ds r hds hr
    have hs : scanToken lx.rest = match stoi (d :: ds) with
        | some v => some ((TokenType.INT_LITERAL, String.mk (d :: ds), LitValue.int v), r)
        | none => none := by
      rw [h, scanToken_digit _ _ hd]
      unfold scanNumber
      simp only [hw.1, hw.2]
      have hf2 : ¬ (r.headD (Char.ofNat 0) = '.' ∧
          isDigit (r.tail.headD (Char.ofNat 0)) = true) := by
        rintro ⟨e1, e2⟩
        unfold noFraction at hf
        rw [e1, e2] at hf
        revert hf
        decide
      rw [if_neg hf2]
    constructor
    · intro hv
      have e : stoi (d :: ds) = some (Int.ofNat (digitsValue (d :: ds))) := by
        unfold stoi
        simp only [hv, if_true]
      rw [e] at hs
      exact Lexer.nextToken_some lx _ _ hs
    · intro hv
      have e : stoi (d :: ds) = none := by
        unfold stoi
        simp only
        rw [if_neg (by omega)]
      rw [e] at hs
      have ho := (Lexer.nextToken_observe lx).trans hs
      cases hn : lx.nextToken with
      | token t lx1 => rw [hn] at ho; cases ho
      | thrown lx1 => exact ⟨lx1, rfl⟩
  · intro f fs r1 hr hf hfs hr1
    subst hr
    have hdot : isDigit '.' = false := by decide
    have hw := takeWhile_append_stop isDigit ds ('.' :: f :: fs ++ r1) hds
      (fun x hx => by
        simp only [List.cons_append, List.head?_cons, Option.some.injEq] at hx
        rw [← hx]
        decide)
    have hw2 := takeWhile_append_stop isDigit (f :: fs) r1
      (fun x hx => by
        rcases List.mem_cons.1 hx with e | e
        · rw [e]; exact hf
        · exact hfs x e)
      hr1
    have hw3 := takeWhile_append_stop isDigit (d :: ds) ('.' :: f :: fs)
      (fun x hx => by
        rcases List.mem_cons.1 hx with e | e
        · rw [e]; exact hd
        · exact hds x e)
      (fun x hx => by
        simp only [List.head?_cons, Option.some.injEq] at hx
        rw [← hx]
        decide)
    have hs : scanToken lx.rest = match stof (d :: ds ++ '.' :: f :: fs) with
        | some v =>
          some ((TokenType.FLOAT_LITERAL, String.mk (d :: ds ++ '.' :: f :: fs),
            LitValue.float v), r1)
        | none => none := by
      rw [h, scanToken_digit _ _ hd]
      unfold scanNumber
      simp only [hw.1, hw.2]
      rw [if_pos ⟨rfl, by simpa using hf⟩]
      simp only [List.cons_append, List.tail_cons] at hw2 ⊢
      rw [hw2.1, hw2.2]
    refine ⟨?_, ?_, ?_⟩
    · unfold stof
      simp only [hw3.1, hw3.2, List.drop_succ_cons, List.drop_zero, List.length_cons]
    · intro v hv
      rw [hv] at hs
      exact Lexer.nextToken_some lx _ _ hs
    · intro hv
      rw [hv] at hs
      have ho := (Lexer.nextToken_observe lx).trans hs
      cases hn : lx.nextToken with
      | token t lx1 => rw [hn] at ho; cases ho
      | thrown lx1 => exact ⟨lx1, rfl⟩

/-- C32 witness: `1.` gives INT_LITERAL 1 and then an ERROR token; `3.14159` gives one
FLOAT_LITERAL whose value is the nearest `float`, 823549/262144; `16777217.0` gives the
FLOAT_LITERAL 16777216; on `2147483648` and on a 1 with 39 zeros and `.0` the call
throws. -/
theorem C32_number_literals_witness :
    (∃ t lx1, (Lexer.new c32DotSource).nextToken = LexResult.token t lx1 ∧
      t.type = TokenType.INT_LITERAL ∧ t.lexeme = "1" ∧ t.value = LitValue.int 1 ∧
      lx1.rest = ['.'] ∧
      ∃ t2 lx2, lx1.nextToken = LexResult.token t2 lx2 ∧ t2.type = TokenType.ERROR ∧
        lx2.rest = []) ∧
    (∃ t lx1, (Lexer.new c32FloatSource).nextToken = LexResult.token t lx1 ∧
      t.type = TokenType.FLOAT_LITERAL ∧ t.lexeme = "3.14159" ∧
      t.value = LitValue.float (823549 / 262144) ∧ lx1.rest = []) ∧
    (∃ t lx1, (Lexer.new c32RoundedSource).nextToken = LexResult.token t lx1 ∧
      t.type = TokenType.FLOAT_LITERAL ∧ t.lexeme = "16777217.0" ∧
      t.value = LitValue.float 16777216 ∧ lx1.rest = []) ∧
    (∃ lx1, (Lexer.new c32LongSource).nextToken = LexResult.thrown lx1) ∧
    (∃ lx1, (Lexer.new c32HugeSource).nextToken = LexResult.thrown lx1) := by
  obtain ⟨t, lx1, h1, h2, h3, h4, h5⟩ :=
    ((C32_number_literals (Lexer.new c32DotSource) '1' [] ['.'] rfl (by decide)
      (by decide)).1 (by decide) (by decide)).1 (by decide)
  obtain ⟨t2, lx2, k1, k2, _, k4⟩ :=
    (C32_number_literals (Lexer.new c32DotSource) '1' [] ['.'] rfl (by decide)
      (by decide)).2.2 lx1 [] h5
  obtain ⟨t3, lx3, f1, f2, f3, f4, f5⟩ :=
    ((C32_number_literals (Lexer.new c32FloatSource) '3' [] ".14159".toList rfl (by decide)
      (by decide)).2.1 '1' "4159".toList [] rfl (by decide) (by decide) (by decide)).2.1
      (823549 / 262144) (by decide!)
  obtain ⟨t4, lx4, g1, g2, g3, g4, g5⟩ :=
    ((C32_number_literals (Lexer.new c32RoundedSource) '1' "6777217".toList ".0".toList rfl
      (by decide) (by decide)).2.1 '0' [] [] rfl (by decide) (by decide) (by decide)).2.1
      16777216 (by decide!)
  exact ⟨⟨t, lx1, h1, h2, h3, h4, h5, t2, lx2, k1, k2, k4⟩, ⟨t3, lx3, f1, f2, f3, f4, f5⟩,
    ⟨t4, lx4, g1, g2, g3, g4, g5⟩,
    ((C32_number_literals (Lexer.new c32LongSource) '2' "147483648".toList [] rfl (by decide)
      (by decide)).1 (by decide) (by decide)).2 (by decide),
    ((C32_number_literals (Lexer.new c32HugeSource) '1'
      "000000000000000000000000000000000000000".toList ".0".toList rfl (by decide)
      (by decide)).2.1 '0' [] [] rfl (by decide) (by decide) (by decide)).2.2 (by decide!)⟩

/-- C33: in every state of the lexer whose unread text begins with an identifier-shaped
word `c :: cs` (a letter or underscore, then letters, digits and underscores) that no
such character follows, `nextToken` returns a token whose kind is the entry of the word
in the 17-entry table of the lexer, or IDENTIFIER when it has none, whose lexeme is the
word, and whose value is the Boolean for `true` and `false`; `Keywords::getKeyword`
gives the same kind exactly when the word is neither `print` nor `input`, which the
lexer's table does not hold. -/
theorem C33_keywords (lx : Lexer) (c : Char) (cs r : List Char)
    (h : lx.rest = c :: cs ++ r) (hc : isAlpha c = true ∨ c = '_')
    (hcs : ∀ x ∈ cs, isIdentChar x = true)
    (hr : ∀ x, r.head? = some x → isIdentChar x = false) :
    (∃ t lx1, lx.nextToken = LexResult.token t lx1 ∧
      t.type = (match Lexer.keywords.lookup (String.mk (c :: cs)) with
        | some type => type
        | none => TokenType.IDENTIFIER) ∧
      t.lexeme = String.mk (c :: cs) ∧
      t.value = (if String.mk (c :: cs) = "true" then LitValue.bool true
        else if String.mk (c :: cs) = "false" then LitValue.bool false
        else LitValue.int 0) ∧
      lx1.rest = r ∧
      (Keywords.getKeyword (String.mk (c :: cs)) = t.type ↔
        String.mk (c :: cs) ≠ "print" ∧ String.mk (c :: cs) ≠ "input")) ∧
    Lexer.keywords.length = 17 ∧
    Lexer.keywords.lookup "print" = none ∧ Lexer.keywords.lookup "input" = none ∧
    Keywords.getKeyword "print" = TokenType.PRINT ∧
    Keywords.getKeyword "input" = TokenType.INPUT := by
  refine ⟨?_, rfl, by decide, by decide, by decide, by decide⟩
  have hw := takeWhile_append_stop isIdentChar cs r hcs hr
  have hi := isIdentStart c (cs ++ r) hc
  have hscan : scanToken lx.rest =
      some ((wordType (String.mk (c :: cs)), String.mk (c :: cs),
        wordValue (String.mk (c :: cs))), r) := by
    rw [h, List.cons_append, scanToken_cons _ _ hi.1]
    unfold scanFrom
    rw [if_pos hi.2, scanIdentifier_eq, hw.1, hw.2]
  obtain ⟨t, lx1, h1, h2, h3, h4, h5⟩ := Lexer.nextToken_some lx _ _ hscan
  refine ⟨t, lx1, h1, h2, h3, h4, h5, ?_⟩
  rw [h2]
  exact getKeyword_wordType _

/-- C33 witness: `while` is the keyword WHILE, and `print` is an IDENTIFIER for the
lexer, not the kind that `Keywords::getKeyword` gives. -/
theorem C33_keywords_witness :
    (∃ t lx1, c33Lexer.nextToken = LexResult.token t lx1 ∧ t.type = TokenType.WHILE ∧
      t.lexeme = "while" ∧ lx1.rest = [' ', '(']) ∧
    (∃ t lx1, c33PrintLexer.nextToken = LexResult.token t lx1 ∧
      t.type = TokenType.IDENTIFIER ∧ t.lexeme = "print" ∧ lx1.rest = ['('] ∧
      ¬ Keywords.getKeyword "print" = t.type) := by
  obtain ⟨t, lx1, h1, h2, h3, _, h5, _⟩ :=
    (C33_keywords c33Lexer 'w' "hile".toList " (".toList rfl (by decide) (by decide)
      (by decide)).1
  obtain ⟨t2, lx2, k1, k2, k3, _, k5, k6⟩ :=
    (C33_keywords c33PrintLexer 'p' "rint".toList "(".toList rfl (by decide) (by decide)
      (by decide)).1
  exact ⟨⟨t, lx1, h1, h2, h3, h5⟩, ⟨t2, lx2, k1, k2, k3, k5, fun e => (k6.1 e).1 rfl⟩⟩

/-- C34 counterexample: the source `"a` ends inside a string literal and gives an ERROR
token and END_OF_FILE; with the comment `#"` and a newline put after it, the source
gives one STRING_LITERAL and END_OF_FILE. -/
theorem C34_counterexample :
    Lexer.restAfter 1 (Lexer.new c34OpenSource) = some [] ∧
    blankBefore c34QuoteComment.toList [] = true ∧
    Lexer.contents 5 (Lexer.new c34OpenSource) =
      [(TokenType.ERROR, "Unterminated string", LitValue.int 0),
       (TokenType.END_OF_FILE, "", LitValue.int 0)] ∧
    Lexer.contents 5 (Lexer.new (String.mk (c34OpenSource.toList ++ c34QuoteComment.toList))) =
      [(TokenType.STRING_LITERAL, "\"a#\"", LitValue.str "a#"),
       (TokenType.END_OF_FILE, "", LitValue.int 0)] := by
  refine ⟨by decide!, by decide!, by decide!, by decide!⟩

/-- C34 (amended): let the lexer have read exactly `pre` of the source
`pre ++ gap ++ post` after `k` calls of `nextToken`, where `gap` is blank text that
follows the token read last, and let `ws` be blank text too: spaces, tabs, carriage
returns, newlines and comments, each comment ended by a newline unless `post` is empty.
Then the source with `ws` put between `gap` and `post` gives the same kinds,
lexemes and values of tokens as the source without it, for any number `n` of calls,
unless `ws` ends the source, holds a quote and follows a string literal that is not
closed (the ERROR token "Unterminated string" among the tokens read). In that one case
the tokens are not the same, for any number of calls from `k` on. -/
theorem C34_blank_insertion (pre gap ws post : List Char) (k : Nat)
    (hk : Lexer.restAfter k (Lexer.new (String.mk (pre ++ (gap ++ post)))) =
      some (gap ++ post))
    (hg : blankBefore gap post = true)
    (hb : blankBefore ws post = true) :
    (post ≠ [] ∨ '"' ∉ ws ∨
        unterminated ∉ Lexer.contents k (Lexer.new (String.mk (pre ++ (gap ++ post)))) →
      ∀ n, Lexer.contents n (Lexer.new (String.mk (pre ++ (gap ++ (ws ++ post))))) =
        Lexer.contents n (Lexer.new (String.mk (pre ++ (gap ++ post))))) ∧
    (post = [] → '"' ∈ ws →
      unterminated ∈ Lexer.contents k (Lexer.new (String.mk (pre ++ (gap ++ post)))) →
      ∀ n, k ≤ n →
        Lexer.contents n (Lexer.new (String.mk (pre ++ (gap ++ (ws ++ post))))) ≠
          Lexer.contents n (Lexer.new (String.mk (pre ++ (gap ++ post))))) := by
  rw [Lexer.restAfter_scanRest] at hk
  constructor
  · intro hq n
    cases ws with
    | nil => rfl
    | cons x ws =>
      rw [Lexer.contents_scanAll, Lexer.contents_scanAll]
      rw [Lexer.contents_scanAll] at hq
      exact scanAll_insert gap post x ws hg hb k pre hk hq n
  · intro hp hm hu n hn
    subst hp
    cases ws with
    | nil => simp at hm
    | cons x ws =>
      have trailing : ∀ l : List Char, blankBefore l [] = true → isTrailing false l = true := by
        intro l hl
        unfold blankBefore at hl
        rcases Bool.or_eq_true_iff.1 hl with e | e
        · exact isTrailing_of_blank false _ e
        · exact (Bool.and_eq_true_iff.1 e).2
      rw [Lexer.contents_scanAll, Lexer.contents_scanAll]
      rw [Lexer.contents_scanAll] at hu
      have h1 := scanAll_insert_changes x ws (trailing _ hb) hm k pre gap
        (by simpa using hk) (trailing _ hg) (by simpa using hu) n hn
      simpa using h1

/-- C34 witness: the source of lexer test 4 is `let x = 5` with a comment put before it
and a comment put after it; both give LET, IDENTIFIER `x`, ASSIGN, INT_LITERAL 5 and
END_OF_FILE, and so do the source with a tab put after the space that follows `let` and
the source with the comment `# say "hi"` put after it. The comment `#"` with a newline,
put after the source `"a`, changes the tokens. -/
theorem C34_blank_insertion_witness :
    Lexer.contents 9 (Lexer.new c34TestSource) = Lexer.contents 9 (Lexer.new c34Source) ∧
    Lexer.contents 9 (Lexer.new c34GapSource) = Lexer.contents 9 (Lexer.new c34Source) ∧
    Lexer.contents 9 (Lexer.new c34SaySource) = Lexer.contents 9 (Lexer.new c34Source) ∧
    Lexer.contents 9 (Lexer.new c34Source) =
      [(TokenType.LET, "let", LitValue.int 0), (TokenType.IDENTIFIER, "x", LitValue.int 0),
       (TokenType.ASSIGN, "=", LitValue.int 0), (TokenType.INT_LITERAL, "5", LitValue.int 5),
       (TokenType.END_OF_FILE, "", LitValue.int 0)] ∧
    Lexer.contents 5 (Lexer.new (String.mk (c34OpenSource.toList ++ c34QuoteComment.toList))) ≠
      Lexer.contents 5 (Lexer.new c34OpenSource) :=
  ⟨((C34_blank_insertion (c34Comment.toList ++ c34Source.toList) [] c34Trailing.toList [] 4
      (by decide!) rfl (by decide!)).1 (Or.inr (Or.inl (by decide))) 9).trans
    ((C34_blank_insertion [] [] c34Comment.toList c34Source.toList 0 rfl rfl (by decide!)).1
      (Or.inl (by decide)) 9),
    (C34_blank_insertion "let".toList " ".toList "\t".toList "x = 5".toList 1 (by decide!)
      (by decide) (by decide)).1 (Or.inl (by decide)) 9,
    (C34_blank_insertion c34Source.toList [] " # say \"hi\"".toList [] 4 (by decide!)
      rfl (by decide!)).1 (Or.inr (Or.inr (by decide!))) 9,
    by decide!,
    (C34_blank_insertion c34OpenSource.toList [] c34QuoteComment.toList [] 1 (by decide!) rfl
      (by decide!)).2 rfl (by decide) (by decide!) 5 (by decide)⟩

/-- C35: in every state of the lexer, for every text `body` without a quote: when the
unread text is a quote, `body`, a quote and any text `r`, `nextToken` returns one
STRING_LITERAL whose lexeme is `body` with both quotes and whose value is `body`, and
`r` is left unread; when the unread text is a quote and `body` only, it returns an ERROR
token with the message "Unterminated string", nothing is left unread, and the next call
returns END_OF_FILE. -/
theorem C35_string_literals (lx : Lexer) (body : List Char) (hb : '"' ∉ body) :
    (∀ r, lx.rest = '"' :: body ++ '"' :: r →
      ∃ t lx1, lx.nextToken = LexResult.token t lx1 ∧ t.type = TokenType.STRING_LITERAL ∧
        t.lexeme = String.mk ('"' :: body ++ ['"']) ∧
        t.value = LitValue.str (String.mk body) ∧ lx1.rest = r) ∧
    (lx.rest = '"' :: body →
      ∃ t lx1, lx.nextToken = LexResult.token t lx1 ∧ t.type = TokenType.ERROR ∧
        t.lexeme = "Unterminated string" ∧ lx1.rest = [] ∧
        ∃ t2 lx2, lx1.nextToken = LexResult.token t2 lx2 ∧
          t2.type = TokenType.END_OF_FILE) := by
  constructor
  · intro r h
    exact Lexer.nextToken_some lx _ _ (by rw [h]; exact scan_string_closed body r hb)
  · intro h
    obtain ⟨t, lx1, h1, h2, h3, _, h5⟩ :=
      Lexer.nextToken_some lx _ _ (by rw [h]; exact scan_string_open body hb)
    obtain ⟨t2, lx2, h6, h7, _⟩ :=
      Lexer.nextToken_some lx1 (plainContent TokenType.END_OF_FILE []) [] (by rw [h5]; rfl)
    exact ⟨t, lx1, h1, h2, h3, h5, t2, lx2, h6, h7⟩

/-- C35 witness: the string literal of lexer test 2, and a string literal without its
closing quote. -/
theorem C35_string_literals_witness :
    (∃ t lx1, (Lexer.new c35Source).nextToken = LexResult.token t lx1 ∧
      t.type = TokenType.STRING_LITERAL ∧ t.lexeme = "\"John Doe\"" ∧
      t.value = LitValue.str "John Doe" ∧ lx1.rest = [';']) ∧
    (∃ t lx1, (Lexer.new c35OpenSource).nextToken = LexResult.token t lx1 ∧
      t.type = TokenType.ERROR ∧ t.lexeme = "Unterminated string" ∧ lx1.rest = [] ∧
      ∃ t2 lx2, lx1.nextToken = LexResult.token t2 lx2 ∧ t2.type = TokenType.END_OF_FILE) :=
  ⟨(C35_string_literals (Lexer.new c35Source) "John Doe".toList (by decide)).1 [';'] rfl,
    (C35_string_literals (Lexer.new c35OpenSource) "abc def".toList (by decide)).2 rfl⟩

/-- C36: `isTruthy` is false exactly for null, the Boolean false, the Integer 0, the
Float 0 and the empty String; it is true for every Function value and for the Strings
"false" and "0"; `toBool` is `isTruthy`; and an `if` or a `while` whose condition
evaluates to `v` takes its branch, or runs its body, according to `isTruthy v`. -/
theorem C36_isTruthy (v : Value) :
    (Environment.isTruthy v = false ↔
      v = Value.null ∨ v = Value.bool false ∨ v = Value.int 0 ∨ v = Value.float 0 ∨
        v = Value.str "") ∧
    (∀ parameters returnType body closure,
      Environment.isTruthy (Value.function parameters returnType body closure) = true) ∧
    Environment.isTruthy (Value.str "false") = true ∧
    Environment.isTruthy (Value.str "0") = true ∧
    Interpreter.toBool v = Environment.isTruthy v ∧
    (∀ (n : Nat) (s s1 : Interpreter) (condition : Expr) (thenBranch elseBranch : Stmt),
      Interpreter.evaluate n s condition = Exec.done v s1 →
      Interpreter.execute (n + 1) s (Stmt.If condition thenBranch elseBranch) =
        if Environment.isTruthy v = true then Interpreter.execute n s1 thenBranch
        else if (!elseBranch.isNull) = true then Interpreter.execute n s1 elseBranch
        else Exec.done () s1) ∧
    (∀ (n : Nat) (s s1 : Interpreter) (condition : Expr) (body : Stmt),
      Interpreter.evaluate n s condition = Exec.done v s1 →
      Interpreter.execute (n + 2) s (Stmt.While condition body) =
        if Environment.isTruthy v = true then
          (Interpreter.execute n s1 body).bind fun _ s2 =>
            Interpreter.whileLoop n s2 condition body
        else Exec.done () s1) := by
  refine ⟨?_, ?_, by decide, by decide, rfl, ?_, ?_⟩
  · cases v with
    | int i => simp [Environment.isTruthy]
    | float q => simp [Environment.isTruthy]
    | bool b => simp [Environment.isTruthy]
    | str s => simp [Environment.isTruthy, String.isEmpty_iff]
    | null => simp [Environment.isTruthy]
    | function p r b c => simp [Environment.isTruthy]
  · intro p r b c
    rfl
  · intro n s s1 condition thenBranch elseBranch h
    simp only [Interpreter.execute, h, Exec.bind, Interpreter.toBool]
  · intro n s s1 condition body h
    simp only [Interpreter.execute, Interpreter.whileLoop, h, Exec.bind, Interpreter.toBool]

/-- C38 (code defect): `function add(a: int, b: int): int { }` parses into one function
declaration without a syntax error, but `analyze` records "Variable 'add' already
declared in this scope": the first pass declares the function and the second pass
declares it again. A program of two functions gets the diagnostic for each of them. -/
theorem C38_functions_declared_twice :
    (messages (syntaxErrors 200 c38Source) = [] ∧
      Stmt.beqList (parsedProgram 200 c38Source)
        [Stmt.FunctionDecl (ident "add" 10)
          [(ident "a" 14, TokenType.INT_TYPE), (ident "b" 22, TokenType.INT_TYPE)]
          TokenType.INT_TYPE (Stmt.Block [])] = true ∧
      analysis c38Source =
        some [("Variable 'add' already declared in this scope", "SemanticAnalyzer")] ∧
      (SemanticAnalyzer.new.analyze (parsedProgram 200 c38Source)).map
        SemanticAnalyzer.hasErrors = some true) ∧
    (messages (syntaxErrors 200 c38TwoSource) = [] ∧
      (parsedProgram 200 c38TwoSource).length = 2 ∧
      analysis c38TwoSource =
        some [("Variable 'f' already declared in this scope", "SemanticAnalyzer"),
          ("Variable 'g' already declared in this scope", "SemanticAnalyzer")]) := by
  decide!

/-- C39: an evaluation or execution that ends leaves `currentEnv` as it was, and
removes no environment. A `let` changes the map of the current environment only. In a
state whose current environment exists, a `let` in a block, and a `let` in the body of
a called function, leave the map of the environment that was current outside as the
evaluation of the initializer left it. -/
theorem C39_current_environment (n : Nat) (s : Interpreter) :
    (∀ e v s1, Interpreter.evaluate n s e = Exec.done v s1 →
      s1.currentEnv = s.currentEnv ∧ s.heap.length ≤ s1.heap.length) ∧
    (∀ st s1, Interpreter.execute n s st = Exec.done () s1 →
      s1.currentEnv = s.currentEnv ∧ s.heap.length ≤ s1.heap.length) ∧
    (∀ name init s1,
      Interpreter.execute (n + 1) s (Stmt.VariableDecl name init) = Exec.done () s1 →
      ∃ v s0, (if init.isNull = true then Exec.done Value.null s
          else Interpreter.evaluate n s init) = Exec.done v s0 ∧
        s1 = { s0 with heap := Environment.define s0.heap s0.currentEnv name.lexeme v } ∧
        s1.currentEnv = s.currentEnv ∧
        ∀ outer, outer ≠ s.currentEnv → s1.heap.get? outer = s0.heap.get? outer) ∧
    (s.currentEnv < s.heap.length → ∀ name init v s0, init.isNull = false →
      Interpreter.evaluate n (s.enter [] s.currentEnv) init = Exec.done v s0 →
      ∃ s1, Interpreter.execute (n + 4) s (Stmt.Block [Stmt.VariableDecl name init]) =
          Exec.done () s1 ∧
        s1.currentEnv = s.currentEnv ∧
        s1.heap.get? s.currentEnv = s0.heap.get? s.currentEnv) ∧
    (s.currentEnv < s.heap.length → ∀ callee name init v s0 returnType closure,
      init.isNull = false →
      Environment.get s.heap s.currentEnv callee.lexeme =
        Except.ok (Value.function [] returnType (Stmt.Block [Stmt.VariableDecl name init])
          closure) →
      Interpreter.evaluate n { s.enter [] closure with hasReturn := false } init =
        Exec.done v s0 →
      ∃ r s1, Interpreter.evaluate (n + 4) s (Expr.Call callee []) = Exec.done r s1 ∧
        s1.currentEnv = s.currentEnv ∧
        s1.heap.get? s.currentEnv = s0.heap.get? s.currentEnv) := by
  refine ⟨?_, ?_, ?_, ?_, ?_⟩
  · intro e v s1 h
    have := (Interpreter.keepsEnv n).1 s e s.currentEnv s.heap.length rfl (Nat.le_refl _)
    rw [h] at this
    exact this
  · intro st s1 h
    have := (Interpreter.keepsEnv n).2.2.1 s st s.currentEnv s.heap.length rfl (Nat.le_refl _)
    rw [h] at this
    exact this
  · intro name init s1 h
    exact let_changes_current n s s1 name init h
  · intro hs name init v s0 hn h
    exact block_let n s s0 name init v hs hn h
  · intro hs callee name init v s0 returnType closure hn hf h
    exact call_let n s s0 callee name init v returnType closure hs hn hf h

/-- C39 witness: the block with `let x = 1;` run in the initial state leaves the global
environment current and its map unchanged. -/
theorem C39_current_environment_witness :
    ∃ s1, Interpreter.execute 5 Interpreter.new (Stmt.Block [c39Let]) = Exec.done () s1 ∧
      s1.currentEnv = Interpreter.new.currentEnv ∧
      s1.heap.get? Interpreter.new.currentEnv =
        (Interpreter.new.enter [] Interpreter.new.currentEnv).heap.get?
          Interpreter.new.currentEnv :=
  (C39_current_environment 1 Interpreter.new).2.2.2.1 (by decide) (ident "x" 5) (intLit 1)
    (Value.int 1) (Interpreter.new.enter [] Interpreter.new.currentEnv) rfl
    (evaluate_literal 0 _ _)

/-- C40 (code defect): a newline that `skipWhitespace` skips adds 2 to the line counter.
In the source of a newline and `x`, the token `x` begins after one newline and has line
3; in `a`, newline, `b` the token `b` has line 3, while `a` has line 1. In every state
of the lexer whose unread text begins with a newline, one turn of the loop of
`skipWhitespace` reads the newline and adds 2 to `line`. -/
theorem C40_newlines_counted_twice :
    (tokenAt c40Source 0 = some c40Token ∧ tokenStart c40Source 0 = some 1 ∧
      newlinesBefore c40Source 1 = 1 ∧ c40Token.line = 3) ∧
    (tokenAt c40TwoSource 1 = some c40Second ∧ tokenStart c40TwoSource 1 = some 2 ∧
      newlinesBefore c40TwoSource 2 = 1 ∧ c40Second.line = 3) ∧
    ((tokenAt c40TwoSource 0).map Token.line = some 1 ∧ newlinesBefore c40TwoSource 0 = 0) ∧
    (∀ (n : Nat) (lx : Lexer) (r : List Char), lx.rest = '\n' :: r →
      Lexer.skipWhitespaceLoop (n + 1) lx =
        Lexer.skipWhitespaceLoop n
          { lx with current := lx.current + 1, line := lx.line + 1 + 1, column := 1 }) := by
  refine ⟨by decide!, by decide!, by decide!, ?_⟩
  intro n lx r h
  have he := Lexer.isAtEnd_cons lx _ r h
  have hp : lx.peek = '\n' := by rw [Lexer.peek_eq, h]; rfl
  have hg : lx.source.getD lx.current (Char.ofNat 0) = '\n' := by
    rw [Lexer.getD_eq_headD_drop]
    show lx.rest.headD _ = _
    rw [h]
    rfl
  have he2 : ({ lx with line := lx.line + 1, column := 1 } : Lexer).isAtEnd = false := he
  simp only [Lexer.skipWhitespaceLoop, he, Bool.false_eq_true, if_false, hp,
    show (decide ('\n' = ' ') || decide ('\n' = '\t') || decide ('\n' = '\r')) = false
      from by decide, if_true, Lexer.advance, he2, hg]

end SimpleLang
